import Mathlib

/-!
# Pound: request routing and session affinity (svc.c, config.c)

A shallow embedding of the routing core of the Pound reverse proxy.

Conventions of the embedding.

* A C string is the list of its `char` values before the terminating NUL
  (`CString`); a `char` is embedded with the value it has as an `int`.
* C `int` is embedded as `Int`; the quantities involved (flags, priorities,
  their sums, counters) are taken to stay in range, signed overflow being
  undefined in C.  `unsigned long` arithmetic is carried out modulo `2 ^ w`,
  where `w` is the width of `unsigned long` on the platform.
* The intrusive singly linked lists (matchers, back-ends, services) are
  lists; a pointer into such a list is the position of the element, a null
  pointer is `none`.
* A compiled POSIX regular expression is its matching function; `regexec`
  and `random` belong to the C library and are inputs of the model.
* Constants declared in pound.h (`MAXHEADERS`, `KEY_SIZE`, the sizes of the
  text fields of a session, the thresholds of the rescaling) are parameters.
* The session table is the list of its nodes, each with the session that its
  content points to; a pointer to a session of the table is the key of its
  node.
* `time(NULL)` and the outcome of the health probe (`connect_nb`) are inputs
  of the model.
* A field of type `double` holds a rational number, the value of the binary64
  number in it.  `do_rescale`, whose comparisons decide, computes in binary64:
  every operation is rounded to the nearest binary64 number, ties to the even
  significand, with the subnormal numbers, the infinities and NaN (`round64`,
  `double`); each operation is rounded on its own, as with SSE2 arithmetic,
  without excess precision and without fused multiply-add.  In `upd_be` and in
  the halving of `t_requests` the sums and quotients are written as exact
  rational numbers.
* The pending-free list is also embedded at the level of addresses: a
  memory of sessions with their `next` member, and the outcome of
  `pthread_mutex_trylock` as a flag of each session.
* A socket address is its family, the bytes of the address and the 16-bit
  port.  The pattern `LOCATION`, the resolver `getaddrinfo` and the global list
  `listeners` are inputs of `need_rewrite`; the text it cuts out of the
  Location value is read from the buffer after the NUL writes.
* Memory allocation is taken to succeed.
-/

namespace Pound

/-! ## Data model -/

/-- The characters of a C string before its terminating NUL. -/
abbrev CString := List Int

/-- One entry of the match array filled in by `regexec`. -/
structure regmatch_t where
  rm_so : Int
  rm_eo : Int
deriving DecidableEq, Repr

/-- A compiled regular expression: applied to a subject string it yields the
match array when the subject matches and nothing when it does not. -/
abbrev regex_t := CString → Option (List regmatch_t)

/-- The call `regexec(preg, s, ...)` returns 0; entry `k` of the result is
`matches[k]`. -/
def regexec (preg : regex_t) (s : CString) : Bool :=
  (preg s).isSome

/-- The entry `matches[k]` after a successful `regexec`. -/
def rm (ms : List regmatch_t) (k : Nat) : regmatch_t :=
  ms.getD k { rm_so := -1, rm_eo := -1 }

/-- Modelled from the spec: `MATCHER` is declared in pound.h, which is not
among the sources at hand.  A matcher of a matcher list, without its `next`
link: the compiled pattern that svc.c passes to `regexec`. -/
structure MATCHER where
  pat : regex_t

/-- Modelled from the spec: the address families that svc.c tells apart, the
constants `AF_INET` and `AF_INET6` of the socket interface, and any other
family (such as `AF_UNIX`). -/
inductive AF where
  | AF_INET
  | AF_INET6
  | other
deriving DecidableEq, Repr

/-- Modelled from the spec: what svc.c reads of a `struct addrinfo` and of the
`sockaddr_in` or `sockaddr_in6` it points to: the family `ai_family`, the
bytes of `sin_addr` (4) or `sin6_addr` (16), and the port, the 16-bit value
that `sin_port` holds in network byte order. -/
structure SOCKADDR where
  family : AF := AF.AF_INET
  addr : List Nat := []
  port : Nat := 0
deriving DecidableEq, Repr

/-- Modelled from the spec: `BACKEND` is declared in pound.h, which is not
among the sources at hand.  A back-end, without its `next` link: the fields
that the routing code of svc.c reads or writes, with the initial values that
`parse_be` of config.c gives them. -/
structure BACKEND where
  be_type : Int := 0
  priority : Int := 5
  alive : Int := 1
  resurrect : Int := 0
  disabled : Int := 0
  bekey : Option CString := none
  n_requests : Int := 0
  t_requests : ℚ := 0
  t_average : ℚ := 0
  http1xx : Int := 0
  http2xx : Int := 0
  http3xx : Int := 0
  http4xx : Int := 0
  http5xx : Int := 0
  addr : SOCKADDR := {}
deriving DecidableEq, Repr

/-- A pointer to a back-end of a service: an element of the back-end list, by
position, or the emergency back-end. -/
inductive BE_PTR where
  | list (i : Nat)
  | emergency
deriving DecidableEq, Repr

/-- Modelled from the spec: the session policies, the values of `sess_type`
that svc.c and config.c name (their numbers are in pound.h). -/
inductive SESS_TYPE where
  | SESS_NONE
  | SESS_IP
  | SESS_COOKIE
  | SESS_URL
  | SESS_PARM
  | SESS_BASIC
  | SESS_HEADER
deriving DecidableEq, Repr

/-- Modelled from the spec: the declaration of `SESSION` is in pound.h, which
is not part of the sources at hand; the fields are those the spec lists and
svc.c uses.  `be` is the bound back-end (a null pointer is `none`), `mut_busy`
says that another thread holds the session mutex.  svc.c addresses the bound
back-end of a table node both as `(*(SESSION **)content)->be` and, in
`t_cont_be_doall_arg`, through `(SESSION *)content`; the member `be` is taken
to lead the structure, the layout under which the latter reads inside the
content buffer. -/
structure SESSION where
  be : Option BE_PTR := none
  key : Option CString := none
  first_acc : Int := 0
  n_requests : Int := 0
  last_ip : Option CString := none
  last_url : CString := []
  last_user : CString := []
  lb_info : CString := []
  delete_pending : Int := 0
  mut_busy : Bool := false
deriving DecidableEq, Repr

/-- Modelled from the spec: `TABNODE` is declared in pound.h.  A node of the
session table: its key, its time of last access, and as `content` the session
that the pointer stored in the node's content buffer points to; every node
holds a pointer to a session of its own, created by `new_session` just before
`t_add`. -/
structure TABNODE where
  key : CString
  content : SESSION
  last_acc : Int
deriving DecidableEq, Repr

/-- Modelled from the spec: `SERVICE` is declared in pound.h.  A service,
without its `next` link: the matcher lists, session policy, back-ends, session
table and counters that the routing code of svc.c reads or writes.  The
session table, an OpenSSL hash table keyed by `t_cmp` (string equality), is
the list of its nodes, which have distinct keys. -/
structure SERVICE where
  url : List MATCHER := []
  req_head : List MATCHER := []
  deny_head : List MATCHER := []
  backends : List BACKEND := []
  emergency : Option BACKEND := none
  abs_pri : Int := 0
  tot_pri : Int := 0
  sess_type : SESS_TYPE := SESS_TYPE.SESS_NONE
  sess_ttl : Int := 0
  death_ttl : Int := 0
  sess_start : regex_t := fun _ => none
  sess_pat : regex_t := fun _ => none
  becookie : Option CString := none
  becookie_match : regex_t := fun _ => none
  sess_end_hdr : Int := 0
  sess_end : regex_t := fun _ => none
  lbinfo : List MATCHER := []
  dynscale : Int := 0
  sessions : List TABNODE := []
  del_sessions : List SESSION := []
  requests : Int := 0
  hits : Int := 0
  misses : Int := 0
  disabled : Int := 0
  global : Int := 0
  http1xx : Int := 0
  http2xx : Int := 0
  http3xx : Int := 0
  http4xx : Int := 0
  http5xx : Int := 0

/-- Modelled from the spec: `LISTENER` is declared in pound.h.  A listener:
the services declared inside it, the address it listens on, and whether it
has a TLS context (`ctx != NULL`). -/
structure LISTENER where
  services : List SERVICE := []
  addr : SOCKADDR := {}
  ctx : Bool := false

/-- A pointer to a service: an element of a listener's list or of the global
list, by position. -/
inductive SVC_PTR where
  | lstn (i : Nat)
  | glob (i : Nat)
deriving DecidableEq, Repr

/-! ## Service selection (svc.c, `match_service`, `get_service`) -/

/-- The header slots visited by `for(i = 1; i < MAXHEADERS && ...; i++)`. -/
def header_slots (MAXHEADERS : Nat) (headers : List (Option CString)) :
    List (Option CString) :=
  (headers.take MAXHEADERS).drop 1

/-- The inner loop of `match_service`: `found` after
`for(found = 0, i = 1; i < MAXHEADERS && headers[i] && !found; i++)
   if(!regexec(&m->pat, headers[i], 0, NULL, 0)) found = 1;`,
run over the slots still to visit. -/
def header_found (pat : regex_t) : List (Option CString) → Bool
  | [] => false
  | none :: _ => false
  | some h :: rest => if regexec pat h then true else header_found pat rest

/-- First loop of `match_service`: false as soon as a URL matcher fails. -/
def check_url (request : CString) : List MATCHER → Bool
  | [] => true
  | m :: rest => if !regexec m.pat request then false else check_url request rest

/-- Second loop of `match_service`: false as soon as a required header is not
found. -/
def check_req_head (slots : List (Option CString)) : List MATCHER → Bool
  | [] => true
  | m :: rest =>
    if !header_found m.pat slots then false else check_req_head slots rest

/-- Third loop of `match_service`: false as soon as a forbidden header is
found. -/
def check_deny_head (slots : List (Option CString)) : List MATCHER → Bool
  | [] => true
  | m :: rest =>
    if header_found m.pat slots then false else check_deny_head slots rest

/-- The function `match_service`: true for the C result 1. -/
def match_service (MAXHEADERS : Nat) (svc : SERVICE) (request : CString)
    (headers : List (Option CString)) : Bool :=
  if !check_url request svc.url then false
  else if !check_req_head (header_slots MAXHEADERS headers) svc.req_head then false
  else if !check_deny_head (header_slots MAXHEADERS headers) svc.deny_head then false
  else true

/-- One of the two loops of `get_service` over a service list: the position
of the service returned, if the loop returns one. -/
def scan_services (MAXHEADERS : Nat) (request : CString)
    (headers : List (Option CString)) : List SERVICE → Option Nat
  | [] => none
  | svc :: rest =>
    if svc.disabled ≠ 0 then
      (scan_services MAXHEADERS request headers rest).map (· + 1)
    else if match_service MAXHEADERS svc request headers then some 0
    else (scan_services MAXHEADERS request headers rest).map (· + 1)

/-- The function `get_service`; `services` is the global service list. -/
def get_service (MAXHEADERS : Nat) (services : List SERVICE) (lstn : LISTENER)
    (request : CString) (headers : List (Option CString)) : Option SVC_PTR :=
  match scan_services MAXHEADERS request headers lstn.services with
  | some i => some (SVC_PTR.lstn i)
  | none =>
    match scan_services MAXHEADERS request headers services with
    | some j => some (SVC_PTR.glob j)
    | none => none

/-! ## Session keys (svc.c, `get_REQUEST`, `get_HEADERS`, `get_bekey_from_HEADERS`) -/

/-- Parameters of the model, the constants of pound.h and of the platform that
the code depends on:
`MAXHEADERS` and `KEY_SIZE`, the sizes of the `last_url`, `last_user` and
`lb_info` arrays of a session, the width in bits of `unsigned long`, and the
thresholds `RESCALE_MAX`, `RESCALE_MIN` and `RESCALE_BOT` of the rescaling. -/
structure CONSTS where
  MAXHEADERS : Nat
  KEY_SIZE : Nat
  LAST_URL_SIZE : Nat
  LAST_USER_SIZE : Nat
  ULONG_BITS : Nat
  LB_INFO_SIZE : Nat
  RESCALE_MAX : Int
  RESCALE_MIN : Int
  RESCALE_BOT : Int

/-- The text copied by `strncpy(res, src + so, n); res[n] = 0` with
`n = min(eo - so, KEY_SIZE)`. -/
def capture (KEY_SIZE : Nat) (src : CString) (m : regmatch_t) : CString :=
  (src.drop m.rm_so.toNat).take (min (m.rm_eo - m.rm_so) KEY_SIZE).toNat

/-- The function `get_REQUEST`: the value returned and the key left in `res`. -/
def get_REQUEST (KEY_SIZE : Nat) (svc : SERVICE) (request : CString) :
    Bool × CString :=
  match svc.sess_start request with
  | none => (false, [])
  | some m0 =>
    match svc.sess_pat (request.drop (rm m0 0).rm_eo.toNat) with
    | none => (false, [])
    | some m1 =>
      (true, capture KEY_SIZE (request.drop (rm m0 0).rm_eo.toNat) (rm m1 1))

/-- The loop of `get_HEADERS` over the slots still to visit, with the
patterns `svc->sess_start` and `svc->sess_pat`; `res` is the key buffer. -/
def get_HEADERS_loop (KEY_SIZE : Nat) (sess_start sess_pat : regex_t) :
    List (Option CString) → CString → CString
  | [], res => res
  | none :: _, res => res
  | some h :: rest, res =>
    match sess_start h with
    | none => get_HEADERS_loop KEY_SIZE sess_start sess_pat rest res
    | some m0 =>
      match sess_pat (h.drop (rm m0 0).rm_eo.toNat) with
      | none => get_HEADERS_loop KEY_SIZE sess_start sess_pat rest res
      | some m1 =>
        get_HEADERS_loop KEY_SIZE sess_start sess_pat rest
          (capture KEY_SIZE (h.drop (rm m0 0).rm_eo.toNat) (rm m1 1))

/-- The function `get_HEADERS`: the value returned (`res[0] != 0`) and the
key left in `res`. -/
def get_HEADERS (c : CONSTS) (svc : SERVICE) (headers : List (Option CString)) :
    Bool × CString :=
  let res := get_HEADERS_loop c.KEY_SIZE svc.sess_start svc.sess_pat
    (header_slots c.MAXHEADERS headers) []
  (res ≠ [], res)

/-- The loop of `get_bekey_from_HEADERS` over the slots still to visit, with
the pattern `svc->becookie_match`. -/
def get_bekey_loop (KEY_SIZE : Nat) (becookie_match : regex_t) :
    List (Option CString) → CString → CString
  | [], res => res
  | none :: _, res => res
  | some h :: rest, res =>
    match becookie_match h with
    | none => get_bekey_loop KEY_SIZE becookie_match rest res
    | some m => get_bekey_loop KEY_SIZE becookie_match rest (capture KEY_SIZE h (rm m 1))

/-- The function `get_bekey_from_HEADERS`. -/
def get_bekey_from_HEADERS (c : CONSTS) (svc : SERVICE)
    (headers : List (Option CString)) : Bool × CString :=
  match svc.becookie with
  | none => (false, [])
  | some _ =>
    let res := get_bekey_loop c.KEY_SIZE svc.becookie_match
      (header_slots c.MAXHEADERS headers) []
    (res ≠ [], res)

/-! ## Back-end selection (svc.c, `rand_backend`, `get_backend_by_key`,
`hash_backend`) -/

/-- The function `rand_backend`: the position of the back-end returned in the
list starting at `be`, `none` for a null result. -/
def rand_backend : List BACKEND → Int → Option Nat
  | [], _ => none
  | be :: rest, pri =>
    if be.alive = 0 ∨ be.disabled ≠ 0 then
      (rand_backend rest pri).map (· + 1)
    else if pri - be.priority < 0 then some 0
    else (rand_backend rest (pri - be.priority)).map (· + 1)

/-- The loop of `get_backend_by_key`. -/
def find_bekey (bekey : CString) : List BACKEND → Option Nat
  | [] => none
  | be :: rest =>
    if be.bekey = some bekey then some 0
    else (find_bekey bekey rest).map (· + 1)

/-- The function `get_backend_by_key`; `bekey` is never a null pointer at its
call sites. -/
def get_backend_by_key (be : List BACKEND) (bekey : CString) : Option Nat :=
  if bekey = [] then none else find_bekey bekey be

/-- The loop `while(*key) hv = (hv ^ *key++) * 16777619;` of `hash_backend`
and of `t_hash`, in `unsigned long` arithmetic of width `w`. -/
def hash_loop (w : Nat) : Nat → CString → Nat
  | hv, [] => hv
  | hv, c :: key =>
    hash_loop w (((hv ^^^ (c % (2 : Int) ^ w).toNat) * 16777619) % 2 ^ w) key

/-- The function `t_hash` of config.c, applied to the key of a table node. -/
def t_hash (w : Nat) (e : TABNODE) : Nat :=
  hash_loop w (2166136261 % 2 ^ w) e.key

/-- The value of `pri` after `pri = hv % abs_pri;` in `hash_backend`.  The
operand `abs_pri` is converted to `unsigned long`; a zero `abs_pri` is a
division by zero in C, reached by no caller since `get_backend` asks for
`tot_pri > 0` first. -/
def hash_pri (w : Nat) (abs_pri : Int) (key : CString) : Int :=
  ((hash_loop w (2166136261 % 2 ^ w) key % (abs_pri % (2 : Int) ^ w).toNat : Nat) : Int)

/-- First loop of `hash_backend`:
`for(tb = be; tb; tb = tb->next) if((pri -= tb->priority) < 0) break;`. -/
def hash_walk : List BACKEND → Int → Option Nat
  | [], _ => none
  | tb :: rest, pri =>
    if pri - tb.priority < 0 then some 0
    else (hash_walk rest (pri - tb.priority)).map (· + 1)

/-- Second loop of `hash_backend`, from the current `res`:
`for(res = tb; !res->alive || res->disabled; ) { res = res->next;
 if(res == NULL) res = be; if(res == tb) return NULL; } return res;`.
The first argument bounds the number of iterations. -/
def hash_scan (be : List BACKEND) (tb : Nat) : Nat → Nat → Option Nat
  | 0, _ => none
  | fuel + 1, res =>
    match be[res]? with
    | none => none
    | some b =>
      if b.alive = 0 ∨ b.disabled ≠ 0 then
        if (if res + 1 < be.length then res + 1 else 0) = tb then none
        else hash_scan be tb fuel (if res + 1 < be.length then res + 1 else 0)
      else some res

/-- The function `hash_backend`. -/
def hash_backend (w : Nat) (be : List BACKEND) (abs_pri : Int) (key : CString) :
    Option Nat :=
  match hash_walk be (hash_pri w abs_pri key) with
  | none => none
  | some tb => hash_scan be tb be.length tb

/-! ## Session table (svc.c, `t_add`, `t_find`, `delete_session`,
`t_clean_be`) -/

/-- The function `new_session`, at time `now`. -/
def new_session (key : CString) (now : Int) : SESSION :=
  { be := none, key := some key, first_acc := now, n_requests := 0,
    last_ip := none }

/-- The function `t_add`, at time `now`: the node replaces the one with the
same key, if any. -/
def t_add (tab : List TABNODE) (key : CString) (content : SESSION) (now : Int) :
    List TABNODE :=
  { key := key, content := content, last_acc := now } ::
    tab.filter (fun t => decide (t.key ≠ key))

/-- The node that `lh_retrieve` finds for a key. -/
def t_lookup (tab : List TABNODE) (key : CString) : Option TABNODE :=
  tab.find? (fun t => decide (t.key = key))

/-- The side effect of `t_find` on the table: the last access time of the
node found becomes `now`. -/
def t_touch (tab : List TABNODE) (key : CString) (now : Int) : List TABNODE :=
  tab.map (fun t => if t.key = key then { t with last_acc := now } else t)

/-- The function `t_find`, at time `now`: the content found and the table
afterwards. -/
def t_find (tab : List TABNODE) (key : CString) (now : Int) :
    Option SESSION × List TABNODE :=
  match t_lookup tab key with
  | none => (none, tab)
  | some res => (some res.content, t_touch tab key now)

/-- The function `delete_session` on the session table of `svc`: the node
with the key of `t` leaves the table; its session is freed, or is queued on
`del_sessions` when its mutex is held. -/
def delete_session (svc : SERVICE) (t : TABNODE) : SERVICE :=
  match t_lookup svc.sessions t.key with
  | none => svc
  | some res =>
    { svc with
      sessions := svc.sessions.filter (fun u => decide (u.key ≠ t.key)),
      del_sessions :=
        if res.content.mut_busy then res.content :: svc.del_sessions
        else svc.del_sessions }

/-- The function `t_cont_be_doall_arg`, called on node `t` with
`a->content` pointing to the back-end pointer `content`: under the layout of
`SESSION` stated there, `((SESSION *)t->content)->be` is the address of the
node's session and `memcmp` compares the leading member of that session, its
`be`, with the back-end pointer. -/
def t_cont_be_doall_arg (t : TABNODE) (content : Option BE_PTR) (svc : SERVICE) :
    SERVICE :=
  if t.content.be = content then delete_session svc t else svc

/-- The function `t_clean_be`: `lh_doall_arg` calls `t_cont_be_doall_arg` on
every node of the table. -/
def t_clean_be (svc : SERVICE) (content : Option BE_PTR) : SERVICE :=
  svc.sessions.foldl (fun s t => t_cont_be_doall_arg t content s) svc

/-! ## Back-end state (svc.c, `kill_be`) -/

/-- Modelled from the spec: the modes of `kill_be`, the three constants of
pound.h that its `switch` names, and any other value. -/
inductive BE_MODE where
  | BE_DISABLE
  | BE_KILL
  | BE_ENABLE
  | other
deriving DecidableEq, Repr

/-- The `switch` of `kill_be` on the back-end `b` that `be` points to. -/
def kill_be_switch (be : Option BE_PTR) (disable_mode : BE_MODE) (b : BACKEND)
    (svc : SERVICE) : BACKEND × SERVICE :=
  match disable_mode with
  | BE_MODE.BE_DISABLE => ({ b with disabled := 1 }, svc)
  | BE_MODE.BE_KILL => ({ b with alive := 0 }, t_clean_be svc be)
  | BE_MODE.BE_ENABLE => ({ b with disabled := 0 }, svc)
  | BE_MODE.other => (b, svc)

/-- The loop of `kill_be` from back-end number `i` on: the back-ends visited,
as the loop leaves them, and the service state at the end. -/
def kill_be_loop (be : Option BE_PTR) (disable_mode : BE_MODE) :
    Nat → List BACKEND → SERVICE → List BACKEND × SERVICE
  | _, [], svc => ([], svc)
  | i, b :: rest, svc =>
    let r1 := if be = some (BE_PTR.list i) then kill_be_switch be disable_mode b svc
      else (b, svc)
    let svc2 := if r1.1.alive ≠ 0 ∧ r1.1.disabled = 0
      then { r1.2 with tot_pri := r1.2.tot_pri + r1.1.priority } else r1.2
    let r3 := kill_be_loop be disable_mode (i + 1) rest svc2
    (r1.1 :: r3.1, r3.2)

/-- The function `kill_be`. -/
def kill_be (svc : SERVICE) (be : Option BE_PTR) (disable_mode : BE_MODE) :
    SERVICE :=
  let r := kill_be_loop be disable_mode 0 svc.backends { svc with tot_pri := 0 }
  { r.2 with backends := r.1 }

/-! ## Back-end for a request (svc.c, `get_backend`) -/

/-- What `get_backend` hands back: the back-end returned, the key saved
through `save_sess_key`, whether a session was found or created (`sess`
non-null), and the service afterwards. -/
structure GB_RESULT where
  res : Option BE_PTR
  key : CString
  sess : Bool
  svc : SERVICE

/-- The pointer `svc->emergency`. -/
def emergency_ptr (svc : SERVICE) : Option BE_PTR :=
  match svc.emergency with
  | none => none
  | some _ => some BE_PTR.emergency

/-- The statement `res = rand_backend(svc->backends, random() % svc->tot_pri)`,
`rnd` being the value of `random()`. -/
def rand_pick (svc : SERVICE) (rnd : Nat) : Option BE_PTR :=
  (rand_backend svc.backends ((rnd : Int) % svc.tot_pri)).map BE_PTR.list

/-- The selection that `get_backend` repeats in each of its branches: the
back-end named by the back-end cookie when there is one and it is alive, a
weighted random one otherwise. -/
def bekey_pick (c : CONSTS) (svc : SERVICE) (headers : List (Option CString))
    (rnd : Nat) : Option BE_PTR :=
  if (get_bekey_from_HEADERS c svc headers).1 then
    match get_backend_by_key svc.backends (get_bekey_from_HEADERS c svc headers).2 with
    | none => rand_pick svc rnd
    | some i =>
      match svc.backends[i]? with
      | none => rand_pick svc rnd
      | some b => if b.alive = 0 then rand_pick svc rnd else some (BE_PTR.list i)
  else rand_pick svc rnd

/-- The branch of `get_backend` taken once a key is at hand (policies other
than none): consistent hash, table miss or table hit.  `ip` tells the
`SESS_IP` case, whose hit branch counts the request once more. -/
def keyed_backend (c : CONSTS) (svc : SERVICE) (headers : List (Option CString))
    (key : CString) (rnd : Nat) (now : Int) (ip : Bool) : GB_RESULT :=
  if svc.sess_ttl < 0 then
    { res := if svc.tot_pri ≤ 0 then emergency_ptr svc
        else (hash_backend c.ULONG_BITS svc.backends svc.abs_pri key).map BE_PTR.list,
      key := key, sess := false, svc := svc }
  else
    match t_find svc.sessions key now with
    | (none, _) =>
      if svc.tot_pri ≤ 0 then
        { res := emergency_ptr svc, key := key, sess := false, svc := svc }
      else
        { res := bekey_pick c svc headers rnd, key := key, sess := true,
          svc := { svc with
            sessions := t_add svc.sessions key
              { new_session key now with be := bekey_pick c svc headers rnd } now,
            misses := svc.misses + 1 } }
    | (some sess, tab) =>
      { res := sess.be, key := key, sess := true,
        svc := { svc with
          sessions := if ip then
              tab.map (fun t => if t.key = key then
                { t with content := { t.content with n_requests := t.content.n_requests + 1 } }
                else t)
            else tab,
          hits := svc.hits + 1 } }

/-- The `switch(svc->sess_type)` of `get_backend`, after `svc->requests++`. -/
def get_backend_switch (c : CONSTS) (svc : SERVICE) (from_host : CString)
    (request : CString) (headers : List (Option CString)) (rnd : Nat) (now : Int) :
    GB_RESULT :=
  match svc.sess_type with
  | SESS_TYPE.SESS_NONE =>
    { res := if svc.tot_pri ≤ 0 then emergency_ptr svc else bekey_pick c svc headers rnd,
      key := [], sess := false, svc := svc }
  | SESS_TYPE.SESS_IP =>
    keyed_backend c svc headers (from_host.take (c.KEY_SIZE - 1)) rnd now true
  | SESS_TYPE.SESS_URL | SESS_TYPE.SESS_PARM =>
    if (get_REQUEST c.KEY_SIZE svc request).1 then
      keyed_backend c svc headers (get_REQUEST c.KEY_SIZE svc request).2 rnd now false
    else
      { res := if svc.tot_pri ≤ 0 then emergency_ptr svc else rand_pick svc rnd,
        key := [], sess := false, svc := svc }
  | _ =>
    if (get_HEADERS c svc headers).1 then
      keyed_backend c svc headers (get_HEADERS c svc headers).2 rnd now false
    else
      { res := if svc.tot_pri ≤ 0 then emergency_ptr svc else bekey_pick c svc headers rnd,
        key := [], sess := false, svc := svc }

/-- The update of the session found or created, at the end of `get_backend`. -/
def touch_session (c : CONSTS) (from_host request u_name : CString) (sess : SESSION) :
    SESSION :=
  { sess with
    n_requests := sess.n_requests + 1,
    last_ip := some from_host,
    last_url := request.take (c.LAST_URL_SIZE - 1),
    last_user := u_name.take (c.LAST_USER_SIZE - 1) }

/-- The function `get_backend`: `from_host` is the text of the client address
as `addr2str` prints it, `rnd` the value that `random()` returns if called and
`now` the value of `time(NULL)`. -/
def get_backend (c : CONSTS) (svc : SERVICE) (from_host : CString)
    (request : CString) (headers : List (Option CString)) (u_name : CString)
    (rnd : Nat) (now : Int) : GB_RESULT :=
  let r := get_backend_switch c { svc with requests := svc.requests + 1 }
    from_host request headers rnd now
  if r.sess then
    { r with svc := { r.svc with
        sessions := r.svc.sessions.map (fun t =>
          if t.key = r.key then
            { t with content := touch_session c from_host request u_name t.content }
          else t) } }
  else r

/-! ## Service construction (config.c, `parse_service`) -/

/-- The loop that `parse_service` runs when it reads `End`:
`for(be = res->backends; be; be = be->next) { res->abs_pri += be->priority;
 if (be->alive && !be->disabled) res->tot_pri += be->priority; }`. -/
def parse_service_end_loop : List BACKEND → SERVICE → SERVICE
  | [], res => res
  | be :: rest, res =>
    parse_service_end_loop rest
      (if be.alive ≠ 0 ∧ be.disabled = 0 then
        { res with abs_pri := res.abs_pri + be.priority,
                   tot_pri := res.tot_pri + be.priority }
      else { res with abs_pri := res.abs_pri + be.priority })

/-- The `End` case of `parse_service`, on the service built so far. -/
def parse_service_end (res : SERVICE) : SERVICE :=
  parse_service_end_loop res.backends res

/-! ## Session table sweeps (svc.c, `t_remove`, `t_clean`, `t_expire`,
`del_pending`, `do_expire`) -/

/-- The function `t_remove`: `delete_session` on a node that carries the key. -/
def t_remove (svc : SERVICE) (key : CString) : SERVICE :=
  delete_session svc { key := key, content := {}, last_acc := 0 }

/-- The function `t_cont_doall_arg`, called on node `t`; `same` is the outcome
of its `memcmp(t->content, a->content, a->cont_len) == 0`. -/
def t_cont_doall_arg (t : TABNODE) (same : Bool) (svc : SERVICE) : SERVICE :=
  if same then delete_session svc t else svc

/-- The call `t_clean(svc, svc->sessions, sess, sizeof(sess))` of
`upd_session`: `lh_doall_arg` calls `t_cont_doall_arg` on every node.  Its
`memcmp` compares the content buffer of the node, which holds the address of
the node's session, with the leading bytes of the session `sess` itself, its
member `be`; the address of a session is not that of a back-end, nor null, so
the comparison fails on every node. -/
def t_clean (svc : SERVICE) : SERVICE :=
  svc.sessions.foldl (fun s t => t_cont_doall_arg t false s) svc

/-- The function `t_old_doall_arg`, called on node `t` with the limits
`a->lim` and `a->lim2`. -/
def t_old_doall_arg (t : TABNODE) (lim lim2 : Int) (svc : SERVICE) : SERVICE :=
  if t.last_acc < (if t.content.delete_pending ≠ 0 then lim2 else lim) then
    delete_session svc t
  else svc

/-- The function `t_expire`: `lh_doall_arg` calls `t_old_doall_arg` on every
node of the table. -/
def t_expire (svc : SERVICE) (lim del_lim : Int) : SERVICE :=
  svc.sessions.foldl (fun s t => t_old_doall_arg t lim del_lim s) svc

/-- The function `del_pending` on the pending-free list: a session whose
mutex can be taken is freed and unlinked, the others stay in order. -/
def del_pending : List SESSION → List SESSION
  | [] => []
  | sess :: next => if sess.mut_busy then sess :: del_pending next else del_pending next

/-- The body of the loops of `do_expire` for one service, at time `cur_time`. -/
def do_expire_svc (cur_time : Int) (svc : SERVICE) : SERVICE :=
  if svc.sess_type ≠ SESS_TYPE.SESS_NONE then
    { (t_expire svc (cur_time - svc.sess_ttl) (cur_time - svc.death_ttl)) with
      del_sessions :=
        del_pending
          (t_expire svc (cur_time - svc.sess_ttl) (cur_time - svc.death_ttl)).del_sessions }
  else svc

/-- The function `do_expire`, at time `cur_time`, on the listeners and the
global services. -/
def do_expire (cur_time : Int) (listeners : List LISTENER) (services : List SERVICE) :
    List LISTENER × List SERVICE :=
  (listeners.map (fun lstn => { lstn with services := lstn.services.map (do_expire_svc cur_time) }),
   services.map (do_expire_svc cur_time))

/-! ## Health loop (svc.c, `do_resurect`) -/

/-- The probing loop of the second pass of `do_resurect` over the back-ends of
a service, from back-end number `i` on: the back-ends as the loop leaves them
and the flag `modified`.  `probe i` tells that a socket could be opened and
`connect_nb` succeeded for back-end `i`. -/
def resurrect_probe (probe : Nat → Bool) : Nat → List BACKEND → List BACKEND × Bool
  | _, [] => ([], false)
  | i, be :: rest =>
    if be.be_type ≠ 0 then
      ({ be with resurrect := 0 } :: (resurrect_probe probe (i + 1) rest).1,
        (resurrect_probe probe (i + 1) rest).2)
    else if be.alive ≠ 0 then
      ({ be with resurrect := 0 } :: (resurrect_probe probe (i + 1) rest).1,
        (resurrect_probe probe (i + 1) rest).2)
    else if probe i then
      ({ be with resurrect := 1 } :: (resurrect_probe probe (i + 1) rest).1, true)
    else
      ({ be with resurrect := 0 } :: (resurrect_probe probe (i + 1) rest).1,
        (resurrect_probe probe (i + 1) rest).2)

/-- The loop of the resurrect step of `do_resurect`, run under the service
mutex after `svc->tot_pri = 0`: the back-ends as the loop leaves them and the
value of `tot_pri`. -/
def resurrect_commit : List BACKEND → Int → List BACKEND × Int
  | [], tot_pri => ([], tot_pri)
  | be :: rest, tot_pri =>
    if be.resurrect ≠ 0 then
      ({ be with alive := 1 } ::
          (resurrect_commit rest (if be.disabled = 0 then tot_pri + be.priority else tot_pri)).1,
        (resurrect_commit rest (if be.disabled = 0 then tot_pri + be.priority else tot_pri)).2)
    else
      (be ::
          (resurrect_commit rest
            (if be.alive ≠ 0 ∧ be.disabled = 0 then tot_pri + be.priority else tot_pri)).1,
        (resurrect_commit rest
            (if be.alive ≠ 0 ∧ be.disabled = 0 then tot_pri + be.priority else tot_pri)).2)

/-- The second pass of `do_resurect` for one service: the probing loop and,
when it has set `modified`, the resurrect step. -/
def do_resurect_svc (probe : Nat → Bool) (svc : SERVICE) : SERVICE :=
  if (resurrect_probe probe 0 svc.backends).2 then
    { svc with
      backends := (resurrect_commit (resurrect_probe probe 0 svc.backends).1 0).1,
      tot_pri := (resurrect_commit (resurrect_probe probe 0 svc.backends).1 0).2 }
  else { svc with backends := (resurrect_probe probe 0 svc.backends).1 }

/-! ## Binary64 arithmetic (the C type `double`) -/

/-- A value of the C type `double` in the binary64 format: a finite number,
an infinity with its sign, or a NaN.  The sign of a zero is not kept: no
operation of `do_rescale` tells the two zeros apart. -/
inductive double where
  | finite (q : ℚ)
  | inf (neg : Bool)
  | nan
deriving DecidableEq

/-- The number of binary digits of `n`; the first argument bounds the number
of digits. -/
def bit_length : Nat → Nat → Nat
  | 0, _ => 0
  | fuel + 1, n => if n = 0 then 0 else bit_length fuel (n / 2) + 1

/-- For positive `a` and `b`, the exponent `e` with `2 ^ e ≤ a / b < 2 ^ (e + 1)`:
the difference `d` of the numbers of digits when `2 ^ d ≤ a / b`, else `d - 1`. -/
def floor_log2 (a b : Nat) : Int :=
  if (if 0 ≤ (bit_length a a : Int) - (bit_length b b : Int)
      then b * 2 ^ ((bit_length a a : Int) - (bit_length b b : Int)).toNat ≤ a
      else b ≤ a * 2 ^ ((bit_length b b : Int) - (bit_length a a : Int)).toNat)
  then (bit_length a a : Int) - (bit_length b b : Int)
  else (bit_length a a : Int) - (bit_length b b : Int) - 1

/-- The integer nearest to `n / d`, the even one of the two when `n / d` lies
half-way between them. -/
def round_half_even (n d : Nat) : Nat :=
  if 2 * (n % d) < d then n / d
  else if d < 2 * (n % d) then n / d + 1
  else if n / d % 2 = 0 then n / d else n / d + 1

/-- The exponent of the unit in the last place of the binary64 numbers `x` with
`2 ^ e ≤ |x| < 2 ^ (e + 1)`: 52 below `e`, and -1074 for the subnormal ones. -/
def ulp_exp (e : Int) : Int :=
  max e (-1022) - 52

/-- The rational number `m * 2 ^ e`. -/
def scale2 (m : Int) (e : Int) : ℚ :=
  if 0 ≤ e then ((m * 2 ^ e.toNat : Int) : ℚ) else mkRat m (2 ^ (-e).toNat)

/-- The multiple `m * 2 ^ e` as a binary64 value, where `m ≤ 2 ^ 53` is the
rounded significand: an infinity when it is `2 ^ 1024` or more. -/
def pack64 (neg : Bool) (m : Nat) (e : Int) : double :=
  if 971 < e ∨ (e = 971 ∧ 2 ^ 53 ≤ m) then double.inf neg
  else double.finite (scale2 (if neg then - (m : Int) else (m : Int)) e)

/-- The exponent of the unit in the last place of the binary64 numbers of the
binade of `q`, a rational number other than 0. -/
def round_exp (q : ℚ) : Int :=
  ulp_exp (floor_log2 q.num.natAbs q.den)

/-- The significand of the rounding of `q` to binary64: the integer nearest
to `|q| / 2 ^ round_exp q`, the even one when two are equally near. -/
def round_sig (q : ℚ) : Nat :=
  if 0 ≤ round_exp q then round_half_even q.num.natAbs (q.den * 2 ^ (round_exp q).toNat)
  else round_half_even (q.num.natAbs * 2 ^ (- round_exp q).toNat) q.den

/-- The rounding of a rational number to binary64, to the nearest value and to
the one with an even significand when two are equally near (the rounding mode
in force when a C program starts). -/
def round64 (q : ℚ) : double :=
  if q = 0 then double.finite 0
  else pack64 (decide (q < 0)) (round_sig q) (round_exp q)

/-- The integer square root, digit by digit: the first argument is the number
of binary digits still to settle, the second the root so far. -/
def isqrt_loop : Nat → Nat → Nat → Nat
  | 0, r, _ => r
  | i + 1, r, n =>
    if (r + 2 ^ i) * (r + 2 ^ i) ≤ n then isqrt_loop i (r + 2 ^ i) n else isqrt_loop i r n

/-- The integer square root of `n`. -/
def isqrt (n : Nat) : Nat :=
  isqrt_loop (bit_length n n / 2 + 1) 0 n

/-- The integer nearest to the square root of `n / d`, the even one on a tie:
`s` is the integer part of the root, and the root is compared with `s + 1/2`
through `4 n` and `(2 s + 1) ^ 2 d`. -/
def round_sqrt (n d : Nat) : Nat :=
  if 4 * n < (2 * isqrt (n / d) + 1) ^ 2 * d then isqrt (n / d)
  else if (2 * isqrt (n / d) + 1) ^ 2 * d < 4 * n then isqrt (n / d) + 1
  else if isqrt (n / d) % 2 = 0 then isqrt (n / d) else isqrt (n / d) + 1

/-- The exponent of the unit in the last place of the square root of `q`, a
positive rational number: the root lies in the binade of half the exponent of
`q`. -/
def sqrt_exp (q : ℚ) : Int :=
  ulp_exp (floor_log2 q.num.natAbs q.den / 2)

/-- The correctly rounded square root of a positive rational number: the
significand is the rounded root of `q / 4 ^ sqrt_exp q`. -/
def sqrt64 (q : ℚ) : double :=
  if 0 ≤ sqrt_exp q then
    pack64 false (round_sqrt q.num.natAbs (q.den * 4 ^ (sqrt_exp q).toNat)) (sqrt_exp q)
  else
    pack64 false (round_sqrt (q.num.natAbs * 4 ^ (- sqrt_exp q).toNat) q.den) (sqrt_exp q)

/-- The negation of a `double`. -/
def double.neg : double → double
  | double.finite a => double.finite (- a)
  | double.inf s => double.inf (!s)
  | double.nan => double.nan

/-- The sum of two `double` values. -/
def double.add : double → double → double
  | double.finite a, double.finite b => round64 (a + b)
  | double.finite _, double.inf t => double.inf t
  | double.inf s, double.finite _ => double.inf s
  | double.inf s, double.inf t => if s = t then double.inf s else double.nan
  | _, _ => double.nan

/-- The difference of two `double` values. -/
def double.sub (x y : double) : double :=
  x.add y.neg

/-- The product of two `double` values. -/
def double.mul : double → double → double
  | double.finite a, double.finite b => round64 (a * b)
  | double.finite a, double.inf t =>
    if a = 0 then double.nan else double.inf (decide (a < 0) != t)
  | double.inf s, double.finite b =>
    if b = 0 then double.nan else double.inf (s != decide (b < 0))
  | double.inf s, double.inf t => double.inf (s != t)
  | _, _ => double.nan

/-- The quotient of two `double` values; a zero divisor is the positive
zero, which is what the conversion of the `int` 0 gives. -/
def double.div : double → double → double
  | double.finite a, double.finite b =>
    if b = 0 then (if a = 0 then double.nan else double.inf (decide (a < 0)))
    else round64 (a / b)
  | double.finite _, double.inf _ => double.finite 0
  | double.inf s, double.finite b => double.inf (s != decide (b < 0))
  | _, _ => double.nan

/-- The C library `sqrt`, correctly rounded: a NaN for a negative argument. -/
def double.sqrt : double → double
  | double.finite a => if a < 0 then double.nan else if a = 0 then double.finite 0 else sqrt64 a
  | double.inf s => if s then double.nan else double.inf false
  | double.nan => double.nan

/-- The comparison `x < y` of two `double` values: false when one is a NaN. -/
def double.lt : double → double → Bool
  | double.finite a, double.finite b => decide (a < b)
  | double.finite _, double.inf t => !t
  | double.inf s, double.finite _ => s
  | double.inf s, double.inf t => s && !t
  | _, _ => false

/-- The comparison `x <= y` of two `double` values: false when one is a NaN. -/
def double.le : double → double → Bool
  | double.finite a, double.finite b => decide (a ≤ b)
  | double.finite _, double.inf t => !t
  | double.inf s, double.finite _ => s
  | double.inf s, double.inf t => s || !t
  | _, _ => false

/-- The value is not negative: a finite number that is not negative, the
positive infinity, or a NaN. -/
def double.not_negative : double → Bool
  | double.finite a => decide (0 ≤ a)
  | double.inf s => !s
  | double.nan => true

/-- The `double` that holds the value `q` of a field declared `double`, or of
an `int` converted to `double`: `q` itself when it is a binary64 number, the
nearest one otherwise. -/
def to_double (q : ℚ) : double :=
  round64 q

/-! ## Rescaling (svc.c, `do_rescale`) -/

/-- The first loop of `do_rescale` over the back-ends of a service: the sums
`average` and `sq_average`, computed in binary64, and the count `n`. -/
def rescale_sums : List BACKEND → double × double × Int → double × double × Int
  | [], acc => acc
  | be :: rest, acc =>
    if be.be_type ≠ 0 ∨ be.alive = 0 ∨ be.disabled ≠ 0 then rescale_sums rest acc
    else
      rescale_sums rest
        (acc.1.add (to_double be.t_average),
          acc.2.1.add ((to_double be.t_average).mul (to_double be.t_average)),
          acc.2.2 + 1)

/-- The variable `average` after `average /= n`, from the sums and the count
that the first loop leaves. -/
def rescale_average (sums : double × double × Int) : double :=
  sums.1.div (to_double sums.2.2)

/-- The variable `sq_average` after `sq_average /= n`,
`sq_average = sqrt(sq_average - average * average)` and `sq_average *= 3`:
three times the standard deviation. -/
def rescale_sigma3 (sums : double × double × Int) : double :=
  (((sums.2.1.div (to_double sums.2.2)).sub
    ((rescale_average sums).mul (rescale_average sums))).sqrt).mul (to_double 3)

/-- The comparison `be->t_average < (average - sq_average)` of `do_rescale`. -/
def below_three_sigma (t_average : ℚ) (average sq_average : double) : Bool :=
  (to_double t_average).lt (average.sub sq_average)

/-- The comparison `be->t_average > (average + sq_average)` of `do_rescale`. -/
def above_three_sigma (t_average : ℚ) (average sq_average : double) : Bool :=
  (average.add sq_average).lt (to_double t_average)

/-- The loop `while(be->n_requests > RESCALE_BOT) { be->n_requests /= 2;
be->t_requests /= 2; }`; the first argument bounds the number of iterations.
The halving of `t_requests` is written exactly, as it is in binary64 unless
the result is subnormal. -/
def rescale_halve (RESCALE_BOT : Int) : Nat → BACKEND → BACKEND
  | 0, be => be
  | fuel + 1, be =>
    if be.n_requests > RESCALE_BOT then
      rescale_halve RESCALE_BOT fuel
        { be with n_requests := be.n_requests.tdiv 2, t_requests := be.t_requests / 2 }
    else be

/-- The first `if` of the second loop of `do_rescale` on a back-end that is
not skipped: the back-end afterwards and the change of `tot_pri`. -/
def rescale_raise (c : CONSTS) (average sq_average : double) (be : BACKEND) : BACKEND × Int :=
  if below_three_sigma be.t_average average sq_average then
    (rescale_halve c.RESCALE_BOT be.n_requests.toNat { be with priority := be.priority + 1 }, 1)
  else (be, 0)

/-- The second `if` of the second loop of `do_rescale`. -/
def rescale_lower (c : CONSTS) (average sq_average : double) (be : BACKEND) : BACKEND × Int :=
  if above_three_sigma be.t_average average sq_average ∧ be.priority > 1 then
    (rescale_halve c.RESCALE_BOT be.n_requests.toNat { be with priority := be.priority - 1 }, -1)
  else (be, 0)

/-- The second loop of `do_rescale` over the back-ends of a service: the
back-ends as the loop leaves them and the value of `tot_pri`. -/
def rescale_loop (c : CONSTS) (average sq_average : double) :
    List BACKEND → Int → List BACKEND × Int
  | [], tot_pri => ([], tot_pri)
  | be :: rest, tot_pri =>
    if be.be_type ≠ 0 ∨ be.alive = 0 ∨ be.disabled ≠ 0 ∨ be.n_requests < c.RESCALE_MIN then
      (be :: (rescale_loop c average sq_average rest tot_pri).1,
        (rescale_loop c average sq_average rest tot_pri).2)
    else
      ((rescale_lower c average sq_average (rescale_raise c average sq_average be).1).1 ::
          (rescale_loop c average sq_average rest
            (tot_pri + (rescale_raise c average sq_average be).2 +
              (rescale_lower c average sq_average (rescale_raise c average sq_average be).1).2)).1,
        (rescale_loop c average sq_average rest
            (tot_pri + (rescale_raise c average sq_average be).2 +
              (rescale_lower c average sq_average (rescale_raise c average sq_average be).1).2)).2)

/-- The body of the loops of `do_rescale` for one service. -/
def do_rescale_svc (c : CONSTS) (svc : SERVICE) : SERVICE :=
  if svc.dynscale = 0 then svc
  else if (rescale_sums svc.backends (double.finite 0, double.finite 0, 0)).2.2 ≤ 1 then svc
  else
    { svc with
      backends := (rescale_loop c
        (rescale_average (rescale_sums svc.backends (double.finite 0, double.finite 0, 0)))
        (rescale_sigma3 (rescale_sums svc.backends (double.finite 0, double.finite 0, 0)))
        svc.backends svc.tot_pri).1,
      tot_pri := (rescale_loop c
        (rescale_average (rescale_sums svc.backends (double.finite 0, double.finite 0, 0)))
        (rescale_sigma3 (rescale_sums svc.backends (double.finite 0, double.finite 0, 0)))
        svc.backends svc.tot_pri).2 }

/-! ## Session updater (svc.c, `find_EndSessionHeader`, `upd_session`) -/

/-- The function `find_EndSessionHeader`; its loop is that of `header_found`. -/
def find_EndSessionHeader (c : CONSTS) (svc : SERVICE) (headers : List (Option CString)) :
    Bool :=
  if svc.sess_end_hdr = 0 then false
  else header_found svc.sess_end (header_slots c.MAXHEADERS headers)

/-- A change made through a session pointer: a pointer to a session of the
table is the key of its node, and the change reaches the session of that
node. -/
def sess_update (tab : List TABNODE) (k : CString) (f : SESSION → SESSION) : List TABNODE :=
  tab.map (fun t => if t.key = k then { t with content := f t.content } else t)

/-- The statement `sess->delete_pending++` on the session that `sess` points
to. -/
def mark_pending (tab : List TABNODE) (k : CString) : List TABNODE :=
  sess_update tab k (fun x => { x with delete_pending := x.delete_pending + 1 })

/-- The member `key` of the session that a session pointer points to; a
session that has left the table was created with the key that names it. -/
def sess_key_of (tab : List TABNODE) (k : CString) : Option CString :=
  match t_lookup tab k with
  | none => some k
  | some node => node.content.key

/-- What `upd_session` hands back: the service afterwards, the key written
through `save_sess_key` if any, the session pointer left in `*save_sess`, and
the number added to `*end_of_session_forced`. -/
structure UPD_RESULT where
  svc : SERVICE
  key : Option CString
  sess : Option CString
  end_of_session_forced : Int

/-- The inner loop of the LB-info scan of `upd_session` for one matcher, over
the slots still to visit: the text that `strncpy` copies into `lb_info` at the
first header that matches.
`for(i = 1; i < MAXHEADERS; i++) if(resp_headers[i] && !regexec(...))
   { strncpy(sess->lb_info, resp_headers[i] + matches[1].rm_so,
             sizeof(sess->lb_info)-1); ... return; }` -/
def lbinfo_scan (LB_INFO_SIZE : Nat) (pat : regex_t) : List (Option CString) → Option CString
  | [] => none
  | none :: rest => lbinfo_scan LB_INFO_SIZE pat rest
  | some h :: rest =>
    match pat h with
    | some ms => some ((h.drop (rm ms 1).rm_so.toNat).take (LB_INFO_SIZE - 1))
    | none => lbinfo_scan LB_INFO_SIZE pat rest

/-- The outer loop of the LB-info scan, over the matchers of `svc->lbinfo`. -/
def lbinfo_find (LB_INFO_SIZE : Nat) (slots : List (Option CString)) :
    List MATCHER → Option CString
  | [] => none
  | m :: rest =>
    match lbinfo_scan LB_INFO_SIZE m.pat slots with
    | some text => some text
    | none => lbinfo_find LB_INFO_SIZE slots rest

/-- The first part of `upd_session`, for the policies header and cookie, run
under the service mutex; `sess` is the pointer read from `*save_sess`. -/
def upd_session_table (c : CONSTS) (svc : SERVICE) (from_host request : CString)
    (resp_headers : List (Option CString)) (u_name : CString) (be : Option BE_PTR)
    (sess : Option CString) (now : Int) : UPD_RESULT :=
  match (if find_EndSessionHeader c svc resp_headers then sess else none) with
  | some k =>
    if svc.death_ttl ≤ 0 then
      match sess_key_of svc.sessions k with
      | some key =>
        { svc := t_remove
            { svc with sessions := mark_pending svc.sessions k } key,
          key := none, sess := none, end_of_session_forced := 1 }
      | none =>
        { svc := t_clean
            { svc with sessions := mark_pending svc.sessions k },
          key := none, sess := none, end_of_session_forced := 1 }
    else
      { svc := { svc with sessions := mark_pending svc.sessions k },
        key := none, sess := some k, end_of_session_forced := 1 }
  | none =>
    if (get_HEADERS c svc resp_headers).1 then
      match t_find svc.sessions (get_HEADERS c svc resp_headers).2 now with
      | (none, _) =>
        { svc := { svc with
            sessions := t_add svc.sessions (get_HEADERS c svc resp_headers).2
              (touch_session c from_host request u_name
                { new_session (get_HEADERS c svc resp_headers).2 now with be := be }) now,
            misses := svc.misses + 1 },
          key := some (get_HEADERS c svc resp_headers).2,
          sess := some (get_HEADERS c svc resp_headers).2,
          end_of_session_forced := 0 }
      | (some _, tab) =>
        { svc := { svc with sessions := tab },
          key := some (get_HEADERS c svc resp_headers).2, sess := sess,
          end_of_session_forced := 0 }
    else { svc := svc, key := none, sess := sess, end_of_session_forced := 0 }

/-- The second part of `upd_session`, for every policy: the LB-info headers
are looked for when the session pointer left by the first part, `r.sess`, is
not null. -/
def upd_session_lbinfo (c : CONSTS) (svc : SERVICE) (resp_headers : List (Option CString))
    (r : UPD_RESULT) : UPD_RESULT :=
  match r.sess with
  | none => r
  | some k =>
    match lbinfo_find c.LB_INFO_SIZE (header_slots c.MAXHEADERS resp_headers) svc.lbinfo with
    | none => r
    | some text =>
      { r with svc := { r.svc with
          sessions := sess_update r.svc.sessions k (fun x => { x with lb_info := text }) } }

/-- The function `upd_session`: `sess` is the pointer that `*save_sess` holds
at the call (null also when `save_sess` is null), `be` the back-end that
served the request, `now` the value of `time(NULL)`. -/
def upd_session (c : CONSTS) (svc : SERVICE) (from_host request : CString)
    (resp_headers : List (Option CString)) (u_name : CString) (be : Option BE_PTR)
    (sess : Option CString) (now : Int) : UPD_RESULT :=
  upd_session_lbinfo c svc resp_headers
    (if svc.sess_type = SESS_TYPE.SESS_HEADER ∨ svc.sess_type = SESS_TYPE.SESS_COOKIE then
      upd_session_table c svc from_host request resp_headers u_name be sess now
    else { svc := svc, key := none, sess := sess, end_of_session_forced := 0 })

/-! ## Control commands (svc.c, `sel_be`, `thr_control`) -/

/-- The loop of `sel_be` over the back-ends of the service selected:
`for(i = 0, be = svc->backends; be && i < cmd->backend; i++, be = be->next);`. -/
def sel_be_loop (backend : Int) : Int → List BACKEND → Option Nat
  | _, [] => none
  | i, _ :: rest =>
    if i < backend then (sel_be_loop backend (i + 1) rest).map (· + 1) else some 0

/-- The case `CTRL_ADD_SESS` of `thr_control` on the service that `sel_svc`
selects: `backend` and `key` are the fields of the command, `now` the value of
`time(NULL)`. -/
def ctrl_add_sess (svc : SERVICE) (backend : Int) (key : CString) (now : Int) : SERVICE :=
  match sel_be_loop backend 0 svc.backends with
  | none => svc
  | some i =>
    { svc with
      sessions := t_add svc.sessions key
        { new_session key now with be := some (BE_PTR.list i) } now }

/-- The case `CTRL_DEL_SESS` of `thr_control` on the service selected. -/
def ctrl_del_sess (svc : SERVICE) (key : CString) : SERVICE :=
  t_remove svc key

/-! ## Latency samples (svc.c, `upd_be`) -/

/-- A session of the pending-free list as `del_pending` sees it: its member
`next` (a null pointer is `none`) and whether another thread holds its mutex,
so that `pthread_mutex_trylock` fails. -/
structure PSESS where
  next : Option Nat
  mut_busy : Bool
deriving DecidableEq, Repr

/-- The memory that `del_pending` works on: the list head `*list`, the
sessions allocated, by address, and the addresses freed so far, in order. -/
structure PHEAP where
  head : Option Nat
  mem : Nat → Option PSESS
  freed : List Nat

/-- The values of the variable `ptr` of `del_pending`: the address of the list
head or of the member `next` of the session at an address. -/
inductive PLINK where
  | head
  | next (a : Nat)
deriving DecidableEq, Repr

/-- The read `*ptr`; `none` when `ptr` points into a session that is not
allocated. -/
def read_link (st : PHEAP) : PLINK → Option (Option Nat)
  | PLINK.head => some st.head
  | PLINK.next a => (st.mem a).map (fun s => s.next)

/-- The assignment `*ptr = v`; `none` when `ptr` points into a session that is
not allocated. -/
def write_link (st : PHEAP) (ptr : PLINK) (v : Option Nat) : Option PHEAP :=
  match ptr with
  | PLINK.head => some { st with head := v }
  | PLINK.next a =>
    match st.mem a with
    | none => none
    | some s =>
      some { st with mem := fun x => if x = a then some { s with next := v } else st.mem x }

/-- The call `clear_session(sess)` made by `try_clear_session` once the mutex
could be taken: the session at address `a` is freed. -/
def free_session (st : PHEAP) (a : Nat) : PHEAP :=
  { st with mem := fun x => if x = a then none else st.mem x, freed := st.freed ++ [a] }

/-- The loop of `del_pending`, from the current values of `ptr` and `sess`:
`for(sess = *ptr; sess; sess = next) { next = sess->next;
   if (try_clear_session(sess)) ptr = &sess->next; else *ptr = next; }`.
The first argument bounds the number of iterations; the result is `none` when
the bound is exhausted or a session that is not allocated is accessed. -/
def del_pending_loop : Nat → PHEAP → PLINK → Option Nat → Option PHEAP
  | _, st, _, none => some st
  | 0, _, _, some _ => none
  | fuel + 1, st, ptr, some a =>
    match st.mem a with
    | none => none
    | some s =>
      if s.mut_busy then del_pending_loop fuel st (PLINK.next a) s.next
      else
        match write_link (free_session st a) ptr s.next with
        | none => none
        | some st2 => del_pending_loop fuel st2 ptr s.next

/-- The function `del_pending` on the list whose head is `st.head`. -/
def del_pending_heap (fuel : Nat) (st : PHEAP) : Option PHEAP :=
  del_pending_loop fuel st PLINK.head st.head

/-! ## Location rewriting (svc.c, get_host, need_rewrite) -/

/-- Modelled from the spec: what svc.c reads of one `struct addrinfo` of the
chain that `getaddrinfo` returns: whether `ai_socktype == SOCK_STREAM`, and
the address it carries. -/
structure ADDRINFO where
  stream : Bool := true
  addr : SOCKADDR := {}
deriving DecidableEq, Repr

/-- The resolver `getaddrinfo(name, NULL, &hints, &chain)`, an input of the
model: the chain of results for a name, or nothing when the call fails. -/
abbrev RESOLVER := CString → Option (List ADDRINFO)

/-- The function `get_host`: the first stream entry of the chain that
`getaddrinfo` returns for `name`.  The result is `none` when `get_host`
returns non-zero: `getaddrinfo` failed, or the chain has no stream entry
(`EAI_NONAME`). -/
def get_host (getaddrinfo : RESOLVER) (name : CString) : Option SOCKADDR :=
  match getaddrinfo name with
  | none => none
  | some chain =>
    match chain.find? (fun ap => ap.stream) with
    | none => none
    | some ap => some ap.addr

/-- The C string that starts at offset `off` of a buffer: the characters up
to the first NUL. -/
def str_at (buf : List Int) (off : Nat) : CString :=
  (buf.drop off).takeWhile (fun ch => ch ≠ 0)

/-- The call `strchr(buf + off, ch)`: the offset in the buffer of the first
`ch` of the string at `off`, or `none` for `NULL`. -/
def strchr_at (buf : List Int) (off : Nat) (ch : Int) : Option Nat :=
  if ch ∈ str_at buf off then some (off + (str_at buf off).indexOf ch) else none

/-- The C library `tolower` on an ASCII character. -/
def tolower (ch : Int) : Int :=
  if 65 ≤ ch ∧ ch ≤ 90 then ch + 32 else ch

/-- The test `strcasecmp(a, b) == 0`. -/
def strcasecmp_eq (a b : CString) : Bool :=
  a.map tolower = b.map tolower

/-- The C library `isspace` on an ASCII character. -/
def isspace (ch : Int) : Bool :=
  ch = 32 ∨ (9 ≤ ch ∧ ch ≤ 13)

/-- The C library `isdigit`. -/
def isdigit (ch : Int) : Bool :=
  48 ≤ ch ∧ ch ≤ 57

/-- The value of the leading decimal digits of a string. -/
def atoi_digits (s : CString) : Int :=
  (s.takeWhile isdigit).foldl (fun acc d => acc * 10 + (d - 48)) 0

/-- The C library `atoi`: white space, an optional sign, then the leading
decimal digits, for values that an `int` holds. -/
def atoi (s : CString) : Int :=
  match s.dropWhile isspace with
  | [] => 0
  | ch :: r =>
    if ch = 45 then - atoi_digits r
    else if ch = 43 then atoi_digits r
    else atoi_digits (ch :: r)

/-- The value `(in_port_t)htons(n)`: the 16-bit port that `sin_port` then
holds. -/
def htons (n : Int) : Nat :=
  (n % 65536).toNat

/-- The string "http". -/
def str_http : CString := [104, 116, 116, 112]

/-- The string "https". -/
def str_https : CString := [104, 116, 116, 112, 115]

/-- The strings `proto`, `host` and `port` that `need_rewrite` cuts out of
the Location value. -/
structure LOC_FIELDS where
  proto : CString
  host : CString
  port : Option CString
deriving DecidableEq, Repr

/-- The splitting of the Location value in `need_rewrite`, after a
successful `regexec(&LOCATION, location, 4, matches, 0)`:
`proto = location + matches[1].rm_so; host = location + matches[2].rm_so;
location[matches[1].rm_eo] = location[matches[2].rm_eo] = 0;
if((port = strchr(host, ':')) != NULL) *port++ = 0;`.
The buffer is the value followed by its NUL; the three strings are read
from the buffer after the writes.  The copy of the path into `path` does
not bear on the result and is left to `need_rewrite_path`. -/
def split_location (location : CString) (ms : List regmatch_t) : LOC_FIELDS :=
  let buf1 := ((location ++ [0]).set (rm ms 2).rm_eo.toNat 0).set (rm ms 1).rm_eo.toNat 0
  let proto := (rm ms 1).rm_so.toNat
  let host := (rm ms 2).rm_so.toNat
  let port := strchr_at buf1 host 58
  let buf2 := match port with
    | some k => buf1.set k 0
    | none => buf1
  { proto := str_at buf2 proto
    host := str_at buf2 host
    port := port.map (fun k => str_at buf2 (k + 1)) }

/-- The string that `need_rewrite` copies to `path`:
`if(location[matches[3].rm_so] == '/') matches[3].rm_so++;
strcpy(path, location + matches[3].rm_so);`. -/
def need_rewrite_path (location : CString) (ms : List regmatch_t) : CString :=
  let so := (rm ms 3).rm_so.toNat
  if (location ++ [0]).getD so 0 = 47 then str_at (location ++ [0]) (so + 1)
  else str_at (location ++ [0]) so

/-- The port that `need_rewrite` stores in `in_addr.sin_port` (or
`in6_addr.sin6_port`): `htons(atoi(port))` when the Location has a port,
443 for the scheme https, 80 otherwise. -/
def location_port (proto : CString) (port : Option CString) : Nat :=
  match port with
  | some p => htons (atoi p)
  | none => if strcasecmp_eq proto str_https then htons 443 else htons 80

/-- The scheme of a listener, `(lstn->ctx == NULL)? "http": "https"`. -/
def listener_scheme (lstn : LISTENER) : CString :=
  if lstn.ctx then str_https else str_http

/-- The loop of `need_rewrite` over the global list `listeners`: listeners
of another family are skipped; the first one with the address and port of
the Location decides. -/
def need_rewrite_listeners : List LISTENER → SOCKADDR → CString → Int
  | [], _, _ => 0
  | lstn_chk :: rest, in_addr, proto =>
    if in_addr.family ≠ lstn_chk.addr.family then
      need_rewrite_listeners rest in_addr proto
    else if lstn_chk.addr.addr = in_addr.addr ∧ lstn_chk.addr.port = in_addr.port then
      if strcasecmp_eq proto (listener_scheme lstn_chk) then 0
      else if lstn_chk.ctx then 3 else 2
    else need_rewrite_listeners rest in_addr proto

/-- The function `need_rewrite`.  The regular expression `LOCATION`, the
resolver and the global list `listeners` are inputs.  The two branches for
`AF_INET` and `AF_INET6` do the same on addresses of 4 and of 16 bytes and
are one branch here. -/
def need_rewrite (LOCATION : regex_t) (getaddrinfo : RESOLVER) (listeners : List LISTENER)
    (rewr_loc : Int) (location : CString) (lstn : LISTENER) (be : BACKEND) (svc : SERVICE)
    (v_host : Option CString) : Int :=
  if rewr_loc = 0 then 0
  else if be.addr.family ≠ AF.AF_INET ∧ be.addr.family ≠ AF.AF_INET6 then 0
  else
    match LOCATION location with
    | none => 0
    | some ms =>
      let f := split_location location ms
      match get_host getaddrinfo f.host with
      | none => if v_host = some f.host then 1 else 0
      | some addr =>
        if addr.family ≠ be.addr.family then 0
        else
          let in_addr : SOCKADDR := { addr with port := location_port f.proto f.port }
          if be.addr.addr = in_addr.addr ∧ be.addr.port = in_addr.port then 1
          else if rewr_loc ≠ 1 then 0
          else if svc.global = 0 ∧ addr.family = lstn.addr.family then
            if lstn.addr.addr = in_addr.addr ∧
                (lstn.addr.port ≠ in_addr.port ∨
                  strcasecmp_eq f.proto (listener_scheme lstn) = false) then 1
            else 0
          else if svc.global ≠ 0 then need_rewrite_listeners listeners in_addr f.proto
          else 0

/-! ## Specification-side notions -/

/-- The string `h` is a header line of the request: it sits in a slot
`headers[i]` with `1 ≤ i < MAXHEADERS` and no slot from 1 to `i` is a null
entry. -/
def is_header_line (MAXHEADERS : Nat) (headers : List (Option CString))
    (h : CString) : Prop :=
  ∃ i, 1 ≤ i ∧ i < MAXHEADERS ∧ headers[i]? = some (some h) ∧
    ∀ j, 1 ≤ j → j < i → ∃ l : CString, headers[j]? = some (some l)

/-- The service may serve the request: it is not disabled and
`match_service` accepts the request. -/
def eligible (MAXHEADERS : Nat) (request : CString)
    (headers : List (Option CString)) (svc : SERVICE) : Prop :=
  svc.disabled = 0 ∧ match_service MAXHEADERS svc request headers = true

/-- The service at position `i` of `l` is the first eligible one of `l`. -/
def first_eligible (MAXHEADERS : Nat) (request : CString)
    (headers : List (Option CString)) (l : List SERVICE) (i : Nat) : Prop :=
  (∃ s, l[i]? = some s ∧ eligible MAXHEADERS request headers s) ∧
    ∀ k t, k < i → l[k]? = some t → ¬ eligible MAXHEADERS request headers t

/-- The service a service pointer points to. -/
def deref_svc (services : List SERVICE) (lstn : LISTENER) : SVC_PTR → Option SERVICE
  | SVC_PTR.lstn i => lstn.services[i]?
  | SVC_PTR.glob j => services[j]?

/-- The back-end may be routed to: it is alive and not disabled. -/
def avail (b : BACKEND) : Prop :=
  b.alive ≠ 0 ∧ b.disabled = 0

instance (b : BACKEND) : Decidable (avail b) :=
  inferInstanceAs (Decidable (b.alive ≠ 0 ∧ b.disabled = 0))

/-- The sum of the priorities of all back-ends of a list. -/
def sum_pri (l : List BACKEND) : Int :=
  (l.map (fun b => b.priority)).sum

/-- The sum of the priorities of the alive, non-disabled back-ends of a list. -/
def sum_avail (l : List BACKEND) : Int :=
  ((l.filter (fun b => decide (avail b))).map (fun b => b.priority)).sum

/-- The key that `get_backend` extracts for the request under the session
policy of the service, when it extracts one. -/
def session_key (c : CONSTS) (svc : SERVICE) (from_host request : CString)
    (headers : List (Option CString)) : Option CString :=
  match svc.sess_type with
  | SESS_TYPE.SESS_NONE => none
  | SESS_TYPE.SESS_IP => some (from_host.take (c.KEY_SIZE - 1))
  | SESS_TYPE.SESS_URL | SESS_TYPE.SESS_PARM =>
    if (get_REQUEST c.KEY_SIZE svc request).1 then some (get_REQUEST c.KEY_SIZE svc request).2
    else none
  | _ =>
    if (get_HEADERS c svc headers).1 then some (get_HEADERS c svc headers).2 else none

/-- Every key bound in the table `tab` is bound in `tab2` to a session with
the same back-end. -/
def keeps_bindings (tab tab2 : List TABNODE) : Prop :=
  ∀ k node, t_lookup tab k = some node →
    ∃ node2, t_lookup tab2 k = some node2 ∧ node2.content.be = node.content.be

/-- What the `switch` of `kill_be` does to the back-end it is applied to. -/
def kill_be_mark (disable_mode : BE_MODE) (b : BACKEND) : BACKEND :=
  match disable_mode with
  | BE_MODE.BE_DISABLE => { b with disabled := 1 }
  | BE_MODE.BE_KILL => { b with alive := 0 }
  | BE_MODE.BE_ENABLE => { b with disabled := 0 }
  | BE_MODE.other => b

/-- The back-end at position `i` exists and is alive and not disabled. -/
def avail_at (bes : List BACKEND) (i : Nat) : Prop :=
  ∃ b, bes[i]? = some b ∧ avail b

/-- Position `tb` is the one selected by the cumulative-priority walk over all
back-ends for the value `pri`: the first position at which the cumulative
priority exceeds `pri`. -/
def walk_target (bes : List BACKEND) (pri : Int) (tb : Nat) : Prop :=
  tb < bes.length ∧ pri < sum_pri (bes.take (tb + 1)) ∧
    ∀ j, j < tb → sum_pri (bes.take (j + 1)) ≤ pri

/-- Position `i` is the first alive, enabled back-end found walking forward
from position `tb` in declaration order, wrapping once to the head of the
list. -/
def first_from (bes : List BACKEND) (tb i : Nat) : Prop :=
  avail_at bes i ∧
    ((tb ≤ i ∧ ∀ j, tb ≤ j → j < i → ¬ avail_at bes j) ∨
     (i < tb ∧ (∀ j, tb ≤ j → ¬ avail_at bes j) ∧ ∀ j, j < i → ¬ avail_at bes j))

/-- The 32-bit FNV-1a hash of a sequence of bytes: offset basis 2166136261,
prime 16777619, each byte an unsigned value, arithmetic modulo `2 ^ 32`. -/
def fnv1a_32 (bytes : List Nat) : Nat :=
  bytes.foldl (fun h b => ((h ^^^ b) * 16777619) % 2 ^ 32) 2166136261

/-- The bytes of a C string as unsigned values. -/
def to_bytes (key : CString) : List Nat :=
  key.map (fun c => (c % 256).toNat)

/-- The FNV-1a recurrence with the 32-bit offset basis and prime, carried out
in arithmetic modulo `2 ^ w` on the chars of the key, each converted from its
`int` value to a `w`-bit unsigned value. -/
def fnv1a_wide (w : Nat) (key : CString) : Nat :=
  key.foldl (fun h c => ((h ^^^ (c % (2 : Int) ^ w).toNat) * 16777619) % 2 ^ w)
    (2166136261 % 2 ^ w)

/-- The string `h` is the header line in slot `i`: `1 ≤ i < MAXHEADERS` and
no slot from 1 to `i` is a null entry. -/
def header_line_at (MAXHEADERS : Nat) (headers : List (Option CString)) (i : Nat)
    (h : CString) : Prop :=
  1 ≤ i ∧ i < MAXHEADERS ∧ headers[i]? = some (some h) ∧
    ∀ j, 1 ≤ j → j < i → ∃ l : CString, headers[j]? = some (some l)

/-- The key that a line yields when both session patterns match on it: the
first capture of `sess_pat`, applied to the text after the end of the match of
`sess_start`, truncated to `KEY_SIZE` characters. -/
def line_key (KEY_SIZE : Nat) (sess_start sess_pat : regex_t) (h : CString) :
    Option CString :=
  match sess_start h with
  | none => none
  | some m0 =>
    match sess_pat (h.drop (rm m0 0).rm_eo.toNat) with
    | none => none
    | some m1 =>
      some ((((h.drop (rm m0 0).rm_eo.toNat).drop (rm m1 1).rm_so.toNat).take
        ((rm m1 1).rm_eo - (rm m1 1).rm_so).toNat).take KEY_SIZE)

/-- The test of the expiry sweep, as the specification states it: an entry
stays when its last access is not before `lim`, or not before `del_lim` when
its session is tombstoned (`delete_pending` non-zero). -/
def expire_keeps (lim del_lim : Int) (t : TABNODE) : Bool :=
  if t.content.delete_pending = 0 then decide (lim ≤ t.last_acc)
  else decide (del_lim ≤ t.last_acc)

/-- A node of the table as the table holds it, the LB-info text of its
session left out: the key, the time of last access and the session with its
bound back-end. -/
def table_view (t : TABNODE) : TABNODE :=
  { t with content := { t.content with lb_info := [] } }

/-- The value of the back-end cookie that a header line carries: the first
capture of `becookie_match` on the line, truncated to `KEY_SIZE` characters. -/
def cookie_value (KEY_SIZE : Nat) (becookie_match : regex_t) (h : CString) :
    Option CString :=
  match becookie_match h with
  | none => none
  | some m =>
    some (((h.drop (rm m 1).rm_so.toNat).take ((rm m 1).rm_eo - (rm m 1).rm_so).toNat).take
      KEY_SIZE)

/-- The request carries the back-end cookie of the service with the value
`v`: a back-end cookie is configured, `v` is not empty, and `v` is the value
on the last header line that carries the cookie. -/
def carries_bekey (c : CONSTS) (svc : SERVICE) (headers : List (Option CString))
    (v : CString) : Prop :=
  svc.becookie ≠ none ∧ v ≠ [] ∧
    ∃ (i : Nat) (h : CString), header_line_at c.MAXHEADERS headers i h ∧
      cookie_value c.KEY_SIZE svc.becookie_match h = some v ∧
      ∀ (j : Nat) (h2 : CString), i < j → header_line_at c.MAXHEADERS headers j h2 →
        cookie_value c.KEY_SIZE svc.becookie_match h2 = none

/-- Back-end `i` is the first in declaration order whose `bekey` is `v`. -/
def first_bekey (bes : List BACKEND) (v : CString) (i : Nat) : Prop :=
  (∃ b, bes[i]? = some b ∧ b.bekey = some v) ∧
    ∀ (j : Nat) (bj : BACKEND), j < i → bes[j]? = some bj → bj.bekey ≠ some v

/-- The request meets no session and is not routed by the hash: it yields a
session key that the table does not hold, the TTL not being negative, or it
yields no session key under a policy other than the two URL policies. -/
def selects_afresh (c : CONSTS) (svc : SERVICE) (from_host request : CString)
    (headers : List (Option CString)) : Prop :=
  match session_key c svc from_host request headers with
  | some k => 0 ≤ svc.sess_ttl ∧ t_lookup svc.sessions k = none
  | none => svc.sess_type ≠ SESS_TYPE.SESS_URL ∧ svc.sess_type ≠ SESS_TYPE.SESS_PARM

/-- Every session of the table `tab` is bound to a non-null back-end that is
a member of the back-end list `bes`. -/
def sessions_bound (bes : List BACKEND) (tab : List TABNODE) : Prop :=
  ∀ t ∈ tab, ∃ i : Nat, t.content.be = some (BE_PTR.list i) ∧ i < bes.length

/-- No session of the table `tab` has another back-end in `tab2`: a key that
both tables hold is bound to the same back-end in both. -/
def be_unchanged (tab tab2 : List TABNODE) : Prop :=
  ∀ (k : CString) (node node2 : TABNODE), t_lookup tab k = some node →
    t_lookup tab2 k = some node2 → node2.content.be = node.content.be

/-- The request meets no session binding: it yields no session key, or the
service is in consistent-hash mode (negative TTL), or the table does not hold
the key. -/
def no_session_hit (c : CONSTS) (svc : SERVICE) (from_host request : CString)
    (headers : List (Option CString)) : Prop :=
  match session_key c svc from_host request headers with
  | none => True
  | some k => svc.sess_ttl < 0 ∨ t_lookup svc.sessions k = none

/-- The back-end takes part in the rescaling: it is not a redirector, it is
alive and it is not disabled. -/
def plain_routable (b : BACKEND) : Prop :=
  b.be_type = 0 ∧ b.alive ≠ 0 ∧ b.disabled = 0

instance (b : BACKEND) : Decidable (plain_routable b) :=
  inferInstanceAs (Decidable (_ ∧ _))

/-- The average response times of the back-ends that take part in the
rescaling, in declaration order. -/
def sample_times (l : List BACKEND) : List ℚ :=
  (l.filter (fun b => decide (plain_routable b))).map (fun b => b.t_average)

/-- The mean of a list of values. -/
def mean (ts : List ℚ) : ℚ :=
  ts.sum / ts.length

/-- The population variance of a list of values: the mean of the squared
distances to the mean (divisor `n`). -/
def pop_variance (ts : List ℚ) : ℚ :=
  (ts.map (fun t => (t - mean ts) ^ 2)).sum / ts.length

/-- The sample variance of a list of values: the sum of the squared distances
to the mean, divided by `n - 1`. -/
def sample_variance (ts : List ℚ) : ℚ :=
  (ts.map (fun t => (t - mean ts) ^ 2)).sum / (ts.length - 1)

/-- The pointer `p` heads, in the memory `mem`, the linked list of the
sessions `l`, given by address and state of the mutex. -/
def is_chain (mem : Nat → Option PSESS) : Option Nat → List (Nat × Bool) → Prop
  | p, [] => p = none
  | p, (a, busy) :: rest =>
    p = some a ∧ ∃ nx, mem a = some { next := nx, mut_busy := busy } ∧ is_chain mem nx rest

/-- The pointer `ptr` may be written through while the sessions at `addrs` are
processed: it is the list head, or the member of an allocated session that is
not among them. -/
def link_ok (st : PHEAP) (addrs : List Nat) : PLINK → Prop
  | PLINK.head => True
  | PLINK.next b => b ∉ addrs ∧ ∃ s, st.mem b = some s

/-- The number that a port text denotes: the value of a non-empty string of
decimal digits. -/
def decimal (s : CString) : Option Nat :=
  if s ≠ [] ∧ s.all isdigit = true then
    some (s.foldl (fun acc d => acc * 10 + (d - 48).toNat) 0)
  else none

/-- The port of an absolute URL: the number after the colon when a port is
given, else 80 for the scheme http and 443 for the scheme https. -/
def url_port (proto : CString) (port : Option CString) : Option Nat :=
  match port with
  | some p => decimal p
  | none =>
    if proto.map tolower = str_https then some 443
    else if proto.map tolower = str_http then some 80
    else none

/-- The listener has the address family, the address and the port of `a`. -/
def listener_at (a : SOCKADDR) (l : LISTENER) : Bool :=
  l.addr.family = a.family ∧ l.addr.addr = a.addr ∧ l.addr.port = a.port

/-- The scheme `proto` is the scheme of the listener, letter case apart:
https when the listener has a TLS context, http when it has none. -/
def scheme_of_listener (proto : CString) (l : LISTENER) : Prop :=
  proto.map tolower = if l.ctx = true then str_https else str_http

instance (proto : CString) (l : LISTENER) : Decidable (scheme_of_listener proto l) := by
  unfold scheme_of_listener; exact inferInstance

/-- The pointer `p` is a back-end of the service: a member of the back-end
list `bes`, or the emergency back-end `em` of the service when it has one. -/
def be_of_service (bes : List BACKEND) (em : Option BACKEND) (p : Option BE_PTR) : Prop :=
  (∃ i : Nat, p = some (BE_PTR.list i) ∧ i < bes.length) ∨
    (p = some BE_PTR.emergency ∧ em ≠ none)

/-- Every session of the table `tab` is bound to a back-end of the service:
a member of its back-end list or its emergency back-end. -/
def sessions_owned (bes : List BACKEND) (em : Option BACKEND) (tab : List TABNODE) : Prop :=
  ∀ t ∈ tab, be_of_service bes em t.content.be

/-- The sum of the values of a list as the first loop of `do_rescale` forms it:
accumulated in binary64, from 0, in the order of the list. -/
def sum64 (ts : List ℚ) : double :=
  ts.foldl (fun acc t => acc.add (to_double t)) (double.finite 0)

/-- The sum of the squares of the values of a list, each square and each
partial sum rounded to binary64. -/
def sum_sq64 (ts : List ℚ) : double :=
  ts.foldl (fun acc t => acc.add ((to_double t).mul (to_double t))) (double.finite 0)

/-- The mean of a list of values computed in binary64: the sum divided by the
number of values. -/
def mean64 (ts : List ℚ) : double :=
  (sum64 ts).div (to_double ts.length)

/-- Three times the population standard deviation of a list of values
computed in binary64: the square root of the mean of the squares minus the
square of the mean, times 3.  It is a NaN when the rounded difference is
negative. -/
def sigma3_64 (ts : List ℚ) : double :=
  ((((sum_sq64 ts).div (to_double ts.length)).sub ((mean64 ts).mul (mean64 ts))).sqrt).mul
    (to_double 3)

/-! ## Example configurations -/

/-- The constants used in the examples: 128 header slots, keys of at most
127 characters, `unsigned long` of 64 bits. -/
def example_consts : CONSTS :=
  { MAXHEADERS := 128, KEY_SIZE := 127, LAST_URL_SIZE := 128, LAST_USER_SIZE := 64,
    ULONG_BITS := 64, LB_INFO_SIZE := 128, RESCALE_MAX := 32000, RESCALE_MIN := 8000,
    RESCALE_BOT := 4000 }

/-- A service with IP sessions, one back-end of priority 1, an emergency
back-end and a session of client "1" bound to the back-end. -/
def example_ip_svc : SERVICE :=
  { backends := [{ priority := 1 }],
    emergency := some {},
    abs_pri := 1, tot_pri := 1,
    sess_type := SESS_TYPE.SESS_IP, sess_ttl := 300,
    sessions := [{ key := [49], content := { be := some (BE_PTR.list 0), key := some [49] },
                   last_acc := 0 }] }

/-- A service with IP sessions (TTL 300), two back-ends of priority 1, both
alive, and an empty session table. -/
def example_two_svc : SERVICE :=
  { backends := [{ priority := 1 }, { priority := 1 }],
    abs_pri := 2, tot_pri := 2,
    sess_type := SESS_TYPE.SESS_IP, sess_ttl := 300 }

/-- The client address "10.0.0.5". -/
def example_client : CString :=
  [49, 48, 46, 48, 46, 48, 46, 53]

/-- The service `example_two_svc` after a first request of the client
"10.0.0.5" at time 10 with the draw 1: the client is bound to back-end 1. -/
def example_bound_svc : SERVICE :=
  (get_backend example_consts example_two_svc example_client [47] [none] [] 1 10).svc

/-- The node of the client in the table of `example_bound_svc`. -/
def example_bound_node : TABNODE :=
  { key := example_client,
    content := { be := some (BE_PTR.list 1), key := some example_client, first_acc := 10,
                 n_requests := 1, last_ip := some example_client, last_url := [47] },
    last_acc := 10 }

/-- A service whose only back-end, of priority 5, is configured disabled:
`tot_pri` is 0. -/
def example_off_svc : SERVICE :=
  { backends := [{ priority := 5, disabled := 1 }], abs_pri := 5, tot_pri := 0 }

/-- A back-end of priority 5 that has answered 8000 requests with the given
average time. -/
def example_timed_be (t_average : ℚ) : BACKEND :=
  { priority := 5, n_requests := 8000, t_requests := 8000 * t_average,
    t_average := t_average }

/-- The request line "/a?sid=lk". -/
def example_sid_request : CString :=
  [47, 97, 63, 115, 105, 100, 61, 108, 107]

/-- The pattern `[?&]sid=` on the request line "/a?sid=lk": it matches the
characters 2 to 7. -/
def example_sid_start : regex_t :=
  fun s => if s = example_sid_request then some [{ rm_so := 2, rm_eo := 7 }] else none

/-- The pattern `([^&;#]*)` on a text without the characters it excludes: the
whole text is the match and the first group. -/
def example_sid_pat : regex_t :=
  fun s => some [{ rm_so := 0, rm_eo := s.length }, { rm_so := 0, rm_eo := s.length }]

/-- A service with dynamic rescaling and eleven back-ends of priority 5, all
alive and enabled: ten answer in 1 second on average, the last one in 100
seconds.  `abs_pri` and `tot_pri` are 55.  Sessions are by the URL parameter
`sid`, with consistent hashing (negative TTL). -/
def example_rescale_svc : SERVICE :=
  { backends := List.replicate 10 (example_timed_be 1) ++ [example_timed_be 100],
    abs_pri := 55, tot_pri := 55, dynscale := 1,
    sess_type := SESS_TYPE.SESS_URL, sess_ttl := -1,
    sess_start := example_sid_start, sess_pat := example_sid_pat }

/-- A service with IP sessions, TTL 10 and death TTL 100, and three entries:
"a", last accessed at time 45; "b", tombstoned, last accessed at time 0; "c",
last accessed at time 0. -/
def example_expire_svc : SERVICE :=
  { backends := [{ priority := 1 }], abs_pri := 1, tot_pri := 1,
    sess_type := SESS_TYPE.SESS_IP, sess_ttl := 10, death_ttl := 100,
    sessions :=
      [{ key := [97], content := { be := some (BE_PTR.list 0), key := some [97] },
         last_acc := 45 },
       { key := [98], content := { be := some (BE_PTR.list 0), key := some [98],
                                   delete_pending := 1 },
         last_acc := 0 },
       { key := [99], content := { be := some (BE_PTR.list 0), key := some [99] },
         last_acc := 0 }] }

/-- The request header "Cookie: sid=X". -/
def example_cookie_X : CString :=
  [67, 111, 111, 107, 105, 101, 58, 32, 115, 105, 100, 61, 88]

/-- The response header "Set-Cookie: sid=Y". -/
def example_setcookie_Y : CString :=
  [83, 101, 116, 45, 67, 111, 111, 107, 105, 101, 58, 32, 115, 105, 100, 61, 89]

/-- The response header "X-End: 1". -/
def example_end_header : CString :=
  [88, 45, 69, 110, 100, 58, 32, 49]

/-- The pattern `Cookie[^:]*:.*[ \t]sid=` on the two cookie headers of the
examples: the match ends after `sid=`. -/
def example_cookie_start : regex_t :=
  fun s =>
    if s = example_cookie_X then some [{ rm_so := 0, rm_eo := 12 }]
    else if s = example_setcookie_Y then some [{ rm_so := 4, rm_eo := 16 }]
    else none

/-- The pattern `X-End:` on the headers of the examples. -/
def example_end_pat : regex_t :=
  fun s => if s = example_end_header then some [{ rm_so := 0, rm_eo := 6 }] else none

/-- A service with cookie sessions on the cookie `sid` (TTL 3600, death TTL
0), the end-of-session header `X-End`, one back-end of priority 1, and the
session "X" bound to it. -/
def example_cookie_svc : SERVICE :=
  { backends := [{ priority := 1 }], abs_pri := 1, tot_pri := 1,
    sess_type := SESS_TYPE.SESS_COOKIE, sess_ttl := 3600, death_ttl := 0,
    sess_start := example_cookie_start, sess_pat := example_sid_pat,
    sess_end_hdr := 1, sess_end := example_end_pat,
    sessions := [{ key := [88], content := { be := some (BE_PTR.list 0), key := some [88] },
                   last_acc := 0 }] }

/-- The response header "X-LB: abc def". -/
def example_lb_header : CString :=
  [88, 45, 76, 66, 58, 32, 97, 98, 99, 32, 100, 101, 102]

/-- The pattern `X-LB:[ \t]*([^ \t]*)`, as `parse_service` builds it for
`LBInfoHeader "X-LB"`, on the header "X-LB: abc def": the match is "X-LB: abc"
and its first group is "abc", the characters 6 to 9. -/
def example_lb_pat : regex_t :=
  fun s =>
    if s = example_lb_header then some [{ rm_so := 0, rm_eo := 9 }, { rm_so := 6, rm_eo := 9 }]
    else none

/-- The service `example_ip_svc` with the LB-info header `X-LB`. -/
def example_lb_svc : SERVICE :=
  { example_ip_svc with lbinfo := [{ pat := example_lb_pat }] }

/-- The request header "Cookie: be=b". -/
def example_be_cookie : CString :=
  [67, 111, 111, 107, 105, 101, 58, 32, 98, 101, 61, 98]

/-- The pattern `Cookie[^:]*:.*[; \t]be="?([^";]*)"?`, as `parse_service`
builds it for the back-end cookie `be`, on the header "Cookie: be=b": the
match is the whole line and its first group is "b". -/
def example_be_pat : regex_t :=
  fun s =>
    if s = example_be_cookie then
      some [{ rm_so := 0, rm_eo := 12 }, { rm_so := 11, rm_eo := 12 }]
    else none

/-- A service with IP sessions of the given TTL, the back-end cookie `be` and
two back-ends of priority 1 with the keys "a" and "b". -/
def example_bekey_svc (sess_ttl : Int) : SERVICE :=
  { backends := [{ priority := 1, bekey := some [97] }, { priority := 1, bekey := some [98] }],
    abs_pri := 2, tot_pri := 2, sess_type := SESS_TYPE.SESS_IP, sess_ttl := sess_ttl,
    becookie := some [98, 101], becookie_match := example_be_pat }

/-- The service `example_bekey_svc 300` after the operator has disabled its
second back-end, the one with the key "b": `tot_pri` is 1. -/
def example_bekey_off_svc : SERVICE :=
  kill_be (example_bekey_svc 300) (some (BE_PTR.list 1)) BE_MODE.BE_DISABLE

/-- A service with dynamic scaling and three back-ends of priority 5 that are
alive and enabled and have answered 8000 requests each, with the average times
0.01, 0.01 and 0.10; `abs_pri` and `tot_pri` are 15. -/
def example_three_svc : SERVICE :=
  { backends := [example_timed_be (1 / 100), example_timed_be (1 / 100),
      example_timed_be (1 / 10)],
    abs_pri := 15, tot_pri := 15, dynscale := 1 }

/-- A service with dynamic scaling and eleven back-ends of priority 5, alive
and enabled, with 8000 requests each: nine answer in 1 second on average, one
in 2 seconds and the last one in 5 seconds. -/
def example_pop_svc : SERVICE :=
  { backends := List.replicate 9 (example_timed_be 1) ++
      [example_timed_be 2, example_timed_be 5],
    abs_pri := 55, tot_pri := 55, dynscale := 1 }

/-- Three sessions on the pending-free list, at the addresses 1, 2 and 3 in
this order; the mutex of the second one is held. -/
def example_pending_heap : PHEAP :=
  { head := some 1,
    mem := fun a =>
      if a = 1 then some { next := some 2, mut_busy := false }
      else if a = 2 then some { next := some 3, mut_busy := true }
      else if a = 3 then some { next := none, mut_busy := false }
      else none,
    freed := [] }

/-- The pattern `(http|https)://([^/]+)(.*)` on a value that starts with a
scheme in lower case: the whole match, the scheme, the authority up to the
first slash, and the rest. -/
def example_LOCATION : regex_t := fun s =>
  let n : Nat := if s.take 8 = str_https ++ [58, 47, 47] then 5
    else if s.take 7 = str_http ++ [58, 47, 47] then 4 else 0
  let auth := ((s.drop (n + 3)).takeWhile (fun ch => ch ≠ 47)).length
  if n = 0 ∨ auth = 0 then none
  else some [{ rm_so := 0, rm_eo := s.length }, { rm_so := 0, rm_eo := n },
    { rm_so := n + 3, rm_eo := n + 3 + auth }, { rm_so := n + 3 + auth, rm_eo := s.length }]

/-- The text "10.0.0.1". -/
def example_host_1 : CString := [49, 48, 46, 48, 46, 48, 46, 49]

/-- The text "10.0.0.9". -/
def example_host_9 : CString := [49, 48, 46, 48, 46, 48, 46, 57]

/-- A resolver that knows the numeric hosts 10.0.0.1 and 10.0.0.9. -/
def example_getaddrinfo : RESOLVER := fun name =>
  if name = example_host_1 then
    some [{ stream := true, addr := { family := AF.AF_INET, addr := [10, 0, 0, 1], port := 0 } }]
  else if name = example_host_9 then
    some [{ stream := true, addr := { family := AF.AF_INET, addr := [10, 0, 0, 9], port := 0 } }]
  else none

/-- The plain listener at 10.0.0.1:80. -/
def example_listener_http : LISTENER :=
  { addr := { family := AF.AF_INET, addr := [10, 0, 0, 1], port := 80 }, ctx := false }

/-- The TLS listener at 10.0.0.1:443. -/
def example_listener_https : LISTENER :=
  { addr := { family := AF.AF_INET, addr := [10, 0, 0, 1], port := 443 }, ctx := true }

/-- The back-end at 10.0.0.9:8080. -/
def example_rewrite_be : BACKEND :=
  { addr := { family := AF.AF_INET, addr := [10, 0, 0, 9], port := 8080 } }

/-- A global service. -/
def example_global_svc : SERVICE :=
  { global := 1 }

/-- The header value "http://10.0.0.9:8080/x". -/
def example_location_be : CString :=
  [104, 116, 116, 112, 58, 47, 47, 49, 48, 46, 48, 46, 48, 46, 57, 58, 56, 48, 56, 48, 47, 120]

/-- The header value "https://10.0.0.1:80/x". -/
def example_location_https80 : CString :=
  [104, 116, 116, 112, 115, 58, 47, 47, 49, 48, 46, 48, 46, 48, 46, 49, 58, 56, 48, 47, 120]

/-- The header value "http://10.0.0.1:443/x". -/
def example_location_http443 : CString :=
  [104, 116, 116, 112, 58, 47, 47, 49, 48, 46, 48, 46, 48, 46, 49, 58, 52, 52, 51, 47, 120]

/-- The service `example_cookie_svc` with its back-end disabled, so that
`tot_pri` is 0, and an emergency back-end. -/
def example_cookie_em_svc : SERVICE :=
  { example_cookie_svc with
    backends := [{ priority := 1, disabled := 1 }], tot_pri := 0, emergency := some {} }

/-- A service with dynamic scaling and ten back-ends of priority 5, alive and
enabled, with 8000 requests each: nine answer in 1 second on average and one
in 2 seconds. -/
def example_ten_svc : SERVICE :=
  { backends := List.replicate 9 (example_timed_be 1) ++ [example_timed_be 2],
    abs_pri := 50, tot_pri := 50, dynscale := 1 }

/-- A service with dynamic scaling and three back-ends of priority 5, alive
and enabled, with 8000 requests each and the same average time, the binary64
number nearest to 0.837. -/
def example_same_svc : SERVICE :=
  { backends := List.replicate 3 (example_timed_be (3769512888109105 / 4503599627370496)),
    abs_pri := 15, tot_pri := 15, dynscale := 1 }

/-- Four back-ends of priority 1, the second of them dead. -/
def example_four_backends : List BACKEND :=
  [{ priority := 1 }, { priority := 1, alive := 0 }, { priority := 1 }, { priority := 1 }]

/-- A service with URL sessions in consistent-hash mode (negative TTL) and
four back-ends of priority 1, all alive. -/
def example_hash_svc : SERVICE :=
  { backends := [{ priority := 1 }, { priority := 1 }, { priority := 1 }, { priority := 1 }],
    abs_pri := 4, tot_pri := 4,
    sess_type := SESS_TYPE.SESS_URL, sess_ttl := -1 }

/-- The service `example_ip_svc` after the operator has disabled its
back-end: `tot_pri` is 0 and the session is still in the table. -/
def example_disabled_svc : SERVICE :=
  kill_be example_ip_svc (some (BE_PTR.list 0)) BE_MODE.BE_DISABLE

/-! ## Service selection: proofs -/

theorem header_found_slots (pat : regex_t) (slots : List (Option CString)) :
    header_found pat slots = true ↔
      ∃ (k : Nat) (h : CString), slots[k]? = some (some h) ∧ regexec pat h = true ∧
        ∀ j : Nat, j < k → ∃ l : CString, slots[j]? = some (some l) := by
  induction slots with
  | nil => simp [header_found]
  | cons s rest ih =>
    cases s with
    | none =>
      simp only [header_found, Bool.false_eq_true, false_iff]
      rintro ⟨k, h, hk, -, hall⟩
      cases k with
      | zero => simp at hk
      | succ k =>
        obtain ⟨l, hl⟩ := hall 0 (Nat.succ_pos k)
        simp at hl
    | some h0 =>
      simp only [header_found]
      by_cases hm : regexec pat h0 = true
      · simp only [hm, if_true, true_iff]
        exact ⟨0, h0, by simp, hm, fun j hj => absurd hj (Nat.not_lt_zero j)⟩
      · simp only [hm, if_false, Bool.false_eq_true]
        rw [ih]
        constructor
        · rintro ⟨k, h, hk, hr, hall⟩
          refine ⟨k + 1, h, by simpa using hk, hr, ?_⟩
          intro j hj
          cases j with
          | zero => exact ⟨h0, by simp⟩
          | succ j => simpa using hall j (Nat.lt_of_succ_lt_succ hj)
        · rintro ⟨k, h, hk, hr, hall⟩
          cases k with
          | zero =>
            simp at hk
            subst hk
            exact absurd hr hm
          | succ k =>
            refine ⟨k, h, by simpa using hk, hr, ?_⟩
            intro j hj
            simpa using hall (j + 1) (Nat.succ_lt_succ hj)

theorem header_slots_get (MAXHEADERS : Nat) (headers : List (Option CString))
    (k : Nat) (x : Option CString) :
    (header_slots MAXHEADERS headers)[k]? = some x ↔
      k + 1 < MAXHEADERS ∧ headers[k + 1]? = some x := by
  unfold header_slots
  rw [List.getElem?_drop, List.getElem?_take]
  simp only [Nat.add_comm 1 k]
  by_cases hk : k + 1 < MAXHEADERS
  · simp [hk]
  · simp [hk]

theorem header_found_iff (MAXHEADERS : Nat) (pat : regex_t)
    (headers : List (Option CString)) :
    header_found pat (header_slots MAXHEADERS headers) = true ↔
      ∃ h, is_header_line MAXHEADERS headers h ∧ regexec pat h = true := by
  rw [header_found_slots]
  constructor
  · rintro ⟨k, h, hk, hr, hall⟩
    rw [header_slots_get] at hk
    refine ⟨h, ⟨k + 1, Nat.succ_pos k |> Nat.succ_le_of_lt, hk.1, hk.2, ?_⟩, hr⟩
    intro j hj1 hjk
    obtain ⟨l, hl⟩ := hall (j - 1) (by omega)
    rw [header_slots_get] at hl
    refine ⟨l, ?_⟩
    have : j - 1 + 1 = j := by omega
    rw [this] at hl
    exact hl.2
  · rintro ⟨h, ⟨i, hi1, hiM, hget, hall⟩, hr⟩
    refine ⟨i - 1, h, ?_, hr, ?_⟩
    · rw [header_slots_get]
      have : i - 1 + 1 = i := by omega
      rw [this]
      exact ⟨hiM, hget⟩
    · intro j hj
      obtain ⟨l, hl⟩ := hall (j + 1) (by omega) (by omega)
      refine ⟨l, ?_⟩
      rw [header_slots_get]
      exact ⟨by omega, hl⟩

theorem check_url_iff (request : CString) (ms : List MATCHER) :
    check_url request ms = true ↔ ∀ m ∈ ms, regexec m.pat request = true := by
  induction ms with
  | nil => simp [check_url]
  | cons m rest ih =>
    simp only [check_url, List.mem_cons, forall_eq_or_imp]
    by_cases hm : regexec m.pat request = true
    · simp [hm, ih]
    · simp [hm]

theorem check_req_head_iff (slots : List (Option CString)) (ms : List MATCHER) :
    check_req_head slots ms = true ↔ ∀ m ∈ ms, header_found m.pat slots = true := by
  induction ms with
  | nil => simp [check_req_head]
  | cons m rest ih =>
    simp only [check_req_head, List.mem_cons, forall_eq_or_imp]
    by_cases hm : header_found m.pat slots = true
    · simp [hm, ih]
    · simp [hm]

theorem check_deny_head_iff (slots : List (Option CString)) (ms : List MATCHER) :
    check_deny_head slots ms = true ↔ ∀ m ∈ ms, ¬ header_found m.pat slots = true := by
  induction ms with
  | nil => simp [check_deny_head]
  | cons m rest ih =>
    simp only [check_deny_head, List.mem_cons, forall_eq_or_imp]
    by_cases hm : header_found m.pat slots = true
    · simp [hm]
    · simp [hm, ih]

/-- Claim C2: `match_service` returns 1 exactly when every URL matcher matches
the request line, every required-header matcher matches at least one header
line (slots 1 onwards, up to the first null entry or `MAXHEADERS`) and no
forbidden-header matcher matches any header line; a service whose three
matcher lists are empty matches every request. -/
theorem match_service_spec (MAXHEADERS : Nat) (svc : SERVICE) (request : CString)
    (headers : List (Option CString)) :
    (match_service MAXHEADERS svc request headers = true ↔
      (∀ m ∈ svc.url, regexec m.pat request = true) ∧
      (∀ m ∈ svc.req_head,
        ∃ h, is_header_line MAXHEADERS headers h ∧ regexec m.pat h = true) ∧
      (∀ m ∈ svc.deny_head,
        ¬ ∃ h, is_header_line MAXHEADERS headers h ∧ regexec m.pat h = true)) ∧
    (svc.url = [] → svc.req_head = [] → svc.deny_head = [] →
      match_service MAXHEADERS svc request headers = true) := by
  have key : match_service MAXHEADERS svc request headers = true ↔
      (∀ m ∈ svc.url, regexec m.pat request = true) ∧
      (∀ m ∈ svc.req_head,
        ∃ h, is_header_line MAXHEADERS headers h ∧ regexec m.pat h = true) ∧
      (∀ m ∈ svc.deny_head,
        ¬ ∃ h, is_header_line MAXHEADERS headers h ∧ regexec m.pat h = true) := by
    have h1 := check_url_iff request svc.url
    have h2 := check_req_head_iff (header_slots MAXHEADERS headers) svc.req_head
    have h3 := check_deny_head_iff (header_slots MAXHEADERS headers) svc.deny_head
    simp only [header_found_iff] at h2 h3
    rw [← h1, ← h2, ← h3]
    unfold match_service
    cases check_url request svc.url <;>
      cases check_req_head (header_slots MAXHEADERS headers) svc.req_head <;>
      cases check_deny_head (header_slots MAXHEADERS headers) svc.deny_head <;> simp
  refine ⟨key, ?_⟩
  intro hu hr hd
  rw [key, hu, hr, hd]
  simp

theorem match_service_spec_witness :
    match_service 4 {} [47] [none] = true :=
  (match_service_spec 4 {} [47] [none]).2 rfl rfl rfl

theorem scan_services_step (MAXHEADERS : Nat) (request : CString)
    (headers : List (Option CString)) (svc : SERVICE) (rest : List SERVICE) :
    scan_services MAXHEADERS request headers (svc :: rest) =
      if svc.disabled = 0 ∧ match_service MAXHEADERS svc request headers = true
      then some 0
      else (scan_services MAXHEADERS request headers rest).map (· + 1) := by
  simp only [scan_services]
  by_cases hd : svc.disabled = 0
  · by_cases hm : match_service MAXHEADERS svc request headers = true
    · simp [hd, hm]
    · simp [hd, hm]
  · simp [hd]

theorem scan_services_none (MAXHEADERS : Nat) (request : CString)
    (headers : List (Option CString)) (l : List SERVICE) :
    scan_services MAXHEADERS request headers l = none ↔
      ∀ s ∈ l, ¬ eligible MAXHEADERS request headers s := by
  induction l with
  | nil => simp [scan_services]
  | cons svc rest ih =>
    rw [scan_services_step]
    simp only [List.mem_cons, forall_eq_or_imp]
    by_cases he : svc.disabled = 0 ∧ match_service MAXHEADERS svc request headers = true
    · simp only [he, and_self, if_true]
      constructor
      · intro h
        cases h
      · intro h
        exact absurd he h.1
    · rw [if_neg he, Option.map_eq_none', ih]
      constructor
      · intro h
        exact ⟨he, h⟩
      · intro h
        exact h.2

theorem scan_services_some (MAXHEADERS : Nat) (request : CString)
    (headers : List (Option CString)) (l : List SERVICE) (i : Nat) :
    scan_services MAXHEADERS request headers l = some i ↔
      first_eligible MAXHEADERS request headers l i := by
  induction l generalizing i with
  | nil => simp [scan_services, first_eligible]
  | cons svc rest ih =>
    rw [scan_services_step]
    by_cases he : svc.disabled = 0 ∧ match_service MAXHEADERS svc request headers = true
    · rw [if_pos he]
      constructor
      · intro h
        have hi : i = 0 := by
          cases h
          rfl
        subst hi
        exact ⟨⟨svc, by simp, he⟩, fun k t hk => absurd hk (Nat.not_lt_zero k)⟩
      · rintro ⟨-, hfirst⟩
        cases i with
        | zero => rfl
        | succ i => exact absurd he (hfirst 0 svc (Nat.succ_pos i) (by simp))
    · rw [if_neg he]
      cases i with
      | zero =>
        constructor
        · intro h
          simp at h
        · rintro ⟨⟨s, hs, hel⟩, -⟩
          simp at hs
          subst hs
          exact absurd hel he
      | succ i =>
        have hmap : Option.map (· + 1) (scan_services MAXHEADERS request headers rest) =
            some (i + 1) ↔ scan_services MAXHEADERS request headers rest = some i := by
          cases scan_services MAXHEADERS request headers rest <;> simp
        rw [hmap, ih]
        constructor
        · rintro ⟨⟨s, hs, hel⟩, hfirst⟩
          refine ⟨⟨s, by simpa using hs, hel⟩, ?_⟩
          intro k t hk hget
          cases k with
          | zero =>
            simp at hget
            subst hget
            exact he
          | succ k =>
            exact hfirst k t (Nat.lt_of_succ_lt_succ hk) (by simpa using hget)
        · rintro ⟨⟨s, hs, hel⟩, hfirst⟩
          refine ⟨⟨s, by simpa using hs, hel⟩, ?_⟩
          intro k t hk hget
          exact hfirst (k + 1) t (Nat.succ_lt_succ hk) (by simpa using hget)

/-- Claim C1: `get_service` returns the first service, in declaration order
over the listener's services followed by the global services, that is not
disabled and that `match_service` accepts, and null exactly when there is no
such service; the service returned is never disabled, and is one of the
listener's whenever one of the listener's is eligible. -/
theorem get_service_spec (MAXHEADERS : Nat) (services : List SERVICE)
    (lstn : LISTENER) (request : CString) (headers : List (Option CString)) :
    (∀ i, get_service MAXHEADERS services lstn request headers = some (SVC_PTR.lstn i) ↔
      first_eligible MAXHEADERS request headers lstn.services i) ∧
    (∀ j, get_service MAXHEADERS services lstn request headers = some (SVC_PTR.glob j) ↔
      (∀ s ∈ lstn.services, ¬ eligible MAXHEADERS request headers s) ∧
        first_eligible MAXHEADERS request headers services j) ∧
    (get_service MAXHEADERS services lstn request headers = none ↔
      ∀ s ∈ lstn.services ++ services, ¬ eligible MAXHEADERS request headers s) ∧
    (∀ p, get_service MAXHEADERS services lstn request headers = some p →
      ∃ s, deref_svc services lstn p = some s ∧ s.disabled = 0 ∧
        match_service MAXHEADERS s request headers = true) ∧
    ((∃ s ∈ lstn.services, eligible MAXHEADERS request headers s) →
      ∃ i, get_service MAXHEADERS services lstn request headers = some (SVC_PTR.lstn i)) := by
  have hL := scan_services_some MAXHEADERS request headers lstn.services
  have hG := scan_services_some MAXHEADERS request headers services
  have hLn := scan_services_none MAXHEADERS request headers lstn.services
  have hGn := scan_services_none MAXHEADERS request headers services
  unfold get_service
  cases hl : scan_services MAXHEADERS request headers lstn.services with
  | some i0 =>
    have hfe := (hL i0).1 hl
    simp only [hl] at hL
    refine ⟨?_, ?_, ?_, ?_, ?_⟩
    · intro i
      simp only [Option.some.injEq, SVC_PTR.lstn.injEq]
      rw [← hL i, Option.some.injEq]
    · intro j
      simp only [Option.some.injEq]
      constructor
      · intro h
        cases h
      · rintro ⟨hno, -⟩
        obtain ⟨⟨s, hs, hel⟩, -⟩ := hfe
        exact absurd hel (hno s (List.getElem?_mem hs))
    · simp only [List.mem_append]
      constructor
      · intro h
        cases h
      · intro hno
        obtain ⟨⟨s, hs, hel⟩, -⟩ := hfe
        exact absurd hel (hno s (Or.inl (List.getElem?_mem hs)))
    · intro p hp
      simp only [Option.some.injEq] at hp
      subst hp
      obtain ⟨⟨s, hs, hel⟩, -⟩ := hfe
      exact ⟨s, hs, hel.1, hel.2⟩
    · intro _
      exact ⟨i0, rfl⟩
  | none =>
    have hnoL := hLn.1 hl
    simp only [hl] at hL
    cases hg : scan_services MAXHEADERS request headers services with
    | some j0 =>
      have hfe := (hG j0).1 hg
      simp only [hg] at hG
      refine ⟨?_, ?_, ?_, ?_, ?_⟩
      · intro i
        simp only [Option.some.injEq]
        constructor
        · intro h
          cases h
        · intro h
          exact absurd ((hL i).2 h) (by simp)
      · intro j
        simp only [Option.some.injEq, SVC_PTR.glob.injEq]
        constructor
        · intro h
          exact ⟨hnoL, (hG j).1 (by rw [h])⟩
        · rintro ⟨-, h⟩
          exact Option.some.inj ((hG j).2 h)
      · simp only [List.mem_append]
        constructor
        · intro h
          cases h
        · intro hno
          obtain ⟨⟨s, hs, hel⟩, -⟩ := hfe
          exact absurd hel (hno s (Or.inr (List.getElem?_mem hs)))
      · intro p hp
        simp only [Option.some.injEq] at hp
        subst hp
        obtain ⟨⟨s, hs, hel⟩, -⟩ := hfe
        exact ⟨s, hs, hel.1, hel.2⟩
      · rintro ⟨s, hs, hel⟩
        exact absurd hel (hnoL s hs)
    | none =>
      have hnoG := hGn.1 hg
      simp only [hg] at hG
      refine ⟨?_, ?_, ?_, ?_, ?_⟩
      · intro i
        constructor
        · intro h
          cases h
        · intro h
          exact absurd ((hL i).2 h) (by simp)
      · intro j
        constructor
        · intro h
          cases h
        · rintro ⟨-, h⟩
          exact absurd ((hG j).2 h) (by simp)
      · simp only [List.mem_append, true_iff]
        rintro s (hs | hs)
        · exact hnoL s hs
        · exact hnoG s hs
      · intro p hp
        cases hp
      · rintro ⟨s, hs, hel⟩
        exact absurd hel (hnoL s hs)

theorem get_service_spec_witness :
    ∃ i, get_service 4 [{}] { services := [{ disabled := 1 }, {}] } [47] [none] =
      some (SVC_PTR.lstn i) :=
  (get_service_spec 4 [{}] { services := [{ disabled := 1 }, {}] } [47] [none]).2.2.2.2
    ⟨{}, by simp, rfl, rfl⟩

/-! ## Weighted random selection: proofs -/

theorem sum_avail_cons (b : BACKEND) (l : List BACKEND) :
    sum_avail (b :: l) = (if avail b then b.priority else 0) + sum_avail l := by
  unfold sum_avail
  simp only [List.filter_cons]
  by_cases h : avail b
  · simp [h]
  · simp [h]

theorem sum_pri_cons (b : BACKEND) (l : List BACKEND) :
    sum_pri (b :: l) = b.priority + sum_pri l := by
  simp [sum_pri]

theorem rand_backend_step (b : BACKEND) (rest : List BACKEND) (pri : Int) :
    rand_backend (b :: rest) pri =
      if avail b then
        if pri < b.priority then some 0
        else (rand_backend rest (pri - b.priority)).map (· + 1)
      else (rand_backend rest pri).map (· + 1) := by
  simp only [rand_backend, avail]
  by_cases ha : b.alive = 0
  · simp [ha]
  · by_cases hd : b.disabled = 0
    · have hlt : pri - b.priority < 0 ↔ pri < b.priority := by omega
      simp [ha, hd, hlt]
    · simp [ha, hd]

theorem map_succ_eq_some (x : Option Nat) (i : Nat) :
    x.map (· + 1) = some (i + 1) ↔ x = some i := by
  cases x <;> simp

theorem map_succ_ne_zero (x : Option Nat) : x.map (· + 1) ≠ some 0 := by
  cases x <;> simp

theorem rand_backend_first (bes : List BACKEND) (r : Int) (hr0 : 0 ≤ r)
    (hr : r < sum_avail bes) :
    ∃ i b, rand_backend bes r = some i ∧ bes[i]? = some b ∧ avail b ∧
      r < sum_avail (bes.take (i + 1)) ∧
      ∀ j bj, j < i → bes[j]? = some bj → avail bj → sum_avail (bes.take (j + 1)) ≤ r := by
  induction bes generalizing r with
  | nil =>
    exfalso
    simp only [sum_avail, List.filter_nil, List.map_nil, List.sum_nil] at hr
    omega
  | cons b rest ih =>
    rw [rand_backend_step]
    rw [sum_avail_cons] at hr
    by_cases ha : avail b
    · simp only [ha, if_true] at hr ⊢
      by_cases hlt : r < b.priority
      · refine ⟨0, b, by simp [hlt], by simp, ha, ?_, ?_⟩
        · simp only [Nat.zero_add, List.take_succ_cons, List.take_zero, sum_avail_cons, ha,
            if_true]
          simp only [sum_avail, List.filter_nil, List.map_nil, List.sum_nil]
          omega
        · intro j bj hj
          exact absurd hj (Nat.not_lt_zero j)
      · obtain ⟨i, bi, hres, hget, hav, hcum, hfirst⟩ :=
          ih (r - b.priority) (by omega) (by omega)
        refine ⟨i + 1, bi, by simp [hlt, hres], by simpa using hget, hav, ?_, ?_⟩
        · simp only [List.take_succ_cons, sum_avail_cons, ha, if_true]
          omega
        · intro j bj hj hgetj havj
          cases j with
          | zero =>
            simp only [Nat.zero_add, List.take_succ_cons, List.take_zero, sum_avail_cons, ha,
              if_true]
            simp only [sum_avail, List.filter_nil, List.map_nil, List.sum_nil]
            omega
          | succ j =>
            have := hfirst j bj (Nat.lt_of_succ_lt_succ hj) (by simpa using hgetj) havj
            simp only [List.take_succ_cons, sum_avail_cons, ha, if_true]
            omega
    · simp only [ha, if_false, Int.zero_add] at hr ⊢
      obtain ⟨i, bi, hres, hget, hav, hcum, hfirst⟩ := ih r hr0 hr
      refine ⟨i + 1, bi, by simp [hres], by simpa using hget, hav, ?_, ?_⟩
      · simp only [List.take_succ_cons, sum_avail_cons, ha, if_false, Int.zero_add]
        exact hcum
      · intro j bj hj hgetj havj
        cases j with
        | zero =>
          simp only [List.getElem?_cons_zero, Option.some.injEq] at hgetj
          subst hgetj
          exact absurd havj ha
        | succ j =>
          have := hfirst j bj (Nat.lt_of_succ_lt_succ hj) (by simpa using hgetj) havj
          simp only [List.take_succ_cons, sum_avail_cons, ha, if_false, Int.zero_add]
          exact this

/-- Claim C5: for `0 ≤ r < tot_pri`, `tot_pri` being the sum of the priorities
of the alive, non-disabled back-ends, `rand_backend` returns the first alive,
non-disabled back-end, in declaration order, at which the cumulative priority
of the alive, non-disabled back-ends walked so far exceeds `r`; the result is
not null and is neither dead nor disabled. -/
theorem rand_backend_spec (backends : List BACKEND) (r : Int)
    (hpri : ∀ b ∈ backends, 1 ≤ b.priority) (hr0 : 0 ≤ r)
    (hr : r < sum_avail backends) :
    ∃ i b, rand_backend backends r = some i ∧ backends[i]? = some b ∧
      b.alive ≠ 0 ∧ b.disabled = 0 ∧
      r < sum_avail (backends.take (i + 1)) ∧
      ∀ j bj, j < i → backends[j]? = some bj → bj.alive ≠ 0 ∧ bj.disabled = 0 →
        sum_avail (backends.take (j + 1)) ≤ r := by
  have _ := hpri
  obtain ⟨i, b, hres, hget, hav, hcum, hfirst⟩ := rand_backend_first backends r hr0 hr
  exact ⟨i, b, hres, hget, hav.1, hav.2, hcum, hfirst⟩

theorem rand_backend_spec_witness :
    ∃ i b, rand_backend [{ priority := 2, alive := 0 }, { priority := 3 }, { priority := 1 }] 3
        = some i ∧
      [({ priority := 2, alive := 0 } : BACKEND), { priority := 3 }, { priority := 1 }][i]?
        = some b ∧
      b.alive ≠ 0 ∧ b.disabled = 0 ∧
      3 < sum_avail
        (([{ priority := 2, alive := 0 }, { priority := 3 }, { priority := 1 }] :
          List BACKEND).take (i + 1)) ∧
      ∀ j bj, j < i →
        [({ priority := 2, alive := 0 } : BACKEND), { priority := 3 }, { priority := 1 }][j]?
          = some bj →
        bj.alive ≠ 0 ∧ bj.disabled = 0 →
        sum_avail
          (([{ priority := 2, alive := 0 }, { priority := 3 }, { priority := 1 }] :
            List BACKEND).take (j + 1)) ≤ 3 :=
  rand_backend_spec [{ priority := 2, alive := 0 }, { priority := 3 }, { priority := 1 }] 3
    (by decide) (by decide) (by decide)

theorem sum_pri_append (l1 l2 : List BACKEND) :
    sum_pri (l1 ++ l2) = sum_pri l1 + sum_pri l2 := by
  simp [sum_pri]

theorem sum_pri_nonneg (l : List BACKEND) (hpri : ∀ b ∈ l, 1 ≤ b.priority) :
    0 ≤ sum_pri l := by
  induction l with
  | nil => simp [sum_pri]
  | cons b rest ih =>
    rw [sum_pri_cons]
    have h1 := hpri b (List.mem_cons_self b rest)
    have h2 := ih (fun c hc => hpri c (List.mem_cons_of_mem b hc))
    omega

theorem sum_pri_take_le (l : List BACKEND) (hpri : ∀ b ∈ l, 1 ≤ b.priority) (k : Nat) :
    0 ≤ sum_pri (l.take k) ∧ sum_pri (l.take k) ≤ sum_pri l := by
  have h := sum_pri_append (l.take k) (l.drop k)
  rw [List.take_append_drop] at h
  have h1 := sum_pri_nonneg (l.take k) (fun b hb => hpri b (List.mem_of_mem_take hb))
  have h2 := sum_pri_nonneg (l.drop k) (fun b hb => hpri b (List.mem_of_mem_drop hb))
  omega

theorem sum_pri_take_succ (l : List BACKEND) (i : Nat) (b : BACKEND)
    (hi : l[i]? = some b) :
    sum_pri (l.take (i + 1)) = sum_pri (l.take i) + b.priority := by
  rw [List.take_succ, hi, sum_pri_append]
  simp [sum_pri]

theorem rand_backend_all_avail (bes : List BACKEND) (r : Int) (i : Nat)
    (hall : ∀ b ∈ bes, avail b) (hpri : ∀ b ∈ bes, 1 ≤ b.priority) (hr0 : 0 ≤ r) :
    rand_backend bes r = some i ↔
      ∃ b, bes[i]? = some b ∧ sum_pri (bes.take i) ≤ r ∧ r < sum_pri (bes.take (i + 1)) := by
  induction bes generalizing r i with
  | nil => simp [rand_backend]
  | cons b rest ih =>
    have hb := hall b (List.mem_cons_self b rest)
    have hp := hpri b (List.mem_cons_self b rest)
    have hall1 : ∀ c ∈ rest, avail c := fun c hc => hall c (List.mem_cons_of_mem b hc)
    have hpri1 : ∀ c ∈ rest, 1 ≤ c.priority := fun c hc => hpri c (List.mem_cons_of_mem b hc)
    rw [rand_backend_step]
    simp only [hb, if_true]
    cases i with
    | zero =>
      simp only [List.getElem?_cons_zero, Option.some.injEq, exists_eq_left, List.take_zero,
        Nat.zero_add, List.take_succ_cons, sum_pri_cons]
      have h0 : sum_pri ([] : List BACKEND) = 0 := by simp [sum_pri]
      rw [h0]
      by_cases hlt : r < b.priority
      · simp only [hlt, if_true, true_iff]
        exact ⟨b, rfl, hr0, by omega⟩
      · simp only [hlt, if_false]
        constructor
        · intro h
          exact absurd h (map_succ_ne_zero _)
        · rintro ⟨c, -, -, h⟩
          omega
    | succ i =>
      simp only [List.getElem?_cons_succ, List.take_succ_cons, sum_pri_cons]
      by_cases hlt : r < b.priority
      · simp only [hlt, if_true]
        constructor
        · intro h
          simp at h
        · rintro ⟨c, -, hle, -⟩
          have := (sum_pri_take_le rest hpri1 i).1
          omega
      · simp only [hlt, if_false]
        rw [map_succ_eq_some, ih (r - b.priority) i hall1 hpri1 (by omega)]
        constructor
        · rintro ⟨c, hc, h1, h2⟩
          exact ⟨c, hc, by omega, by omega⟩
        · rintro ⟨c, hc, h1, h2⟩
          exact ⟨c, hc, by omega, by omega⟩

/-- Claim C6: when every back-end is alive and none is disabled, with
priorities at least 1, the number of draws `r` in `[0, p_1 + ... + p_k)` for
which `rand_backend` returns back-end `i` is exactly the priority of that
back-end. -/
theorem rand_backend_count (backends : List BACKEND) (i : Nat) (b : BACKEND)
    (hall : ∀ c ∈ backends, c.alive ≠ 0 ∧ c.disabled = 0)
    (hpri : ∀ c ∈ backends, 1 ≤ c.priority) (hi : backends[i]? = some b) :
    (((Finset.Ico (0 : Int) (sum_pri backends)).filter
      (fun r => rand_backend backends r = some i)).card : Int) = b.priority := by
  have hset : (Finset.Ico (0 : Int) (sum_pri backends)).filter
      (fun r => rand_backend backends r = some i) =
      Finset.Ico (sum_pri (backends.take i)) (sum_pri (backends.take (i + 1))) := by
    ext r
    simp only [Finset.mem_filter, Finset.mem_Ico]
    have hlo := (sum_pri_take_le backends hpri i).1
    have hhi := (sum_pri_take_le backends hpri (i + 1)).2
    constructor
    · rintro ⟨⟨h0, -⟩, hres⟩
      obtain ⟨c, -, h1, h2⟩ := (rand_backend_all_avail backends r i hall hpri h0).1 hres
      exact ⟨h1, h2⟩
    · rintro ⟨h1, h2⟩
      refine ⟨⟨by omega, by omega⟩, ?_⟩
      exact (rand_backend_all_avail backends r i hall hpri (by omega)).2 ⟨b, hi, h1, h2⟩
  rw [hset, Int.card_Ico_of_le, sum_pri_take_succ backends i b hi]
  · omega
  · rw [sum_pri_take_succ backends i b hi]
    have := hpri b (List.getElem?_mem hi)
    omega

theorem rand_backend_count_witness :
    (((Finset.Ico (0 : Int)
        (sum_pri [{ priority := 2 }, { priority := 3 }, { priority := 1 }])).filter
      (fun r => rand_backend [{ priority := 2 }, { priority := 3 }, { priority := 1 }] r
        = some 1)).card : Int) = ({ priority := 3 } : BACKEND).priority :=
  rand_backend_count [{ priority := 2 }, { priority := 3 }, { priority := 1 }] 1
    { priority := 3 } (by decide) (by decide) rfl

/-! ## Back-end for a request: proofs -/

theorem keyed_backend_hash (c : CONSTS) (svc : SERVICE) (headers : List (Option CString))
    (key : CString) (rnd : Nat) (now : Int) (ip : Bool) (httl : svc.sess_ttl < 0) :
    keyed_backend c svc headers key rnd now ip =
      { res := if svc.tot_pri ≤ 0 then emergency_ptr svc
          else (hash_backend c.ULONG_BITS svc.backends svc.abs_pri key).map BE_PTR.list,
        key := key, sess := false, svc := svc } := by
  simp [keyed_backend, httl]

theorem keyed_backend_miss (c : CONSTS) (svc : SERVICE) (headers : List (Option CString))
    (key : CString) (rnd : Nat) (now : Int) (ip : Bool) (httl : 0 ≤ svc.sess_ttl)
    (hmiss : t_lookup svc.sessions key = none) :
    keyed_backend c svc headers key rnd now ip =
      if svc.tot_pri ≤ 0 then
        { res := emergency_ptr svc, key := key, sess := false, svc := svc }
      else
        { res := bekey_pick c svc headers rnd, key := key, sess := true,
          svc := { svc with
            sessions := t_add svc.sessions key
              { new_session key now with be := bekey_pick c svc headers rnd } now,
            misses := svc.misses + 1 } } := by
  have h : ¬ svc.sess_ttl < 0 := by omega
  simp [keyed_backend, h, t_find, hmiss]

theorem keyed_backend_hit (c : CONSTS) (svc : SERVICE) (headers : List (Option CString))
    (key : CString) (rnd : Nat) (now : Int) (ip : Bool) (httl : 0 ≤ svc.sess_ttl)
    (node : TABNODE) (hhit : t_lookup svc.sessions key = some node) :
    keyed_backend c svc headers key rnd now ip =
      { res := node.content.be, key := key, sess := true,
        svc := { svc with
          sessions := if ip then
              (t_touch svc.sessions key now).map (fun t => if t.key = key then
                { t with content := { t.content with n_requests := t.content.n_requests + 1 } }
                else t)
            else t_touch svc.sessions key now,
          hits := svc.hits + 1 } } := by
  have h : ¬ svc.sess_ttl < 0 := by omega
  simp [keyed_backend, h, t_find, hhit]

theorem keyed_backend_no_be (c : CONSTS) (svc : SERVICE) (headers : List (Option CString))
    (key : CString) (rnd : Nat) (now : Int) (ip : Bool) (htot : svc.tot_pri ≤ 0) :
    ((keyed_backend c svc headers key rnd now ip).svc.hits = svc.hits →
      (keyed_backend c svc headers key rnd now ip).res = emergency_ptr svc) ∧
    (svc.sess_ttl < 0 ∨ svc.sessions = [] →
      (keyed_backend c svc headers key rnd now ip).svc.hits = svc.hits) := by
  by_cases httl : svc.sess_ttl < 0
  · rw [keyed_backend_hash c svc headers key rnd now ip httl]
    simp [htot]
  · have httl0 : 0 ≤ svc.sess_ttl := by omega
    cases hl : t_lookup svc.sessions key with
    | none =>
      rw [keyed_backend_miss c svc headers key rnd now ip httl0 hl]
      simp [htot]
    | some node =>
      rw [keyed_backend_hit c svc headers key rnd now ip httl0 node hl]
      refine ⟨?_, ?_⟩
      · intro h
        simp only at h
        omega
      · rintro (h | h)
        · exact absurd h httl
        · rw [h] at hl
          simp [t_lookup] at hl

theorem get_backend_hits (c : CONSTS) (svc : SERVICE) (from_host request : CString)
    (headers : List (Option CString)) (u_name : CString) (rnd : Nat) (now : Int) :
    (get_backend c svc from_host request headers u_name rnd now).svc.hits =
      (get_backend_switch c { svc with requests := svc.requests + 1 }
        from_host request headers rnd now).svc.hits ∧
    (get_backend c svc from_host request headers u_name rnd now).res =
      (get_backend_switch c { svc with requests := svc.requests + 1 }
        from_host request headers rnd now).res := by
  unfold get_backend
  simp only
  split <;> simp

theorem keyed_backend_no_be_typed (c : CONSTS) (svc : SERVICE)
    (headers : List (Option CString)) (key : CString) (rnd : Nat) (now : Int) (ip : Bool)
    (htot : svc.tot_pri ≤ 0) (hst : svc.sess_type ≠ SESS_TYPE.SESS_NONE) :
    ((keyed_backend c svc headers key rnd now ip).svc.hits = svc.hits →
      (keyed_backend c svc headers key rnd now ip).res = emergency_ptr svc) ∧
    (svc.sess_type = SESS_TYPE.SESS_NONE ∨ svc.sess_ttl < 0 ∨ svc.sessions = [] →
      (keyed_backend c svc headers key rnd now ip).svc.hits = svc.hits) := by
  have h := keyed_backend_no_be c svc headers key rnd now ip htot
  refine ⟨h.1, ?_⟩
  rintro (h1 | h1)
  · exact absurd h1 hst
  · exact h.2 h1

theorem get_backend_switch_no_be (c : CONSTS) (svc : SERVICE) (from_host request : CString)
    (headers : List (Option CString)) (rnd : Nat) (now : Int) (htot : svc.tot_pri ≤ 0) :
    ((get_backend_switch c svc from_host request headers rnd now).svc.hits = svc.hits →
      (get_backend_switch c svc from_host request headers rnd now).res = emergency_ptr svc) ∧
    (svc.sess_type = SESS_TYPE.SESS_NONE ∨ svc.sess_ttl < 0 ∨ svc.sessions = [] →
      (get_backend_switch c svc from_host request headers rnd now).svc.hits = svc.hits) := by
  cases hst : svc.sess_type <;> simp only [get_backend_switch, hst]
  case SESS_NONE => simp [htot]
  case SESS_IP =>
    have h := keyed_backend_no_be_typed c svc headers (from_host.take (c.KEY_SIZE - 1))
      rnd now true htot (by rw [hst]; decide)
    rw [hst] at h
    exact h
  case SESS_URL | SESS_PARM =>
    split
    · have h := keyed_backend_no_be_typed c svc headers (get_REQUEST c.KEY_SIZE svc request).2
        rnd now false htot (by rw [hst]; decide)
      rw [hst] at h
      exact h
    · simp [htot]
  all_goals
    split
    · have h := keyed_backend_no_be_typed c svc headers (get_HEADERS c svc headers).2
        rnd now false htot (by rw [hst]; decide)
      rw [hst] at h
      exact h
    · simp [htot]

theorem keyed_backend_hit_res (c : CONSTS) (svc : SERVICE)
    (headers : List (Option CString)) (key : CString) (rnd : Nat) (now : Int) (ip : Bool)
    (hne : (keyed_backend c svc headers key rnd now ip).svc.hits ≠ svc.hits) :
    ∃ node, t_lookup svc.sessions (keyed_backend c svc headers key rnd now ip).key = some node ∧
      (keyed_backend c svc headers key rnd now ip).res = node.content.be := by
  by_cases httl : svc.sess_ttl < 0
  · rw [keyed_backend_hash c svc headers key rnd now ip httl] at hne
    exact absurd rfl hne
  · have httl0 : 0 ≤ svc.sess_ttl := by omega
    cases hl : t_lookup svc.sessions key with
    | none =>
      rw [keyed_backend_miss c svc headers key rnd now ip httl0 hl] at hne
      split at hne <;> exact absurd rfl hne
    | some node =>
      rw [keyed_backend_hit c svc headers key rnd now ip httl0 node hl]
      exact ⟨node, hl, rfl⟩

theorem get_backend_switch_hit_res (c : CONSTS) (svc : SERVICE) (from_host request : CString)
    (headers : List (Option CString)) (rnd : Nat) (now : Int)
    (hne : (get_backend_switch c svc from_host request headers rnd now).svc.hits ≠ svc.hits) :
    ∃ node, t_lookup svc.sessions
        (get_backend_switch c svc from_host request headers rnd now).key = some node ∧
      (get_backend_switch c svc from_host request headers rnd now).res = node.content.be := by
  cases hst : svc.sess_type <;> simp only [get_backend_switch, hst] at hne ⊢
  case SESS_NONE => exact absurd rfl hne
  case SESS_IP => exact keyed_backend_hit_res c svc headers _ rnd now true hne
  all_goals
    split at hne
    · rename_i hk
      simp only [hk, if_true]
      exact keyed_backend_hit_res c svc headers _ rnd now false hne
    · exact absurd rfl hne

theorem get_backend_key (c : CONSTS) (svc : SERVICE) (from_host request : CString)
    (headers : List (Option CString)) (u_name : CString) (rnd : Nat) (now : Int) :
    (get_backend c svc from_host request headers u_name rnd now).key =
      (get_backend_switch c { svc with requests := svc.requests + 1 }
        from_host request headers rnd now).key := by
  unfold get_backend
  simp only
  split <;> simp

/-- Claim C4, as amended: when `tot_pri ≤ 0` at the call, `get_backend` returns
the service's emergency back-end (null when none is configured) unless the
call hits an existing session of the table, in which case it returns the
back-end that session is bound to; with the policy none, a negative session
TTL or an empty table there is no hit. -/
theorem get_backend_emergency (c : CONSTS) (svc : SERVICE) (from_host request : CString)
    (headers : List (Option CString)) (u_name : CString) (rnd : Nat) (now : Int)
    (htot : svc.tot_pri ≤ 0) :
    ((get_backend c svc from_host request headers u_name rnd now).svc.hits = svc.hits →
      (get_backend c svc from_host request headers u_name rnd now).res = emergency_ptr svc) ∧
    ((get_backend c svc from_host request headers u_name rnd now).svc.hits ≠ svc.hits →
      ∃ node, t_lookup svc.sessions
          (get_backend c svc from_host request headers u_name rnd now).key = some node ∧
        (get_backend c svc from_host request headers u_name rnd now).res = node.content.be) ∧
    (svc.sess_type = SESS_TYPE.SESS_NONE ∨ svc.sess_ttl < 0 ∨ svc.sessions = [] →
      (get_backend c svc from_host request headers u_name rnd now).svc.hits = svc.hits) := by
  obtain ⟨hh, hr⟩ := get_backend_hits c svc from_host request headers u_name rnd now
  rw [hh, hr, get_backend_key]
  have h := get_backend_switch_no_be c { svc with requests := svc.requests + 1 }
    from_host request headers rnd now htot
  exact ⟨h.1, get_backend_switch_hit_res c { svc with requests := svc.requests + 1 }
    from_host request headers rnd now, h.2⟩

theorem get_backend_emergency_witness :
    (get_backend example_consts { example_disabled_svc with sessions := [] }
      example_client [47] [none] [] 0 10).res = some BE_PTR.emergency :=
  (get_backend_emergency example_consts { example_disabled_svc with sessions := [] }
    example_client [47] [none] [] 0 10 (by decide)).1 (by decide)

/-- Claim C4 fails as stated: with `tot_pri = 0`, IP sessions and a session of
the client bound to the (disabled) back-end 0, `get_backend` returns back-end
0, not the emergency back-end. -/
theorem get_backend_emergency_counterexample :
    example_disabled_svc.tot_pri ≤ 0 ∧
    (get_backend example_consts example_disabled_svc [49] [47] [none] [] 0 10).res =
      some (BE_PTR.list 0) ∧
    (get_backend example_consts example_disabled_svc [49] [47] [none] [] 0 10).res ≠
      emergency_ptr example_disabled_svc := by
  refine ⟨by decide, by decide, by decide⟩

/-! ## Session affinity: proofs -/

theorem get_backend_switch_keyed (c : CONSTS) (svc : SERVICE) (from_host request : CString)
    (headers : List (Option CString)) (rnd : Nat) (now : Int) (k : CString)
    (hkey : session_key c svc from_host request headers = some k) :
    get_backend_switch c svc from_host request headers rnd now =
      keyed_backend c svc headers k rnd now (decide (svc.sess_type = SESS_TYPE.SESS_IP)) := by
  cases hst : svc.sess_type <;> simp only [session_key, get_backend_switch, hst] at hkey ⊢
  case SESS_NONE => cases hkey
  case SESS_IP =>
    cases hkey
    rfl
  all_goals
    split at hkey
    · rename_i hk
      cases hkey
      simp [hk]
    · cases hkey

theorem t_lookup_t_add (tab : List TABNODE) (key : CString) (content : SESSION) (now : Int) :
    t_lookup (t_add tab key content now) key =
      some { key := key, content := content, last_acc := now } := by
  simp [t_lookup, t_add]

theorem t_lookup_map (tab : List TABNODE) (key : CString) (f : TABNODE → TABNODE)
    (hf : ∀ t, (f t).key = t.key) :
    t_lookup (tab.map f) key = (t_lookup tab key).map f := by
  unfold t_lookup
  rw [List.find?_map]
  congr 1
  congr 1
  funext t
  simp [hf]

theorem t_lookup_touch (tab : List TABNODE) (key k : CString) (now : Int) :
    t_lookup (t_touch tab key now) k =
      (t_lookup tab k).map (fun t => if t.key = key then { t with last_acc := now } else t) := by
  unfold t_touch
  apply t_lookup_map
  intro t
  split <;> rfl

theorem map_key_of_preserving (tab : List TABNODE) (f : TABNODE → TABNODE)
    (hf : ∀ t, (f t).key = t.key) :
    (tab.map f).map (fun t => t.key) = tab.map (fun t => t.key) := by
  rw [List.map_map]
  congr 1
  funext t
  exact hf t

theorem session_key_requests (c : CONSTS) (svc : SERVICE) (n : Int)
    (from_host request : CString) (headers : List (Option CString)) :
    session_key c { svc with requests := n } from_host request headers =
      session_key c svc from_host request headers := by
  cases hst : svc.sess_type <;> simp [session_key, hst, get_REQUEST, get_HEADERS]

theorem bekey_pick_requests (c : CONSTS) (svc : SERVICE) (n : Int)
    (headers : List (Option CString)) (rnd : Nat) :
    bekey_pick c { svc with requests := n } headers rnd = bekey_pick c svc headers rnd := by
  simp [bekey_pick, get_bekey_from_HEADERS, rand_pick]

theorem get_backend_miss_result (c : CONSTS) (svc : SERVICE) (from_host request : CString)
    (headers : List (Option CString)) (u_name : CString) (rnd : Nat) (now : Int)
    (k : CString) (httl : 0 ≤ svc.sess_ttl) (htot : 0 < svc.tot_pri)
    (hkey : session_key c svc from_host request headers = some k)
    (hmiss : t_lookup svc.sessions k = none) :
    (∃ node, t_lookup (get_backend c svc from_host request headers u_name rnd now).svc.sessions k
        = some node ∧
      node.content.be = (get_backend c svc from_host request headers u_name rnd now).res) ∧
    (get_backend c svc from_host request headers u_name rnd now).res =
      bekey_pick c svc headers rnd ∧
    (get_backend c svc from_host request headers u_name rnd now).svc.misses = svc.misses + 1 ∧
    (get_backend c svc from_host request headers u_name rnd now).svc.hits = svc.hits := by
  have hkey1 := (session_key_requests c svc (svc.requests + 1) from_host request headers).trans hkey
  have hpick := bekey_pick_requests c svc (svc.requests + 1) headers rnd
  have hnot : ¬ svc.tot_pri ≤ 0 := by omega
  unfold get_backend
  simp only
  generalize hs1 : ({ svc with requests := svc.requests + 1 } : SERVICE) = svc1 at hkey1 hpick ⊢
  have e1 : svc1.sess_ttl = svc.sess_ttl := by rw [← hs1]
  have e2 : svc1.sessions = svc.sessions := by rw [← hs1]
  have e3 : svc1.tot_pri = svc.tot_pri := by rw [← hs1]
  have e4 : svc1.misses = svc.misses := by rw [← hs1]
  have e5 : svc1.hits = svc.hits := by rw [← hs1]
  rw [get_backend_switch_keyed c svc1 from_host request headers rnd now k hkey1,
    keyed_backend_miss c svc1 headers k rnd now _ (e1 ▸ httl) (e2 ▸ hmiss)]
  simp only [e3, hnot, if_false, if_true, hpick, e4, e5]
  refine ⟨?_, trivial, trivial, trivial⟩
  rw [t_lookup_map _ _ _ (by intro t; split <;> rfl), t_lookup_t_add]
  simp [touch_session]

theorem get_backend_hit_result (c : CONSTS) (svc : SERVICE) (from_host request : CString)
    (headers : List (Option CString)) (u_name : CString) (rnd : Nat) (now : Int)
    (k : CString) (node : TABNODE) (httl : 0 ≤ svc.sess_ttl)
    (hkey : session_key c svc from_host request headers = some k)
    (hhit : t_lookup svc.sessions k = some node) :
    (get_backend c svc from_host request headers u_name rnd now).res = node.content.be ∧
    (get_backend c svc from_host request headers u_name rnd now).svc.hits = svc.hits + 1 ∧
    (get_backend c svc from_host request headers u_name rnd now).svc.misses = svc.misses ∧
    (get_backend c svc from_host request headers u_name rnd now).svc.sessions.map
      (fun t => t.key) = svc.sessions.map (fun t => t.key) := by
  have hkey1 := (session_key_requests c svc (svc.requests + 1) from_host request headers).trans hkey
  unfold get_backend
  simp only
  generalize hs1 : ({ svc with requests := svc.requests + 1 } : SERVICE) = svc1 at hkey1 ⊢
  have e1 : svc1.sess_ttl = svc.sess_ttl := by rw [← hs1]
  have e2 : svc1.sessions = svc.sessions := by rw [← hs1]
  have e4 : svc1.misses = svc.misses := by rw [← hs1]
  have e5 : svc1.hits = svc.hits := by rw [← hs1]
  rw [get_backend_switch_keyed c svc1 from_host request headers rnd now k hkey1,
    keyed_backend_hit c svc1 headers k rnd now _ (e1 ▸ httl) node (e2 ▸ hhit)]
  simp only [if_true, e2, e4, e5]
  refine ⟨trivial, trivial, trivial, ?_⟩
  rw [map_key_of_preserving _ _ (by intro t; split <;> rfl)]
  split
  · rw [map_key_of_preserving _ _ (by intro t; split <;> rfl)]
    exact map_key_of_preserving _ _ (by intro t; split <;> rfl)
  · exact map_key_of_preserving _ _ (by intro t; split <;> rfl)

theorem keeps_bindings_refl (tab : List TABNODE) : keeps_bindings tab tab :=
  fun _ node h => ⟨node, h, rfl⟩

theorem keeps_bindings_trans (t1 t2 t3 : List TABNODE)
    (h12 : keeps_bindings t1 t2) (h23 : keeps_bindings t2 t3) : keeps_bindings t1 t3 := by
  intro k node h
  obtain ⟨n2, h2, e2⟩ := h12 k node h
  obtain ⟨n3, h3, e3⟩ := h23 k n2 h2
  exact ⟨n3, h3, e3.trans e2⟩

theorem keeps_bindings_map (tab : List TABNODE) (f : TABNODE → TABNODE)
    (hk : ∀ t, (f t).key = t.key) (hb : ∀ t, (f t).content.be = t.content.be) :
    keeps_bindings tab (tab.map f) := by
  intro k node h
  rw [t_lookup_map tab k f hk, h]
  exact ⟨f node, rfl, hb node⟩

theorem t_lookup_t_add_ne (tab : List TABNODE) (key k : CString) (content : SESSION)
    (now : Int) (hne : key ≠ k) :
    t_lookup (t_add tab key content now) k = t_lookup tab k := by
  unfold t_lookup t_add
  rw [List.find?_cons_of_neg _ (by simpa using hne), List.find?_filter]
  congr 1
  funext a
  by_cases h : a.key = k
  · subst h
    simp [Ne.symm hne]
  · simp [h]

theorem keeps_bindings_t_add (tab : List TABNODE) (key : CString) (content : SESSION)
    (now : Int) (hmiss : t_lookup tab key = none) :
    keeps_bindings tab (t_add tab key content now) := by
  intro k node h
  have hne : key ≠ k := by
    intro e
    rw [e, h] at hmiss
    cases hmiss
  rw [t_lookup_t_add_ne tab key k content now hne]
  exact ⟨node, h, rfl⟩

theorem keyed_backend_keeps (c : CONSTS) (svc : SERVICE) (headers : List (Option CString))
    (key : CString) (rnd : Nat) (now : Int) (ip : Bool) :
    keeps_bindings svc.sessions (keyed_backend c svc headers key rnd now ip).svc.sessions := by
  by_cases httl : svc.sess_ttl < 0
  · rw [keyed_backend_hash c svc headers key rnd now ip httl]
    exact keeps_bindings_refl _
  · have httl0 : 0 ≤ svc.sess_ttl := by omega
    cases hl : t_lookup svc.sessions key with
    | none =>
      rw [keyed_backend_miss c svc headers key rnd now ip httl0 hl]
      split
      · exact keeps_bindings_refl _
      · exact keeps_bindings_t_add _ _ _ _ hl
    | some node =>
      rw [keyed_backend_hit c svc headers key rnd now ip httl0 node hl]
      have htouch : keeps_bindings svc.sessions (t_touch svc.sessions key now) :=
        keeps_bindings_map _ _ (by intro t; split <;> rfl) (by intro t; split <;> rfl)
      cases ip
      · exact htouch
      · exact keeps_bindings_trans _ _ _ htouch
          (keeps_bindings_map _ _ (by intro t; split <;> rfl) (by intro t; split <;> rfl))

theorem get_backend_switch_keeps (c : CONSTS) (svc : SERVICE) (from_host request : CString)
    (headers : List (Option CString)) (rnd : Nat) (now : Int) :
    keeps_bindings svc.sessions
      (get_backend_switch c svc from_host request headers rnd now).svc.sessions := by
  cases hst : svc.sess_type <;> simp only [get_backend_switch, hst]
  case SESS_NONE => exact keeps_bindings_refl _
  case SESS_IP => exact keyed_backend_keeps c svc headers _ rnd now true
  all_goals
    split
    · exact keyed_backend_keeps c svc headers _ rnd now false
    · exact keeps_bindings_refl _

theorem get_backend_keeps (c : CONSTS) (svc : SERVICE) (from_host request : CString)
    (headers : List (Option CString)) (u_name : CString) (rnd : Nat) (now : Int) :
    keeps_bindings svc.sessions
      (get_backend c svc from_host request headers u_name rnd now).svc.sessions := by
  have h := get_backend_switch_keeps c { svc with requests := svc.requests + 1 }
    from_host request headers rnd now
  have h0 : ({ svc with requests := svc.requests + 1 } : SERVICE).sessions = svc.sessions := rfl
  rw [h0] at h
  unfold get_backend
  simp only
  split
  · exact keeps_bindings_trans _ _ _ h
      (keeps_bindings_map _ _ (by intro t; split <;> rfl) (by intro t; split <;> rfl))
  · exact h

/-- Claim C3: for a service with a stateful session policy (`sess_ttl ≥ 0`)
and `tot_pri > 0`, a call of `get_backend` that extracts the key `k` and
misses the table leaves `k` bound in the table to a session whose back-end is
the one returned (it counts as a miss); every call of `get_backend` keeps the
bindings of the table; and any later call, in a state where `k` is still
bound to that session's back-end, that extracts `k` returns the same back-end
whatever the random draw, counts as a hit and not as a miss, and leaves the
set of keys of the table as it was. -/
theorem get_backend_affinity (c : CONSTS) (svc : SERVICE) (from_host request : CString)
    (headers : List (Option CString)) (u_name : CString) (rnd : Nat) (now : Int)
    (k : CString) (httl : 0 ≤ svc.sess_ttl) (htot : 0 < svc.tot_pri)
    (hkey : session_key c svc from_host request headers = some k)
    (hmiss : t_lookup svc.sessions k = none) :
    (∃ node,
      t_lookup (get_backend c svc from_host request headers u_name rnd now).svc.sessions k
        = some node ∧
      node.content.be = (get_backend c svc from_host request headers u_name rnd now).res) ∧
    (get_backend c svc from_host request headers u_name rnd now).svc.misses = svc.misses + 1 ∧
    (∀ (svc2 : SERVICE) (from_host2 request2 : CString) (headers2 : List (Option CString))
        (u_name2 : CString) (rnd2 : Nat) (now2 : Int),
      keeps_bindings svc2.sessions
        (get_backend c svc2 from_host2 request2 headers2 u_name2 rnd2 now2).svc.sessions) ∧
    (∀ (svc2 : SERVICE) (from_host2 request2 : CString) (headers2 : List (Option CString))
        (u_name2 : CString) (rnd2 : Nat) (now2 : Int) (node2 : TABNODE),
      0 ≤ svc2.sess_ttl →
      session_key c svc2 from_host2 request2 headers2 = some k →
      t_lookup svc2.sessions k = some node2 →
      node2.content.be = (get_backend c svc from_host request headers u_name rnd now).res →
      (get_backend c svc2 from_host2 request2 headers2 u_name2 rnd2 now2).res =
        (get_backend c svc from_host request headers u_name rnd now).res ∧
      (get_backend c svc2 from_host2 request2 headers2 u_name2 rnd2 now2).svc.hits =
        svc2.hits + 1 ∧
      (get_backend c svc2 from_host2 request2 headers2 u_name2 rnd2 now2).svc.misses =
        svc2.misses ∧
      (get_backend c svc2 from_host2 request2 headers2 u_name2 rnd2 now2).svc.sessions.map
        (fun t => t.key) = svc2.sessions.map (fun t => t.key)) := by
  obtain ⟨h1, -, h3, -⟩ := get_backend_miss_result c svc from_host request headers u_name
    rnd now k httl htot hkey hmiss
  refine ⟨h1, h3, ?_, ?_⟩
  · intro svc2 from_host2 request2 headers2 u_name2 rnd2 now2
    exact get_backend_keeps c svc2 from_host2 request2 headers2 u_name2 rnd2 now2
  · intro svc2 from_host2 request2 headers2 u_name2 rnd2 now2 node2 httl2 hkey2 hhit2 hbe
    obtain ⟨g1, g2, g3, g4⟩ := get_backend_hit_result c svc2 from_host2 request2 headers2
      u_name2 rnd2 now2 k node2 httl2 hkey2 hhit2
    exact ⟨g1.trans hbe, g2, g3, g4⟩

theorem get_backend_affinity_witness :
    (get_backend example_consts
        (get_backend example_consts example_two_svc example_client [47] [none] [] 1 10).svc
        example_client [47] [none] [] 0 20).res =
      (get_backend example_consts example_two_svc example_client [47] [none] [] 1 10).res :=
  ((get_backend_affinity example_consts example_two_svc example_client [47] [none] [] 1 10
      example_client (by decide) (by decide) rfl rfl).2.2.2
    (get_backend example_consts example_two_svc example_client [47] [none] [] 1 10).svc
    example_client [47] [none] [] 0 20 example_bound_node
    (by decide) rfl (by decide) (by decide)).1

/-! ## Back-end state: proofs -/

theorem delete_session_fields (svc : SERVICE) (t : TABNODE) :
    delete_session svc t =
      { svc with sessions := (delete_session svc t).sessions,
                 del_sessions := (delete_session svc t).del_sessions } := by
  unfold delete_session
  split <;> rfl

theorem t_clean_be_fold_fields (content : Option BE_PTR) (l : List TABNODE) (svc : SERVICE) :
    l.foldl (fun s t => t_cont_be_doall_arg t content s) svc =
      { svc with
        sessions := (l.foldl (fun s t => t_cont_be_doall_arg t content s) svc).sessions,
        del_sessions :=
          (l.foldl (fun s t => t_cont_be_doall_arg t content s) svc).del_sessions } := by
  induction l generalizing svc with
  | nil => rfl
  | cons t rest ih =>
    simp only [List.foldl_cons]
    rw [ih]
    unfold t_cont_be_doall_arg
    split
    · rw [delete_session_fields]
    · rfl

theorem t_clean_be_fields (svc : SERVICE) (content : Option BE_PTR) :
    t_clean_be svc content =
      { svc with sessions := (t_clean_be svc content).sessions,
                 del_sessions := (t_clean_be svc content).del_sessions } :=
  t_clean_be_fold_fields content svc.sessions svc

theorem kill_be_switch_fst (be : Option BE_PTR) (disable_mode : BE_MODE) (b : BACKEND)
    (svc : SERVICE) :
    (kill_be_switch be disable_mode b svc).1 = kill_be_mark disable_mode b := by
  cases disable_mode <;> rfl

theorem kill_be_switch_fields (be : Option BE_PTR) (disable_mode : BE_MODE) (b : BACKEND)
    (svc : SERVICE) :
    (kill_be_switch be disable_mode b svc).2 =
      { svc with sessions := (kill_be_switch be disable_mode b svc).2.sessions,
                 del_sessions := (kill_be_switch be disable_mode b svc).2.del_sessions } := by
  cases disable_mode
  case BE_KILL => exact t_clean_be_fields svc be
  all_goals rfl

theorem kill_be_loop_get (be : Option BE_PTR) (disable_mode : BE_MODE) (l : List BACKEND)
    (i : Nat) (svc : SERVICE) (j : Nat) :
    (kill_be_loop be disable_mode i l svc).1[j]? =
      (l[j]?).map (fun b =>
        if be = some (BE_PTR.list (i + j)) then kill_be_mark disable_mode b else b) := by
  induction l generalizing i svc j with
  | nil => simp [kill_be_loop]
  | cons b rest ih =>
    simp only [kill_be_loop]
    cases j with
    | zero =>
      simp only [List.getElem?_cons_zero, Option.map_some', Nat.add_zero, Option.some.injEq]
      split
      · exact kill_be_switch_fst be disable_mode b svc
      · rfl
    | succ j =>
      simp only [List.getElem?_cons_succ]
      rw [ih]
      have : i + 1 + j = i + (j + 1) := by omega
      rw [this]

theorem kill_be_loop_fields (be : Option BE_PTR) (disable_mode : BE_MODE) (l : List BACKEND)
    (i : Nat) (svc : SERVICE) :
    (kill_be_loop be disable_mode i l svc).2 =
      { svc with tot_pri := (kill_be_loop be disable_mode i l svc).2.tot_pri,
                 sessions := (kill_be_loop be disable_mode i l svc).2.sessions,
                 del_sessions := (kill_be_loop be disable_mode i l svc).2.del_sessions } := by
  induction l generalizing i svc with
  | nil => rfl
  | cons b rest ih =>
    simp only [kill_be_loop]
    rw [ih]
    by_cases hbe : be = some (BE_PTR.list i)
    · simp only [hbe, if_true]
      split
      · simp only
        rw [kill_be_switch_fields]
      · rw [kill_be_switch_fields]
    · simp only [hbe, if_false]
      split <;> rfl

theorem kill_be_get (svc : SERVICE) (be : Option BE_PTR) (disable_mode : BE_MODE) (j : Nat) :
    (kill_be svc be disable_mode).backends[j]? =
      (svc.backends[j]?).map (fun b =>
        if be = some (BE_PTR.list j) then kill_be_mark disable_mode b else b) := by
  unfold kill_be
  simp only
  rw [kill_be_loop_get]
  simp

theorem kill_be_abs_pri (svc : SERVICE) (be : Option BE_PTR) (disable_mode : BE_MODE) :
    (kill_be svc be disable_mode).abs_pri = svc.abs_pri := by
  unfold kill_be
  simp only
  rw [kill_be_loop_fields]

/-! ## Consistent hashing: proofs -/

theorem avail_at_lt (bes : List BACKEND) (j : Nat) (h : avail_at bes j) : j < bes.length := by
  obtain ⟨b, hb, -⟩ := h
  by_contra hn
  rw [List.getElem?_eq_none (by omega)] at hb
  cases hb

theorem hash_scan_char (bes : List BACKEND) (tb : Nat) (htb : tb < bes.length) :
    ∀ fuel res, res < bes.length →
      (if tb ≤ res then fuel + (res - tb) = bes.length
        else fuel + (bes.length - tb + res) = bes.length) →
      (∀ j, (if tb ≤ res then tb ≤ j ∧ j < res else (tb ≤ j ∨ j < res)) → ¬ avail_at bes j) →
      (∀ i, hash_scan bes tb fuel res = some i ↔ first_from bes tb i) ∧
      (hash_scan bes tb fuel res = none ↔ ∀ j, ¬ avail_at bes j) := by
  intro fuel
  induction fuel with
  | zero =>
    intro res hres hfuel _
    exfalso
    split at hfuel <;> omega
  | succ fuel ih =>
    intro res hres hfuel hvis
    obtain ⟨b, hb⟩ : ∃ b, bes[res]? = some b := ⟨bes[res], List.getElem?_eq_getElem hres⟩
    simp only [hash_scan, hb]
    by_cases hav : avail b
    · have hav1 : ¬ (b.alive = 0 ∨ b.disabled ≠ 0) := by
        unfold avail at hav
        intro h
        rcases h with h | h
        · exact hav.1 h
        · exact h hav.2
      have hat : avail_at bes res := ⟨b, hb, hav⟩
      simp only [hav1, if_false]
      refine ⟨?_, ?_⟩
      · intro i
        simp only [Option.some.injEq]
        constructor
        · intro h
          subst h
          refine ⟨hat, ?_⟩
          by_cases htr : tb ≤ res
          · simp only [htr, if_true] at hvis
            exact Or.inl ⟨htr, fun j h1 h2 => hvis j ⟨h1, h2⟩⟩
          · simp only [htr, if_false] at hvis
            exact Or.inr ⟨by omega, fun j h1 => hvis j (Or.inl h1),
              fun j h1 => hvis j (Or.inr h1)⟩
        · rintro ⟨hi, hcase⟩
          by_cases htr : tb ≤ res
          · simp only [htr, if_true] at hvis
            rcases hcase with ⟨h1, h2⟩ | ⟨h1, h2, -⟩
            · by_contra hne
              rcases Nat.lt_or_gt_of_ne hne with hlt | hgt
              · exact h2 res htr hlt hat
              · exact hvis i ⟨h1, hgt⟩ hi
            · exact absurd hat (h2 res htr)
          · simp only [htr, if_false] at hvis
            rcases hcase with ⟨h1, -⟩ | ⟨h1, -, h3⟩
            · exact absurd hi (hvis i (Or.inl h1))
            · by_contra hne
              rcases Nat.lt_or_gt_of_ne hne with hlt | hgt
              · exact h3 res hlt hat
              · exact hvis i (Or.inr hgt) hi
      · constructor
        · intro h
          cases h
        · intro h
          exact absurd hat (h res)
    · have hav1 : b.alive = 0 ∨ b.disabled ≠ 0 := by
        unfold avail at hav
        by_cases h1 : b.alive = 0
        · exact Or.inl h1
        · right
          intro h2
          exact hav ⟨h1, h2⟩
      have hnat : ¬ avail_at bes res := by
        rintro ⟨b2, hb2, hav2⟩
        rw [hb] at hb2
        cases hb2
        exact hav hav2
      simp only [hav1, if_true]
      by_cases hnext : (if res + 1 < bes.length then res + 1 else 0) = tb
      · simp only [hnext, if_true]
        have hall : ∀ j, ¬ avail_at bes j := by
          intro j hj
          have hjlt := avail_at_lt bes j hj
          by_cases hje : j = res
          · exact hnat (hje ▸ hj)
          · by_cases htr : tb ≤ res
            · simp only [htr, if_true] at hvis
              split at hnext
              · omega
              · exact hvis j ⟨by omega, by omega⟩ hj
            · simp only [htr, if_false] at hvis
              split at hnext
              · exact hvis j (by omega) hj
              · omega
        refine ⟨?_, ?_⟩
        · intro i
          constructor
          · intro h
            cases h
          · rintro ⟨hi, -⟩
            exact absurd hi (hall i)
        · exact ⟨fun _ => hall, fun _ => trivial⟩
      · simp only [hnext, if_false]
        apply ih
        · split <;> omega
        · by_cases htr : tb ≤ res
          · simp only [htr, if_true] at hfuel
            split at hnext <;> split <;> split <;> omega
          · simp only [htr, if_false] at hfuel
            split at hnext <;> split <;> split <;> omega
        · intro j hj hjav
          have hjlt := avail_at_lt bes j hjav
          by_cases hje : j = res
          · exact hnat (hje ▸ hjav)
          · by_cases htr : tb ≤ res
            · simp only [htr, if_true] at hvis
              apply hvis j _ hjav
              revert hj
              split at hnext <;> split <;> split <;> omega
            · simp only [htr, if_false] at hvis
              apply hvis j _ hjav
              revert hj
              split at hnext <;> split <;> split <;> omega

theorem hash_walk_iff (bes : List BACKEND) (pri : Int) (i : Nat)
    (hpri : ∀ b ∈ bes, 1 ≤ b.priority) (h0 : 0 ≤ pri) :
    hash_walk bes pri = some i ↔
      ∃ b, bes[i]? = some b ∧ sum_pri (bes.take i) ≤ pri ∧ pri < sum_pri (bes.take (i + 1)) := by
  induction bes generalizing pri i with
  | nil => simp [hash_walk]
  | cons b rest ih =>
    have hp := hpri b (List.mem_cons_self b rest)
    have hpri1 : ∀ c ∈ rest, 1 ≤ c.priority := fun c hc => hpri c (List.mem_cons_of_mem b hc)
    have h00 : sum_pri ([] : List BACKEND) = 0 := by simp [sum_pri]
    simp only [hash_walk]
    cases i with
    | zero =>
      simp only [List.getElem?_cons_zero, Option.some.injEq, exists_eq_left, List.take_zero,
        Nat.zero_add, List.take_succ_cons, sum_pri_cons, h00]
      by_cases hlt : pri - b.priority < 0
      · simp only [hlt, if_true, true_iff]
        exact ⟨b, rfl, h0, by omega⟩
      · simp only [hlt, if_false]
        constructor
        · intro h
          exact absurd h (map_succ_ne_zero _)
        · rintro ⟨c, -, -, h⟩
          omega
    | succ i =>
      simp only [List.getElem?_cons_succ, List.take_succ_cons, sum_pri_cons]
      by_cases hlt : pri - b.priority < 0
      · simp only [hlt, if_true]
        constructor
        · intro h
          simp at h
        · rintro ⟨c, -, hle, -⟩
          have := (sum_pri_take_le rest hpri1 i).1
          omega
      · simp only [hlt, if_false]
        rw [map_succ_eq_some, ih (pri - b.priority) i hpri1 (by omega)]
        constructor
        · rintro ⟨c, hc, h1, h2⟩
          exact ⟨c, hc, by omega, by omega⟩
        · rintro ⟨c, hc, h1, h2⟩
          exact ⟨c, hc, by omega, by omega⟩

theorem hash_walk_some (bes : List BACKEND) (pri : Int) (h0 : 0 ≤ pri)
    (hlt : pri < sum_pri bes) :
    ∃ i, hash_walk bes pri = some i := by
  induction bes generalizing pri with
  | nil =>
    exfalso
    simp only [sum_pri, List.map_nil, List.sum_nil] at hlt
    omega
  | cons b rest ih =>
    simp only [hash_walk]
    by_cases h : pri - b.priority < 0
    · exact ⟨0, by simp [h]⟩
    · rw [sum_pri_cons] at hlt
      obtain ⟨i, hi⟩ := ih (pri - b.priority) (by omega) (by omega)
      exact ⟨i + 1, by simp [h, hi]⟩

theorem sum_pri_take_mono (l : List BACKEND) (hpri : ∀ b ∈ l, 1 ≤ b.priority) (a b : Nat)
    (hab : a ≤ b) : sum_pri (l.take a) ≤ sum_pri (l.take b) := by
  have h := (sum_pri_take_le (l.take b) (fun c hc => hpri c (List.mem_of_mem_take hc)) a).2
  rw [List.take_take, Nat.min_eq_left hab] at h
  exact h

theorem hash_walk_target (bes : List BACKEND) (pri : Int) (tb : Nat)
    (hpri : ∀ b ∈ bes, 1 ≤ b.priority) (h0 : 0 ≤ pri) (h : hash_walk bes pri = some tb) :
    walk_target bes pri tb := by
  obtain ⟨b, hb, h1, h2⟩ := (hash_walk_iff bes pri tb hpri h0).1 h
  refine ⟨?_, h2, ?_⟩
  · by_contra hn
    rw [List.getElem?_eq_none (by omega)] at hb
    cases hb
  · intro j hj
    have := sum_pri_take_mono bes hpri (j + 1) tb (by omega)
    omega

theorem hash_loop_lt (w : Nat) (key : CString) (hv : Nat) (h : hv < 2 ^ w) :
    hash_loop w hv key < 2 ^ w := by
  induction key generalizing hv with
  | nil => exact h
  | cons c key ih =>
    simp only [hash_loop]
    exact ih _ (Nat.mod_lt _ (Nat.pos_pow_of_pos w (by decide)))

theorem hash_pri_bounds (w : Nat) (abs_pri : Int) (key : CString) (habs : 0 < abs_pri) :
    0 ≤ hash_pri w abs_pri key ∧ hash_pri w abs_pri key < abs_pri := by
  unfold hash_pri
  refine ⟨Int.ofNat_nonneg _, ?_⟩
  have hpow : (0 : Int) < 2 ^ w := by positivity
  have hhv := hash_loop_lt w key (2166136261 % 2 ^ w) (Nat.mod_lt _ (Nat.pos_pow_of_pos w (by decide)))
  have hmod0 : 0 ≤ abs_pri % 2 ^ w := Int.emod_nonneg _ (ne_of_gt hpow)
  have hmodlt : abs_pri % 2 ^ w < 2 ^ w := Int.emod_lt_of_pos _ hpow
  by_cases hm : (abs_pri % (2 : Int) ^ w).toNat = 0
  · rw [hm, Nat.mod_zero]
    have hz : abs_pri % 2 ^ w = 0 := by omega
    have hdvd : (2 : Int) ^ w ∣ abs_pri := Int.dvd_of_emod_eq_zero hz
    have hle := Int.le_of_dvd habs hdvd
    have : ((hash_loop w (2166136261 % 2 ^ w) key : Nat) : Int) < 2 ^ w := by
      exact_mod_cast hhv
    omega
  · have hlt := Nat.mod_lt (hash_loop w (2166136261 % 2 ^ w) key) (Nat.pos_of_ne_zero hm)
    have hle : abs_pri % 2 ^ w ≤ abs_pri := by
      by_cases hc : abs_pri < 2 ^ w
      · rw [Int.emod_eq_of_lt (le_of_lt habs) hc]
      · omega
    have h1 : ((hash_loop w (2166136261 % 2 ^ w) key % (abs_pri % (2 : Int) ^ w).toNat : Nat) : Int)
        < ((abs_pri % (2 : Int) ^ w).toNat : Int) := by
      exact_mod_cast hlt
    have h2 : (((abs_pri % (2 : Int) ^ w).toNat : Nat) : Int) = abs_pri % 2 ^ w :=
      Int.toNat_of_nonneg hmod0
    omega

theorem sum_pri_pos_of_ne_nil (bes : List BACKEND) (hpri : ∀ b ∈ bes, 1 ≤ b.priority)
    (hne : bes ≠ []) : 0 < sum_pri bes := by
  cases bes with
  | nil => exact absurd rfl hne
  | cons b rest =>
    rw [sum_pri_cons]
    have h1 := hpri b (List.mem_cons_self b rest)
    have h2 := sum_pri_nonneg rest (fun c hc => hpri c (List.mem_cons_of_mem b hc))
    omega

theorem all_unavail_iff (bes : List BACKEND) :
    (∀ j, ¬ avail_at bes j) ↔ ∀ b ∈ bes, ¬ avail b := by
  constructor
  · intro h b hb hav
    obtain ⟨j, hj⟩ := List.mem_iff_getElem?.1 hb
    exact h j ⟨b, hj, hav⟩
  · rintro h j ⟨b, hb, hav⟩
    exact h b (List.getElem?_mem hb) hav

/-- Claim C8: for back-ends of priority at least 1 and `abs_pri` the sum of
all priorities, `hash_backend` returns the back-end selected by the
cumulative-priority walk over all back-ends when that one is alive and
enabled, and in general the first alive, enabled back-end found walking
forward from it in declaration order, wrapping once to the head of the list;
it returns null exactly when no back-end is alive and enabled, and a non-null
result is alive and not disabled. -/
theorem hash_backend_spec (w : Nat) (backends : List BACKEND) (abs_pri : Int)
    (key : CString) (hpri : ∀ b ∈ backends, 1 ≤ b.priority)
    (habs : abs_pri = sum_pri backends) :
    (backends ≠ [] →
      ∃ tb, walk_target backends (hash_pri w abs_pri key) tb ∧
        (avail_at backends tb → hash_backend w backends abs_pri key = some tb) ∧
        ∀ i, hash_backend w backends abs_pri key = some i ↔ first_from backends tb i) ∧
    (hash_backend w backends abs_pri key = none ↔ ∀ b ∈ backends, ¬ avail b) ∧
    (∀ i, hash_backend w backends abs_pri key = some i →
      ∃ b, backends[i]? = some b ∧ b.alive ≠ 0 ∧ b.disabled = 0) := by
  by_cases hne : backends = []
  · subst hne
    refine ⟨fun h => absurd rfl h, ?_, ?_⟩
    · simp [hash_backend, hash_walk]
    · intro i h
      simp [hash_backend, hash_walk] at h
  · have hpos : 0 < abs_pri := habs ▸ sum_pri_pos_of_ne_nil backends hpri hne
    obtain ⟨hp0, hp1⟩ := hash_pri_bounds w abs_pri key hpos
    obtain ⟨tb, htb⟩ := hash_walk_some backends (hash_pri w abs_pri key) hp0 (habs ▸ hp1)
    have htarget := hash_walk_target backends (hash_pri w abs_pri key) tb hpri hp0 htb
    obtain ⟨hsome, hnone⟩ := hash_scan_char backends tb htarget.1 backends.length tb htarget.1
      (by simp) (by
        intro j hj
        simp only [Nat.le_refl, if_true] at hj
        omega)
    have hdef : hash_backend w backends abs_pri key = hash_scan backends tb backends.length tb := by
      simp [hash_backend, htb]
    rw [hdef]
    refine ⟨fun _ => ⟨tb, htarget, ?_, hsome⟩, ?_, ?_⟩
    · intro hav
      exact (hsome tb).2 ⟨hav, Or.inl ⟨Nat.le_refl tb, fun j h1 h2 => by omega⟩⟩
    · rw [hnone, all_unavail_iff]
    · intro i hi
      obtain ⟨⟨b, hb, hav⟩, -⟩ := (hsome i).1 hi
      exact ⟨b, hb, hav.1, hav.2⟩

theorem hash_backend_spec_witness :
    (hash_backend 64 example_four_backends 4 [97, 98, 99] = none ↔
      ∀ b ∈ example_four_backends, ¬ avail b) :=
  (hash_backend_spec 64 example_four_backends 4 [97, 98, 99] (by decide) (by decide)).2.1

theorem hash_walk_congr (l1 l2 : List BACKEND) (pri : Int)
    (h : l1.map (fun b => b.priority) = l2.map (fun b => b.priority)) :
    hash_walk l1 pri = hash_walk l2 pri := by
  induction l1 generalizing l2 pri with
  | nil =>
    cases l2 with
    | nil => rfl
    | cons b rest => simp at h
  | cons a rest ih =>
    cases l2 with
    | nil => simp at h
    | cons b rest2 =>
      simp only [List.map_cons, List.cons.injEq] at h
      simp only [hash_walk, h.1, ih rest2 (pri - b.priority) h.2]

theorem hash_walk_lt (bes : List BACKEND) (pri : Int) (tb : Nat)
    (h : hash_walk bes pri = some tb) : tb < bes.length := by
  induction bes generalizing pri tb with
  | nil => simp [hash_walk] at h
  | cons b rest ih =>
    simp only [hash_walk] at h
    split at h
    · cases h
      simp
    · cases tb with
      | zero => exact absurd h (map_succ_ne_zero _)
      | succ tb =>
        rw [map_succ_eq_some] at h
        have := ih _ _ h
        simp only [List.length_cons]
        omega

theorem hash_scan_avail (bes : List BACKEND) (tb fuel res : Nat) (b : BACKEND)
    (hb : bes[res]? = some b) (hav : avail b) :
    hash_scan bes tb (fuel + 1) res = some res := by
  have hav1 : ¬ (b.alive = 0 ∨ b.disabled ≠ 0) := by
    unfold avail at hav
    intro h
    rcases h with h | h
    · exact hav.1 h
    · exact h hav.2
  simp [hash_scan, hb, hav1]

theorem kill_be_mark_priority (disable_mode : BE_MODE) (b : BACKEND) :
    (kill_be_mark disable_mode b).priority = b.priority := by
  cases disable_mode <;> rfl

theorem kill_be_priorities (svc : SERVICE) (be : Option BE_PTR) (disable_mode : BE_MODE) :
    (kill_be svc be disable_mode).backends.map (fun b => b.priority) =
      svc.backends.map (fun b => b.priority) := by
  apply List.ext_getElem?
  intro j
  rw [List.getElem?_map, List.getElem?_map, kill_be_get]
  cases svc.backends[j]? with
  | none => rfl
  | some b =>
    simp only [Option.map_some', Option.some.injEq]
    split
    · exact kill_be_mark_priority disable_mode b
    · rfl

/-- Claim C7: if `hash_backend` returns back-end `b` when every back-end is
alive and enabled, then after another back-end `b2` is killed by `kill_be` in
kill mode, which changes neither the priorities nor `abs_pri`,
`hash_backend` returns `b` for the same key. -/
theorem hash_backend_stable (w : Nat) (svc : SERVICE) (key : CString) (b b2 : Nat)
    (hall : ∀ be ∈ svc.backends, be.alive ≠ 0 ∧ be.disabled = 0)
    (hres : hash_backend w svc.backends svc.abs_pri key = some b) (hne : b2 ≠ b) :
    hash_backend w (kill_be svc (some (BE_PTR.list b2)) BE_MODE.BE_KILL).backends
        (kill_be svc (some (BE_PTR.list b2)) BE_MODE.BE_KILL).abs_pri key = some b ∧
    (kill_be svc (some (BE_PTR.list b2)) BE_MODE.BE_KILL).backends.map (fun x => x.priority) =
      svc.backends.map (fun x => x.priority) ∧
    (kill_be svc (some (BE_PTR.list b2)) BE_MODE.BE_KILL).abs_pri = svc.abs_pri := by
  have hprio := kill_be_priorities svc (some (BE_PTR.list b2)) BE_MODE.BE_KILL
  have habs := kill_be_abs_pri svc (some (BE_PTR.list b2)) BE_MODE.BE_KILL
  refine ⟨?_, hprio, habs⟩
  unfold hash_backend at hres
  cases hw : hash_walk svc.backends (hash_pri w svc.abs_pri key) with
  | none =>
    rw [hw] at hres
    cases hres
  | some tb =>
    rw [hw] at hres
    simp only at hres
    have hlt := hash_walk_lt _ _ _ hw
    obtain ⟨x, hx⟩ : ∃ x, svc.backends[tb]? = some x :=
      ⟨svc.backends[tb], List.getElem?_eq_getElem hlt⟩
    have hxav : avail x := hall x (List.getElem?_mem hx)
    obtain ⟨n, hn⟩ : ∃ n, svc.backends.length = n + 1 := ⟨svc.backends.length - 1, by omega⟩
    rw [hn, hash_scan_avail svc.backends tb n tb x hx hxav] at hres
    have hbt : tb = b := Option.some.inj hres
    subst hbt
    have hlen : (kill_be svc (some (BE_PTR.list b2)) BE_MODE.BE_KILL).backends.length = n + 1 := by
      have := congrArg List.length hprio
      simp only [List.length_map] at this
      omega
    have hx2 : (kill_be svc (some (BE_PTR.list b2)) BE_MODE.BE_KILL).backends[tb]? = some x := by
      rw [kill_be_get, hx]
      have : ¬ (some (BE_PTR.list b2) = some (BE_PTR.list tb)) := by
        intro h
        cases h
        exact hne rfl
      simp [this]
    unfold hash_backend
    rw [habs, hash_walk_congr _ _ _ hprio, hw]
    simp only
    rw [hlen, hash_scan_avail _ tb n tb x hx2 hxav]

theorem hash_backend_stable_witness :
    hash_backend 64 (kill_be example_hash_svc (some (BE_PTR.list 0)) BE_MODE.BE_KILL).backends
      (kill_be example_hash_svc (some (BE_PTR.list 0)) BE_MODE.BE_KILL).abs_pri [97, 98, 99]
      = some 3 :=
  (hash_backend_stable 64 example_hash_svc [97, 98, 99] 3 0 (by decide) (by decide)
    (by decide)).1

theorem hash_loop_foldl (w : Nat) (key : CString) (hv : Nat) :
    hash_loop w hv key =
      key.foldl (fun h c => ((h ^^^ (c % (2 : Int) ^ w).toNat) * 16777619) % 2 ^ w) hv := by
  induction key generalizing hv with
  | nil => rfl
  | cons c key ih => simp only [hash_loop, List.foldl_cons, ih]

theorem fnv1a_fold_32 (key : CString) (hkey : ∀ c ∈ key, 0 ≤ c ∧ c < 256) (hv : Nat) :
    key.foldl (fun h c => ((h ^^^ (c % (2 : Int) ^ 32).toNat) * 16777619) % 2 ^ 32) hv =
      (to_bytes key).foldl (fun h b => ((h ^^^ b) * 16777619) % 2 ^ 32) hv := by
  induction key generalizing hv with
  | nil => simp only [to_bytes, List.map_nil, List.foldl_nil]
  | cons c key ih =>
    have hc := hkey c (List.mem_cons_self c key)
    have e1 : c % (2 : Int) ^ 32 = c := Int.emod_eq_of_lt hc.1 (by omega)
    have e2 : c % 256 = c := Int.emod_eq_of_lt hc.1 hc.2
    have ih1 := ih (fun d hd => hkey d (List.mem_cons_of_mem c hd))
    simp only [to_bytes, List.map_cons, List.foldl_cons, e1, e2] at ih1 ⊢
    exact ih1 _

theorem fnv1a_wide_32 (key : CString) (hkey : ∀ c ∈ key, 0 ≤ c ∧ c < 256) :
    fnv1a_wide 32 key = fnv1a_32 (to_bytes key) := by
  have h0 : 2166136261 % 2 ^ 32 = 2166136261 := by norm_num
  unfold fnv1a_wide fnv1a_32
  rw [h0]
  exact fnv1a_fold_32 key hkey 2166136261

/-- Claim C9, as amended: for `0 < abs_pri` (an `int`, so below `2 ^ w`), the
slot index that `hash_backend` walks to is the FNV-1a recurrence with offset
basis 2166136261 and prime 16777619 carried out in `unsigned long` arithmetic,
modulo `2 ^ w` for the width `w` of that type, reduced modulo `abs_pri`;
`t_hash` computes the same unreduced value; and when `unsigned long` has 32
bits and no char of the key is negative, that value is the 32-bit FNV-1a hash
of the key's bytes. -/
theorem hash_pri_fnv (w : Nat) (e : TABNODE) (abs_pri : Int) (habs : 0 < abs_pri)
    (hfit : abs_pri < 2 ^ w) :
    hash_pri w abs_pri e.key = ((fnv1a_wide w e.key : Nat) : Int) % abs_pri ∧
    t_hash w e = fnv1a_wide w e.key ∧
    (w = 32 → (∀ c ∈ e.key, 0 ≤ c ∧ c < 256) →
      hash_pri w abs_pri e.key = ((fnv1a_32 (to_bytes e.key) : Nat) : Int) % abs_pri ∧
      t_hash w e = fnv1a_32 (to_bytes e.key)) := by
  have hloop : hash_loop w (2166136261 % 2 ^ w) e.key = fnv1a_wide w e.key :=
    hash_loop_foldl w e.key _
  have h1 : hash_pri w abs_pri e.key = ((fnv1a_wide w e.key : Nat) : Int) % abs_pri := by
    unfold hash_pri
    rw [hloop, Int.emod_eq_of_lt (le_of_lt habs) hfit, Int.natCast_mod,
      Int.toNat_of_nonneg (le_of_lt habs)]
  have h2 : t_hash w e = fnv1a_wide w e.key := hloop
  refine ⟨h1, h2, ?_⟩
  intro hw hkey
  subst hw
  rw [h1, h2, fnv1a_wide_32 e.key hkey]
  exact ⟨rfl, rfl⟩

theorem hash_pri_fnv_witness :
    hash_pri 32 5 [97] = ((fnv1a_32 (to_bytes [97]) : Nat) : Int) % 5 ∧
    t_hash 32 { key := [97], content := {}, last_acc := 0 } = fnv1a_32 (to_bytes [97]) :=
  (hash_pri_fnv 32 { key := [97], content := {}, last_acc := 0 } 5 (by decide) (by decide)).2.2
    rfl (by decide)

/-- Claim C9 fails as stated where `unsigned long` has 64 bits: for the key "a"
and `abs_pri = 5` the slot index of `hash_backend` is 2 while the 32-bit
FNV-1a hash of the key, 3826002220, reduced modulo 5 is 0, and `t_hash`
returns 36342608335481132, not that hash. -/
theorem hash_pri_fnv_counterexample :
    hash_pri 64 5 [97] ≠ ((fnv1a_32 (to_bytes [97]) : Nat) : Int) % 5 ∧
    t_hash 64 { key := [97], content := {}, last_acc := 0 } ≠ fnv1a_32 (to_bytes [97]) ∧
    hash_pri 64 5 [97] = 2 ∧
    ((fnv1a_32 (to_bytes [97]) : Nat) : Int) % 5 = 0 ∧
    t_hash 64 { key := [97], content := {}, last_acc := 0 } = 36342608335481132 ∧
    fnv1a_32 (to_bytes [97]) = 3826002220 := by
  refine ⟨by decide, by decide, by decide, by decide, by decide, by decide⟩

/-! ## Killing a back-end: proofs -/

theorem delete_session_sessions (svc : SERVICE) (t : TABNODE) :
    (delete_session svc t).sessions =
      svc.sessions.filter (fun u => decide (u.key ≠ t.key)) := by
  unfold delete_session
  cases hl : t_lookup svc.sessions t.key with
  | none =>
    simp only
    symm
    rw [List.filter_eq_self]
    intro u hu
    unfold t_lookup at hl
    rw [List.find?_eq_none] at hl
    simpa using hl u hu
  | some res => rfl

theorem t_clean_be_fold_sessions (content : Option BE_PTR) (l : List TABNODE)
    (svc : SERVICE) :
    (l.foldl (fun s t => t_cont_be_doall_arg t content s) svc).sessions =
      svc.sessions.filter (fun u =>
        !(l.any (fun t => decide (t.content.be = content) && decide (t.key = u.key)))) := by
  induction l generalizing svc with
  | nil => simp
  | cons t rest ih =>
    simp only [List.foldl_cons]
    rw [ih]
    unfold t_cont_be_doall_arg
    by_cases hbe : t.content.be = content
    · simp only [hbe, if_true]
      rw [delete_session_sessions, List.filter_filter]
      congr 1
      funext u
      by_cases hk : t.key = u.key
      · simp [hk, hbe]
      · have hk2 : ¬ u.key = t.key := fun h => hk h.symm
        simp [hk, hk2, hbe]
    · simp only [hbe, if_false]
      congr 1
      funext u
      simp [hbe]

theorem t_clean_be_sessions (svc : SERVICE) (content : Option BE_PTR)
    (hnodup : (svc.sessions.map (fun t => t.key)).Nodup) :
    (t_clean_be svc content).sessions =
      svc.sessions.filter (fun u => decide (u.content.be ≠ content)) := by
  unfold t_clean_be
  rw [t_clean_be_fold_sessions]
  apply List.filter_congr
  intro u hu
  by_cases hbe : u.content.be = content
  · simp only [hbe, ne_eq, not_true_eq_false, decide_False, Bool.not_eq_false',
      List.any_eq_true, Bool.and_eq_true, decide_eq_true_eq]
    exact ⟨u, hu, hbe, rfl⟩
  · simp only [ne_eq, hbe, not_false_eq_true, decide_True, Bool.not_eq_true',
      List.any_eq_false, Bool.and_eq_true, decide_eq_true_eq, not_and]
    intro t ht htbe hkey
    have := List.inj_on_of_nodup_map hnodup ht hu hkey
    subst this
    exact hbe htbe

theorem kill_be_switch_sessions_of_ne (be : Option BE_PTR) (disable_mode : BE_MODE)
    (b : BACKEND) (svc : SERVICE) (hmode : disable_mode ≠ BE_MODE.BE_KILL) :
    (kill_be_switch be disable_mode b svc).2 = svc := by
  cases disable_mode
  case BE_KILL => exact absurd rfl hmode
  all_goals rfl

theorem kill_be_loop_sessions_none (be : Option BE_PTR) (disable_mode : BE_MODE)
    (l : List BACKEND) (i : Nat) (svc : SERVICE)
    (hno : ∀ j, j < l.length → be ≠ some (BE_PTR.list (i + j))) :
    (kill_be_loop be disable_mode i l svc).2.sessions = svc.sessions ∧
    (kill_be_loop be disable_mode i l svc).2.del_sessions = svc.del_sessions := by
  induction l generalizing i svc with
  | nil => exact ⟨rfl, rfl⟩
  | cons b rest ih =>
    have h0 : be ≠ some (BE_PTR.list i) := by
      have := hno 0 (by simp)
      simpa using this
    simp only [kill_be_loop, h0, if_false]
    have hrest : ∀ j, j < rest.length → be ≠ some (BE_PTR.list (i + 1 + j)) := by
      intro j hj
      have := hno (j + 1) (by simp only [List.length_cons]; omega)
      have e : i + (j + 1) = i + 1 + j := by omega
      rw [e] at this
      exact this
    have h := ih (i + 1) (if b.alive ≠ 0 ∧ b.disabled = 0
      then { svc with tot_pri := svc.tot_pri + b.priority } else svc) hrest
    rw [h.1, h.2]
    split <;> exact ⟨rfl, rfl⟩

theorem kill_be_loop_sessions_kill (l : List BACKEND) (i j : Nat) (svc : SERVICE)
    (hj : j < l.length) :
    (kill_be_loop (some (BE_PTR.list (i + j))) BE_MODE.BE_KILL i l svc).2.sessions =
      (t_clean_be svc (some (BE_PTR.list (i + j)))).sessions := by
  induction l generalizing i j svc with
  | nil => simp at hj
  | cons b rest ih =>
    simp only [kill_be_loop]
    cases j with
    | zero =>
      simp only [Nat.add_zero, if_true]
      have hrest : ∀ k, k < rest.length →
          (some (BE_PTR.list i) : Option BE_PTR) ≠ some (BE_PTR.list (i + 1 + k)) := by
        intro k _ h
        simp only [Option.some.injEq, BE_PTR.list.injEq] at h
        omega
      rw [(kill_be_loop_sessions_none (some (BE_PTR.list i)) BE_MODE.BE_KILL rest (i + 1) _
        hrest).1]
      split <;> rfl
    | succ j =>
      have hne : ¬ ((some (BE_PTR.list (i + (j + 1))) : Option BE_PTR) = some (BE_PTR.list i)) := by
        intro h
        simp only [Option.some.injEq, BE_PTR.list.injEq] at h
        omega
      simp only [hne, if_false]
      have e : i + (j + 1) = i + 1 + j := by omega
      rw [e]
      rw [ih (i + 1) j _ (by simpa using hj)]
      unfold t_clean_be
      rw [t_clean_be_fold_sessions, t_clean_be_fold_sessions]
      split <;> rfl

theorem kill_be_sessions_kill (svc : SERVICE) (b : Nat) (hb : b < svc.backends.length)
    (hnodup : (svc.sessions.map (fun t => t.key)).Nodup) :
    (kill_be svc (some (BE_PTR.list b)) BE_MODE.BE_KILL).sessions =
      svc.sessions.filter (fun u => decide (u.content.be ≠ some (BE_PTR.list b))) := by
  unfold kill_be
  simp only
  have h := kill_be_loop_sessions_kill svc.backends 0 b { svc with tot_pri := 0 } hb
  simp only [Nat.zero_add] at h
  rw [h]
  exact t_clean_be_sessions { svc with tot_pri := 0 } (some (BE_PTR.list b)) hnodup

theorem kill_be_loop_tot_pri (be : Option BE_PTR) (disable_mode : BE_MODE)
    (l : List BACKEND) (i : Nat) (svc : SERVICE) :
    (kill_be_loop be disable_mode i l svc).2.tot_pri =
      svc.tot_pri + sum_avail (kill_be_loop be disable_mode i l svc).1 := by
  induction l generalizing i svc with
  | nil => simp [kill_be_loop, sum_avail]
  | cons b rest ih =>
    simp only [kill_be_loop]
    rw [ih, sum_avail_cons]
    have hsw : (kill_be_switch be disable_mode b svc).2.tot_pri = svc.tot_pri := by
      rw [kill_be_switch_fields]
    by_cases hbe : be = some (BE_PTR.list i)
    · simp only [hbe, if_true] at hsw ⊢
      by_cases hav : avail (kill_be_switch (some (BE_PTR.list i)) disable_mode b svc).1
      · have hav2 := hav
        unfold avail at hav2
        simp only [hav, hav2, if_true, and_self, ne_eq, not_false_eq_true, hsw]
        omega
      · have hav2 := hav
        unfold avail at hav2
        simp only [hav, hav2, if_false, hsw]
        omega
    · simp only [hbe, if_false]
      by_cases hav : avail b
      · have hav2 := hav
        unfold avail at hav2
        simp only [hav, hav2, if_true, and_self, ne_eq, not_false_eq_true]
        omega
      · have hav2 := hav
        unfold avail at hav2
        simp only [hav, hav2, if_false]
        omega

theorem kill_be_tot_pri (svc : SERVICE) (be : Option BE_PTR) (disable_mode : BE_MODE) :
    (kill_be svc be disable_mode).tot_pri =
      sum_avail (kill_be svc be disable_mode).backends := by
  unfold kill_be
  simp only
  rw [kill_be_loop_tot_pri]
  simp

theorem rand_pick_alive (svc : SERVICE) (rnd : Nat)
    (hinv : svc.tot_pri = sum_avail svc.backends) (hpos : 0 < svc.tot_pri) :
    ∃ i x, rand_pick svc rnd = some (BE_PTR.list i) ∧ svc.backends[i]? = some x ∧
      x.alive ≠ 0 ∧ x.disabled = 0 := by
  have h0 : 0 ≤ (rnd : Int) % svc.tot_pri := Int.emod_nonneg _ (ne_of_gt hpos)
  have h1 : (rnd : Int) % svc.tot_pri < sum_avail svc.backends :=
    hinv ▸ Int.emod_lt_of_pos _ hpos
  obtain ⟨i, x, hres, hget, hav, -, -⟩ := rand_backend_first svc.backends _ h0 h1
  exact ⟨i, x, by simp [rand_pick, hres], hget, hav.1, hav.2⟩

theorem bekey_pick_alive (c : CONSTS) (svc : SERVICE) (headers : List (Option CString))
    (rnd : Nat) (hinv : svc.tot_pri = sum_avail svc.backends) (hpos : 0 < svc.tot_pri) :
    ∃ i x, bekey_pick c svc headers rnd = some (BE_PTR.list i) ∧
      svc.backends[i]? = some x ∧ x.alive ≠ 0 := by
  obtain ⟨i, x, h1, h2, h3, -⟩ := rand_pick_alive svc rnd hinv hpos
  unfold bekey_pick
  split
  · split
    · exact ⟨i, x, h1, h2, h3⟩
    · rename_i j _
      split
      · exact ⟨i, x, h1, h2, h3⟩
      · rename_i y hy
        split
        · exact ⟨i, x, h1, h2, h3⟩
        · rename_i hal
          exact ⟨j, y, rfl, hy, hal⟩
  · exact ⟨i, x, h1, h2, h3⟩

/-- Claim C10: after `kill_be(svc, b, BE_KILL)` for a back-end `b` of `svc`,
`b` is not alive, no entry of the session table is bound to `b`, and the
entries of the table are exactly the former ones bound to another back-end;
so a following request whose key was bound to `b` misses the table and, a
routable back-end being left (`tot_pri > 0`), is bound to a back-end other
than `b` that is alive. -/
theorem kill_be_evicts (c : CONSTS) (svc : SERVICE) (b : Nat)
    (hb : b < svc.backends.length)
    (hnodup : (svc.sessions.map (fun t => t.key)).Nodup) :
    (∃ x, (kill_be svc (some (BE_PTR.list b)) BE_MODE.BE_KILL).backends[b]? = some x ∧
      x.alive = 0) ∧
    (∀ t ∈ (kill_be svc (some (BE_PTR.list b)) BE_MODE.BE_KILL).sessions,
      t.content.be ≠ some (BE_PTR.list b) ∧ t ∈ svc.sessions) ∧
    (∀ t ∈ svc.sessions, t.content.be ≠ some (BE_PTR.list b) →
      t ∈ (kill_be svc (some (BE_PTR.list b)) BE_MODE.BE_KILL).sessions) ∧
    (∀ (from_host request : CString) (headers : List (Option CString)) (u_name : CString)
        (rnd : Nat) (now : Int) (k : CString) (node : TABNODE),
      t_lookup svc.sessions k = some node →
      node.content.be = some (BE_PTR.list b) →
      0 ≤ (kill_be svc (some (BE_PTR.list b)) BE_MODE.BE_KILL).sess_ttl →
      0 < (kill_be svc (some (BE_PTR.list b)) BE_MODE.BE_KILL).tot_pri →
      session_key c (kill_be svc (some (BE_PTR.list b)) BE_MODE.BE_KILL)
        from_host request headers = some k →
      t_lookup (kill_be svc (some (BE_PTR.list b)) BE_MODE.BE_KILL).sessions k = none ∧
      (get_backend c (kill_be svc (some (BE_PTR.list b)) BE_MODE.BE_KILL)
          from_host request headers u_name rnd now).svc.misses =
        (kill_be svc (some (BE_PTR.list b)) BE_MODE.BE_KILL).misses + 1 ∧
      ∃ i x node2,
        (get_backend c (kill_be svc (some (BE_PTR.list b)) BE_MODE.BE_KILL)
          from_host request headers u_name rnd now).res = some (BE_PTR.list i) ∧
        i ≠ b ∧
        (kill_be svc (some (BE_PTR.list b)) BE_MODE.BE_KILL).backends[i]? = some x ∧
        x.alive ≠ 0 ∧
        t_lookup (get_backend c (kill_be svc (some (BE_PTR.list b)) BE_MODE.BE_KILL)
          from_host request headers u_name rnd now).svc.sessions k = some node2 ∧
        node2.content.be = some (BE_PTR.list i)) := by
  have hsess := kill_be_sessions_kill svc b hb hnodup
  have hget := kill_be_get svc (some (BE_PTR.list b)) BE_MODE.BE_KILL b
  have hinv := kill_be_tot_pri svc (some (BE_PTR.list b)) BE_MODE.BE_KILL
  generalize kill_be svc (some (BE_PTR.list b)) BE_MODE.BE_KILL = svc2 at hsess hget hinv ⊢
  obtain ⟨y, hy⟩ : ∃ y, svc.backends[b]? = some y :=
    ⟨svc.backends[b], List.getElem?_eq_getElem hb⟩
  have hdead : svc2.backends[b]? = some (kill_be_mark BE_MODE.BE_KILL y) := by
    rw [hget, hy]
    simp
  refine ⟨⟨_, hdead, rfl⟩, ?_, ?_, ?_⟩
  · intro t ht
    rw [hsess, List.mem_filter] at ht
    exact ⟨by simpa using ht.2, ht.1⟩
  · intro t ht hne
    rw [hsess, List.mem_filter]
    exact ⟨ht, by simpa using hne⟩
  · intro from_host request headers u_name rnd now k node hlook hbound httl hpos hkey
    have hmem : node ∈ svc.sessions := List.mem_of_find?_eq_some hlook
    have hnk : node.key = k := by
      have := List.find?_some hlook
      simpa using this
    have hmiss : t_lookup svc2.sessions k = none := by
      unfold t_lookup
      rw [List.find?_eq_none]
      intro u hu hku
      rw [hsess, List.mem_filter] at hu
      have hku2 : u.key = k := by simpa using hku
      have := List.inj_on_of_nodup_map hnodup hu.1 hmem (hku2.trans hnk.symm)
      subst this
      simp [hbound] at hu
    obtain ⟨⟨node2, hn2, hbe2⟩, hres, hmisses, -⟩ := get_backend_miss_result c svc2 from_host
      request headers u_name rnd now k httl hpos hkey hmiss
    obtain ⟨i, x, hpick, hx, hal⟩ := bekey_pick_alive c svc2 headers rnd hinv hpos
    refine ⟨hmiss, hmisses, i, x, node2, hres.trans hpick, ?_, hx, hal, hn2,
      hbe2.trans (hres.trans hpick)⟩
    intro hib
    subst hib
    rw [hdead] at hx
    cases hx
    exact hal rfl

theorem kill_be_evicts_witness :
    t_lookup (kill_be example_bound_svc (some (BE_PTR.list 1)) BE_MODE.BE_KILL).sessions
      example_client = none ∧
    (get_backend example_consts
        (kill_be example_bound_svc (some (BE_PTR.list 1)) BE_MODE.BE_KILL)
        example_client [47] [none] [] 1 30).svc.misses =
      (kill_be example_bound_svc (some (BE_PTR.list 1)) BE_MODE.BE_KILL).misses + 1 ∧
    ∃ i x node2,
      (get_backend example_consts
        (kill_be example_bound_svc (some (BE_PTR.list 1)) BE_MODE.BE_KILL)
        example_client [47] [none] [] 1 30).res = some (BE_PTR.list i) ∧
      i ≠ 1 ∧
      (kill_be example_bound_svc (some (BE_PTR.list 1)) BE_MODE.BE_KILL).backends[i]? = some x ∧
      x.alive ≠ 0 ∧
      t_lookup (get_backend example_consts
        (kill_be example_bound_svc (some (BE_PTR.list 1)) BE_MODE.BE_KILL)
        example_client [47] [none] [] 1 30).svc.sessions example_client = some node2 ∧
      node2.content.be = some (BE_PTR.list i) :=
  (kill_be_evicts example_consts example_bound_svc 1 (by decide) (by decide)).2.2.2
    example_client [47] [none] [] 1 30 example_client example_bound_node
    (by decide) (by decide) (by decide) (by decide) (by decide)

/-! ## Disabling and enabling a back-end: proofs -/

theorem kill_be_loop_sessions_of_ne_kill (be : Option BE_PTR) (disable_mode : BE_MODE)
    (hmode : disable_mode ≠ BE_MODE.BE_KILL) (l : List BACKEND) (i : Nat) (svc : SERVICE) :
    (kill_be_loop be disable_mode i l svc).2.sessions = svc.sessions ∧
    (kill_be_loop be disable_mode i l svc).2.del_sessions = svc.del_sessions := by
  induction l generalizing i svc with
  | nil => exact ⟨rfl, rfl⟩
  | cons b rest ih =>
    simp only [kill_be_loop]
    rw [(ih (i + 1) _).1, (ih (i + 1) _).2]
    by_cases hbe : be = some (BE_PTR.list i)
    · simp only [hbe, if_true]
      rw [kill_be_switch_sessions_of_ne _ _ _ _ hmode]
      split <;> exact ⟨rfl, rfl⟩
    · simp only [hbe, if_false]
      split <;> exact ⟨rfl, rfl⟩

theorem kill_be_sessions_of_ne_kill (svc : SERVICE) (be : Option BE_PTR)
    (disable_mode : BE_MODE) (hmode : disable_mode ≠ BE_MODE.BE_KILL) :
    (kill_be svc be disable_mode).sessions = svc.sessions ∧
    (kill_be svc be disable_mode).del_sessions = svc.del_sessions := by
  unfold kill_be
  simp only
  exact kill_be_loop_sessions_of_ne_kill be disable_mode hmode svc.backends 0 _

theorem kill_be_disable_enable_backends (svc : SERVICE) (b : Nat) (x : BACKEND)
    (hb : svc.backends[b]? = some x) (hen : x.disabled = 0) :
    (kill_be (kill_be svc (some (BE_PTR.list b)) BE_MODE.BE_DISABLE)
        (some (BE_PTR.list b)) BE_MODE.BE_ENABLE).backends = svc.backends := by
  apply List.ext_getElem?
  intro j
  rw [kill_be_get, kill_be_get]
  cases hj : svc.backends[j]? with
  | none => rfl
  | some y =>
    simp only [Option.map_some', Option.some.injEq]
    by_cases hjb : j = b
    · subst hjb
      rw [hb] at hj
      cases hj
      cases x
      cases hen
      simp [kill_be_mark]
    · have hne : ¬ (BE_PTR.list b = BE_PTR.list j) := by
        intro h
        simp only [BE_PTR.list.injEq] at h
        exact hjb h.symm
      simp only [hne, if_false]

/-- Claim C11, as amended: for a service whose `tot_pri` is the sum of the
priorities of its alive, non-disabled back-ends and a back-end `b` of it that
is not disabled, `kill_be(svc, b, BE_DISABLE)` followed by
`kill_be(svc, b, BE_ENABLE)` leaves `tot_pri` at its value before the disable
and the back-ends as they were, and neither call changes the session table. -/
theorem kill_be_disable_enable (svc : SERVICE) (b : Nat) (x : BACKEND)
    (hb : svc.backends[b]? = some x) (hen : x.disabled = 0)
    (hinv : svc.tot_pri = sum_avail svc.backends) :
    (kill_be (kill_be svc (some (BE_PTR.list b)) BE_MODE.BE_DISABLE)
        (some (BE_PTR.list b)) BE_MODE.BE_ENABLE).tot_pri = svc.tot_pri ∧
    (kill_be (kill_be svc (some (BE_PTR.list b)) BE_MODE.BE_DISABLE)
        (some (BE_PTR.list b)) BE_MODE.BE_ENABLE).backends = svc.backends ∧
    (kill_be svc (some (BE_PTR.list b)) BE_MODE.BE_DISABLE).sessions = svc.sessions ∧
    (kill_be (kill_be svc (some (BE_PTR.list b)) BE_MODE.BE_DISABLE)
        (some (BE_PTR.list b)) BE_MODE.BE_ENABLE).sessions = svc.sessions := by
  have hbe := kill_be_disable_enable_backends svc b x hb hen
  have h1 := (kill_be_sessions_of_ne_kill svc (some (BE_PTR.list b)) BE_MODE.BE_DISABLE
    (by decide)).1
  have h2 := (kill_be_sessions_of_ne_kill
    (kill_be svc (some (BE_PTR.list b)) BE_MODE.BE_DISABLE) (some (BE_PTR.list b))
    BE_MODE.BE_ENABLE (by decide)).1
  refine ⟨?_, hbe, h1, h2.trans h1⟩
  rw [kill_be_tot_pri, hbe, hinv]

theorem kill_be_disable_enable_witness :
    (kill_be (kill_be example_two_svc (some (BE_PTR.list 1)) BE_MODE.BE_DISABLE)
        (some (BE_PTR.list 1)) BE_MODE.BE_ENABLE).tot_pri = example_two_svc.tot_pri ∧
    (kill_be (kill_be example_two_svc (some (BE_PTR.list 1)) BE_MODE.BE_DISABLE)
        (some (BE_PTR.list 1)) BE_MODE.BE_ENABLE).backends = example_two_svc.backends ∧
    (kill_be example_two_svc (some (BE_PTR.list 1)) BE_MODE.BE_DISABLE).sessions =
      example_two_svc.sessions ∧
    (kill_be (kill_be example_two_svc (some (BE_PTR.list 1)) BE_MODE.BE_DISABLE)
        (some (BE_PTR.list 1)) BE_MODE.BE_ENABLE).sessions = example_two_svc.sessions :=
  kill_be_disable_enable example_two_svc 1 { priority := 1 } rfl rfl (by decide)

/-- Claim C11 fails as stated for a back-end that is disabled beforehand: the
only back-end of `example_off_svc`, of priority 5, is alive and configured
disabled, `tot_pri` is 0 as the invariant asks, and after the disable and the
enable `tot_pri` is 5. -/
theorem kill_be_disable_enable_counterexample :
    example_off_svc.tot_pri = sum_avail example_off_svc.backends ∧
    example_off_svc.tot_pri = 0 ∧
    (kill_be (kill_be example_off_svc (some (BE_PTR.list 0)) BE_MODE.BE_DISABLE)
        (some (BE_PTR.list 0)) BE_MODE.BE_ENABLE).tot_pri = 5 ∧
    (kill_be (kill_be example_off_svc (some (BE_PTR.list 0)) BE_MODE.BE_DISABLE)
        (some (BE_PTR.list 0)) BE_MODE.BE_ENABLE).tot_pri ≠ example_off_svc.tot_pri := by
  refine ⟨by decide, by decide, by decide, by decide⟩

/-! ## The invariants of the priorities: proofs -/

theorem parse_service_end_loop_spec (l : List BACKEND) (res : SERVICE) :
    (parse_service_end_loop l res).tot_pri = res.tot_pri + sum_avail l ∧
    (parse_service_end_loop l res).abs_pri = res.abs_pri + sum_pri l ∧
    (parse_service_end_loop l res).backends = res.backends := by
  induction l generalizing res with
  | nil => simp [parse_service_end_loop, sum_avail, sum_pri]
  | cons be rest ih =>
    simp only [parse_service_end_loop]
    rw [(ih _).1, (ih _).2.1, (ih _).2.2, sum_avail_cons, sum_pri_cons]
    by_cases hav : avail be
    · have hav2 := hav
      unfold avail at hav2
      simp only [hav, hav2, if_true, and_self, ne_eq, not_false_eq_true]
      refine ⟨by omega, by omega, trivial⟩
    · have hav2 := hav
      unfold avail at hav2
      simp only [hav, hav2, if_false]
      refine ⟨by omega, by omega, trivial⟩

theorem resurrect_probe_sums (probe : Nat → Bool) (l : List BACKEND) (i : Nat) :
    sum_avail (resurrect_probe probe i l).1 = sum_avail l ∧
    sum_pri (resurrect_probe probe i l).1 = sum_pri l := by
  induction l generalizing i with
  | nil => simp [resurrect_probe]
  | cons be rest ih =>
    simp only [resurrect_probe]
    split
    · simp only [sum_avail_cons, sum_pri_cons, (ih (i + 1)).1, (ih (i + 1)).2, avail]
      exact ⟨trivial, trivial⟩
    · split
      · simp only [sum_avail_cons, sum_pri_cons, (ih (i + 1)).1, (ih (i + 1)).2, avail]
        exact ⟨trivial, trivial⟩
      · split
        · simp only [sum_avail_cons, sum_pri_cons, (ih (i + 1)).1, (ih (i + 1)).2, avail]
          exact ⟨trivial, trivial⟩
        · simp only [sum_avail_cons, sum_pri_cons, (ih (i + 1)).1, (ih (i + 1)).2, avail]
          exact ⟨trivial, trivial⟩

theorem resurrect_commit_sums (l : List BACKEND) (tot_pri : Int) :
    (resurrect_commit l tot_pri).2 = tot_pri + sum_avail (resurrect_commit l tot_pri).1 ∧
    sum_pri (resurrect_commit l tot_pri).1 = sum_pri l := by
  induction l generalizing tot_pri with
  | nil => simp [resurrect_commit, sum_avail]
  | cons be rest ih =>
    simp only [resurrect_commit]
    by_cases hr : be.resurrect ≠ 0
    · simp only [hr, if_true, ne_eq, not_false_eq_true]
      rw [(ih _).1, sum_avail_cons, sum_pri_cons, (ih _).2, sum_pri_cons]
      refine ⟨?_, rfl⟩
      by_cases hd : be.disabled = 0
      · simp [avail, hd]
        omega
      · simp [avail, hd]
    · simp only [hr, if_false]
      rw [(ih _).1, sum_avail_cons, sum_pri_cons, (ih _).2, sum_pri_cons]
      refine ⟨?_, rfl⟩
      by_cases hav : avail be
      · have hav2 := hav
        unfold avail at hav2
        simp only [hav, hav2, if_true, and_self, ne_eq, not_false_eq_true]
        omega
      · have hav2 := hav
        unfold avail at hav2
        simp only [hav, hav2, if_false]
        omega

theorem do_resurect_svc_tot_pri (probe : Nat → Bool) (svc : SERVICE) :
    ((resurrect_probe probe 0 svc.backends).2 = true →
      (do_resurect_svc probe svc).tot_pri = sum_avail (do_resurect_svc probe svc).backends) ∧
    (svc.tot_pri = sum_avail svc.backends →
      (do_resurect_svc probe svc).tot_pri = sum_avail (do_resurect_svc probe svc).backends) := by
  unfold do_resurect_svc
  by_cases hm : (resurrect_probe probe 0 svc.backends).2 = true
  · rw [if_pos hm]
    have h := (resurrect_commit_sums (resurrect_probe probe 0 svc.backends).1 0).1
    simp only
    refine ⟨fun _ => ?_, fun _ => ?_⟩ <;> omega
  · rw [if_neg hm]
    refine ⟨fun h => absurd h hm, fun h => ?_⟩
    simp only
    rw [(resurrect_probe_sums probe svc.backends 0).1]
    exact h

theorem rescale_halve_fields (RESCALE_BOT : Int) (fuel : Nat) (be : BACKEND) :
    (rescale_halve RESCALE_BOT fuel be).priority = be.priority ∧
    (rescale_halve RESCALE_BOT fuel be).alive = be.alive ∧
    (rescale_halve RESCALE_BOT fuel be).disabled = be.disabled ∧
    (rescale_halve RESCALE_BOT fuel be).be_type = be.be_type ∧
    (rescale_halve RESCALE_BOT fuel be).t_average = be.t_average := by
  induction fuel generalizing be with
  | zero => simp [rescale_halve]
  | succ fuel ih =>
    simp only [rescale_halve]
    split
    · have h := ih { be with n_requests := be.n_requests.tdiv 2, t_requests := be.t_requests / 2 }
      exact h
    · simp

theorem rescale_raise_fields (c : CONSTS) (average sq_average : double) (be : BACKEND) :
    (rescale_raise c average sq_average be).1.priority =
      be.priority + (rescale_raise c average sq_average be).2 ∧
    (rescale_raise c average sq_average be).1.alive = be.alive ∧
    (rescale_raise c average sq_average be).1.disabled = be.disabled := by
  unfold rescale_raise
  split
  · have h := rescale_halve_fields c.RESCALE_BOT be.n_requests.toNat
      { be with priority := be.priority + 1 }
    exact ⟨h.1, h.2.1, h.2.2.1⟩
  · simp

theorem rescale_lower_fields (c : CONSTS) (average sq_average : double) (be : BACKEND) :
    (rescale_lower c average sq_average be).1.priority =
      be.priority + (rescale_lower c average sq_average be).2 ∧
    (rescale_lower c average sq_average be).1.alive = be.alive ∧
    (rescale_lower c average sq_average be).1.disabled = be.disabled := by
  unfold rescale_lower
  split
  · have h := rescale_halve_fields c.RESCALE_BOT be.n_requests.toNat
      { be with priority := be.priority - 1 }
    refine ⟨?_, h.2.1, h.2.2.1⟩
    rw [h.1]
    simp only
    omega
  · simp

theorem rescale_loop_sums (c : CONSTS) (average sq_average : double) (l : List BACKEND)
    (tot_pri : Int) :
    (rescale_loop c average sq_average l tot_pri).2 =
      tot_pri + (sum_avail (rescale_loop c average sq_average l tot_pri).1 - sum_avail l) ∧
    (rescale_loop c average sq_average l tot_pri).2 =
      tot_pri + (sum_pri (rescale_loop c average sq_average l tot_pri).1 - sum_pri l) := by
  induction l generalizing tot_pri with
  | nil => simp [rescale_loop, sum_avail, sum_pri]
  | cons be rest ih =>
    simp only [rescale_loop]
    split
    · have h := ih tot_pri
      simp only [sum_avail_cons, sum_pri_cons]
      refine ⟨?_, ?_⟩
      · rw [h.1]
        omega
      · rw [h.2]
        omega
    · rename_i hskip
      have hav : avail be := by
        unfold avail
        constructor
        · intro h0
          exact hskip (Or.inr (Or.inl h0))
        · by_contra h0
          exact hskip (Or.inr (Or.inr (Or.inl h0)))
      have hr := rescale_raise_fields c average sq_average be
      have hl := rescale_lower_fields c average sq_average (rescale_raise c average sq_average be).1
      have hav2 : avail (rescale_lower c average sq_average
          (rescale_raise c average sq_average be).1).1 := by
        unfold avail at hav ⊢
        rw [hl.2.1, hl.2.2, hr.2.1, hr.2.2]
        exact hav
      have h := ih (tot_pri + (rescale_raise c average sq_average be).2 +
        (rescale_lower c average sq_average (rescale_raise c average sq_average be).1).2)
      simp only [sum_avail_cons, sum_pri_cons, hav, hav2, if_true]
      refine ⟨?_, ?_⟩
      · rw [h.1]
        omega
      · rw [h.2]
        omega

theorem do_rescale_svc_sums (c : CONSTS) (svc : SERVICE) :
    (do_rescale_svc c svc).tot_pri - svc.tot_pri =
      sum_avail (do_rescale_svc c svc).backends - sum_avail svc.backends ∧
    (do_rescale_svc c svc).tot_pri - svc.tot_pri =
      sum_pri (do_rescale_svc c svc).backends - sum_pri svc.backends ∧
    (do_rescale_svc c svc).abs_pri = svc.abs_pri ∧
    (do_rescale_svc c svc).sessions = svc.sessions := by
  unfold do_rescale_svc
  split
  · simp
  · split
    · simp
    · simp only
      refine ⟨?_, ?_, trivial, trivial⟩
      · rw [(rescale_loop_sums _ _ _ _ _).1]
        omega
      · rw [(rescale_loop_sums _ _ _ _ _).2]
        omega

/-- Claim C12: the predicate "`tot_pri` is the sum of the priorities of the
back-ends that are alive and not disabled" holds after the construction of a
service (`parse_service` at `End`, from the zeroed structure), is established
from any state by `kill_be` in each of its modes and by the resurrect step of
`do_resurect`, and is preserved by the second pass of `do_resurect` and by a
pass of `do_rescale`. -/
theorem tot_pri_invariant (c : CONSTS) (svc : SERVICE) :
    (svc.tot_pri = 0 →
      (parse_service_end svc).tot_pri = sum_avail (parse_service_end svc).backends) ∧
    (∀ (be : Option BE_PTR) (disable_mode : BE_MODE),
      (kill_be svc be disable_mode).tot_pri = sum_avail (kill_be svc be disable_mode).backends) ∧
    (∀ probe : Nat → Bool, (resurrect_probe probe 0 svc.backends).2 = true →
      (do_resurect_svc probe svc).tot_pri = sum_avail (do_resurect_svc probe svc).backends) ∧
    (∀ probe : Nat → Bool, svc.tot_pri = sum_avail svc.backends →
      (do_resurect_svc probe svc).tot_pri = sum_avail (do_resurect_svc probe svc).backends) ∧
    (svc.tot_pri = sum_avail svc.backends →
      (do_rescale_svc c svc).tot_pri = sum_avail (do_rescale_svc c svc).backends) := by
  refine ⟨?_, ?_, ?_, ?_, ?_⟩
  · intro h0
    unfold parse_service_end
    rw [(parse_service_end_loop_spec svc.backends svc).1,
      (parse_service_end_loop_spec svc.backends svc).2.2, h0]
    omega
  · intro be disable_mode
    exact kill_be_tot_pri svc be disable_mode
  · intro probe hm
    exact (do_resurect_svc_tot_pri probe svc).1 hm
  · intro probe hinv
    exact (do_resurect_svc_tot_pri probe svc).2 hinv
  · intro hinv
    have h := (do_rescale_svc_sums c svc).1
    omega

theorem tot_pri_invariant_witness :
    (do_rescale_svc example_consts example_rescale_svc).tot_pri =
      sum_avail (do_rescale_svc example_consts example_rescale_svc).backends :=
  (tot_pri_invariant example_consts example_rescale_svc).2.2.2.2 (by decide)

theorem abs_pri_elsewhere (svc : SERVICE) :
    (svc.abs_pri = 0 →
      (parse_service_end svc).abs_pri = sum_pri (parse_service_end svc).backends) ∧
    (∀ (be : Option BE_PTR) (disable_mode : BE_MODE), svc.abs_pri = sum_pri svc.backends →
      (kill_be svc be disable_mode).abs_pri = sum_pri (kill_be svc be disable_mode).backends) ∧
    (∀ probe : Nat → Bool, svc.abs_pri = sum_pri svc.backends →
      (do_resurect_svc probe svc).abs_pri = sum_pri (do_resurect_svc probe svc).backends) := by
  refine ⟨?_, ?_, ?_⟩
  · intro h0
    unfold parse_service_end
    rw [(parse_service_end_loop_spec svc.backends svc).2.1,
      (parse_service_end_loop_spec svc.backends svc).2.2, h0]
    omega
  · intro be disable_mode hinv
    rw [kill_be_abs_pri, hinv]
    unfold sum_pri
    rw [kill_be_priorities]
  · intro probe hinv
    unfold do_resurect_svc
    split
    · simp only
      rw [(resurrect_commit_sums _ 0).2, (resurrect_probe_sums probe svc.backends 0).2]
      exact hinv
    · simp only
      rw [(resurrect_probe_sums probe svc.backends 0).2]
      exact hinv

theorem do_rescale_abs_pri (c : CONSTS) (svc : SERVICE)
    (hinv : svc.abs_pri = sum_pri svc.backends) :
    (do_rescale_svc c svc).abs_pri = sum_pri (do_rescale_svc c svc).backends ↔
      (do_rescale_svc c svc).tot_pri = svc.tot_pri := by
  obtain ⟨-, h2, h3, -⟩ := do_rescale_svc_sums c svc
  rw [h3]
  constructor <;> intro h <;> omega

/-- Claim C13 fails on `do_rescale`: `example_rescale_svc` has eleven routable
back-ends of priority 5 and `abs_pri = 55`, the sum of the priorities; a pass
of `do_rescale` lowers the priority of the slow back-end to 4 and `tot_pri` to
54 and leaves `abs_pri` at 55.  The request "/a?sid=lk", whose key hashes to
slot 54, then gets no back-end from `hash_backend`, through the branch that
its comment says should never happen, though every back-end is alive and
enabled. -/
theorem do_rescale_abs_pri_stale :
    example_rescale_svc.abs_pri = sum_pri example_rescale_svc.backends ∧
    (do_rescale_svc example_consts example_rescale_svc).abs_pri = 55 ∧
    sum_pri (do_rescale_svc example_consts example_rescale_svc).backends = 54 ∧
    (do_rescale_svc example_consts example_rescale_svc).tot_pri = 54 ∧
    (∀ b ∈ (do_rescale_svc example_consts example_rescale_svc).backends,
      b.alive ≠ 0 ∧ b.disabled = 0) ∧
    hash_pri 64 55 [108, 107] = 54 ∧
    hash_pri 32 55 [108, 107] = 54 ∧
    (get_backend example_consts (do_rescale_svc example_consts example_rescale_svc)
      [] example_sid_request [none] [] 0 0).res = none := by
  refine ⟨?_, ?_, ?_, ?_, ?_, ?_, ?_, ?_⟩ <;> decide!

/-! ## Session keys from the headers: proofs -/

theorem capture_eq (KEY_SIZE : Nat) (src : CString) (m : regmatch_t) :
    capture KEY_SIZE src m =
      ((src.drop m.rm_so.toNat).take (m.rm_eo - m.rm_so).toNat).take KEY_SIZE := by
  unfold capture
  rw [List.take_take]
  congr 1
  omega

theorem get_HEADERS_loop_step (KEY_SIZE : Nat) (sess_start sess_pat : regex_t)
    (h : CString) (rest : List (Option CString)) (res : CString) :
    get_HEADERS_loop KEY_SIZE sess_start sess_pat (some h :: rest) res =
      get_HEADERS_loop KEY_SIZE sess_start sess_pat rest
        ((line_key KEY_SIZE sess_start sess_pat h).getD res) := by
  simp only [get_HEADERS_loop, line_key]
  cases sess_start h with
  | none => rfl
  | some m0 =>
    simp only
    cases sess_pat (h.drop (rm m0 0).rm_eo.toNat) with
    | none => rfl
    | some m1 =>
      simp only [Option.getD_some]
      rw [capture_eq]

theorem get_HEADERS_loop_none (KEY_SIZE : Nat) (sess_start sess_pat : regex_t)
    (slots : List (Option CString)) (res : CString)
    (hno : ∀ (k : Nat) (h : CString), slots[k]? = some (some h) →
      (∀ j : Nat, j < k → ∃ l : CString, slots[j]? = some (some l)) →
      line_key KEY_SIZE sess_start sess_pat h = none) :
    get_HEADERS_loop KEY_SIZE sess_start sess_pat slots res = res := by
  induction slots generalizing res with
  | nil => rfl
  | cons s rest ih =>
    cases s with
    | none => rfl
    | some h0 =>
      rw [get_HEADERS_loop_step, hno 0 h0 (by simp) (fun j hj => absurd hj (Nat.not_lt_zero j))]
      simp only [Option.getD_none]
      apply ih
      intro k h hk hall
      apply hno (k + 1) h (by simpa using hk)
      intro j hj
      cases j with
      | zero => exact ⟨h0, by simp⟩
      | succ j => simpa using hall j (by omega)

theorem get_HEADERS_loop_last (KEY_SIZE : Nat) (sess_start sess_pat : regex_t)
    (slots : List (Option CString)) (res : CString) (k : Nat) (h key : CString)
    (hk : slots[k]? = some (some h))
    (hbefore : ∀ j : Nat, j < k → ∃ l : CString, slots[j]? = some (some l))
    (hkey : line_key KEY_SIZE sess_start sess_pat h = some key)
    (hlast : ∀ (j : Nat) (h2 : CString), k < j → slots[j]? = some (some h2) →
      (∀ i : Nat, i < j → ∃ l : CString, slots[i]? = some (some l)) →
      line_key KEY_SIZE sess_start sess_pat h2 = none) :
    get_HEADERS_loop KEY_SIZE sess_start sess_pat slots res = key := by
  induction slots generalizing res k with
  | nil => simp at hk
  | cons s rest ih =>
    cases k with
    | zero =>
      simp only [List.getElem?_cons_zero, Option.some.injEq] at hk
      subst hk
      rw [get_HEADERS_loop_step, hkey]
      simp only [Option.getD_some]
      apply get_HEADERS_loop_none
      intro j h2 hj hall
      apply hlast (j + 1) h2 (Nat.succ_pos j) (by simpa using hj)
      intro i hi
      cases i with
      | zero => exact ⟨h, by simp⟩
      | succ i => simpa using hall i (by omega)
    | succ k =>
      obtain ⟨h0, hh0⟩ := hbefore 0 (Nat.succ_pos k)
      simp only [List.getElem?_cons_zero, Option.some.injEq] at hh0
      subst hh0
      rw [get_HEADERS_loop_step]
      apply ih _ k (by simpa using hk)
      · intro j hj
        simpa using hbefore (j + 1) (by omega)
      · intro j h2 hj hget hall
        apply hlast (j + 1) h2 (by omega) (by simpa using hget)
        intro i hi
        cases i with
        | zero => exact ⟨h0, by simp⟩
        | succ i => simpa using hall i (by omega)

theorem header_line_at_slots (MAXHEADERS : Nat) (headers : List (Option CString))
    (k : Nat) (h : CString) :
    ((header_slots MAXHEADERS headers)[k]? = some (some h) ∧
      ∀ j : Nat, j < k → ∃ l : CString, (header_slots MAXHEADERS headers)[j]? = some (some l)) ↔
      header_line_at MAXHEADERS headers (k + 1) h := by
  unfold header_line_at
  rw [header_slots_get]
  constructor
  · rintro ⟨⟨h1, h2⟩, hall⟩
    refine ⟨by omega, h1, h2, ?_⟩
    intro j hj1 hjk
    obtain ⟨l, hl⟩ := hall (j - 1) (by omega)
    rw [header_slots_get] at hl
    have e : j - 1 + 1 = j := by omega
    rw [e] at hl
    exact ⟨l, hl.2⟩
  · rintro ⟨-, h1, h2, hall⟩
    refine ⟨⟨h1, h2⟩, ?_⟩
    intro j hj
    obtain ⟨l, hl⟩ := hall (j + 1) (by omega) (by omega)
    exact ⟨l, (header_slots_get MAXHEADERS headers j (some l)).2 ⟨by omega, hl⟩⟩

/-- Claim C16: the key that `get_HEADERS` produces is the first capture of
`sess_pat`, applied to the text after the end of the match of `sess_start` and
truncated to `KEY_SIZE` characters, taken from the last header line (slots 1
onwards, up to the first null entry or `MAXHEADERS`) on which both patterns
match, and the empty key when they match on no header line; `get_HEADERS`
reports a key exactly when this key is not empty. -/
theorem get_HEADERS_spec (c : CONSTS) (svc : SERVICE) (headers : List (Option CString)) :
    (∀ (i : Nat) (h key : CString), header_line_at c.MAXHEADERS headers i h →
      line_key c.KEY_SIZE svc.sess_start svc.sess_pat h = some key →
      (∀ (j : Nat) (h2 : CString), i < j → header_line_at c.MAXHEADERS headers j h2 →
        line_key c.KEY_SIZE svc.sess_start svc.sess_pat h2 = none) →
      (get_HEADERS c svc headers).2 = key ∧ key.length ≤ c.KEY_SIZE) ∧
    ((∀ (i : Nat) (h : CString), header_line_at c.MAXHEADERS headers i h →
        line_key c.KEY_SIZE svc.sess_start svc.sess_pat h = none) →
      (get_HEADERS c svc headers).2 = []) ∧
    ((get_HEADERS c svc headers).1 = true ↔ (get_HEADERS c svc headers).2 ≠ []) := by
  refine ⟨?_, ?_, ?_⟩
  · intro i h key hline hkey hlast
    have hi1 : 1 ≤ i := hline.1
    obtain ⟨k, rfl⟩ : ∃ k, i = k + 1 := ⟨i - 1, by omega⟩
    obtain ⟨hk, hbefore⟩ := (header_line_at_slots c.MAXHEADERS headers k h).2 hline
    refine ⟨?_, ?_⟩
    · unfold get_HEADERS
      simp only
      apply get_HEADERS_loop_last c.KEY_SIZE svc.sess_start svc.sess_pat _ [] k h key hk
        hbefore hkey
      intro j h2 hj hget hall
      exact hlast (j + 1) h2 (by omega)
        ((header_line_at_slots c.MAXHEADERS headers j h2).1 ⟨hget, hall⟩)
    · unfold line_key at hkey
      split at hkey
      · cases hkey
      · split at hkey
        · cases hkey
        · cases hkey
          simp only [List.length_take]
          omega
  · intro hno
    unfold get_HEADERS
    simp only
    apply get_HEADERS_loop_none
    intro k h hk hall
    exact hno (k + 1) h ((header_line_at_slots c.MAXHEADERS headers k h).1 ⟨hk, hall⟩)
  · simp [get_HEADERS]

theorem header_line_at_two (MAXHEADERS : Nat) (x : Option CString) (h h2 : CString)
    (j : Nat) (hj : 1 < j) (hline : header_line_at MAXHEADERS [x, some h] j h2) : False := by
  have hget := hline.2.2.1
  rw [List.getElem?_eq_none (by simpa using hj)] at hget
  cases hget

theorem get_HEADERS_spec_witness :
    (get_HEADERS example_consts example_cookie_svc [none, some example_cookie_X]).2 = [88] ∧
    [(88 : Int)].length ≤ example_consts.KEY_SIZE :=
  (get_HEADERS_spec example_consts example_cookie_svc [none, some example_cookie_X]).1
    1 example_cookie_X [88] ⟨by decide, by decide, rfl, fun j h1 h2 => by omega⟩ (by decide)
    (fun j h2 hj hline => (header_line_at_two _ _ _ _ j hj hline).elim)

/-! ## Expiry of sessions: proofs -/

theorem t_expire_fold_sessions (lim del_lim : Int) (l : List TABNODE) (svc : SERVICE) :
    (l.foldl (fun s t => t_old_doall_arg t lim del_lim s) svc).sessions =
      svc.sessions.filter (fun u =>
        !(l.any (fun t => !(expire_keeps lim del_lim t) && decide (t.key = u.key)))) := by
  induction l generalizing svc with
  | nil => simp
  | cons t rest ih =>
    simp only [List.foldl_cons]
    rw [ih]
    unfold t_old_doall_arg
    by_cases hold : t.last_acc < (if t.content.delete_pending ≠ 0 then del_lim else lim)
    · have hk : expire_keeps lim del_lim t = false := by
        unfold expire_keeps
        by_cases hd : t.content.delete_pending = 0
        · simp only [hd, ne_eq, not_true_eq_false, if_false] at hold
          simp only [hd, if_true, decide_eq_false_iff_not]
          omega
        · simp only [ne_eq, hd, not_false_eq_true, if_true] at hold
          simp only [hd, if_false, decide_eq_false_iff_not]
          omega
      rw [if_pos hold, delete_session_sessions, List.filter_filter]
      congr 1
      funext u
      by_cases hku : t.key = u.key
      · simp [hku, hk]
      · have hku2 : ¬ u.key = t.key := fun h => hku h.symm
        simp [hku, hku2, hk]
    · have hk : expire_keeps lim del_lim t = true := by
        unfold expire_keeps
        by_cases hd : t.content.delete_pending = 0
        · simp only [hd, ne_eq, not_true_eq_false, if_false] at hold
          simp only [hd, if_true, decide_eq_true_eq]
          omega
        · simp only [ne_eq, hd, not_false_eq_true, if_true] at hold
          simp only [hd, if_false, decide_eq_true_eq]
          omega
      rw [if_neg hold]
      congr 1
      funext u
      simp [hk]

theorem t_expire_sessions (svc : SERVICE) (lim del_lim : Int)
    (hnodup : (svc.sessions.map (fun t => t.key)).Nodup) :
    (t_expire svc lim del_lim).sessions = svc.sessions.filter (expire_keeps lim del_lim) := by
  unfold t_expire
  rw [t_expire_fold_sessions]
  apply List.filter_congr
  intro u hu
  cases hk : expire_keeps lim del_lim u with
  | false =>
    simp only [Bool.not_eq_false', List.any_eq_true, Bool.and_eq_true, Bool.not_eq_true',
      decide_eq_true_eq]
    exact ⟨u, hu, hk, rfl⟩
  | true =>
    simp only [Bool.not_eq_true', List.any_eq_false, Bool.and_eq_true, Bool.not_eq_true',
      decide_eq_true_eq, not_and]
    intro t ht htk hkey
    have := List.inj_on_of_nodup_map hnodup ht hu hkey
    subst this
    rw [hk] at htk
    cases htk

theorem t_lookup_filter_none (tab : List TABNODE) (p : TABNODE → Bool) (t : TABNODE)
    (hnodup : (tab.map (fun t => t.key)).Nodup) (ht : t ∈ tab) (hp : p t = false) :
    t_lookup (tab.filter p) t.key = none := by
  unfold t_lookup
  rw [List.find?_eq_none]
  intro u hu
  rw [List.mem_filter] at hu
  simp only [decide_eq_true_eq]
  intro hkey
  have := List.inj_on_of_nodup_map hnodup hu.1 ht hkey
  subst this
  rw [hp] at hu
  exact Bool.noConfusion hu.2

/-- Claim C20, as amended: after `t_expire(svc, table, lim, del_lim)` the table
holds exactly the entries it held before whose `last_acc` is at least `lim`
when the session's `delete_pending` is 0, or at least `del_lim` when it is
not; `do_expire` calls it with `lim = now - sess_ttl` and
`del_lim = now - death_ttl` on every service, of the listeners and global,
whose session policy is not none, so that after the tick every entry that is
not tombstoned and was last accessed more than the TTL ago is gone, and every
tombstoned entry last accessed more than the death TTL ago is gone. -/
theorem do_expire_spec (cur_time : Int) (listeners : List LISTENER)
    (services : List SERVICE) (svc : SERVICE)
    (hnodup : (svc.sessions.map (fun t => t.key)).Nodup) :
    (∀ lim del_lim : Int,
      (t_expire svc lim del_lim).sessions = svc.sessions.filter (expire_keeps lim del_lim)) ∧
    (svc.sess_type ≠ SESS_TYPE.SESS_NONE →
      (do_expire_svc cur_time svc).sessions =
        (t_expire svc (cur_time - svc.sess_ttl) (cur_time - svc.death_ttl)).sessions) ∧
    (svc.sess_type ≠ SESS_TYPE.SESS_NONE →
      ∀ t ∈ svc.sessions, t.content.delete_pending = 0 →
        svc.sess_ttl < cur_time - t.last_acc →
        t_lookup (do_expire_svc cur_time svc).sessions t.key = none) ∧
    (svc.sess_type ≠ SESS_TYPE.SESS_NONE →
      ∀ t ∈ svc.sessions, t.content.delete_pending ≠ 0 →
        svc.death_ttl < cur_time - t.last_acc →
        t_lookup (do_expire_svc cur_time svc).sessions t.key = none) ∧
    (do_expire cur_time listeners services).2 = services.map (do_expire_svc cur_time) ∧
    (do_expire cur_time listeners services).1.map (fun lstn => lstn.services) =
      listeners.map (fun lstn => lstn.services.map (do_expire_svc cur_time)) := by
  have hsvc : svc.sess_type ≠ SESS_TYPE.SESS_NONE →
      (do_expire_svc cur_time svc).sessions =
        (t_expire svc (cur_time - svc.sess_ttl) (cur_time - svc.death_ttl)).sessions := by
    intro hty
    unfold do_expire_svc
    rw [if_pos hty]
  refine ⟨fun lim del_lim => t_expire_sessions svc lim del_lim hnodup, hsvc, ?_, ?_, rfl, ?_⟩
  · intro hty t ht hd hold
    rw [hsvc hty, t_expire_sessions svc _ _ hnodup]
    apply t_lookup_filter_none _ _ _ hnodup ht
    unfold expire_keeps
    rw [if_pos hd, decide_eq_false_iff_not]
    omega
  · intro hty t ht hd hold
    rw [hsvc hty, t_expire_sessions svc _ _ hnodup]
    apply t_lookup_filter_none _ _ _ hnodup ht
    unfold expire_keeps
    rw [if_neg hd, decide_eq_false_iff_not]
    omega
  · unfold do_expire
    simp only [List.map_map]
    rfl

theorem do_expire_spec_witness :
    (do_expire_svc 50 example_expire_svc).sessions =
      (t_expire example_expire_svc (50 - example_expire_svc.sess_ttl)
        (50 - example_expire_svc.death_ttl)).sessions ∧
    t_lookup (do_expire_svc 50 example_expire_svc).sessions [99] = none :=
  ⟨(do_expire_spec 50 [] [] example_expire_svc (by decide)).2.1 (by decide),
   (do_expire_spec 50 [] [] example_expire_svc (by decide)).2.2.1 (by decide)
     { key := [99], content := { be := some (BE_PTR.list 0), key := some [99] },
       last_acc := 0 } (by decide) rfl (by decide)⟩

/-- Claim C20 fails as stated for a tombstoned entry when the death TTL
exceeds the TTL: in `example_expire_svc`, with TTL 10 and death TTL 100, the
entry "b" was last accessed at time 0 and is tombstoned; at the expiry tick of
time 50 it was last accessed 50 seconds ago, more than the TTL, and it is
still in the table after the tick, while the entry "c" of the same age is
gone. -/
theorem do_expire_spec_counterexample :
    example_expire_svc.sess_type ≠ SESS_TYPE.SESS_NONE ∧
    example_expire_svc.sess_ttl = 10 ∧
    (∃ t ∈ example_expire_svc.sessions, t.key = [98] ∧
      example_expire_svc.sess_ttl < 50 - t.last_acc ∧
      t_lookup (do_expire_svc 50 example_expire_svc).sessions [98] = some t) ∧
    (do_expire 50 [] [example_expire_svc]).2.map
      (fun s => (t_lookup s.sessions [98]).isSome) = [true] ∧
    t_lookup (do_expire_svc 50 example_expire_svc).sessions [99] = none := by
  refine ⟨by decide, by decide, ⟨_, List.mem_cons_of_mem _ (List.mem_cons_self _ _),
    by decide, by decide, by decide⟩, by decide, by decide⟩

/-! ## Session updater: proofs -/

theorem table_view_fields (t u : TABNODE) (h : table_view u = table_view t) :
    u.key = t.key ∧ u.last_acc = t.last_acc ∧ u.content.be = t.content.be ∧
    u.content.key = t.content.key ∧ u.content.delete_pending = t.content.delete_pending ∧
    u.content.n_requests = t.content.n_requests ∧ u.content.mut_busy = t.content.mut_busy := by
  unfold table_view at h
  simp only [TABNODE.mk.injEq, SESSION.mk.injEq] at h
  obtain ⟨h1, ⟨hbe, hkey, -, hn, -, -, -, -, hdp, hmb⟩, h3⟩ := h
  exact ⟨h1, h3, hbe, hkey, hdp, hn, hmb⟩

theorem t_lookup_sess_update (tab : List TABNODE) (k key : CString) (f : SESSION → SESSION) :
    t_lookup (sess_update tab k f) key =
      (t_lookup tab key).map
        (fun t => if t.key = k then { t with content := f t.content } else t) := by
  unfold sess_update
  apply t_lookup_map
  intro t
  split <;> rfl

theorem t_lookup_filter_ne (tab : List TABNODE) (k key : CString) :
    t_lookup (tab.filter (fun u => decide (u.key ≠ k))) key =
      if key = k then none else t_lookup tab key := by
  unfold t_lookup
  induction tab with
  | nil => simp
  | cons t rest ih =>
    by_cases htk : t.key = k
    · have hf : decide (t.key ≠ k) = false := by simp [htk]
      rw [List.filter_cons_of_neg (by simp [htk]), ih]
      by_cases hkk : key = k
      · simp [hkk]
      · have hne : ¬ t.key = key := fun h => hkk (h.symm.trans htk)
        simp [hkk, List.find?_cons, hne]
    · rw [List.filter_cons_of_pos (by simp [htk])]
      by_cases hkk : key = k
      · have hne : ¬ t.key = key := fun h => htk (h.trans hkk)
        rw [if_pos hkk] at ih
        simp only [List.find?_cons, hne, decide_False, if_pos hkk]
        exact ih
      · rw [if_neg hkk] at ih
        rw [if_neg hkk]
        simp only [List.find?_cons]
        rw [ih]

theorem t_clean_eq (svc : SERVICE) : t_clean svc = svc := by
  unfold t_clean
  generalize svc.sessions = l
  induction l generalizing svc with
  | nil => rfl
  | cons t rest ih =>
    simp only [List.foldl_cons]
    exact ih svc

theorem find_EndSessionHeader_iff (c : CONSTS) (svc : SERVICE)
    (headers : List (Option CString)) :
    find_EndSessionHeader c svc headers = true ↔
      svc.sess_end_hdr ≠ 0 ∧
        ∃ h, is_header_line c.MAXHEADERS headers h ∧ regexec svc.sess_end h = true := by
  unfold find_EndSessionHeader
  by_cases h0 : svc.sess_end_hdr = 0
  · simp [h0]
  · rw [if_neg h0, header_found_iff]
    simp [h0]

theorem t_lookup_key (tab : List TABNODE) (k : CString) (node : TABNODE)
    (h : t_lookup tab k = some node) : node.key = k := by
  unfold t_lookup at h
  have := List.find?_some h
  simpa using this

theorem upd_session_lbinfo_view (c : CONSTS) (svc : SERVICE)
    (resp_headers : List (Option CString)) (r : UPD_RESULT) :
    ∃ g : TABNODE → TABNODE, (∀ t, table_view (g t) = table_view t) ∧
      upd_session_lbinfo c svc resp_headers r =
        { r with svc := { r.svc with sessions := r.svc.sessions.map g } } := by
  unfold upd_session_lbinfo
  cases r with
  | mk rsvc rkey rsess reosf =>
    cases rsess with
    | none =>
      refine ⟨id, fun t => rfl, ?_⟩
      simp only [List.map_id]
    | some k =>
      simp only
      cases hf : lbinfo_find c.LB_INFO_SIZE (header_slots c.MAXHEADERS resp_headers)
          svc.lbinfo with
      | none =>
        refine ⟨id, fun t => rfl, ?_⟩
        simp only [List.map_id]
      | some text =>
        refine ⟨fun t => if t.key = k then
          { t with content := { t.content with lb_info := text } } else t, ?_, rfl⟩
        intro t
        beta_reduce
        by_cases htk : t.key = k
        · rw [if_pos htk]
          rfl
        · rw [if_neg htk]

theorem upd_session_lbinfo_none (c : CONSTS) (svc : SERVICE)
    (resp_headers : List (Option CString)) (r : UPD_RESULT) (h : r.sess = none) :
    upd_session_lbinfo c svc resp_headers r = r := by
  unfold upd_session_lbinfo
  rw [h]

theorem upd_session_table_fields (c : CONSTS) (svc : SERVICE) (from_host request : CString)
    (resp_headers : List (Option CString)) (u_name : CString) (be : Option BE_PTR)
    (sess : Option CString) (now : Int) :
    (upd_session_table c svc from_host request resp_headers u_name be sess now).svc =
      { svc with
        sessions :=
          (upd_session_table c svc from_host request resp_headers u_name be sess now).svc.sessions,
        del_sessions :=
          (upd_session_table c svc from_host request resp_headers u_name be sess
            now).svc.del_sessions,
        misses :=
          (upd_session_table c svc from_host request resp_headers u_name be sess
            now).svc.misses } := by
  unfold upd_session_table
  split
  · split
    · split
      · simp only [t_remove]
        rw [delete_session_fields]
      · simp only [t_clean_eq]
    · rfl
  · split
    · split <;> rfl
    · rfl

theorem upd_session_fields (c : CONSTS) (svc : SERVICE) (from_host request : CString)
    (resp_headers : List (Option CString)) (u_name : CString) (be : Option BE_PTR)
    (sess : Option CString) (now : Int) :
    (upd_session c svc from_host request resp_headers u_name be sess now).svc =
      { svc with
        sessions :=
          (upd_session c svc from_host request resp_headers u_name be sess now).svc.sessions,
        del_sessions :=
          (upd_session c svc from_host request resp_headers u_name be sess now).svc.del_sessions,
        misses :=
          (upd_session c svc from_host request resp_headers u_name be sess now).svc.misses } := by
  unfold upd_session
  obtain ⟨g, -, heq⟩ := upd_session_lbinfo_view c svc resp_headers
    (if svc.sess_type = SESS_TYPE.SESS_HEADER ∨ svc.sess_type = SESS_TYPE.SESS_COOKIE then
      upd_session_table c svc from_host request resp_headers u_name be sess now
    else { svc := svc, key := none, sess := sess, end_of_session_forced := 0 })
  rw [heq]
  split
  · simp only
    rw [upd_session_table_fields]
  · rfl

theorem session_key_fields (c : CONSTS) (svc : SERVICE) (tab : List TABNODE)
    (dl : List SESSION) (m : Int) (from_host request : CString)
    (headers : List (Option CString)) :
    session_key c { svc with sessions := tab, del_sessions := dl, misses := m }
      from_host request headers = session_key c svc from_host request headers := by
  cases hst : svc.sess_type <;> simp [session_key, hst, get_REQUEST, get_HEADERS]

theorem get_backend_miss_hits (c : CONSTS) (svc : SERVICE) (from_host request : CString)
    (headers : List (Option CString)) (u_name : CString) (rnd : Nat) (now : Int)
    (k : CString) (httl : 0 ≤ svc.sess_ttl)
    (hkey : session_key c svc from_host request headers = some k)
    (hmiss : t_lookup svc.sessions k = none) :
    (get_backend c svc from_host request headers u_name rnd now).svc.hits = svc.hits := by
  have hkey1 := (session_key_requests c svc (svc.requests + 1) from_host request headers).trans hkey
  rw [(get_backend_hits c svc from_host request headers u_name rnd now).1]
  generalize hs1 : ({ svc with requests := svc.requests + 1 } : SERVICE) = svc1 at hkey1 ⊢
  have e1 : svc1.sess_ttl = svc.sess_ttl := by rw [← hs1]
  have e2 : svc1.sessions = svc.sessions := by rw [← hs1]
  have e5 : svc1.hits = svc.hits := by rw [← hs1]
  rw [get_backend_switch_keyed c svc1 from_host request headers rnd now k hkey1,
    keyed_backend_miss c svc1 headers k rnd now _ (e1 ▸ httl) (e2 ▸ hmiss)]
  by_cases h : svc1.tot_pri ≤ 0
  · rw [if_pos h]
    exact e5
  · rw [if_neg h]
    exact e5

theorem upd_session_table_end (c : CONSTS) (svc : SERVICE) (from_host request : CString)
    (resp_headers : List (Option CString)) (u_name : CString) (be : Option BE_PTR)
    (k : CString) (node : TABNODE) (now : Int)
    (hfind : find_EndSessionHeader c svc resp_headers = true)
    (hnode : t_lookup svc.sessions k = some node) (hkey : node.content.key = some k) :
    upd_session_table c svc from_host request resp_headers u_name be (some k) now =
      if svc.death_ttl ≤ 0 then
        { svc := t_remove { svc with sessions := mark_pending svc.sessions k } k,
          key := none, sess := none, end_of_session_forced := 1 }
      else
        { svc := { svc with sessions := mark_pending svc.sessions k },
          key := none, sess := some k, end_of_session_forced := 1 } := by
  unfold upd_session_table sess_key_of
  simp only [hfind, if_true, hnode, hkey]

theorem t_lookup_mark_pending (tab : List TABNODE) (k : CString) (node : TABNODE)
    (hnode : t_lookup tab k = some node) :
    t_lookup (mark_pending tab k) k =
      some { node with
        content := { node.content with delete_pending := node.content.delete_pending + 1 } } := by
  unfold mark_pending
  rw [t_lookup_sess_update, hnode]
  simp only [Option.map_some', t_lookup_key tab k node hnode, if_true]

theorem t_lookup_sess_update_ne (tab : List TABNODE) (k k2 : CString) (f : SESSION → SESSION)
    (hne : k2 ≠ k) :
    t_lookup (sess_update tab k f) k2 = t_lookup tab k2 := by
  rw [t_lookup_sess_update]
  cases hl : t_lookup tab k2 with
  | none => rfl
  | some n =>
    have hk := t_lookup_key tab k2 n hl
    simp only [Option.map_some', hk, hne, if_false]

/-- Claim C17: for a service with cookie or header session policy and an
end-of-session regex, when `upd_session` is called with the session of the
table entry `k` and some response header line matches the end-of-session
regex, end-of-session is signalled to the caller and the session's
`delete_pending` is incremented by 1; if `death_ttl <= 0` the entry for `k` is
removed from the table in the same call (the other entries stay as they are,
and the session, if its mutex is held, is queued with the incremented counter),
so that the next `get_backend` presenting `k` does not hit the table and, with
a routable back-end, counts a miss and selects afresh; if `death_ttl > 0` the
entry stays in the table, with its binding and time of last access. -/
theorem upd_session_end (c : CONSTS) (svc : SERVICE) (from_host request : CString)
    (resp_headers : List (Option CString)) (u_name : CString) (be : Option BE_PTR)
    (k : CString) (node : TABNODE) (now : Int) (r : UPD_RESULT)
    (hr : r = upd_session c svc from_host request resp_headers u_name be (some k) now)
    (hpol : svc.sess_type = SESS_TYPE.SESS_HEADER ∨ svc.sess_type = SESS_TYPE.SESS_COOKIE)
    (hcfg : svc.sess_end_hdr ≠ 0)
    (hline : ∃ h, is_header_line c.MAXHEADERS resp_headers h ∧ regexec svc.sess_end h = true)
    (hnode : t_lookup svc.sessions k = some node) (hkey : node.content.key = some k) :
    r.end_of_session_forced = 1 ∧
    (svc.death_ttl ≤ 0 →
      t_lookup r.svc.sessions k = none ∧
      (∀ k2 : CString, k2 ≠ k → t_lookup r.svc.sessions k2 = t_lookup svc.sessions k2) ∧
      (node.content.mut_busy = true →
        r.svc.del_sessions =
          { node.content with delete_pending := node.content.delete_pending + 1 } ::
            svc.del_sessions) ∧
      (∀ (from2 request2 : CString) (headers2 : List (Option CString)) (u_name2 : CString)
          (rnd : Nat) (now2 : Int),
        0 ≤ svc.sess_ttl → session_key c svc from2 request2 headers2 = some k →
        (get_backend c r.svc from2 request2 headers2 u_name2 rnd now2).svc.hits = r.svc.hits ∧
        (0 < svc.tot_pri →
          (get_backend c r.svc from2 request2 headers2 u_name2 rnd now2).svc.misses =
            r.svc.misses + 1 ∧
          (get_backend c r.svc from2 request2 headers2 u_name2 rnd now2).res =
            bekey_pick c r.svc headers2 rnd))) ∧
    (0 < svc.death_ttl →
      ∃ node2, t_lookup r.svc.sessions k = some node2 ∧
        node2.content.delete_pending = node.content.delete_pending + 1 ∧
        node2.content.be = node.content.be ∧ node2.last_acc = node.last_acc) := by
  have hfind : find_EndSessionHeader c svc resp_headers = true :=
    (find_EndSessionHeader_iff c svc resp_headers).2 ⟨hcfg, hline⟩
  have htab := upd_session_table_end c svc from_host request resp_headers u_name be k node now
    hfind hnode hkey
  have hf := upd_session_fields c svc from_host request resp_headers u_name be (some k) now
  have hmark := t_lookup_mark_pending svc.sessions k node hnode
  have hupd : r = upd_session_lbinfo c svc resp_headers
      (upd_session_table c svc from_host request resp_headers u_name be (some k) now) := by
    rw [hr]
    unfold upd_session
    rw [if_pos hpol]
  rw [← hr] at hf
  by_cases hd : svc.death_ttl ≤ 0
  · rw [htab, if_pos hd, upd_session_lbinfo_none _ _ _ _ rfl] at hupd
    have hsess : r.svc.sessions =
        (mark_pending svc.sessions k).filter (fun u => decide (u.key ≠ k)) := by
      rw [hupd]
      simp only [t_remove]
      rw [delete_session_sessions]
    have hmiss : t_lookup r.svc.sessions k = none := by
      rw [hsess, t_lookup_filter_ne, if_pos rfl]
    refine ⟨by rw [hupd], fun _ => ⟨hmiss, ?_, ?_, ?_⟩, fun h => absurd h (by omega)⟩
    · intro k2 hne
      rw [hsess, t_lookup_filter_ne, if_neg hne]
      exact t_lookup_sess_update_ne svc.sessions k k2 _ hne
    · intro hbusy
      rw [hupd]
      simp only [t_remove, delete_session, hmark, hbusy, if_true]
    · intro from2 request2 headers2 u_name2 rnd now2 httl hsk
      have httl2 : 0 ≤ r.svc.sess_ttl := by
        rw [hf]
        exact httl
      have hsk2 : session_key c r.svc from2 request2 headers2 = some k := by
        rw [hf, session_key_fields]
        exact hsk
      refine ⟨get_backend_miss_hits c r.svc from2 request2 headers2 u_name2 rnd now2 k
        httl2 hsk2 hmiss, ?_⟩
      intro htot
      have htot2 : 0 < r.svc.tot_pri := by
        rw [hf]
        exact htot
      have h := get_backend_miss_result c r.svc from2 request2 headers2 u_name2 rnd now2 k
        httl2 htot2 hsk2 hmiss
      exact ⟨h.2.2.1, h.2.1⟩
  · rw [htab, if_neg hd] at hupd
    obtain ⟨g, hg, heq⟩ := upd_session_lbinfo_view c svc resp_headers
      { svc := { svc with sessions := mark_pending svc.sessions k },
        key := none, sess := some k, end_of_session_forced := 1 }
    rw [heq] at hupd
    refine ⟨by rw [hupd], fun h => absurd h hd, fun _ => ?_⟩
    have hsess : r.svc.sessions = (mark_pending svc.sessions k).map g := by rw [hupd]
    rw [hsess, t_lookup_map _ _ _ (fun t => (table_view_fields t (g t) (hg t)).1), hmark]
    refine ⟨_, rfl, ?_, ?_, ?_⟩
    · exact (table_view_fields _ _ (hg _)).2.2.2.2.1
    · exact (table_view_fields _ _ (hg _)).2.2.1
    · exact (table_view_fields _ _ (hg _)).2.1

theorem upd_session_end_witness :
    (upd_session example_consts example_cookie_svc example_client [47]
      [none, some example_end_header] [] (some (BE_PTR.list 0)) (some [88])
      5).end_of_session_forced = 1 ∧
    t_lookup (upd_session example_consts example_cookie_svc example_client [47]
      [none, some example_end_header] [] (some (BE_PTR.list 0)) (some [88]) 5).svc.sessions
      [88] = none :=
  ⟨(upd_session_end example_consts example_cookie_svc example_client [47]
      [none, some example_end_header] [] (some (BE_PTR.list 0)) [88]
      { key := [88], content := { be := some (BE_PTR.list 0), key := some [88] },
        last_acc := 0 } 5 _ rfl (Or.inr rfl) (by decide)
      ⟨example_end_header, ⟨1, by decide, by decide, rfl, fun j h1 h2 => by omega⟩, by decide⟩
      rfl rfl).1,
   ((upd_session_end example_consts example_cookie_svc example_client [47]
      [none, some example_end_header] [] (some (BE_PTR.list 0)) [88]
      { key := [88], content := { be := some (BE_PTR.list 0), key := some [88] },
        last_acc := 0 } 5 _ rfl (Or.inr rfl) (by decide)
      ⟨example_end_header, ⟨1, by decide, by decide, rfl, fun j h1 h2 => by omega⟩, by decide⟩
      rfl rfl).2.1 (by decide)).1⟩

theorem upd_session_table_key (c : CONSTS) (svc : SERVICE) (from_host request : CString)
    (resp_headers : List (Option CString)) (u_name : CString) (be : Option BE_PTR)
    (sess : Option CString) (now : Int) (k : CString)
    (hend : sess = none ∨ find_EndSessionHeader c svc resp_headers = false)
    (hk : get_HEADERS c svc resp_headers = (true, k)) :
    upd_session_table c svc from_host request resp_headers u_name be sess now =
      match t_lookup svc.sessions k with
      | none =>
        { svc := { svc with
            sessions := t_add svc.sessions k
              (touch_session c from_host request u_name { new_session k now with be := be }) now,
            misses := svc.misses + 1 },
          key := some k, sess := some k, end_of_session_forced := 0 }
      | some _ =>
        { svc := { svc with sessions := t_touch svc.sessions k now },
          key := some k, sess := sess, end_of_session_forced := 0 } := by
  have hno : (if find_EndSessionHeader c svc resp_headers then sess else none) = none := by
    cases hend with
    | inl h => rw [h]; split <;> rfl
    | inr h => rw [h]; rfl
  unfold upd_session_table
  rw [hno]
  simp only [hk, if_true, t_find]
  cases t_lookup svc.sessions k <;> rfl

/-- Claim C18: for a service with cookie or header session policy, when the
end-of-session case does not apply (no session is passed, or no response
header line matches an end-of-session regex) and `get_HEADERS` extracts the
key `k` from the response headers: if `k` is not in the table, `upd_session`
inserts an entry for `k` whose session is bound to the back-end that served
the request, counts a miss and leaves the other entries as they are; if `k` is
in the table nothing is inserted, every binding is as before and only the time
of last access of the entry changes.  For every other session policy the
table is unchanged.  Entries are compared without the LB-info text of their
sessions, which the second part of `upd_session` may set. -/
theorem upd_session_insert (c : CONSTS) (svc : SERVICE) (from_host request : CString)
    (resp_headers : List (Option CString)) (u_name : CString) (be : Option BE_PTR)
    (sess : Option CString) (now : Int) (r : UPD_RESULT)
    (hr : r = upd_session c svc from_host request resp_headers u_name be sess now) :
    ((svc.sess_type = SESS_TYPE.SESS_HEADER ∨ svc.sess_type = SESS_TYPE.SESS_COOKIE) →
      (sess = none ∨ ¬ (svc.sess_end_hdr ≠ 0 ∧
        ∃ h, is_header_line c.MAXHEADERS resp_headers h ∧ regexec svc.sess_end h = true)) →
      ∀ k : CString, get_HEADERS c svc resp_headers = (true, k) →
      (t_lookup svc.sessions k = none →
        (∃ node, t_lookup r.svc.sessions k = some node ∧ node.content.be = be ∧
          node.content.key = some k ∧ node.last_acc = now ∧
          node.content.delete_pending = 0) ∧
        (∀ k2 : CString, k2 ≠ k →
          (t_lookup r.svc.sessions k2).map table_view =
            (t_lookup svc.sessions k2).map table_view) ∧
        r.svc.misses = svc.misses + 1 ∧ r.sess = some k) ∧
      (∀ node, t_lookup svc.sessions k = some node →
        r.svc.sessions.map (fun t => t.key) = svc.sessions.map (fun t => t.key) ∧
        (∀ k2 : CString,
          (t_lookup r.svc.sessions k2).map (fun t => t.content.be) =
            (t_lookup svc.sessions k2).map (fun t => t.content.be)) ∧
        (t_lookup r.svc.sessions k).map table_view =
          some (table_view { node with last_acc := now }) ∧
        (∀ k2 : CString, k2 ≠ k →
          (t_lookup r.svc.sessions k2).map table_view =
            (t_lookup svc.sessions k2).map table_view) ∧
        r.svc.misses = svc.misses ∧ r.sess = sess)) ∧
    (¬ (svc.sess_type = SESS_TYPE.SESS_HEADER ∨ svc.sess_type = SESS_TYPE.SESS_COOKIE) →
      r.svc.sessions.map table_view = svc.sessions.map table_view ∧
      r.svc.del_sessions = svc.del_sessions ∧ r.svc.misses = svc.misses ∧ r.sess = sess) := by
  have hview : ∀ (tab : List TABNODE) (g : TABNODE → TABNODE),
      (∀ t, table_view (g t) = table_view t) → ∀ k2 : CString,
      (t_lookup (tab.map g) k2).map table_view = (t_lookup tab k2).map table_view := by
    intro tab g hg k2
    rw [t_lookup_map _ _ _ (fun t => (table_view_fields t (g t) (hg t)).1)]
    cases t_lookup tab k2 with
    | none => rfl
    | some n => simp only [Option.map_some', hg]
  refine ⟨?_, ?_⟩
  · intro hpol hend k hk
    have hend2 : sess = none ∨ find_EndSessionHeader c svc resp_headers = false := by
      cases hend with
      | inl h => exact Or.inl h
      | inr h =>
        right
        cases hfe : find_EndSessionHeader c svc resp_headers with
        | false => rfl
        | true => exact absurd ((find_EndSessionHeader_iff c svc resp_headers).1 hfe) h
    have htab := upd_session_table_key c svc from_host request resp_headers u_name be sess now
      k hend2 hk
    have hupd : r = upd_session_lbinfo c svc resp_headers
        (upd_session_table c svc from_host request resp_headers u_name be sess now) := by
      rw [hr]
      unfold upd_session
      rw [if_pos hpol]
    obtain ⟨g, hg, heq⟩ := upd_session_lbinfo_view c svc resp_headers
      (upd_session_table c svc from_host request resp_headers u_name be sess now)
    rw [heq] at hupd
    have hgk : ∀ t, (g t).key = t.key := fun t => (table_view_fields t (g t) (hg t)).1
    refine ⟨?_, ?_⟩
    · intro hmiss
      rw [hmiss] at htab
      rw [htab] at hupd
      have hsess : r.svc.sessions = (t_add svc.sessions k
          (touch_session c from_host request u_name { new_session k now with be := be })
          now).map g := by rw [hupd]
      refine ⟨?_, ?_, by rw [hupd], by rw [hupd]⟩
      · rw [hsess, t_lookup_map _ _ _ hgk, t_lookup_t_add]
        refine ⟨_, rfl, ?_, ?_, ?_, ?_⟩
        · exact (table_view_fields _ _ (hg _)).2.2.1
        · exact (table_view_fields _ _ (hg _)).2.2.2.1
        · exact (table_view_fields _ _ (hg _)).2.1
        · exact (table_view_fields _ _ (hg _)).2.2.2.2.1
      · intro k2 hne
        rw [hsess, hview _ g hg, t_lookup_t_add_ne _ _ _ _ _ (fun h => hne h.symm)]
    · intro node hhit
      rw [hhit] at htab
      rw [htab] at hupd
      have hsess : r.svc.sessions = (t_touch svc.sessions k now).map g := by rw [hupd]
      refine ⟨?_, ?_, ?_, ?_, by rw [hupd], by rw [hupd]⟩
      · rw [hsess, map_key_of_preserving _ g hgk]
        unfold t_touch
        rw [map_key_of_preserving]
        intro t
        split <;> rfl
      · intro k2
        rw [hsess, t_lookup_map _ _ _ hgk, t_lookup_touch]
        cases t_lookup svc.sessions k2 with
        | none => rfl
        | some n =>
          simp only [Option.map_some', Option.some.injEq]
          rw [(table_view_fields _ _ (hg _)).2.2.1]
          split <;> rfl
      · rw [hsess, hview _ g hg, t_lookup_touch, hhit]
        simp only [Option.map_some', t_lookup_key _ _ _ hhit, if_true]
      · intro k2 hne
        rw [hsess, hview _ g hg, t_lookup_touch]
        cases hl : t_lookup svc.sessions k2 with
        | none => rfl
        | some n =>
          have hnk := t_lookup_key _ _ _ hl
          simp only [Option.map_some', hnk, hne, if_false]
  · intro hpol
    have hupd : r = upd_session_lbinfo c svc resp_headers
        { svc := svc, key := none, sess := sess, end_of_session_forced := 0 } := by
      rw [hr]
      unfold upd_session
      rw [if_neg hpol]
    obtain ⟨g, hg, heq⟩ := upd_session_lbinfo_view c svc resp_headers
      { svc := svc, key := none, sess := sess, end_of_session_forced := 0 }
    rw [heq] at hupd
    refine ⟨?_, by rw [hupd], by rw [hupd], by rw [hupd]⟩
    rw [hupd]
    simp only [List.map_map]
    apply List.map_congr_left
    intro t _
    exact hg t

/-! ## The back-end cookie: proofs -/

theorem get_bekey_loop_eq (KEY_SIZE : Nat) (pat : regex_t) (slots : List (Option CString))
    (res : CString) :
    get_bekey_loop KEY_SIZE pat slots res =
      get_HEADERS_loop KEY_SIZE (fun _ => some [{ rm_so := 0, rm_eo := 0 }]) pat slots res := by
  induction slots generalizing res with
  | nil => rfl
  | cons s rest ih =>
    cases s with
    | none => rfl
    | some h =>
      simp only [get_bekey_loop, get_HEADERS_loop, rm, List.getD_cons_zero, Int.toNat_zero,
        List.drop_zero]
      cases pat h with
      | none => exact ih res
      | some m => exact ih _

theorem cookie_value_eq (KEY_SIZE : Nat) (pat : regex_t) (h : CString) :
    cookie_value KEY_SIZE pat h =
      line_key KEY_SIZE (fun _ => some [{ rm_so := 0, rm_eo := 0 }]) pat h := by
  simp only [cookie_value, line_key, rm, List.getD_cons_zero, Int.toNat_zero, List.drop_zero]

theorem get_bekey_carries (c : CONSTS) (svc : SERVICE) (headers : List (Option CString))
    (v : CString) (hcarry : carries_bekey c svc headers v) :
    get_bekey_from_HEADERS c svc headers = (true, v) := by
  obtain ⟨hcfg, hv, i, h, hline, hval, hlast⟩ := hcarry
  have hi1 : 1 ≤ i := hline.1
  obtain ⟨k, rfl⟩ : ∃ k, i = k + 1 := ⟨i - 1, by omega⟩
  obtain ⟨hk, hbefore⟩ := (header_line_at_slots c.MAXHEADERS headers k h).2 hline
  have hloop : get_bekey_loop c.KEY_SIZE svc.becookie_match
      (header_slots c.MAXHEADERS headers) [] = v := by
    rw [get_bekey_loop_eq]
    apply get_HEADERS_loop_last c.KEY_SIZE _ svc.becookie_match _ [] k h v hk hbefore
    · rw [← cookie_value_eq]
      exact hval
    · intro j h2 hj hget hall
      rw [← cookie_value_eq]
      exact hlast (j + 1) h2 (by omega)
        ((header_line_at_slots c.MAXHEADERS headers j h2).1 ⟨hget, hall⟩)
  unfold get_bekey_from_HEADERS
  cases hb : svc.becookie with
  | none => exact absurd hb hcfg
  | some x =>
    simp only [hloop]
    simp [hv]

theorem find_bekey_some (v : CString) (bes : List BACKEND) (i : Nat)
    (h : first_bekey bes v i) : find_bekey v bes = some i := by
  induction bes generalizing i with
  | nil =>
    obtain ⟨⟨b, hb, -⟩, -⟩ := h
    simp at hb
  | cons b0 rest ih =>
    obtain ⟨⟨b, hb, hbv⟩, hfirst⟩ := h
    unfold find_bekey
    cases i with
    | zero =>
      simp only [List.getElem?_cons_zero, Option.some.injEq] at hb
      subst hb
      rw [if_pos hbv]
    | succ i =>
      have h0 : b0.bekey ≠ some v := hfirst 0 b0 (Nat.succ_pos i) (by simp)
      rw [if_neg h0, ih i ⟨⟨b, by simpa using hb, hbv⟩, ?_⟩]
      · rfl
      · intro j bj hj hget
        exact hfirst (j + 1) bj (by omega) (by simpa using hget)

theorem find_bekey_none (v : CString) (bes : List BACKEND)
    (h : ∀ b ∈ bes, b.bekey ≠ some v) : find_bekey v bes = none := by
  induction bes with
  | nil => rfl
  | cons b0 rest ih =>
    unfold find_bekey
    rw [if_neg (h b0 (List.mem_cons_self _ _)),
      ih (fun b hb => h b (List.mem_cons_of_mem _ hb))]
    rfl

theorem get_backend_afresh (c : CONSTS) (svc : SERVICE) (from_host request : CString)
    (headers : List (Option CString)) (u_name : CString) (rnd : Nat) (now : Int)
    (htot : 0 < svc.tot_pri) (hsel : selects_afresh c svc from_host request headers) :
    (get_backend c svc from_host request headers u_name rnd now).res =
      bekey_pick c svc headers rnd := by
  unfold selects_afresh at hsel
  cases hk : session_key c svc from_host request headers with
  | some k =>
    rw [hk] at hsel
    exact (get_backend_miss_result c svc from_host request headers u_name rnd now k hsel.1
      htot hk hsel.2).2.1
  | none =>
    rw [hk] at hsel
    have hnot : ¬ svc.tot_pri ≤ 0 := by omega
    have hpick := bekey_pick_requests c svc (svc.requests + 1) headers rnd
    have hk1 := (session_key_requests c svc (svc.requests + 1) from_host request headers).trans hk
    rw [(get_backend_hits c svc from_host request headers u_name rnd now).2]
    generalize hs1 : ({ svc with requests := svc.requests + 1 } : SERVICE) = svc1 at hk1 hpick ⊢
    have e0 : svc1.sess_type = svc.sess_type := by rw [← hs1]
    have e3 : svc1.tot_pri = svc.tot_pri := by rw [← hs1]
    unfold session_key at hk1
    unfold get_backend_switch
    cases hst : svc1.sess_type with
    | SESS_NONE => simp only [e3, hnot, if_false, hpick]
    | SESS_IP =>
      rw [hst] at hk1
      cases hk1
    | SESS_URL => exact absurd (e0.symm.trans hst) hsel.1
    | SESS_PARM => exact absurd (e0.symm.trans hst) hsel.2
    | SESS_COOKIE =>
      rw [hst] at hk1
      simp only at hk1 ⊢
      split at hk1
      · cases hk1
      · rename_i hno
        rw [if_neg hno]
        simp only [e3, hnot, if_false, hpick]
    | SESS_BASIC =>
      rw [hst] at hk1
      simp only at hk1 ⊢
      split at hk1
      · cases hk1
      · rename_i hno
        rw [if_neg hno]
        simp only [e3, hnot, if_false, hpick]
    | SESS_HEADER =>
      rw [hst] at hk1
      simp only at hk1 ⊢
      split at hk1
      · cases hk1
      · rename_i hno
        rw [if_neg hno]
        simp only [e3, hnot, if_false, hpick]

theorem example_be_carries (sess_ttl : Int) :
    carries_bekey example_consts (example_bekey_svc sess_ttl)
      [none, some example_be_cookie] [98] := by
  refine ⟨by simp [example_bekey_svc], by decide, 1, example_be_cookie,
    ⟨by decide, by decide, rfl, fun j h1 h2 => by omega⟩,
    (by decide :
      cookie_value example_consts.KEY_SIZE example_be_pat example_be_cookie = some [98]), ?_⟩
  intro j h2 hj hline
  have hget := hline.2.2.1
  rw [List.getElem?_eq_none (by simpa using hj)] at hget
  cases hget

theorem example_be_first (sess_ttl : Int) :
    first_bekey (example_bekey_svc sess_ttl).backends [98] 1 := by
  refine ⟨⟨_, rfl, rfl⟩, ?_⟩
  intro j bj hj hget
  have hj0 : j = 0 := by omega
  subst hj0
  simp only [example_bekey_svc, List.getElem?_cons_zero, Option.some.injEq] at hget
  subst hget
  decide

/-- Claim C15, as amended: for a service with a configured back-end cookie and
`tot_pri > 0`, when a request carries that cookie with a non-empty value `v`
and either yields a session key that the table does not hold, the session TTL
not being negative, or yields no session key under a policy other than the
URL policies: if some back-end's `bekey` equals `v`, `get_backend` returns the
first such back-end in declaration order provided it is alive; if no back-end
has `bekey` `v`, or that back-end is not alive, `get_backend` returns what
`rand_backend` returns for the draw `random() % tot_pri`, which lies in
`[0, tot_pri)`. -/
theorem get_backend_bekey (c : CONSTS) (svc : SERVICE) (from_host request : CString)
    (headers : List (Option CString)) (u_name : CString) (rnd : Nat) (now : Int)
    (v : CString) (hcarry : carries_bekey c svc headers v) (htot : 0 < svc.tot_pri)
    (hsel : selects_afresh c svc from_host request headers) :
    (∀ (i : Nat) (b : BACKEND), first_bekey svc.backends v i → svc.backends[i]? = some b →
      b.alive ≠ 0 →
      (get_backend c svc from_host request headers u_name rnd now).res =
        some (BE_PTR.list i)) ∧
    (((∀ b ∈ svc.backends, b.bekey ≠ some v) ∨
        ∃ (i : Nat) (b : BACKEND), first_bekey svc.backends v i ∧ svc.backends[i]? = some b ∧
          b.alive = 0) →
      (get_backend c svc from_host request headers u_name rnd now).res =
        (rand_backend svc.backends ((rnd : Int) % svc.tot_pri)).map BE_PTR.list ∧
      0 ≤ (rnd : Int) % svc.tot_pri ∧ (rnd : Int) % svc.tot_pri < svc.tot_pri) := by
  have hv : v ≠ [] := hcarry.2.1
  have hres := get_backend_afresh c svc from_host request headers u_name rnd now htot hsel
  rw [hres]
  unfold bekey_pick get_backend_by_key
  rw [get_bekey_carries c svc headers v hcarry]
  simp only [if_true, if_neg hv]
  refine ⟨?_, ?_⟩
  · intro i b hfirst hb halive
    rw [find_bekey_some v svc.backends i hfirst]
    simp only [hb, if_neg halive]
  · intro h
    refine ⟨?_, Int.emod_nonneg _ (by omega), Int.emod_lt_of_pos _ htot⟩
    cases h with
    | inl hnone =>
      rw [find_bekey_none v svc.backends hnone]
      rfl
    | inr hdead =>
      obtain ⟨i, b, hfirst, hb, hdead⟩ := hdead
      rw [find_bekey_some v svc.backends i hfirst]
      simp only [hb, if_pos hdead]
      rfl

theorem get_backend_bekey_witness :
    (get_backend example_consts (example_bekey_svc 300) [49] [47]
      [none, some example_be_cookie] [] 0 0).res = some (BE_PTR.list 1) :=
  (get_backend_bekey example_consts (example_bekey_svc 300) [49] [47]
    [none, some example_be_cookie] [] 0 0 [98] (example_be_carries 300) (by decide)
    ⟨by decide, by decide⟩).1 1 { priority := 1, bekey := some [98] }
    (example_be_first 300) rfl (by decide)

/-- Claim C15 fails as stated in consistent-hash mode: `example_bekey_svc (-1)`
has IP sessions with a negative TTL, so no request hits a session; the request
of client "1" carries the back-end cookie with the value "b", the key of
back-end 1, which is alive, and `get_backend` returns back-end 0, the one that
`hash_backend` selects for the client, whatever `random()` draws. -/
theorem get_backend_bekey_counterexample :
    0 < (example_bekey_svc (-1)).tot_pri ∧
    carries_bekey example_consts (example_bekey_svc (-1)) [none, some example_be_cookie] [98] ∧
    first_bekey (example_bekey_svc (-1)).backends [98] 1 ∧
    (∀ b ∈ (example_bekey_svc (-1)).backends, b.alive ≠ 0 ∧ b.disabled = 0) ∧
    (example_bekey_svc (-1)).sessions = [] ∧
    (∀ rnd : Nat, (get_backend example_consts (example_bekey_svc (-1)) [49] [47]
      [none, some example_be_cookie] [] rnd 0).res = some (BE_PTR.list 0)) ∧
    (get_backend example_consts (example_bekey_svc (-1)) [49] [47]
      [none, some example_be_cookie] [] 0 0).res ≠ some (BE_PTR.list 1) := by
  refine ⟨by decide, example_be_carries (-1), example_be_first (-1), by decide, rfl, ?_,
    by decide⟩
  intro rnd
  rfl

/-! ## The back-end of a session: proofs -/

theorem sessions_bound_map (bes : List BACKEND) (tab : List TABNODE) (f : TABNODE → TABNODE)
    (hb : ∀ t, (f t).content.be = t.content.be) (h : sessions_bound bes tab) :
    sessions_bound bes (tab.map f) := by
  intro t ht
  rw [List.mem_map] at ht
  obtain ⟨u, hu, rfl⟩ := ht
  rw [hb u]
  exact h u hu

theorem sessions_bound_filter (bes : List BACKEND) (tab : List TABNODE) (p : TABNODE → Bool)
    (h : sessions_bound bes tab) : sessions_bound bes (tab.filter p) :=
  fun t ht => h t (List.mem_filter.1 ht).1

theorem sessions_bound_t_add (bes : List BACKEND) (tab : List TABNODE) (key : CString)
    (content : SESSION) (now : Int) (i : Nat) (hbe : content.be = some (BE_PTR.list i))
    (hi : i < bes.length) (h : sessions_bound bes tab) :
    sessions_bound bes (t_add tab key content now) := by
  intro t ht
  unfold t_add at ht
  rw [List.mem_cons] at ht
  cases ht with
  | inl h0 =>
    subst h0
    exact ⟨i, hbe, hi⟩
  | inr h1 => exact h t (List.mem_filter.1 h1).1

theorem sessions_bound_length (bes bes2 : List BACKEND) (tab : List TABNODE)
    (hlen : bes2.length = bes.length) (h : sessions_bound bes tab) :
    sessions_bound bes2 tab := by
  intro t ht
  obtain ⟨i, hbe, hi⟩ := h t ht
  exact ⟨i, hbe, by omega⟩

theorem be_unchanged_of_keeps (tab tab2 : List TABNODE) (h : keeps_bindings tab tab2) :
    be_unchanged tab tab2 := by
  intro k node node2 h1 h2
  obtain ⟨n, hn, hbe⟩ := h k node h1
  rw [hn] at h2
  cases h2
  exact hbe

theorem t_lookup_filter_key (tab : List TABNODE) (q : CString → Bool) (k : CString) :
    t_lookup (tab.filter (fun u => q u.key)) k = if q k then t_lookup tab k else none := by
  unfold t_lookup
  induction tab with
  | nil => simp
  | cons t rest ih =>
    by_cases hq : q t.key = true
    · simp only [List.filter_cons, hq, if_true]
      by_cases htk : t.key = k
      · subst htk
        simp [List.find?_cons, hq]
      · simp only [List.find?_cons, htk, decide_False]
        exact ih
    · simp only [List.filter_cons, hq, Bool.false_eq_true, if_false]
      rw [ih]
      by_cases htk : t.key = k
      · subst htk
        simp [hq]
      · simp [List.find?_cons, htk]

theorem be_unchanged_map_filter (tab tab1 : List TABNODE) (f : TABNODE → TABNODE)
    (q : CString → Bool) (hk : ∀ t, (f t).key = t.key)
    (hb : ∀ t, (f t).content.be = t.content.be) (h : be_unchanged tab tab1) :
    be_unchanged tab ((tab1.map f).filter (fun u => q u.key)) := by
  intro k node node2 h1 h2
  rw [t_lookup_filter_key] at h2
  split at h2
  · rw [t_lookup_map tab1 k f hk] at h2
    cases h3 : t_lookup tab1 k with
    | none =>
      rw [h3] at h2
      cases h2
    | some n =>
      rw [h3] at h2
      cases h2
      rw [hb n]
      exact h k node n h1 h3
  · cases h2

theorem be_unchanged_refl (tab : List TABNODE) : be_unchanged tab tab := by
  intro k node node2 h1 h2
  rw [h1] at h2
  cases h2
  rfl

theorem be_unchanged_map (tab tab1 : List TABNODE) (f : TABNODE → TABNODE)
    (hk : ∀ t, (f t).key = t.key) (hb : ∀ t, (f t).content.be = t.content.be)
    (h : be_unchanged tab tab1) : be_unchanged tab (tab1.map f) := by
  have h2 := be_unchanged_map_filter tab tab1 f (fun _ => true) hk hb h
  simpa using h2

theorem be_unchanged_filter (tab tab1 : List TABNODE) (q : CString → Bool)
    (h : be_unchanged tab tab1) : be_unchanged tab (tab1.filter (fun u => q u.key)) := by
  have h2 := be_unchanged_map_filter tab tab1 id q (fun _ => rfl) (fun _ => rfl) h
  simpa using h2

theorem keyed_backend_bound (c : CONSTS) (svc : SERVICE) (headers : List (Option CString))
    (key : CString) (rnd : Nat) (now : Int) (ip : Bool)
    (hinv : svc.tot_pri = sum_avail svc.backends)
    (h : sessions_bound svc.backends svc.sessions) :
    sessions_bound svc.backends (keyed_backend c svc headers key rnd now ip).svc.sessions ∧
    (keyed_backend c svc headers key rnd now ip).svc.backends = svc.backends := by
  by_cases httl : svc.sess_ttl < 0
  · rw [keyed_backend_hash c svc headers key rnd now ip httl]
    exact ⟨h, rfl⟩
  · have httl0 : 0 ≤ svc.sess_ttl := by omega
    cases hl : t_lookup svc.sessions key with
    | none =>
      rw [keyed_backend_miss c svc headers key rnd now ip httl0 hl]
      split
      · exact ⟨h, rfl⟩
      · rename_i hpos
        refine ⟨?_, rfl⟩
        obtain ⟨i, x, hpick, hx, -⟩ := bekey_pick_alive c svc headers rnd hinv (by omega)
        have hi : i < svc.backends.length := by
          obtain ⟨hi, -⟩ := List.getElem?_eq_some.1 hx
          exact hi
        exact sessions_bound_t_add _ _ _ _ _ i hpick hi h
    | some node =>
      rw [keyed_backend_hit c svc headers key rnd now ip httl0 node hl]
      have htouch : sessions_bound svc.backends (t_touch svc.sessions key now) :=
        sessions_bound_map _ _ _ (by intro t; split <;> rfl) h
      refine ⟨?_, rfl⟩
      cases ip
      · exact htouch
      · exact sessions_bound_map _ _ _ (by intro t; split <;> rfl) htouch

theorem get_backend_switch_bound (c : CONSTS) (svc : SERVICE) (from_host request : CString)
    (headers : List (Option CString)) (rnd : Nat) (now : Int)
    (hinv : svc.tot_pri = sum_avail svc.backends)
    (h : sessions_bound svc.backends svc.sessions) :
    sessions_bound svc.backends
      (get_backend_switch c svc from_host request headers rnd now).svc.sessions ∧
    (get_backend_switch c svc from_host request headers rnd now).svc.backends =
      svc.backends := by
  cases hst : svc.sess_type <;> simp only [get_backend_switch, hst]
  case SESS_NONE => exact ⟨h, trivial⟩
  case SESS_IP => exact keyed_backend_bound c svc headers _ rnd now true hinv h
  all_goals
    split
    · exact keyed_backend_bound c svc headers _ rnd now false hinv h
    · exact ⟨h, rfl⟩

theorem get_backend_bound (c : CONSTS) (svc : SERVICE) (from_host request : CString)
    (headers : List (Option CString)) (u_name : CString) (rnd : Nat) (now : Int)
    (hinv : svc.tot_pri = sum_avail svc.backends)
    (h : sessions_bound svc.backends svc.sessions) :
    sessions_bound (get_backend c svc from_host request headers u_name rnd now).svc.backends
      (get_backend c svc from_host request headers u_name rnd now).svc.sessions := by
  have h1 := get_backend_switch_bound c { svc with requests := svc.requests + 1 }
    from_host request headers rnd now hinv h
  have h0 : ({ svc with requests := svc.requests + 1 } : SERVICE).backends = svc.backends := rfl
  rw [h0] at h1
  unfold get_backend
  simp only
  split
  · simp only
    rw [h1.2]
    exact sessions_bound_map _ _ _ (by intro t; split <;> rfl) h1.1
  · rw [h1.2]
    exact h1.1

theorem sel_be_loop_lt (backend : Int) (i : Int) (l : List BACKEND) (j : Nat)
    (h : sel_be_loop backend i l = some j) : j < l.length := by
  induction l generalizing i j with
  | nil => cases h
  | cons b rest ih =>
    unfold sel_be_loop at h
    split at h
    · cases hr : sel_be_loop backend (i + 1) rest with
      | none =>
        rw [hr] at h
        cases h
      | some m =>
        rw [hr] at h
        cases h
        have := ih (i + 1) m hr
        simp only [List.length_cons]
        omega
    · cases h
      simp

theorem ctrl_add_sess_bound (svc : SERVICE) (backend : Int) (key : CString) (now : Int)
    (h : sessions_bound svc.backends svc.sessions) :
    sessions_bound (ctrl_add_sess svc backend key now).backends
      (ctrl_add_sess svc backend key now).sessions ∧
    (∀ k2 : CString, k2 ≠ key →
      t_lookup (ctrl_add_sess svc backend key now).sessions k2 = t_lookup svc.sessions k2) := by
  unfold ctrl_add_sess
  cases hs : sel_be_loop backend 0 svc.backends with
  | none => exact ⟨h, fun _ _ => rfl⟩
  | some i =>
    refine ⟨?_, ?_⟩
    · exact sessions_bound_t_add _ _ _ _ _ i rfl (sel_be_loop_lt backend 0 _ i hs) h
    · intro k2 hne
      exact t_lookup_t_add_ne _ _ _ _ _ (fun e => hne e.symm)

theorem t_find_none (tab : List TABNODE) (key : CString) (now : Int) (x : List TABNODE)
    (h : t_find tab key now = (none, x)) : t_lookup tab key = none := by
  unfold t_find at h
  cases hl : t_lookup tab key with
  | none => rfl
  | some n =>
    rw [hl] at h
    cases h

theorem t_find_some (tab : List TABNODE) (key : CString) (now : Int) (s : SESSION)
    (x : List TABNODE) (h : t_find tab key now = (some s, x)) : x = t_touch tab key now := by
  unfold t_find at h
  cases hl : t_lookup tab key with
  | none =>
    rw [hl] at h
    cases h
  | some n =>
    rw [hl] at h
    cases h
    rfl

theorem upd_session_table_bound (c : CONSTS) (svc : SERVICE) (from_host request : CString)
    (resp_headers : List (Option CString)) (u_name : CString) (be : Option BE_PTR)
    (sess : Option CString) (now : Int) (i : Nat) (hbe : be = some (BE_PTR.list i))
    (hi : i < svc.backends.length) (h : sessions_bound svc.backends svc.sessions) :
    sessions_bound svc.backends
      (upd_session_table c svc from_host request resp_headers u_name be sess now).svc.sessions ∧
    be_unchanged svc.sessions
      (upd_session_table c svc from_host request resp_headers u_name be sess now).svc.sessions := by
  have hmk : ∀ (k : CString) (t : TABNODE),
      (if t.key = k then
        { t with content := { t.content with delete_pending := t.content.delete_pending + 1 } }
        else t).key = t.key := by
    intro k t
    split <;> rfl
  have hmb : ∀ (k : CString) (t : TABNODE),
      (if t.key = k then
        { t with content := { t.content with delete_pending := t.content.delete_pending + 1 } }
        else t).content.be = t.content.be := by
    intro k t
    split <;> rfl
  unfold upd_session_table
  split
  · rename_i k hk
    split
    · split
      · rename_i key hkey
        simp only [t_remove]
        rw [delete_session_sessions]
        simp only [mark_pending, sess_update]
        exact ⟨sessions_bound_filter _ _ _ (sessions_bound_map _ _ _ (hmb k) h),
          be_unchanged_map_filter _ _ _ (fun x => decide (x ≠ key)) (hmk k) (hmb k)
            (be_unchanged_refl _)⟩
      · simp only [t_clean_eq, mark_pending, sess_update]
        exact ⟨sessions_bound_map _ _ _ (hmb k) h,
          be_unchanged_map _ _ _ (hmk k) (hmb k) (be_unchanged_refl _)⟩
    · simp only [mark_pending, sess_update]
      exact ⟨sessions_bound_map _ _ _ (hmb k) h,
        be_unchanged_map _ _ _ (hmk k) (hmb k) (be_unchanged_refl _)⟩
  · split
    · split
      · rename_i x hfind
        have hmiss := t_find_none _ _ _ _ hfind
        simp only
        exact ⟨sessions_bound_t_add _ _ _ _ _ i hbe hi h,
          be_unchanged_of_keeps _ _ (keeps_bindings_t_add _ _ _ _ hmiss)⟩
      · rename_i s tab hfind
        have htab := t_find_some _ _ _ _ _ hfind
        simp only
        rw [htab]
        unfold t_touch
        exact ⟨sessions_bound_map _ _ _ (by intro t; split <;> rfl) h,
          be_unchanged_map _ _ _ (by intro t; split <;> rfl) (by intro t; split <;> rfl)
            (be_unchanged_refl _)⟩
    · exact ⟨h, be_unchanged_refl _⟩

theorem upd_session_bound (c : CONSTS) (svc : SERVICE) (from_host request : CString)
    (resp_headers : List (Option CString)) (u_name : CString) (be : Option BE_PTR)
    (sess : Option CString) (now : Int) (i : Nat) (hbe : be = some (BE_PTR.list i))
    (hi : i < svc.backends.length) (h : sessions_bound svc.backends svc.sessions) :
    sessions_bound
      (upd_session c svc from_host request resp_headers u_name be sess now).svc.backends
      (upd_session c svc from_host request resp_headers u_name be sess now).svc.sessions ∧
    be_unchanged svc.sessions
      (upd_session c svc from_host request resp_headers u_name be sess now).svc.sessions := by
  have hf := upd_session_fields c svc from_host request resp_headers u_name be sess now
  have hbk : (upd_session c svc from_host request resp_headers u_name be sess now).svc.backends
      = svc.backends := by rw [hf]
  rw [hbk]
  unfold upd_session
  obtain ⟨g, hg, heq⟩ := upd_session_lbinfo_view c svc resp_headers
    (if svc.sess_type = SESS_TYPE.SESS_HEADER ∨ svc.sess_type = SESS_TYPE.SESS_COOKIE then
      upd_session_table c svc from_host request resp_headers u_name be sess now
    else { svc := svc, key := none, sess := sess, end_of_session_forced := 0 })
  rw [heq]
  simp only
  have hgk : ∀ t, (g t).key = t.key := fun t => (table_view_fields t (g t) (hg t)).1
  have hgb : ∀ t, (g t).content.be = t.content.be :=
    fun t => (table_view_fields t (g t) (hg t)).2.2.1
  split
  · obtain ⟨h1, h2⟩ := upd_session_table_bound c svc from_host request resp_headers u_name
      be sess now i hbe hi h
    exact ⟨sessions_bound_map _ _ _ hgb h1, be_unchanged_map _ _ _ hgk hgb h2⟩
  · exact ⟨sessions_bound_map _ _ _ hgb h, be_unchanged_map _ _ _ hgk hgb (be_unchanged_refl _)⟩

theorem kill_be_sessions_filter (svc : SERVICE) (be : Option BE_PTR) (disable_mode : BE_MODE) :
    ∃ q : CString → Bool,
      (kill_be svc be disable_mode).sessions = svc.sessions.filter (fun u => q u.key) := by
  by_cases hmode : disable_mode = BE_MODE.BE_KILL
  · subst hmode
    by_cases hex : ∃ b, be = some (BE_PTR.list b) ∧ b < svc.backends.length
    · obtain ⟨b, rfl, hb⟩ := hex
      unfold kill_be
      simp only
      have h := kill_be_loop_sessions_kill svc.backends 0 b { svc with tot_pri := 0 } hb
      simp only [Nat.zero_add] at h
      rw [h]
      unfold t_clean_be
      rw [t_clean_be_fold_sessions]
      exact ⟨fun key => !(svc.sessions.any (fun t =>
        decide (t.content.be = some (BE_PTR.list b)) && decide (t.key = key))), rfl⟩
    · unfold kill_be
      simp only
      rw [(kill_be_loop_sessions_none be BE_MODE.BE_KILL svc.backends 0 _ ?_).1]
      · exact ⟨fun _ => true, by simp⟩
      · intro j hj hbe
        apply hex
        exact ⟨j, by simpa using hbe, hj⟩
  · rw [(kill_be_sessions_of_ne_kill svc be disable_mode hmode).1]
    exact ⟨fun _ => true, by simp⟩

theorem t_expire_fold_fields (lim del_lim : Int) (l : List TABNODE) (svc : SERVICE) :
    l.foldl (fun s t => t_old_doall_arg t lim del_lim s) svc =
      { svc with
        sessions := (l.foldl (fun s t => t_old_doall_arg t lim del_lim s) svc).sessions,
        del_sessions :=
          (l.foldl (fun s t => t_old_doall_arg t lim del_lim s) svc).del_sessions } := by
  induction l generalizing svc with
  | nil => rfl
  | cons t rest ih =>
    simp only [List.foldl_cons]
    rw [ih]
    unfold t_old_doall_arg
    by_cases hc : t.last_acc < (if t.content.delete_pending ≠ 0 then del_lim else lim)
    · rw [if_pos hc, delete_session_fields]
    · rw [if_neg hc]

theorem do_expire_svc_sessions (cur_time : Int) (svc : SERVICE) :
    (∃ q : CString → Bool,
      (do_expire_svc cur_time svc).sessions = svc.sessions.filter (fun u => q u.key)) ∧
    (do_expire_svc cur_time svc).backends = svc.backends := by
  unfold do_expire_svc
  split
  · simp only
    refine ⟨?_, ?_⟩
    · unfold t_expire
      rw [t_expire_fold_sessions]
      exact ⟨fun key => !(svc.sessions.any (fun t =>
        !(expire_keeps (cur_time - svc.sess_ttl) (cur_time - svc.death_ttl) t) &&
          decide (t.key = key))), rfl⟩
    · unfold t_expire
      rw [t_expire_fold_fields]
  · exact ⟨⟨fun _ => true, by simp⟩, rfl⟩

theorem ctrl_del_sess_sessions (svc : SERVICE) (key : CString) :
    (∃ q : CString → Bool,
      (ctrl_del_sess svc key).sessions = svc.sessions.filter (fun u => q u.key)) ∧
    (ctrl_del_sess svc key).backends = svc.backends := by
  unfold ctrl_del_sess t_remove
  refine ⟨?_, ?_⟩
  · rw [delete_session_sessions]
    exact ⟨fun x => decide (x ≠ key), rfl⟩
  · rw [delete_session_fields]

theorem resurrect_probe_length (probe : Nat → Bool) (l : List BACKEND) (i : Nat) :
    (resurrect_probe probe i l).1.length = l.length := by
  induction l generalizing i with
  | nil => rfl
  | cons b rest ih =>
    unfold resurrect_probe
    split
    · simp [ih]
    · split
      · simp [ih]
      · split <;> simp [ih]

theorem resurrect_commit_length (l : List BACKEND) (tot_pri : Int) :
    (resurrect_commit l tot_pri).1.length = l.length := by
  induction l generalizing tot_pri with
  | nil => rfl
  | cons b rest ih =>
    unfold resurrect_commit
    split <;> simp [ih]

theorem rescale_loop_length (c : CONSTS) (average sq_average : double) (l : List BACKEND)
    (tot_pri : Int) : (rescale_loop c average sq_average l tot_pri).1.length = l.length := by
  induction l generalizing tot_pri with
  | nil => rfl
  | cons b rest ih =>
    unfold rescale_loop
    split <;> simp [ih]

theorem health_sessions (c : CONSTS) (probe : Nat → Bool) (svc : SERVICE) :
    (do_resurect_svc probe svc).sessions = svc.sessions ∧
    (do_resurect_svc probe svc).backends.length = svc.backends.length ∧
    (do_rescale_svc c svc).sessions = svc.sessions ∧
    (do_rescale_svc c svc).backends.length = svc.backends.length := by
  refine ⟨?_, ?_, (do_rescale_svc_sums c svc).2.2.2, ?_⟩
  · unfold do_resurect_svc
    split <;> rfl
  · unfold do_resurect_svc
    split
    · simp only
      rw [resurrect_commit_length, resurrect_probe_length]
    · simp only
      rw [resurrect_probe_length]
  · unfold do_rescale_svc
    split
    · rfl
    · split
      · rfl
      · simp only
        rw [rescale_loop_length]

theorem sessions_bound_of_filter (bes bes2 : List BACKEND) (tab tab2 : List TABNODE)
    (hlen : bes2.length = bes.length)
    (hq : ∃ q : CString → Bool, tab2 = tab.filter (fun u => q u.key))
    (h : sessions_bound bes tab) :
    sessions_bound bes2 tab2 ∧ be_unchanged tab tab2 := by
  obtain ⟨q, rfl⟩ := hq
  exact ⟨sessions_bound_length _ _ _ hlen (sessions_bound_filter _ _ _ h),
    be_unchanged_filter _ _ q (be_unchanged_refl _)⟩

/-- For a service whose `tot_pri` is the sum of the priorities of its alive,
non-disabled back-ends, the property "every session of the table is bound to a
member of the service's back-end list" holds of the empty table and is kept by
`get_backend`, the control command that adds a session, `upd_session` when it
is given a member of the list, `kill_be`, the expiry sweep, the control command
that deletes a session, and the health and rescaling passes. -/
theorem sessions_bound_kept (c : CONSTS) (svc : SERVICE)
    (hinv : svc.tot_pri = sum_avail svc.backends)
    (h : sessions_bound svc.backends svc.sessions) :
    sessions_bound svc.backends [] ∧
    (∀ (from_host request : CString) (headers : List (Option CString)) (u_name : CString)
        (rnd : Nat) (now : Int),
      sessions_bound (get_backend c svc from_host request headers u_name rnd now).svc.backends
        (get_backend c svc from_host request headers u_name rnd now).svc.sessions ∧
      be_unchanged svc.sessions
        (get_backend c svc from_host request headers u_name rnd now).svc.sessions) ∧
    (∀ (backend : Int) (key : CString) (now : Int),
      sessions_bound (ctrl_add_sess svc backend key now).backends
        (ctrl_add_sess svc backend key now).sessions ∧
      ∀ k2 : CString, k2 ≠ key →
        t_lookup (ctrl_add_sess svc backend key now).sessions k2 = t_lookup svc.sessions k2) ∧
    (∀ (from_host request : CString) (resp_headers : List (Option CString))
        (u_name : CString) (sess : Option CString) (now : Int) (i : Nat),
      i < svc.backends.length →
      sessions_bound
        (upd_session c svc from_host request resp_headers u_name (some (BE_PTR.list i)) sess
          now).svc.backends
        (upd_session c svc from_host request resp_headers u_name (some (BE_PTR.list i)) sess
          now).svc.sessions ∧
      be_unchanged svc.sessions
        (upd_session c svc from_host request resp_headers u_name (some (BE_PTR.list i)) sess
          now).svc.sessions) ∧
    (∀ (be : Option BE_PTR) (disable_mode : BE_MODE),
      sessions_bound (kill_be svc be disable_mode).backends
        (kill_be svc be disable_mode).sessions ∧
      be_unchanged svc.sessions (kill_be svc be disable_mode).sessions) ∧
    (∀ cur_time : Int,
      sessions_bound (do_expire_svc cur_time svc).backends
        (do_expire_svc cur_time svc).sessions ∧
      be_unchanged svc.sessions (do_expire_svc cur_time svc).sessions) ∧
    (∀ key : CString,
      sessions_bound (ctrl_del_sess svc key).backends (ctrl_del_sess svc key).sessions ∧
      be_unchanged svc.sessions (ctrl_del_sess svc key).sessions) ∧
    (∀ probe : Nat → Bool,
      sessions_bound (do_resurect_svc probe svc).backends
        (do_resurect_svc probe svc).sessions ∧
      (do_resurect_svc probe svc).sessions = svc.sessions) ∧
    sessions_bound (do_rescale_svc c svc).backends (do_rescale_svc c svc).sessions ∧
    (do_rescale_svc c svc).sessions = svc.sessions := by
  refine ⟨fun t ht => absurd ht (List.not_mem_nil t), ?_, ?_, ?_, ?_, ?_, ?_, ?_, ?_, ?_⟩
  · intro from_host request headers u_name rnd now
    exact ⟨get_backend_bound c svc from_host request headers u_name rnd now hinv h,
      be_unchanged_of_keeps _ _
        (get_backend_keeps c svc from_host request headers u_name rnd now)⟩
  · intro backend key now
    exact ctrl_add_sess_bound svc backend key now h
  · intro from_host request resp_headers u_name sess now i hi
    exact upd_session_bound c svc from_host request resp_headers u_name _ sess now i rfl hi h
  · intro be disable_mode
    apply sessions_bound_of_filter svc.backends _ svc.sessions _ _
      (kill_be_sessions_filter svc be disable_mode) h
    have hp := congrArg List.length (kill_be_priorities svc be disable_mode)
    simpa using hp
  · intro cur_time
    apply sessions_bound_of_filter svc.backends _ svc.sessions _ _
      (do_expire_svc_sessions cur_time svc).1 h
    rw [(do_expire_svc_sessions cur_time svc).2]
  · intro key
    apply sessions_bound_of_filter svc.backends _ svc.sessions _ _
      (ctrl_del_sess_sessions svc key).1 h
    rw [(ctrl_del_sess_sessions svc key).2]
  · intro probe
    obtain ⟨h1, h2, -, -⟩ := health_sessions c probe svc
    refine ⟨?_, h1⟩
    rw [h1]
    exact sessions_bound_length _ _ _ h2 h
  · obtain ⟨-, -, h3, h4⟩ := health_sessions c (fun _ => false) svc
    rw [h3]
    exact sessions_bound_length _ _ _ h4 h
  · exact (do_rescale_svc_sums c svc).2.2.2

theorem upd_session_insert_witness :
    (upd_session example_consts example_cookie_svc example_client [47]
      [none, some example_setcookie_Y] [] (some (BE_PTR.list 0)) none 5).svc.misses =
        example_cookie_svc.misses + 1 ∧
    (upd_session example_consts example_cookie_svc example_client [47]
      [none, some example_setcookie_Y] [] (some (BE_PTR.list 0)) none 5).sess = some [89] :=
  (((upd_session_insert example_consts example_cookie_svc example_client [47]
      [none, some example_setcookie_Y] [] (some (BE_PTR.list 0)) none 5 _ rfl).1
    (Or.inr rfl) (Or.inl rfl) [89] (by decide)).1 (by decide)).2.2

/-- Claim C19 fails on the copy of the LB-info text: the service
`example_lb_svc` has the LB-info header `X-LB`, whose pattern matches the
response header "X-LB: abc def" with the first group "abc" (characters 6 to
9); `upd_session`, called with the session of client "1", sets the session's
`lb_info` to "abc def", the line from the start of the group to its end, and
not to "abc". -/
theorem upd_session_lb_info_overrun :
    example_lb_pat example_lb_header =
      some [{ rm_so := 0, rm_eo := 9 }, { rm_so := 6, rm_eo := 9 }] ∧
    (example_lb_header.drop 6).take (9 - 6) = [97, 98, 99] ∧
    example_consts.LB_INFO_SIZE = 128 ∧
    (upd_session example_consts example_lb_svc [49] [47] [none, some example_lb_header] []
      (some (BE_PTR.list 0)) (some [49]) 5).sess = some [49] ∧
    (t_lookup (upd_session example_consts example_lb_svc [49] [47]
        [none, some example_lb_header] [] (some (BE_PTR.list 0)) (some [49]) 5).svc.sessions
      [49]).map (fun t => t.content.lb_info) = some [97, 98, 99, 32, 100, 101, 102] := by
  refine ⟨by decide, by decide, by decide, by decide, by decide⟩

/-! ## Latency samples: proofs -/

theorem get_backend_hit_n_requests (c : CONSTS) (svc : SERVICE) (from_host request : CString)
    (headers : List (Option CString)) (u_name : CString) (rnd : Nat) (now : Int)
    (k : CString) (node : TABNODE) (httl : 0 ≤ svc.sess_ttl)
    (hkey : session_key c svc from_host request headers = some k)
    (hhit : t_lookup svc.sessions k = some node) :
    ∃ node2,
      t_lookup (get_backend c svc from_host request headers u_name rnd now).svc.sessions k =
        some node2 ∧
      node2.content.n_requests =
        node.content.n_requests + (if svc.sess_type = SESS_TYPE.SESS_IP then 2 else 1) := by
  have hkey1 := (session_key_requests c svc (svc.requests + 1) from_host request headers).trans hkey
  have hnk := t_lookup_key _ _ _ hhit
  unfold get_backend
  simp only
  generalize hs1 : ({ svc with requests := svc.requests + 1 } : SERVICE) = svc1 at hkey1 ⊢
  have e0 : svc1.sess_type = svc.sess_type := by rw [← hs1]
  have e1 : svc1.sess_ttl = svc.sess_ttl := by rw [← hs1]
  have e2 : svc1.sessions = svc.sessions := by rw [← hs1]
  rw [get_backend_switch_keyed c svc1 from_host request headers rnd now k hkey1,
    keyed_backend_hit c svc1 headers k rnd now _ (e1 ▸ httl) node (e2 ▸ hhit)]
  simp only [if_true]
  rw [t_lookup_map _ _ _ (by intro t; split <;> rfl)]
  by_cases hip : svc.sess_type = SESS_TYPE.SESS_IP
  · have hip1 : svc1.sess_type = SESS_TYPE.SESS_IP := e0.trans hip
    simp only [hip1, decide_True, if_true, hip]
    rw [t_lookup_map _ _ _ (by intro t; split <;> rfl), t_lookup_touch, e2, hhit]
    simp only [Option.map_some', hnk, if_true]
    refine ⟨_, rfl, ?_⟩
    simp only [touch_session]
    omega
  · have hip1 : ¬ svc1.sess_type = SESS_TYPE.SESS_IP := fun h => hip (e0.symm.trans h)
    simp only [hip1, decide_False, if_false, hip, Bool.false_eq_true]
    rw [t_lookup_touch, e2, hhit]
    simp only [Option.map_some', hnk, if_true]
    refine ⟨_, rfl, ?_⟩
    simp only [touch_session]

theorem get_backend_miss_n_requests (c : CONSTS) (svc : SERVICE) (from_host request : CString)
    (headers : List (Option CString)) (u_name : CString) (rnd : Nat) (now : Int)
    (k : CString) (httl : 0 ≤ svc.sess_ttl) (htot : 0 < svc.tot_pri)
    (hkey : session_key c svc from_host request headers = some k)
    (hmiss : t_lookup svc.sessions k = none) :
    ∃ node2,
      t_lookup (get_backend c svc from_host request headers u_name rnd now).svc.sessions k =
        some node2 ∧
      node2.content.n_requests = 1 := by
  have hkey1 := (session_key_requests c svc (svc.requests + 1) from_host request headers).trans hkey
  have hnot : ¬ svc.tot_pri ≤ 0 := by omega
  unfold get_backend
  simp only
  generalize hs1 : ({ svc with requests := svc.requests + 1 } : SERVICE) = svc1 at hkey1 ⊢
  have e1 : svc1.sess_ttl = svc.sess_ttl := by rw [← hs1]
  have e2 : svc1.sessions = svc.sessions := by rw [← hs1]
  have e3 : svc1.tot_pri = svc.tot_pri := by rw [← hs1]
  rw [get_backend_switch_keyed c svc1 from_host request headers rnd now k hkey1,
    keyed_backend_miss c svc1 headers k rnd now _ (e1 ▸ httl) (e2 ▸ hmiss)]
  simp only [e3, hnot, if_false, if_true]
  rw [t_lookup_map _ _ _ (by intro t; split <;> rfl), t_lookup_t_add]
  simp [touch_session, new_session]

/-- Claim C29 fails for the policy IP on a hit: in `example_ip_svc` the
session of client "1" has counted no request; one call of `get_backend` for
that client hits the session and leaves its `n_requests` at 2, the branch
`SESS_IP` of the `switch` and the common block after it each counting the
request. -/
theorem get_backend_ip_counts_twice :
    example_ip_svc.sess_type = SESS_TYPE.SESS_IP ∧
    (t_lookup example_ip_svc.sessions [49]).map (fun t => t.content.n_requests) = some 0 ∧
    (get_backend example_consts example_ip_svc [49] [47] [none] [] 0 5).svc.hits =
      example_ip_svc.hits + 1 ∧
    (t_lookup (get_backend example_consts example_ip_svc [49] [47] [none] [] 0 5).svc.sessions
      [49]).map (fun t => t.content.n_requests) = some 2 := by
  refine ⟨by decide, by decide, by decide, by decide⟩

/-! ## Routable back-ends for new sessions: proofs -/

theorem get_HEADERS_loop_cases (KEY_SIZE : Nat) (sess_start sess_pat : regex_t)
    (slots : List (Option CString)) (res : CString) :
    ((∀ (k : Nat) (h : CString), slots[k]? = some (some h) →
        (∀ j : Nat, j < k → ∃ l : CString, slots[j]? = some (some l)) →
        line_key KEY_SIZE sess_start sess_pat h = none) ∧
      get_HEADERS_loop KEY_SIZE sess_start sess_pat slots res = res) ∨
    ∃ (k : Nat) (h key : CString), slots[k]? = some (some h) ∧
      (∀ j : Nat, j < k → ∃ l : CString, slots[j]? = some (some l)) ∧
      line_key KEY_SIZE sess_start sess_pat h = some key ∧
      (∀ (j : Nat) (h2 : CString), k < j → slots[j]? = some (some h2) →
        (∀ i : Nat, i < j → ∃ l : CString, slots[i]? = some (some l)) →
        line_key KEY_SIZE sess_start sess_pat h2 = none) ∧
      get_HEADERS_loop KEY_SIZE sess_start sess_pat slots res = key := by
  induction slots generalizing res with
  | nil =>
    left
    exact ⟨fun k h hk => by simp at hk, rfl⟩
  | cons s rest ih =>
    cases s with
    | none =>
      left
      refine ⟨?_, rfl⟩
      intro k h hk hall
      cases k with
      | zero => simp at hk
      | succ k =>
        obtain ⟨l, hl⟩ := hall 0 (Nat.succ_pos k)
        simp at hl
    | some h0 =>
      rw [get_HEADERS_loop_step]
      have hshift : ∀ (j : Nat), (∀ i : Nat, i < j + 1 →
          ∃ l : CString, (some h0 :: rest)[i]? = some (some l)) →
          ∀ i : Nat, i < j → ∃ l : CString, rest[i]? = some (some l) := by
        intro j hall i hi
        simpa using hall (i + 1) (by omega)
      have hunshift : ∀ (j : Nat), (∀ i : Nat, i < j →
          ∃ l : CString, rest[i]? = some (some l)) →
          ∀ i : Nat, i < j + 1 → ∃ l : CString, (some h0 :: rest)[i]? = some (some l) := by
        intro j hall i hi
        cases i with
        | zero => exact ⟨h0, by simp⟩
        | succ i => simpa using hall i (by omega)
      rcases ih ((line_key KEY_SIZE sess_start sess_pat h0).getD res) with
        ⟨hno, hres⟩ | ⟨k, h, key, hk, hbefore, hkey, hlast, hres⟩
      · cases hl : line_key KEY_SIZE sess_start sess_pat h0 with
        | none =>
          left
          rw [hl] at hres
          refine ⟨?_, hres⟩
          intro k h hk hall
          cases k with
          | zero =>
            simp only [List.getElem?_cons_zero, Option.some.injEq] at hk
            subst hk
            exact hl
          | succ k => exact hno k h (by simpa using hk) (hshift k hall)
        | some key =>
          right
          rw [hl] at hres
          refine ⟨0, h0, key, by simp, fun j hj => absurd hj (Nat.not_lt_zero j), hl, ?_, hres⟩
          intro j h2 hj hget hall
          cases j with
          | zero => omega
          | succ j => exact hno j h2 (by simpa using hget) (hshift j hall)
      · right
        refine ⟨k + 1, h, key, by simpa using hk, hunshift k hbefore, hkey, ?_, hres⟩
        intro j h2 hj hget hall
        cases j with
        | zero => omega
        | succ j => exact hlast j h2 (by omega) (by simpa using hget) (hshift j hall)

theorem carries_of_get_bekey (c : CONSTS) (svc : SERVICE) (headers : List (Option CString))
    (v : CString) (h : get_bekey_from_HEADERS c svc headers = (true, v)) :
    carries_bekey c svc headers v := by
  unfold get_bekey_from_HEADERS at h
  cases hb : svc.becookie with
  | none =>
    rw [hb] at h
    simp at h
  | some x =>
    rw [hb] at h
    simp only [Prod.mk.injEq, decide_eq_true_eq] at h
    obtain ⟨hne, hv⟩ := h
    rw [hv] at hne
    rw [get_bekey_loop_eq] at hv
    refine ⟨by rw [hb]; exact Option.some_ne_none x, hne, ?_⟩
    rcases get_HEADERS_loop_cases c.KEY_SIZE (fun _ => some [{ rm_so := 0, rm_eo := 0 }])
      svc.becookie_match (header_slots c.MAXHEADERS headers) [] with
      ⟨-, hres⟩ | ⟨k, hh, key, hk, hbefore, hkey, hlast, hres⟩
    · rw [hres] at hv
      exact absurd hv.symm hne
    · rw [hres] at hv
      subst hv
      refine ⟨k + 1, hh, (header_line_at_slots c.MAXHEADERS headers k hh).1 ⟨hk, hbefore⟩, ?_, ?_⟩
      · rw [cookie_value_eq]
        exact hkey
      · intro j h2 hj hline
        have hj1 : 1 ≤ j := hline.1
        obtain ⟨j0, rfl⟩ : ∃ j0, j = j0 + 1 := ⟨j - 1, by omega⟩
        obtain ⟨hget, hall⟩ := (header_line_at_slots c.MAXHEADERS headers j0 h2).2 hline
        rw [cookie_value_eq]
        exact hlast j0 h2 (by omega) hget hall

theorem first_of_find_bekey (v : CString) (bes : List BACKEND) (i : Nat)
    (h : find_bekey v bes = some i) : first_bekey bes v i := by
  induction bes generalizing i with
  | nil => cases h
  | cons b0 rest ih =>
    unfold find_bekey at h
    by_cases hb : b0.bekey = some v
    · rw [if_pos hb] at h
      cases h
      exact ⟨⟨b0, by simp, hb⟩, fun j bj hj => absurd hj (Nat.not_lt_zero j)⟩
    · rw [if_neg hb] at h
      cases hr : find_bekey v rest with
      | none =>
        rw [hr] at h
        cases h
      | some m =>
        rw [hr] at h
        simp only [Option.map_some', Option.some.injEq] at h
        subst h
        obtain ⟨⟨b, hget, hbv⟩, hfirst⟩ := ih m hr
        refine ⟨⟨b, by simpa using hget, hbv⟩, ?_⟩
        intro j bj hj hgetj
        cases j with
        | zero =>
          simp only [List.getElem?_cons_zero, Option.some.injEq] at hgetj
          subst hgetj
          exact hb
        | succ j => exact hfirst j bj (by omega) (by simpa using hgetj)

theorem bekey_pick_routable (c : CONSTS) (svc : SERVICE) (headers : List (Option CString))
    (rnd : Nat) (hinv : svc.tot_pri = sum_avail svc.backends) (hpos : 0 < svc.tot_pri) :
    ∃ i x, bekey_pick c svc headers rnd = some (BE_PTR.list i) ∧
      svc.backends[i]? = some x ∧ x.alive ≠ 0 ∧
      (x.disabled = 0 ∨
        ∃ v, carries_bekey c svc headers v ∧ first_bekey svc.backends v i) := by
  obtain ⟨i, x, h1, h2, h3, h4⟩ := rand_pick_alive svc rnd hinv hpos
  unfold bekey_pick
  split
  · rename_i hflag
    have hget : get_bekey_from_HEADERS c svc headers =
        (true, (get_bekey_from_HEADERS c svc headers).2) := by
      rw [← hflag]
    have hcarry := carries_of_get_bekey c svc headers _ hget
    split
    · exact ⟨i, x, h1, h2, h3, Or.inl h4⟩
    · rename_i j hj
      split
      · exact ⟨i, x, h1, h2, h3, Or.inl h4⟩
      · rename_i y hy
        split
        · exact ⟨i, x, h1, h2, h3, Or.inl h4⟩
        · rename_i hal
          refine ⟨j, y, rfl, hy, hal, Or.inr ⟨_, hcarry, ?_⟩⟩
          unfold get_backend_by_key at hj
          split at hj
          · cases hj
          · exact first_of_find_bekey _ _ _ hj
  · exact ⟨i, x, h1, h2, h3, Or.inl h4⟩

theorem hash_scan_result (bes : List BACKEND) (tb fuel res i : Nat)
    (h : hash_scan bes tb fuel res = some i) :
    ∃ b, bes[i]? = some b ∧ b.alive ≠ 0 ∧ b.disabled = 0 := by
  induction fuel generalizing res with
  | zero => cases h
  | succ fuel ih =>
    unfold hash_scan at h
    cases hb : bes[res]? with
    | none =>
      rw [hb] at h
      cases h
    | some b =>
      rw [hb] at h
      simp only at h
      by_cases hav : b.alive = 0 ∨ b.disabled ≠ 0
      · rw [if_pos hav] at h
        by_cases hnext : (if res + 1 < bes.length then res + 1 else 0) = tb
        · rw [if_pos hnext] at h
          cases h
        · rw [if_neg hnext] at h
          exact ih _ h
      · rw [if_neg hav] at h
        cases h
        refine ⟨b, hb, ?_, ?_⟩
        · intro h0
          exact hav (Or.inl h0)
        · by_contra h1
          exact hav (Or.inr h1)

theorem hash_backend_result (w : Nat) (bes : List BACKEND) (abs_pri : Int) (key : CString)
    (i : Nat) (h : hash_backend w bes abs_pri key = some i) :
    ∃ b, bes[i]? = some b ∧ b.alive ≠ 0 ∧ b.disabled = 0 := by
  unfold hash_backend at h
  split at h
  · cases h
  · exact hash_scan_result _ _ _ _ _ h

theorem get_backend_url_nokey (c : CONSTS) (svc : SERVICE) (from_host request : CString)
    (headers : List (Option CString)) (u_name : CString) (rnd : Nat) (now : Int)
    (htot : 0 < svc.tot_pri)
    (hk : session_key c svc from_host request headers = none)
    (hty : svc.sess_type = SESS_TYPE.SESS_URL ∨ svc.sess_type = SESS_TYPE.SESS_PARM) :
    (get_backend c svc from_host request headers u_name rnd now).res = rand_pick svc rnd := by
  have hnot : ¬ svc.tot_pri ≤ 0 := by omega
  have hk1 := (session_key_requests c svc (svc.requests + 1) from_host request headers).trans hk
  rw [(get_backend_hits c svc from_host request headers u_name rnd now).2]
  have hpick : rand_pick ({ svc with requests := svc.requests + 1 } : SERVICE) rnd =
      rand_pick svc rnd := rfl
  generalize hs1 : ({ svc with requests := svc.requests + 1 } : SERVICE) = svc1 at hk1 hpick ⊢
  have e0 : svc1.sess_type = svc.sess_type := by rw [← hs1]
  have e3 : svc1.tot_pri = svc.tot_pri := by rw [← hs1]
  unfold session_key at hk1
  unfold get_backend_switch
  rcases hty with hty | hty
  · have hst : svc1.sess_type = SESS_TYPE.SESS_URL := e0.trans hty
    rw [hst] at hk1 ⊢
    simp only at hk1 ⊢
    split at hk1
    · cases hk1
    · rename_i hno
      rw [if_neg hno]
      simp only [e3, hnot, if_false, hpick]
  · have hst : svc1.sess_type = SESS_TYPE.SESS_PARM := e0.trans hty
    rw [hst] at hk1 ⊢
    simp only at hk1 ⊢
    split at hk1
    · cases hk1
    · rename_i hno
      rw [if_neg hno]
      simp only [e3, hnot, if_false, hpick]

theorem get_backend_hashed (c : CONSTS) (svc : SERVICE) (from_host request : CString)
    (headers : List (Option CString)) (u_name : CString) (rnd : Nat) (now : Int)
    (k : CString) (htot : 0 < svc.tot_pri) (httl : svc.sess_ttl < 0)
    (hk : session_key c svc from_host request headers = some k) :
    (get_backend c svc from_host request headers u_name rnd now).res =
      (hash_backend c.ULONG_BITS svc.backends svc.abs_pri k).map BE_PTR.list := by
  have hnot : ¬ svc.tot_pri ≤ 0 := by omega
  have hk1 := (session_key_requests c svc (svc.requests + 1) from_host request headers).trans hk
  rw [(get_backend_hits c svc from_host request headers u_name rnd now).2]
  generalize hs1 : ({ svc with requests := svc.requests + 1 } : SERVICE) = svc1 at hk1 ⊢
  have e1 : svc1.sess_ttl = svc.sess_ttl := by rw [← hs1]
  have e3 : svc1.tot_pri = svc.tot_pri := by rw [← hs1]
  have e4 : svc1.backends = svc.backends := by rw [← hs1]
  have e5 : svc1.abs_pri = svc.abs_pri := by rw [← hs1]
  rw [get_backend_switch_keyed c svc1 from_host request headers rnd now k hk1,
    keyed_backend_hash c svc1 headers k rnd now _ (e1 ▸ httl)]
  simp only [e3, hnot, if_false, e4, e5]

/-- Claim C28, as amended: for every session policy, with `tot_pri > 0`, the
`tot_pri` invariant holding (and `abs_pri`, by which `hash_backend` divides,
not zero in consistent-hash mode), whenever `get_backend` meets no session
binding (no key extracted, table miss, or consistent-hash mode), the back-end
it returns is null, or a back-end of the list that is
alive and not disabled, or the first back-end whose `bekey` is the value of
the back-end cookie that the request carries, which is alive and may be
disabled. -/
theorem get_backend_routable (c : CONSTS) (svc : SERVICE) (from_host request : CString)
    (headers : List (Option CString)) (u_name : CString) (rnd : Nat) (now : Int)
    (htot : 0 < svc.tot_pri) (hinv : svc.tot_pri = sum_avail svc.backends)
    (habs : svc.sess_ttl < 0 → svc.abs_pri ≠ 0)
    (hno : no_session_hit c svc from_host request headers) :
    (get_backend c svc from_host request headers u_name rnd now).res = none ∨
    ∃ (i : Nat) (b : BACKEND),
      (get_backend c svc from_host request headers u_name rnd now).res =
        some (BE_PTR.list i) ∧
      svc.backends[i]? = some b ∧ b.alive ≠ 0 ∧
      (b.disabled = 0 ∨
        ∃ v, carries_bekey c svc headers v ∧ first_bekey svc.backends v i) := by
  have hpick := bekey_pick_routable c svc headers rnd hinv htot
  unfold no_session_hit at hno
  cases hk : session_key c svc from_host request headers with
  | none =>
    by_cases hty : svc.sess_type = SESS_TYPE.SESS_URL ∨ svc.sess_type = SESS_TYPE.SESS_PARM
    · right
      rw [get_backend_url_nokey c svc from_host request headers u_name rnd now htot hk hty]
      obtain ⟨i, x, h1, h2, h3, h4⟩ := rand_pick_alive svc rnd hinv htot
      exact ⟨i, x, h1, h2, h3, Or.inl h4⟩
    · right
      have hsel : selects_afresh c svc from_host request headers := by
        unfold selects_afresh
        rw [hk]
        exact ⟨fun h => hty (Or.inl h), fun h => hty (Or.inr h)⟩
      rw [get_backend_afresh c svc from_host request headers u_name rnd now htot hsel]
      exact hpick
  | some k =>
    rw [hk] at hno
    by_cases httl : svc.sess_ttl < 0
    · rw [get_backend_hashed c svc from_host request headers u_name rnd now k htot httl hk]
      cases hh : hash_backend c.ULONG_BITS svc.backends svc.abs_pri k with
      | none => exact Or.inl rfl
      | some i =>
        right
        obtain ⟨b, hb, hal, hdis⟩ := hash_backend_result _ _ _ _ _ hh
        exact ⟨i, b, rfl, hb, hal, Or.inl hdis⟩
    · right
      have hmiss : t_lookup svc.sessions k = none := by
        rcases hno with h | h
        · exact absurd h httl
        · exact h
      have hsel : selects_afresh c svc from_host request headers := by
        unfold selects_afresh
        rw [hk]
        exact ⟨by omega, hmiss⟩
      rw [get_backend_afresh c svc from_host request headers u_name rnd now htot hsel]
      exact hpick

theorem example_be_off_carries :
    carries_bekey example_consts example_bekey_off_svc [none, some example_be_cookie] [98] :=
  example_be_carries 300

theorem get_backend_routable_witness :
    (get_backend example_consts example_bekey_off_svc [49] [47]
      [none, some example_be_cookie] [] 0 0).res = none ∨
    ∃ (i : Nat) (b : BACKEND),
      (get_backend example_consts example_bekey_off_svc [49] [47]
        [none, some example_be_cookie] [] 0 0).res = some (BE_PTR.list i) ∧
      example_bekey_off_svc.backends[i]? = some b ∧ b.alive ≠ 0 ∧
      (b.disabled = 0 ∨
        ∃ v, carries_bekey example_consts example_bekey_off_svc
            [none, some example_be_cookie] v ∧
          first_bekey example_bekey_off_svc.backends v i) :=
  get_backend_routable example_consts example_bekey_off_svc [49] [47]
    [none, some example_be_cookie] [] 0 0 (by decide) (by decide) (by decide) (Or.inr rfl)

/-- Claim C28 fails as stated for a back-end chosen through the back-end
cookie: in `example_bekey_off_svc` the second back-end is alive and disabled,
`tot_pri` is 1, the sum over the routable back-ends, and the table is empty;
the request of client "1" carries the back-end cookie with the key of that
back-end, and `get_backend` returns it, whatever `random()` draws. -/
theorem get_backend_routable_counterexample :
    0 < example_bekey_off_svc.tot_pri ∧
    example_bekey_off_svc.tot_pri = sum_avail example_bekey_off_svc.backends ∧
    example_bekey_off_svc.sessions = [] ∧
    example_bekey_off_svc.backends.map (fun b => (b.alive, b.disabled)) = [(1, 0), (1, 1)] ∧
    (∀ rnd : Nat, (get_backend example_consts example_bekey_off_svc [49] [47]
      [none, some example_be_cookie] [] rnd 0).res = some (BE_PTR.list 1)) := by
  refine ⟨by decide, by decide, by decide, by decide, ?_⟩
  intro rnd
  rfl

/-! ## Binary64 rounding is monotone: proofs -/

theorem bit_length_zero (fuel : Nat) : bit_length fuel 0 = 0 := by
  cases fuel <;> simp [bit_length]

theorem bit_length_spec (fuel n : Nat) (h : n < 2 ^ fuel) :
    n < 2 ^ bit_length fuel n ∧ (n ≠ 0 → 2 ^ bit_length fuel n ≤ 2 * n) := by
  induction fuel generalizing n with
  | zero =>
    have h0 : n = 0 := by simpa using h
    subst h0
    simp [bit_length]
  | succ fuel ih =>
    unfold bit_length
    by_cases hn : n = 0
    · subst hn
      simp
    · rw [if_neg hn]
      have hhalf : n / 2 < 2 ^ fuel := by
        rw [pow_succ] at h
        omega
      obtain ⟨h1, h2⟩ := ih (n / 2) hhalf
      rw [pow_succ]
      refine ⟨by omega, fun _ => ?_⟩
      by_cases h0 : n / 2 = 0
      · rw [h0, bit_length_zero]
        simp only [pow_zero, one_mul]
        omega
      · have := h2 h0
        omega

theorem bit_length_bounds (n : Nat) (hn : n ≠ 0) :
    n < 2 ^ bit_length n n ∧ 2 ^ bit_length n n ≤ 2 * n := by
  obtain ⟨h1, h2⟩ := bit_length_spec n n (Nat.lt_two_pow n)
  exact ⟨h1, h2 hn⟩

theorem round_half_even_cases (n d : Nat) :
    round_half_even n d = n / d ∨ round_half_even n d = n / d + 1 := by
  unfold round_half_even
  split_ifs <;> simp

theorem div_mul_le_cross (n1 d1 n2 d2 : Nat) (hd1 : 0 < d1) (hd2 : 0 < d2)
    (h : n1 * d2 ≤ n2 * d1) : n1 / d1 ≤ n2 / d2 := by
  rw [Nat.le_div_iff_mul_le hd2]
  have h1 : n1 / d1 * d1 ≤ n1 := Nat.div_mul_le_self n1 d1
  have h2 : n1 / d1 * d2 * d1 ≤ n2 * d1 := by
    calc n1 / d1 * d2 * d1 = n1 / d1 * d1 * d2 := by ring
      _ ≤ n1 * d2 := Nat.mul_le_mul_right d2 h1
      _ ≤ n2 * d1 := h
  exact Nat.le_of_mul_le_mul_right h2 hd1

theorem round_half_even_mono (n1 d1 n2 d2 : Nat) (hd1 : 0 < d1) (hd2 : 0 < d2)
    (h : n1 * d2 ≤ n2 * d1) : round_half_even n1 d1 ≤ round_half_even n2 d2 := by
  have hf := div_mul_le_cross n1 d1 n2 d2 hd1 hd2 h
  rcases Nat.lt_or_ge (n1 / d1) (n2 / d2) with hlt | hge
  · have c1 := round_half_even_cases n1 d1
    have c2 := round_half_even_cases n2 d2
    omega
  · have heq : n1 / d1 = n2 / d2 := by omega
    have e1 := Nat.div_add_mod n1 d1
    have e2 := Nat.div_add_mod n2 d2
    have hs : n1 % d1 * d2 ≤ n2 % d2 * d1 := by
      have h3 : (d1 * (n1 / d1) + n1 % d1) * d2 ≤ (d2 * (n2 / d2) + n2 % d2) * d1 := by
        rw [e1, e2]
        exact h
      rw [heq] at h3
      nlinarith
    unfold round_half_even
    rw [heq]
    by_cases a1 : 2 * (n1 % d1) < d1
    · rw [if_pos a1]
      split_ifs <;> omega
    · rw [if_neg a1]
      have hge2 : d2 ≤ 2 * (n2 % d2) := by
        by_contra hcon
        push_neg at hcon
        have : d1 ≤ 2 * (n1 % d1) := by omega
        nlinarith
      have a2 : ¬ 2 * (n2 % d2) < d2 := by omega
      rw [if_neg a2]
      by_cases b1 : d1 < 2 * (n1 % d1)
      · have b2 : d2 < 2 * (n2 % d2) := by
          by_contra hcon
          push_neg at hcon
          nlinarith
        rw [if_pos b1, if_pos b2]
      · rw [if_neg b1]
        split_ifs <;> omega

theorem round_half_even_exact (k d : Nat) (hd : 0 < d) : round_half_even (k * d) d = k := by
  unfold round_half_even
  rw [Nat.mul_mod_left, Nat.mul_div_cancel k hd]
  simp [hd]

theorem round_half_even_le (n d k : Nat) (hd : 0 < d) (h : n ≤ k * d) :
    round_half_even n d ≤ k := by
  have := round_half_even_mono n d (k * d) d hd hd (Nat.mul_le_mul_right d h)
  rwa [round_half_even_exact k d hd] at this

theorem round_half_even_ge (n d k : Nat) (hd : 0 < d) (h : k * d ≤ n) :
    k ≤ round_half_even n d := by
  have := round_half_even_mono (k * d) d n d hd hd (Nat.mul_le_mul_right d h)
  rwa [round_half_even_exact k d hd] at this

theorem pow2_le_ratio (a b : Nat) (hb : 0 < b) (d : Int) :
    (if 0 ≤ d then b * 2 ^ d.toNat ≤ a else b ≤ a * 2 ^ (-d).toNat) ↔
      (2 : ℚ) ^ d ≤ (a : ℚ) / b := by
  have hbq : (0 : ℚ) < b := by exact_mod_cast hb
  by_cases hd : 0 ≤ d
  · obtain ⟨k, rfl⟩ := Int.eq_ofNat_of_zero_le hd
    rw [if_pos hd, Int.toNat_ofNat, zpow_natCast, le_div_iff₀ hbq]
    constructor
    · intro h
      have : ((b * 2 ^ k : Nat) : ℚ) ≤ (a : ℚ) := by exact_mod_cast h
      push_cast at this
      linarith
    · intro h
      have : ((b * 2 ^ k : Nat) : ℚ) ≤ (a : ℚ) := by
        push_cast
        linarith
      exact_mod_cast this
  · rw [if_neg hd]
    obtain ⟨k, hk⟩ : ∃ k : Nat, d = -(k : Int) := ⟨(-d).toNat, by omega⟩
    subst hk
    rw [neg_neg, Int.toNat_ofNat, zpow_neg, zpow_natCast, le_div_iff₀ hbq]
    have hpos : (0 : ℚ) < 2 ^ k := by positivity
    rw [inv_mul_le_iff₀ hpos]
    constructor
    · intro h
      have : ((b : Nat) : ℚ) ≤ ((a * 2 ^ k : Nat) : ℚ) := by exact_mod_cast h
      push_cast at this
      linarith
    · intro h
      have : ((b : Nat) : ℚ) ≤ ((a * 2 ^ k : Nat) : ℚ) := by
        push_cast
        linarith
      exact_mod_cast this

theorem floor_log2_spec (a b : Nat) (ha : 0 < a) (hb : 0 < b) :
    (2 : ℚ) ^ floor_log2 a b ≤ (a : ℚ) / b ∧
    (a : ℚ) / b < (2 : ℚ) ^ (floor_log2 a b + 1) := by
  obtain ⟨ha1, ha2⟩ := bit_length_bounds a (by omega)
  obtain ⟨hb1, hb2⟩ := bit_length_bounds b (by omega)
  have hbq : (0 : ℚ) < b := by exact_mod_cast hb
  have ha1q : (a : ℚ) < 2 ^ bit_length a a := by exact_mod_cast ha1
  have ha2q : (2 : ℚ) ^ bit_length a a ≤ 2 * a := by exact_mod_cast ha2
  have hb1q : (b : ℚ) < 2 ^ bit_length b b := by exact_mod_cast hb1
  have hb2q : (2 : ℚ) ^ bit_length b b ≤ 2 * b := by exact_mod_cast hb2
  have hpa : (0 : ℚ) < 2 ^ bit_length a a := by positivity
  have hpb : (0 : ℚ) < 2 ^ bit_length b b := by positivity
  have hup : (a : ℚ) / b < (2 : ℚ) ^ ((bit_length a a : Int) - (bit_length b b : Int) + 1) := by
    rw [zpow_add₀ (by norm_num), zpow_sub₀ (by norm_num), zpow_natCast, zpow_natCast, zpow_one,
      div_lt_iff₀ hbq, div_mul_eq_mul_div, div_mul_eq_mul_div, lt_div_iff₀ hpb]
    nlinarith
  have hlow : (2 : ℚ) ^ ((bit_length a a : Int) - (bit_length b b : Int) - 1) ≤ (a : ℚ) / b := by
    rw [zpow_sub₀ (by norm_num), zpow_sub₀ (by norm_num), zpow_natCast, zpow_natCast, zpow_one,
      le_div_iff₀ hbq, div_div, div_mul_eq_mul_div, div_le_iff₀ (by positivity)]
    nlinarith
  have hcond := pow2_le_ratio a b hb ((bit_length a a : Int) - (bit_length b b : Int))
  have hneg : -((bit_length a a : Int) - (bit_length b b : Int)) =
      (bit_length b b : Int) - (bit_length a a : Int) := by ring
  rw [hneg] at hcond
  unfold floor_log2
  by_cases hc : (if 0 ≤ (bit_length a a : Int) - (bit_length b b : Int)
      then b * 2 ^ ((bit_length a a : Int) - (bit_length b b : Int)).toNat ≤ a
      else b ≤ a * 2 ^ ((bit_length b b : Int) - (bit_length a a : Int)).toNat)
  · rw [if_pos hc]
    exact ⟨hcond.1 hc, hup⟩
  · rw [if_neg hc]
    refine ⟨hlow, ?_⟩
    rw [sub_add_cancel]
    by_contra hcon
    push_neg at hcon
    exact hc (hcond.2 hcon)

theorem scale2_eq (m : Int) (e : Int) : scale2 m e = (m : ℚ) * (2 : ℚ) ^ e := by
  unfold scale2
  by_cases he : 0 ≤ e
  · rw [if_pos he]
    obtain ⟨k, rfl⟩ := Int.eq_ofNat_of_zero_le he
    rw [Int.toNat_ofNat, zpow_natCast]
    push_cast
    ring
  · rw [if_neg he]
    obtain ⟨k, hk⟩ : ∃ k : Nat, e = -(k : Int) := ⟨(-e).toNat, by omega⟩
    subst hk
    rw [neg_neg, Int.toNat_ofNat, zpow_neg, zpow_natCast, Rat.mkRat_eq_div]
    push_cast
    rw [div_eq_mul_inv]

theorem rat_abs_eq (q : ℚ) : |q| = (q.num.natAbs : ℚ) / (q.den : ℚ) := by
  have hden : (0 : ℚ) < (q.den : ℚ) := by exact_mod_cast q.den_pos
  have h : |q| = |(q.num : ℚ) / (q.den : ℚ)| := by rw [Rat.num_div_den]
  rw [h, abs_div, abs_of_pos hden]
  congr 1
  rw [← Int.cast_abs, Int.abs_eq_natAbs, Int.cast_natCast]

theorem natAbs_num_pos (q : ℚ) (hq : q ≠ 0) : 0 < q.num.natAbs := by
  have : q.num ≠ 0 := fun h => hq (Rat.zero_of_num_zero h)
  omega

/-- The significand is the rounding of `|q| / 2 ^ round_exp q`. -/
theorem round_sig_eq (q : ℚ) :
    ∃ N D : Nat, 0 < D ∧ round_sig q = round_half_even N D ∧
      (N : ℚ) / (D : ℚ) = |q| / (2 : ℚ) ^ round_exp q := by
  have hden : 0 < q.den := q.den_pos
  have hdq : (0 : ℚ) < (q.den : ℚ) := by exact_mod_cast hden
  unfold round_sig
  by_cases hu : 0 ≤ round_exp q
  · rw [if_pos hu]
    refine ⟨q.num.natAbs, q.den * 2 ^ (round_exp q).toNat, by positivity, rfl, ?_⟩
    obtain ⟨k, hk⟩ := Int.eq_ofNat_of_zero_le hu
    rw [rat_abs_eq, hk, Int.toNat_ofNat, zpow_natCast]
    push_cast
    rw [div_div]
  · rw [if_neg hu]
    refine ⟨q.num.natAbs * 2 ^ (- round_exp q).toNat, q.den, hden, rfl, ?_⟩
    obtain ⟨k, hk⟩ : ∃ k : Nat, round_exp q = -(k : Int) := ⟨(- round_exp q).toNat, by omega⟩
    rw [rat_abs_eq, hk, neg_neg, Int.toNat_ofNat, zpow_neg, zpow_natCast]
    push_cast
    field_simp

theorem round_half_even_mono_q (n1 d1 n2 d2 : Nat) (hd1 : 0 < d1) (hd2 : 0 < d2)
    (h : (n1 : ℚ) / (d1 : ℚ) ≤ (n2 : ℚ) / (d2 : ℚ)) :
    round_half_even n1 d1 ≤ round_half_even n2 d2 := by
  apply round_half_even_mono n1 d1 n2 d2 hd1 hd2
  have h1 : (0 : ℚ) < d1 := by exact_mod_cast hd1
  have h2 : (0 : ℚ) < d2 := by exact_mod_cast hd2
  rw [div_le_div_iff₀ h1 h2] at h
  exact_mod_cast h

theorem round_half_even_le_q (n d k : Nat) (hd : 0 < d) (h : (n : ℚ) / (d : ℚ) ≤ (k : ℚ)) :
    round_half_even n d ≤ k := by
  apply round_half_even_le n d k hd
  have h1 : (0 : ℚ) < d := by exact_mod_cast hd
  rw [div_le_iff₀ h1] at h
  exact_mod_cast h

theorem round_half_even_ge_q (n d k : Nat) (hd : 0 < d) (h : (k : ℚ) ≤ (n : ℚ) / (d : ℚ)) :
    k ≤ round_half_even n d := by
  apply round_half_even_ge n d k hd
  have h1 : (0 : ℚ) < d := by exact_mod_cast hd
  rw [le_div_iff₀ h1] at h
  exact_mod_cast h

/-- The binade of a rational number other than 0. -/
theorem binade_spec (q : ℚ) (hq : q ≠ 0) :
    (2 : ℚ) ^ floor_log2 q.num.natAbs q.den ≤ |q| ∧
    |q| < (2 : ℚ) ^ (floor_log2 q.num.natAbs q.den + 1) := by
  rw [rat_abs_eq]
  exact floor_log2_spec _ _ (natAbs_num_pos q hq) q.den_pos

theorem binade_mono (x y : ℚ) (hx : x ≠ 0) (hy : y ≠ 0) (h : |x| ≤ |y|) :
    floor_log2 x.num.natAbs x.den ≤ floor_log2 y.num.natAbs y.den := by
  have h1 := (binade_spec x hx).1
  have h2 := (binade_spec y hy).2
  have h3 : (2 : ℚ) ^ floor_log2 x.num.natAbs x.den <
      (2 : ℚ) ^ (floor_log2 y.num.natAbs y.den + 1) := lt_of_le_of_lt (le_trans h1 h) h2
  rw [zpow_lt_zpow_iff_right₀ (by norm_num)] at h3
  omega

theorem two_zpow_pos (e : Int) : (0 : ℚ) < (2 : ℚ) ^ e :=
  zpow_pos (by norm_num) e

theorem two_zpow_toNat (e : Int) (he : 0 ≤ e) : ((2 ^ e.toNat : Nat) : ℚ) = (2 : ℚ) ^ e := by
  obtain ⟨k, rfl⟩ := Int.eq_ofNat_of_zero_le he
  rw [Int.toNat_ofNat, zpow_natCast]
  push_cast
  rfl

theorem ulp_exp_ge (e : Int) : e - 52 ≤ ulp_exp e ∧ -1074 ≤ ulp_exp e := by
  unfold ulp_exp
  constructor <;> omega

theorem ulp_exp_mono (e1 e2 : Int) (h : e1 ≤ e2) : ulp_exp e1 ≤ ulp_exp e2 := by
  unfold ulp_exp
  omega

theorem ulp_exp_normal (e : Int) (h : -1022 ≤ e) : ulp_exp e = e - 52 := by
  unfold ulp_exp
  omega

/-- The significand is at most `2 ^ 53`. -/
theorem round_sig_le (q : ℚ) (hq : q ≠ 0) : round_sig q ≤ 2 ^ 53 := by
  obtain ⟨N, D, hD, hsig, hND⟩ := round_sig_eq q
  rw [hsig]
  apply round_half_even_le_q N D (2 ^ 53) hD
  rw [hND]
  have hb := (binade_spec q hq).2
  have hu := (ulp_exp_ge (floor_log2 q.num.natAbs q.den)).1
  have hpos := two_zpow_pos (round_exp q)
  rw [div_le_iff₀ hpos]
  have h53 : ((2 ^ 53 : Nat) : ℚ) = (2 : ℚ) ^ (53 : Int) := by norm_num
  rw [h53, ← zpow_add₀ (by norm_num)]
  refine le_trans (le_of_lt hb) ?_
  apply zpow_le_zpow_right₀ (by norm_num)
  unfold round_exp
  omega

/-- The significand of a number of the normal range is at least `2 ^ 52`. -/
theorem round_sig_ge (q : ℚ) (hq : q ≠ 0) (hn : -1022 ≤ floor_log2 q.num.natAbs q.den) :
    2 ^ 52 ≤ round_sig q := by
  obtain ⟨N, D, hD, hsig, hND⟩ := round_sig_eq q
  rw [hsig]
  apply round_half_even_ge_q N D (2 ^ 52) hD
  rw [hND]
  have hb := (binade_spec q hq).1
  have hu : round_exp q = floor_log2 q.num.natAbs q.den - 52 := ulp_exp_normal _ hn
  have hpos := two_zpow_pos (round_exp q)
  rw [le_div_iff₀ hpos]
  have h52 : ((2 ^ 52 : Nat) : ℚ) = (2 : ℚ) ^ (52 : Int) := by norm_num
  rw [h52, ← zpow_add₀ (by norm_num), hu]
  have : (52 : Int) + (floor_log2 q.num.natAbs q.den - 52) = floor_log2 q.num.natAbs q.den := by
    ring
  rw [this]
  exact hb

/-- The rounding without a bound on the exponent is monotone on the positive
rational numbers. -/
theorem round_value_mono (x y : ℚ) (hx : 0 < x) (hxy : x ≤ y) :
    (round_sig x : ℚ) * (2 : ℚ) ^ round_exp x ≤ (round_sig y : ℚ) * (2 : ℚ) ^ round_exp y := by
  have hy : 0 < y := lt_of_lt_of_le hx hxy
  have hx0 : x ≠ 0 := ne_of_gt hx
  have hy0 : y ≠ 0 := ne_of_gt hy
  have habs : |x| ≤ |y| := by rwa [abs_of_pos hx, abs_of_pos hy]
  have he := binade_mono x y hx0 hy0 habs
  have hu : round_exp x ≤ round_exp y := ulp_exp_mono _ _ he
  obtain ⟨Nx, Dx, hDx, hsx, hNx⟩ := round_sig_eq x
  obtain ⟨Ny, Dy, hDy, hsy, hNy⟩ := round_sig_eq y
  rcases eq_or_lt_of_le hu with heq | hlt
  · have hs : round_sig x ≤ round_sig y := by
      rw [hsx, hsy]
      apply round_half_even_mono_q Nx Dx Ny Dy hDx hDy
      rw [hNx, hNy, heq]
      exact div_le_div_of_nonneg_right habs (le_of_lt (two_zpow_pos _))
    rw [heq]
    have hsq : (round_sig x : ℚ) ≤ (round_sig y : ℚ) := by exact_mod_cast hs
    exact mul_le_mul_of_nonneg_right hsq (le_of_lt (two_zpow_pos _))
  · have hey : -1022 ≤ floor_log2 y.num.natAbs y.den := by
      unfold round_exp ulp_exp at hlt
      omega
    have huy : round_exp y = floor_log2 y.num.natAbs y.den - 52 := ulp_exp_normal _ hey
    have hexy : floor_log2 x.num.natAbs x.den + 1 ≤ floor_log2 y.num.natAbs y.den := by
      unfold round_exp ulp_exp at hlt
      omega
    have hux : round_exp x ≤ floor_log2 y.num.natAbs y.den := by
      rw [huy] at hlt
      omega
    have hmid_le : (2 : ℚ) ^ floor_log2 y.num.natAbs y.den ≤
        (round_sig y : ℚ) * (2 : ℚ) ^ round_exp y := by
      have hge := round_sig_ge y hy0 hey
      have hgeq : ((2 ^ 52 : Nat) : ℚ) ≤ (round_sig y : ℚ) := by exact_mod_cast hge
      have h52 : ((2 ^ 52 : Nat) : ℚ) = (2 : ℚ) ^ (52 : Int) := by norm_num
      rw [h52] at hgeq
      have h1 : (2 : ℚ) ^ floor_log2 y.num.natAbs y.den =
          (2 : ℚ) ^ (52 : Int) * (2 : ℚ) ^ round_exp y := by
        rw [← zpow_add₀ (by norm_num), huy]
        congr 1
        ring
      rw [h1]
      exact mul_le_mul_of_nonneg_right hgeq (le_of_lt (two_zpow_pos _))
    have hle_mid : (round_sig x : ℚ) * (2 : ℚ) ^ round_exp x ≤
        (2 : ℚ) ^ floor_log2 y.num.natAbs y.den := by
      have hk0 : 0 ≤ floor_log2 y.num.natAbs y.den - round_exp x := by omega
      have hs : round_sig x ≤ 2 ^ (floor_log2 y.num.natAbs y.den - round_exp x).toNat := by
        rw [hsx]
        apply round_half_even_le_q Nx Dx _ hDx
        rw [hNx, two_zpow_toNat _ hk0, div_le_iff₀ (two_zpow_pos _),
          ← zpow_add₀ (by norm_num), sub_add_cancel]
        have hb := (binade_spec x hx0).2
        refine le_trans (le_of_lt hb) ?_
        exact zpow_le_zpow_right₀ (by norm_num) hexy
      have hsq : (round_sig x : ℚ) ≤
          ((2 ^ (floor_log2 y.num.natAbs y.den - round_exp x).toNat : Nat) : ℚ) := by
        exact_mod_cast hs
      rw [two_zpow_toNat _ hk0] at hsq
      have h1 : (2 : ℚ) ^ floor_log2 y.num.natAbs y.den =
          (2 : ℚ) ^ (floor_log2 y.num.natAbs y.den - round_exp x) * (2 : ℚ) ^ round_exp x := by
        rw [← zpow_add₀ (by norm_num), sub_add_cancel]
      rw [h1]
      exact mul_le_mul_of_nonneg_right hsq (le_of_lt (two_zpow_pos _))
    exact le_trans hle_mid hmid_le

theorem overflow_iff (q : ℚ) (hq : q ≠ 0) :
    (971 < round_exp q ∨ (round_exp q = 971 ∧ 2 ^ 53 ≤ round_sig q)) ↔
      (2 : ℚ) ^ (1024 : Int) ≤ (round_sig q : ℚ) * (2 : ℚ) ^ round_exp q := by
  have hle := round_sig_le q hq
  have hleq : (round_sig q : ℚ) ≤ (2 : ℚ) ^ (53 : Int) := by
    have : (round_sig q : ℚ) ≤ ((2 ^ 53 : Nat) : ℚ) := by exact_mod_cast hle
    have h53 : ((2 ^ 53 : Nat) : ℚ) = (2 : ℚ) ^ (53 : Int) := by norm_num
    rwa [h53] at this
  have hsplit : ∀ a b : Int, a + b = 1024 →
      (2 : ℚ) ^ (1024 : Int) = (2 : ℚ) ^ a * (2 : ℚ) ^ b := by
    intro a b hab
    rw [← zpow_add₀ (by norm_num), hab]
  constructor
  · rintro (h | ⟨h1, h2⟩)
    · have hn : -1022 ≤ floor_log2 q.num.natAbs q.den := by
        unfold round_exp ulp_exp at h
        omega
      have hge := round_sig_ge q hq hn
      have hgeq : (2 : ℚ) ^ (52 : Int) ≤ (round_sig q : ℚ) := by
        have : ((2 ^ 52 : Nat) : ℚ) ≤ (round_sig q : ℚ) := by exact_mod_cast hge
        have h52 : ((2 ^ 52 : Nat) : ℚ) = (2 : ℚ) ^ (52 : Int) := by norm_num
        rwa [h52] at this
      rw [hsplit 52 972 (by norm_num)]
      have hpow : (2 : ℚ) ^ (972 : Int) ≤ (2 : ℚ) ^ round_exp q :=
        zpow_le_zpow_right₀ (by norm_num) (by omega)
      exact mul_le_mul hgeq hpow (le_of_lt (two_zpow_pos _))
        (le_trans (le_of_lt (two_zpow_pos _)) hgeq)
    · have hgeq : (2 : ℚ) ^ (53 : Int) ≤ (round_sig q : ℚ) := by
        have : ((2 ^ 53 : Nat) : ℚ) ≤ (round_sig q : ℚ) := by exact_mod_cast h2
        have h53 : ((2 ^ 53 : Nat) : ℚ) = (2 : ℚ) ^ (53 : Int) := by norm_num
        rwa [h53] at this
      rw [hsplit 53 971 (by norm_num), h1]
      exact mul_le_mul_of_nonneg_right hgeq (le_of_lt (two_zpow_pos _))
  · intro h
    by_contra hcon
    push_neg at hcon
    obtain ⟨h1, h2⟩ := hcon
    rcases eq_or_lt_of_le h1 with heq | hlt
    · have hs := h2 heq
      have hsq : (round_sig q : ℚ) < (2 : ℚ) ^ (53 : Int) := by
        have : (round_sig q : ℚ) < ((2 ^ 53 : Nat) : ℚ) := by exact_mod_cast hs
        have h53 : ((2 ^ 53 : Nat) : ℚ) = (2 : ℚ) ^ (53 : Int) := by norm_num
        rwa [h53] at this
      rw [hsplit 53 971 (by norm_num), heq] at h
      have := mul_lt_mul_of_pos_right hsq (two_zpow_pos (971 : Int))
      linarith
    · have hpow : (2 : ℚ) ^ round_exp q ≤ (2 : ℚ) ^ (970 : Int) :=
        zpow_le_zpow_right₀ (by norm_num) (by omega)
      have hlt2 : (2 : ℚ) ^ (53 : Int) * (2 : ℚ) ^ (970 : Int) < (2 : ℚ) ^ (1024 : Int) := by
        rw [← zpow_add₀ (by norm_num)]
        exact zpow_lt_zpow_right₀ (by norm_num) (by norm_num)
      have hnn : (0 : ℚ) ≤ (round_sig q : ℚ) := by positivity
      have := mul_le_mul hleq hpow (le_of_lt (two_zpow_pos _))
        (le_of_lt (two_zpow_pos (53 : Int)))
      linarith

theorem round64_pos (q : ℚ) (hq : 0 < q) :
    round64 q =
      if (2 : ℚ) ^ (1024 : Int) ≤ (round_sig q : ℚ) * (2 : ℚ) ^ round_exp q
      then double.inf false
      else double.finite ((round_sig q : ℚ) * (2 : ℚ) ^ round_exp q) := by
  have hq0 : q ≠ 0 := ne_of_gt hq
  have hnl : ¬ q < 0 := not_lt.2 (le_of_lt hq)
  unfold round64 pack64
  rw [if_neg hq0]
  simp only [hnl, decide_False, Bool.false_eq_true, if_false]
  by_cases hc : 971 < round_exp q ∨ (round_exp q = 971 ∧ 2 ^ 53 ≤ round_sig q)
  · rw [if_pos hc, if_pos ((overflow_iff q hq0).1 hc)]
  · rw [if_neg hc, if_neg (fun h => hc ((overflow_iff q hq0).2 h)), scale2_eq]
    push_cast
    rfl

theorem round_neg_parts (q : ℚ) :
    round_sig (-q) = round_sig q ∧ round_exp (-q) = round_exp q := by
  unfold round_sig round_exp
  simp only [Rat.neg_num, Rat.neg_den, Int.natAbs_neg]
  exact ⟨trivial, trivial⟩

theorem round64_neg (q : ℚ) (hq : q < 0) :
    round64 q =
      if (2 : ℚ) ^ (1024 : Int) ≤ (round_sig q : ℚ) * (2 : ℚ) ^ round_exp q
      then double.inf true
      else double.finite (- ((round_sig q : ℚ) * (2 : ℚ) ^ round_exp q)) := by
  have hq0 : q ≠ 0 := ne_of_lt hq
  unfold round64 pack64
  rw [if_neg hq0]
  simp only [hq, decide_True, if_true]
  by_cases hc : 971 < round_exp q ∨ (round_exp q = 971 ∧ 2 ^ 53 ≤ round_sig q)
  · rw [if_pos hc, if_pos ((overflow_iff q hq0).1 hc)]
  · rw [if_neg hc, if_neg (fun h => hc ((overflow_iff q hq0).2 h)), scale2_eq]
    push_cast
    rw [neg_mul]

theorem round_value_nonneg (q : ℚ) :
    (0 : ℚ) ≤ (round_sig q : ℚ) * (2 : ℚ) ^ round_exp q :=
  mul_nonneg (by positivity) (le_of_lt (two_zpow_pos _))

/-- Rounding to binary64 is monotone. -/
theorem round64_mono (x y : ℚ) (hxy : x ≤ y) : (round64 x).le (round64 y) = true := by
  rcases lt_trichotomy x 0 with hx | hx | hx
  · rw [round64_neg x hx]
    rcases lt_trichotomy y 0 with hy | hy | hy
    · rw [round64_neg y hy]
      have hm := round_value_mono (-y) (-x) (by linarith) (by linarith)
      rw [(round_neg_parts y).1, (round_neg_parts y).2, (round_neg_parts x).1,
        (round_neg_parts x).2] at hm
      split_ifs with h1 h2 h2
      · rfl
      · rfl
      · exact absurd (le_trans h2 hm) h1
      · simp only [double.le, decide_eq_true_eq]
        linarith
    · subst hy
      have h0 : round64 0 = double.finite 0 := by simp [round64]
      rw [h0]
      split_ifs
      · rfl
      · simp only [double.le, decide_eq_true_eq]
        linarith [round_value_nonneg x]
    · rw [round64_pos y hy]
      split_ifs
      · rfl
      · rfl
      · rfl
      · simp only [double.le, decide_eq_true_eq]
        linarith [round_value_nonneg x, round_value_nonneg y]
  · subst hx
    have h0 : round64 0 = double.finite 0 := by simp [round64]
    rw [h0]
    rcases eq_or_lt_of_le hxy with hy | hy
    · rw [← hy, h0]
      simp [double.le]
    · rw [round64_pos y hy]
      split_ifs
      · rfl
      · simp only [double.le, decide_eq_true_eq]
        exact round_value_nonneg y
  · have hy : 0 < y := lt_of_lt_of_le hx hxy
    rw [round64_pos x hx, round64_pos y hy]
    have hm := round_value_mono x y hx hxy
    split_ifs with h1 h2 h2
    · rfl
    · exact absurd (le_trans h1 hm) h2
    · rfl
    · simp only [double.le, decide_eq_true_eq]
      exact hm

theorem double_lt_nan (x : double) : x.lt double.nan = false ∧ double.nan.lt x = false := by
  cases x <;> exact ⟨rfl, rfl⟩

theorem double_lt_le_lt (t x y : double) (h1 : t.lt x = true) (h2 : x.le y = true)
    (h3 : y.lt t = true) : False := by
  cases t <;> cases x <;> cases y <;>
    simp only [double.lt, double.le, decide_eq_true_eq, Bool.not_eq_true', Bool.and_eq_true,
      Bool.or_eq_true, Bool.false_eq_true] at h1 h2 h3
  all_goals first
    | linarith
    | (rcases h2 with h2 | h2 <;> simp_all)
    | simp_all

theorem to_double_three : to_double 3 = double.finite 3 := by decide!

/-- The unit of `pack64` with a positive sign is an infinity or a finite
number that is not negative. -/
theorem pack64_not_negative (m : Nat) (e : Int) : (pack64 false m e).not_negative = true := by
  unfold pack64
  split
  · rfl
  · simp only [Bool.false_eq_true, if_false, double.not_negative, decide_eq_true_eq, scale2_eq]
    exact mul_nonneg (by positivity) (le_of_lt (two_zpow_pos _))

theorem round64_not_negative (q : ℚ) (hq : 0 ≤ q) : (round64 q).not_negative = true := by
  unfold round64
  split
  · simp [double.not_negative]
  · have : ¬ q < 0 := not_lt.2 hq
    simp only [this, decide_False]
    exact pack64_not_negative _ _

theorem sqrt_not_negative (x : double) : (x.sqrt).not_negative = true := by
  cases x with
  | finite a =>
    unfold double.sqrt
    simp only
    split
    · rfl
    · split
      · simp [double.not_negative]
      · unfold sqrt64
        split <;> exact pack64_not_negative _ _
  | inf s => cases s <;> rfl
  | nan => rfl

theorem mul_three_not_negative (x : double) (hx : x.not_negative = true) :
    (x.mul (to_double 3)).not_negative = true := by
  rw [to_double_three]
  cases x with
  | finite a =>
    simp only [double.not_negative, decide_eq_true_eq] at hx
    simp only [double.mul]
    exact round64_not_negative _ (by linarith)
  | inf s =>
    simp only [double.not_negative, Bool.not_eq_true'] at hx
    subst hx
    simp [double.mul, double.not_negative]
  | nan => rfl

/-- Three times the deviation that `do_rescale` computes is not negative (it
may be a NaN). -/
theorem sigma3_not_negative (ts : List ℚ) : (sigma3_64 ts).not_negative = true := by
  unfold sigma3_64
  exact mul_three_not_negative _ (sqrt_not_negative _)

theorem rescale_sigma3_not_negative (sums : double × double × Int) :
    (rescale_sigma3 sums).not_negative = true := by
  unfold rescale_sigma3
  exact mul_three_not_negative _ (sqrt_not_negative _)

theorem sub_le_add (a s : double) (hs : s.not_negative = true) :
    a.sub s = double.nan ∨ a.add s = double.nan ∨ (a.sub s).le (a.add s) = true := by
  cases s with
  | nan =>
    left
    cases a <;> rfl
  | inf t =>
    simp only [double.not_negative, Bool.not_eq_true'] at hs
    subst hs
    cases a with
    | finite x =>
      right; right
      rfl
    | inf u =>
      cases u
      · left
        rfl
      · right; left
        rfl
    | nan =>
      left
      rfl
  | finite y =>
    simp only [double.not_negative, decide_eq_true_eq] at hs
    cases a with
    | finite x =>
      right; right
      simp only [double.sub, double.neg, double.add]
      exact round64_mono _ _ (by linarith)
    | inf u =>
      right; right
      cases u <;> rfl
    | nan =>
      left
      rfl

theorem three_sigma_exclusive (t : ℚ) (average sq_average : double)
    (hs : sq_average.not_negative = true)
    (h : below_three_sigma t average sq_average = true) :
    above_three_sigma t average sq_average = false := by
  unfold below_three_sigma at h
  unfold above_three_sigma
  rcases sub_le_add average sq_average hs with h1 | h1 | h1
  · rw [h1, (double_lt_nan _).1] at h
    cases h
  · rw [h1, (double_lt_nan _).2]
  · cases hab : (average.add sq_average).lt (to_double t) with
    | false => rfl
    | true => exact absurd (double_lt_le_lt _ _ _ h h1 hab) id

/-! ## Rescaling in binary64: proofs -/

theorem rescale_sums_eq (l : List BACKEND) (acc : double × double × Int) :
    rescale_sums l acc =
      ((sample_times l).foldl (fun a t => a.add (to_double t)) acc.1,
        (sample_times l).foldl (fun a t => a.add ((to_double t).mul (to_double t))) acc.2.1,
        acc.2.2 + (sample_times l).length) := by
  induction l generalizing acc with
  | nil => simp [rescale_sums, sample_times]
  | cons b rest ih =>
    unfold rescale_sums
    by_cases h : b.be_type ≠ 0 ∨ b.alive = 0 ∨ b.disabled ≠ 0
    · have hp : ¬ plain_routable b := by
        unfold plain_routable
        intro hp
        rcases h with h | h | h
        · exact h hp.1
        · exact hp.2.1 h
        · exact h hp.2.2
      rw [if_pos h, ih]
      simp [sample_times, hp]
    · have hp : plain_routable b := by
        unfold plain_routable
        refine ⟨?_, ?_, ?_⟩
        · by_contra h0
          exact h (Or.inl h0)
        · intro h0
          exact h (Or.inr (Or.inl h0))
        · by_contra h0
          exact h (Or.inr (Or.inr h0))
      rw [if_neg h, ih]
      simp only [sample_times, List.filter_cons, hp, decide_True, if_true, List.map_cons,
        List.foldl_cons, List.length_cons]
      refine Prod.ext rfl (Prod.ext rfl ?_)
      simp only
      push_cast
      ring

theorem sum_sq_dev (ts : List ℚ) (m : ℚ) :
    (ts.map (fun t => (t - m) ^ 2)).sum =
      (ts.map (fun t => t * t)).sum - 2 * m * ts.sum + ts.length * m ^ 2 := by
  induction ts with
  | nil => simp
  | cons a rest ih =>
    simp only [List.map_cons, List.sum_cons, List.length_cons, ih]
    push_cast
    ring

theorem pop_variance_eq (ts : List ℚ) (hn : ts ≠ []) :
    pop_variance ts =
      (ts.map (fun t => t * t)).sum / ts.length - ts.sum / ts.length * (ts.sum / ts.length) := by
  have hlen : (ts.length : ℚ) ≠ 0 := by
    have : ts.length ≠ 0 := fun h => hn (List.length_eq_zero.1 h)
    exact_mod_cast this
  unfold pop_variance mean
  rw [sum_sq_dev]
  field_simp
  ring

theorem pop_variance_nonneg (ts : List ℚ) : 0 ≤ pop_variance ts := by
  unfold pop_variance
  apply div_nonneg
  · apply List.sum_nonneg
    intro x hx
    rw [List.mem_map] at hx
    obtain ⟨t, -, rfl⟩ := hx
    positivity
  · positivity

theorem sq_sum_le (l : List ℚ) :
    l.sum ^ 2 ≤ l.length * (l.map (fun t => t * t)).sum := by
  induction l with
  | nil => simp
  | cons a rest ih =>
    simp only [List.sum_cons, List.length_cons, List.map_cons]
    push_cast
    have hq : 0 ≤ (rest.map (fun t => t * t)).sum := by
      apply List.sum_nonneg
      intro x hx
      rw [List.mem_map] at hx
      obtain ⟨t, -, rfl⟩ := hx
      exact mul_self_nonneg t
    have hexp : (a + rest.sum) ^ 2 = a * a + 2 * a * rest.sum + rest.sum ^ 2 := by ring
    by_cases hz : rest.length = 0
    · have hnil : rest = [] := List.length_eq_zero.1 hz
      subst hnil
      simp only [List.sum_nil, add_zero, List.length_nil, Nat.cast_zero, zero_add, one_mul,
        List.map_nil]
      exact le_of_eq (sq a)
    · have hpos : (0 : ℚ) < rest.length := by
        have : 0 < rest.length := Nat.pos_of_ne_zero hz
        exact_mod_cast this
      have key : 0 ≤ (rest.length : ℚ) *
          (rest.length * (a * a) - 2 * a * rest.sum + (rest.map (fun t => t * t)).sum) := by
        nlinarith [sq_nonneg (rest.length * a - rest.sum)]
      have h2 : 0 ≤ (rest.length : ℚ) * (a * a) - 2 * a * rest.sum +
          (rest.map (fun t => t * t)).sum := by
        by_contra hneg
        push_neg at hneg
        have := mul_neg_of_pos_of_neg hpos hneg
        linarith
      rw [hexp]
      linarith

theorem outlier_sq (ts : List ℚ) (t : ℚ) (ht : t ∈ ts) :
    (ts.length * t - ts.sum) ^ 2 ≤
      (ts.length - 1) * (ts.length * (ts.map (fun x => x * x)).sum - ts.sum ^ 2) := by
  have hperm := List.perm_cons_erase ht
  have hsum : ts.sum = t + (ts.erase t).sum := by
    rw [hperm.sum_eq, List.sum_cons]
  have hsq : (ts.map (fun x => x * x)).sum = t * t + ((ts.erase t).map (fun x => x * x)).sum := by
    rw [(hperm.map _).sum_eq, List.map_cons, List.sum_cons]
  have hlen : (ts.length : ℚ) = (ts.erase t).length + 1 := by
    rw [hperm.length_eq, List.length_cons]
    push_cast
    rfl
  have hcs := sq_sum_le (ts.erase t)
  have hl : (0 : ℚ) ≤ (ts.erase t).length := by positivity
  rw [hsum, hsq, hlen]
  have hexp : ((ts.erase t).length : ℚ) * (((ts.erase t).length + 1) *
        (t * t + ((ts.erase t).map (fun x => x * x)).sum) - (t + (ts.erase t).sum) ^ 2) -
      (((ts.erase t).length + 1) * t - (t + (ts.erase t).sum)) ^ 2 =
      ((ts.erase t).length + 1) *
        ((ts.erase t).length * ((ts.erase t).map (fun x => x * x)).sum -
          (ts.erase t).sum ^ 2) := by
    ring
  have hnn : (0 : ℚ) ≤ ((ts.erase t).length + 1) *
      ((ts.erase t).length * ((ts.erase t).map (fun x => x * x)).sum -
        (ts.erase t).sum ^ 2) := by
    apply mul_nonneg
    · linarith
    · linarith
  have e : ((ts.erase t).length : ℚ) + 1 - 1 = (ts.erase t).length := by ring
  rw [e]
  linarith

theorem within_three_sigma (ts : List ℚ) (t : ℚ) (ht : t ∈ ts) (hn : ts.length ≤ 10) :
    (t - ts.sum / ts.length) ^ 2 ≤
      9 * ((ts.map (fun x => x * x)).sum / ts.length -
        ts.sum / ts.length * (ts.sum / ts.length)) := by
  have hne : ts ≠ [] := List.ne_nil_of_mem ht
  have hpos : (0 : ℚ) < ts.length := by
    have : 0 < ts.length := List.length_pos.2 hne
    exact_mod_cast this
  have hle : (ts.length : ℚ) ≤ 10 := by exact_mod_cast hn
  have hv := pop_variance_nonneg ts
  rw [pop_variance_eq ts hne] at hv
  have ho := outlier_sq ts t ht
  have e1 : (t - ts.sum / ts.length) ^ 2 = (ts.length * t - ts.sum) ^ 2 / (ts.length) ^ 2 := by
    field_simp
    ring
  have e2 : (ts.map (fun x => x * x)).sum / ts.length -
      ts.sum / ts.length * (ts.sum / ts.length) =
      (ts.length * (ts.map (fun x => x * x)).sum - ts.sum ^ 2) / (ts.length) ^ 2 := by
    field_simp
    ring
  rw [e2] at hv
  rw [e1, e2, ← mul_div_assoc, div_le_div_iff_of_pos_right (by positivity)]
  have hnum : 0 ≤ (ts.length : ℚ) * (ts.map (fun x => x * x)).sum - ts.sum ^ 2 := by
    have h2 : (0 : ℚ) < (ts.length : ℚ) ^ 2 := by positivity
    by_contra hneg
    push_neg at hneg
    have := div_neg_of_neg_of_pos hneg h2
    linarith
  nlinarith

theorem mean_pop_variance_bound (ts : List ℚ) (t : ℚ) (ht : t ∈ ts) (hn : ts.length ≤ 10) :
    (t - mean ts) ^ 2 ≤ 9 * pop_variance ts := by
  rw [pop_variance_eq ts (List.ne_nil_of_mem ht)]
  exact within_three_sigma ts t ht hn

theorem above_sqrt_iff (t mu v : ℚ) (hv : 0 ≤ v) :
    (mu : ℝ) + 3 * Real.sqrt (v : ℝ) < (t : ℝ) ↔
      (mu < t ∧ 9 * v < (t - mu) * (t - mu)) := by
  have hvr : (0 : ℝ) ≤ (v : ℝ) := by exact_mod_cast hv
  have hs := Real.sqrt_nonneg (v : ℝ)
  have hsq := Real.sq_sqrt hvr
  constructor
  · intro h
    have h1r : (mu : ℝ) < (t : ℝ) := by linarith
    have h2r : 9 * (v : ℝ) < ((t : ℝ) - mu) * ((t : ℝ) - mu) := by nlinarith
    exact ⟨by exact_mod_cast h1r, by exact_mod_cast h2r⟩
  · rintro ⟨h1, h2⟩
    have h1r : (mu : ℝ) < (t : ℝ) := by exact_mod_cast h1
    have h2r : 9 * (v : ℝ) < ((t : ℝ) - mu) * ((t : ℝ) - mu) := by exact_mod_cast h2
    by_contra hcon
    push_neg at hcon
    nlinarith

theorem rescale_halve_done (RESCALE_BOT : Int) (hbot : 0 ≤ RESCALE_BOT) (fuel : Nat)
    (be : BACKEND) (hfuel : be.n_requests.toNat ≤ fuel) :
    (rescale_halve RESCALE_BOT fuel be).n_requests ≤ RESCALE_BOT := by
  induction fuel generalizing be with
  | zero =>
    simp only [rescale_halve]
    omega
  | succ fuel ih =>
    simp only [rescale_halve]
    by_cases h : be.n_requests > RESCALE_BOT
    · rw [if_pos h]
      apply ih
      simp only
      have hpos : 0 ≤ be.n_requests := by omega
      rw [Int.tdiv_eq_ediv hpos (by decide)]
      omega
    · rw [if_neg h]
      omega

theorem mem_sample_times (l : List BACKEND) (b : BACKEND) (hb : b ∈ l)
    (hp : plain_routable b) : b.t_average ∈ sample_times l := by
  unfold sample_times
  rw [List.mem_map]
  exact ⟨b, List.mem_filter.2 ⟨hb, by simpa using hp⟩, rfl⟩

theorem rescale_loop_unchanged (c : CONSTS) (average sq_average : double) (l : List BACKEND)
    (tot_pri : Int)
    (h : ∀ b ∈ l, plain_routable b →
      below_three_sigma b.t_average average sq_average = false ∧
      above_three_sigma b.t_average average sq_average = false) :
    rescale_loop c average sq_average l tot_pri = (l, tot_pri) := by
  induction l generalizing tot_pri with
  | nil => rfl
  | cons b rest ih =>
    have ihr := fun t => ih t (fun x hx => h x (List.mem_cons_of_mem _ hx))
    unfold rescale_loop
    by_cases hskip : b.be_type ≠ 0 ∨ b.alive = 0 ∨ b.disabled ≠ 0 ∨ b.n_requests < c.RESCALE_MIN
    · rw [if_pos hskip, ihr]
    · rw [if_neg hskip]
      have hp : plain_routable b := by
        unfold plain_routable
        refine ⟨?_, ?_, ?_⟩
        · by_contra h0
          exact hskip (Or.inl h0)
        · intro h0
          exact hskip (Or.inr (Or.inl h0))
        · by_contra h0
          exact hskip (Or.inr (Or.inr (Or.inl h0)))
      obtain ⟨hb1, hb2⟩ := h b (List.mem_cons_self _ _) hp
      have hr : rescale_raise c average sq_average b = (b, 0) := by
        unfold rescale_raise
        rw [hb1]
        rfl
      have hl : rescale_lower c average sq_average b = (b, 0) := by
        unfold rescale_lower
        rw [hb2]
        simp
      rw [hr]
      simp only
      rw [hl]
      simp only [add_zero]
      rw [ihr]

/-- The pass of `do_rescale` over a service with dynamic scaling and at least
two sampled back-ends runs its second loop with the mean and three times the
deviation of the sampled times, both computed in binary64. -/
theorem do_rescale_svc_eq (c : CONSTS) (svc : SERVICE) (hdyn : svc.dynscale ≠ 0)
    (hn : 2 ≤ (sample_times svc.backends).length) :
    do_rescale_svc c svc =
      { svc with
        backends := (rescale_loop c (mean64 (sample_times svc.backends))
          (sigma3_64 (sample_times svc.backends)) svc.backends svc.tot_pri).1,
        tot_pri := (rescale_loop c (mean64 (sample_times svc.backends))
          (sigma3_64 (sample_times svc.backends)) svc.backends svc.tot_pri).2 } := by
  have hs := rescale_sums_eq svc.backends (double.finite 0, double.finite 0, 0)
  have h1 : ¬ (rescale_sums svc.backends (double.finite 0, double.finite 0, 0)).2.2 ≤ 1 := by
    rw [hs]
    simp only
    omega
  have hav : rescale_average (rescale_sums svc.backends (double.finite 0, double.finite 0, 0))
      = mean64 (sample_times svc.backends) := by
    rw [hs]
    unfold rescale_average mean64 sum64
    simp
  have hsg : rescale_sigma3 (rescale_sums svc.backends (double.finite 0, double.finite 0, 0))
      = sigma3_64 (sample_times svc.backends) := by
    unfold rescale_sigma3
    rw [hav]
    rw [hs]
    unfold sigma3_64 sum_sq64
    simp
  unfold do_rescale_svc
  rw [if_neg hdyn, if_neg h1, hav, hsg]

theorem do_rescale_svc_skip (c : CONSTS) (svc : SERVICE)
    (h : svc.dynscale = 0 ∨ (sample_times svc.backends).length ≤ 1) :
    do_rescale_svc c svc = svc := by
  unfold do_rescale_svc
  by_cases hdyn : svc.dynscale = 0
  · rw [if_pos hdyn]
  · rw [if_neg hdyn]
    have h1 : (rescale_sums svc.backends (double.finite 0, double.finite 0, 0)).2.2 ≤ 1 := by
      rw [rescale_sums_eq]
      simp only
      rcases h with h | h
      · exact absurd h hdyn
      · omega
    rw [if_pos h1]

/-! ## The rescaling rule: proofs -/

theorem rescale_loop_get (c : CONSTS) (average sq_average : double) (l : List BACKEND)
    (tot_pri : Int) (i : Nat) :
    (rescale_loop c average sq_average l tot_pri).1[i]? =
      (l[i]?).map (fun be =>
        if be.be_type ≠ 0 ∨ be.alive = 0 ∨ be.disabled ≠ 0 ∨ be.n_requests < c.RESCALE_MIN
        then be
        else (rescale_lower c average sq_average (rescale_raise c average sq_average be).1).1) := by
  induction l generalizing tot_pri i with
  | nil => simp [rescale_loop]
  | cons b rest ih =>
    unfold rescale_loop
    by_cases hskip : b.be_type ≠ 0 ∨ b.alive = 0 ∨ b.disabled ≠ 0 ∨ b.n_requests < c.RESCALE_MIN
    · rw [if_pos hskip]
      cases i with
      | zero => simp [hskip]
      | succ i => simpa using ih _ i
    · rw [if_neg hskip]
      cases i with
      | zero => simp [hskip]
      | succ i => simpa using ih _ i

theorem rescale_step_cases (c : CONSTS) (average sq_average : double) (be : BACKEND)
    (hs : sq_average.not_negative = true) :
    (below_three_sigma be.t_average average sq_average = true →
      (rescale_lower c average sq_average (rescale_raise c average sq_average be).1).1.priority =
        be.priority + 1 ∧
      (0 ≤ c.RESCALE_BOT →
        (rescale_lower c average sq_average
          (rescale_raise c average sq_average be).1).1.n_requests ≤ c.RESCALE_BOT)) ∧
    (below_three_sigma be.t_average average sq_average = false →
      above_three_sigma be.t_average average sq_average = true → 1 < be.priority →
      (rescale_lower c average sq_average (rescale_raise c average sq_average be).1).1.priority =
        be.priority - 1 ∧
      (0 ≤ c.RESCALE_BOT →
        (rescale_lower c average sq_average
          (rescale_raise c average sq_average be).1).1.n_requests ≤ c.RESCALE_BOT)) ∧
    (below_three_sigma be.t_average average sq_average = false →
      ¬ (above_three_sigma be.t_average average sq_average = true ∧ 1 < be.priority) →
      (rescale_lower c average sq_average (rescale_raise c average sq_average be).1).1 = be) := by
  refine ⟨?_, ?_, ?_⟩
  · intro hb
    have hab := three_sigma_exclusive _ _ _ hs hb
    have hr : rescale_raise c average sq_average be =
        (rescale_halve c.RESCALE_BOT be.n_requests.toNat
          { be with priority := be.priority + 1 }, 1) := by
      unfold rescale_raise
      rw [if_pos hb]
    have hf := rescale_halve_fields c.RESCALE_BOT be.n_requests.toNat
      { be with priority := be.priority + 1 }
    have hl : rescale_lower c average sq_average
        (rescale_halve c.RESCALE_BOT be.n_requests.toNat
          { be with priority := be.priority + 1 }) =
        (rescale_halve c.RESCALE_BOT be.n_requests.toNat
          { be with priority := be.priority + 1 }, 0) := by
      unfold rescale_lower
      rw [hf.2.2.2.2]
      simp only
      rw [hab]
      simp
    rw [hr]
    simp only
    rw [hl]
    exact ⟨hf.1, fun hbot => rescale_halve_done c.RESCALE_BOT hbot _ _ (le_refl _)⟩
  · intro hb hab hpri
    have hr : rescale_raise c average sq_average be = (be, 0) := by
      unfold rescale_raise
      rw [hb]
      rfl
    have hf := rescale_halve_fields c.RESCALE_BOT be.n_requests.toNat
      { be with priority := be.priority - 1 }
    have hl : rescale_lower c average sq_average be =
        (rescale_halve c.RESCALE_BOT be.n_requests.toNat
          { be with priority := be.priority - 1 }, -1) := by
      unfold rescale_lower
      rw [if_pos ⟨hab, hpri⟩]
    rw [hr]
    simp only
    rw [hl]
    exact ⟨hf.1, fun hbot => rescale_halve_done c.RESCALE_BOT hbot _ _ (le_refl _)⟩
  · intro hb hab
    have hr : rescale_raise c average sq_average be = (be, 0) := by
      unfold rescale_raise
      rw [hb]
      rfl
    have hl : rescale_lower c average sq_average be = (be, 0) := by
      unfold rescale_lower
      rw [if_neg]
      intro h
      exact hab ⟨h.1, h.2⟩
    rw [hr]
    simp only
    rw [hl]

/-- Claim C22, as amended: in a `do_rescale` pass over a service with dynamic
scaling enabled and at least two back-ends that are routable and not
redirectors, with `mu` the mean and `sigma` the population standard deviation
(divisor `n`) of `t_average` over these back-ends, both as the code computes
them in binary64 (`mean64`, and `sigma3_64` for `3 * sigma`), such a back-end
with `n_requests >= RESCALE_MIN` has its priority raised by 1 exactly when
`t_average < mu - 3 * sigma` holds in binary64, lowered by 1 exactly when
`t_average > mu + 3 * sigma` holds in binary64 and its priority exceeds 1, and
is untouched otherwise; no other back-end changes; `tot_pri` changes by the
sum of the changes of the priorities; and a back-end whose priority has
changed is left with `n_requests <= RESCALE_BOT` (for `RESCALE_BOT >= 0`). -/
theorem do_rescale_spec (c : CONSTS) (svc r : SERVICE) (ts : List ℚ)
    (hr : r = do_rescale_svc c svc) (hts : ts = sample_times svc.backends)
    (hdyn : svc.dynscale ≠ 0) (hn : 2 ≤ ts.length) :
    (∀ (i : Nat) (b : BACKEND), svc.backends[i]? = some b →
      ∃ b2, r.backends[i]? = some b2 ∧
        (plain_routable b → c.RESCALE_MIN ≤ b.n_requests →
          ((to_double b.t_average).lt ((mean64 ts).sub (sigma3_64 ts)) = true →
            b2.priority = b.priority + 1 ∧
            (0 ≤ c.RESCALE_BOT → b2.n_requests ≤ c.RESCALE_BOT)) ∧
          (((mean64 ts).add (sigma3_64 ts)).lt (to_double b.t_average) = true →
            1 < b.priority →
            b2.priority = b.priority - 1 ∧
            (0 ≤ c.RESCALE_BOT → b2.n_requests ≤ c.RESCALE_BOT)) ∧
          ((to_double b.t_average).lt ((mean64 ts).sub (sigma3_64 ts)) = false →
            ¬ (((mean64 ts).add (sigma3_64 ts)).lt (to_double b.t_average) = true ∧
              1 < b.priority) →
            b2 = b)) ∧
        (¬ (plain_routable b ∧ c.RESCALE_MIN ≤ b.n_requests) → b2 = b)) ∧
    r.backends.length = svc.backends.length ∧
    r.tot_pri - svc.tot_pri = sum_pri r.backends - sum_pri svc.backends := by
  subst hts
  have heq := do_rescale_svc_eq c svc hdyn hn
  refine ⟨?_, ?_, ?_⟩
  · intro i b hb
    have hget : r.backends[i]? = some
        (if b.be_type ≠ 0 ∨ b.alive = 0 ∨ b.disabled ≠ 0 ∨ b.n_requests < c.RESCALE_MIN
          then b
          else (rescale_lower c (mean64 (sample_times svc.backends))
            (sigma3_64 (sample_times svc.backends))
            (rescale_raise c (mean64 (sample_times svc.backends))
              (sigma3_64 (sample_times svc.backends)) b).1).1) := by
      rw [hr, heq]
      simp only
      rw [rescale_loop_get, hb]
      rfl
    refine ⟨_, hget, ?_, ?_⟩
    · intro hp hmin
      have hskip : ¬ (b.be_type ≠ 0 ∨ b.alive = 0 ∨ b.disabled ≠ 0 ∨
          b.n_requests < c.RESCALE_MIN) := by
        rintro (h | h | h | h)
        · exact h hp.1
        · exact hp.2.1 h
        · exact h hp.2.2
        · omega
      rw [if_neg hskip]
      obtain ⟨h1, h2, h3⟩ := rescale_step_cases c (mean64 (sample_times svc.backends))
        (sigma3_64 (sample_times svc.backends)) b (sigma3_not_negative _)
      refine ⟨?_, ?_, ?_⟩
      · intro hlt
        exact h1 hlt
      · intro hgt hpri
        have hnb : below_three_sigma b.t_average (mean64 (sample_times svc.backends))
            (sigma3_64 (sample_times svc.backends)) = false := by
          cases hbl : below_three_sigma b.t_average (mean64 (sample_times svc.backends))
              (sigma3_64 (sample_times svc.backends)) with
          | false => rfl
          | true =>
            have := three_sigma_exclusive _ _ _ (sigma3_not_negative _) hbl
            unfold above_three_sigma at this
            rw [hgt] at this
            cases this
        exact h2 hnb hgt hpri
      · intro hnlt hngt
        exact h3 hnlt hngt
    · intro hnot
      have hskip : b.be_type ≠ 0 ∨ b.alive = 0 ∨ b.disabled ≠ 0 ∨
          b.n_requests < c.RESCALE_MIN := by
        by_contra hcon
        apply hnot
        refine ⟨⟨?_, ?_, ?_⟩, ?_⟩
        · by_contra h0
          exact hcon (Or.inl h0)
        · intro h0
          exact hcon (Or.inr (Or.inl h0))
        · by_contra h0
          exact hcon (Or.inr (Or.inr (Or.inl h0)))
        · by_contra h0
          exact hcon (Or.inr (Or.inr (Or.inr (by omega))))
      rw [if_pos hskip]
  · rw [hr, heq]
    simp only
    exact rescale_loop_length _ _ _ _ _
  · rw [hr]
    exact (do_rescale_svc_sums c svc).2.1

/-- In `example_pop_svc` the last back-end, with the average time 5, lies above
the mean by more than three deviations in binary64: the pass lowers its
priority from 5 to 4 and halves its count of requests down to `RESCALE_BOT`;
the first back-end, with the average time 1, is left as it is. -/
theorem do_rescale_spec_witness :
    ((do_rescale_svc example_consts example_pop_svc).backends[10]?).map
      (fun b => (b.priority, decide (b.n_requests ≤ example_consts.RESCALE_BOT))) =
        some (4, true) ∧
    (do_rescale_svc example_consts example_pop_svc).backends[0]? =
      example_pop_svc.backends[0]? ∧
    (do_rescale_svc example_consts example_pop_svc).tot_pri - example_pop_svc.tot_pri =
      sum_pri (do_rescale_svc example_consts example_pop_svc).backends -
        sum_pri example_pop_svc.backends := by
  have h := do_rescale_spec example_consts example_pop_svc _ _ rfl rfl (by decide) (by decide)
  refine ⟨?_, ?_, h.2.2⟩
  · obtain ⟨b2, hb2, hcase, -⟩ := h.1 10 (example_timed_be 5) rfl
    obtain ⟨hpri, hbot⟩ := (hcase (by decide) (by decide)).2.1 (by decide!) (by decide)
    rw [hb2]
    simp only [Option.map_some', Option.some.injEq, Prod.mk.injEq, decide_eq_true_eq]
    exact ⟨hpri, hbot (by decide)⟩
  · obtain ⟨b2, hb2, hcase, -⟩ := h.1 0 (example_timed_be 1) rfl
    rw [hb2, (hcase (by decide) (by decide)).2.2 (by decide!) (by decide!)]
    rfl

/-- Claim C22 fails as stated on the standard deviation: in `example_pop_svc`
eleven routable back-ends of priority 5 with 8000 requests each have the
average times 1 (nine of them), 2 and 5.  The last one does not exceed the
mean by three sample standard deviations (divisor `n - 1`), and `do_rescale`
lowers its priority to 4 and `tot_pri` to 54: it exceeds the mean by three
population standard deviations (divisor `n`). -/
theorem do_rescale_spec_counterexample :
    example_pop_svc.dynscale ≠ 0 ∧
    (sample_times example_pop_svc.backends).length = 11 ∧
    (∀ b ∈ example_pop_svc.backends,
      plain_routable b ∧ example_consts.RESCALE_MIN ≤ b.n_requests ∧ 1 < b.priority) ∧
    (example_pop_svc.backends[10]?).map (fun b => (b.t_average, b.priority)) = some (5, 5) ∧
    ¬ ((mean (sample_times example_pop_svc.backends) : ℝ) +
        3 * Real.sqrt (sample_variance (sample_times example_pop_svc.backends) : ℝ) <
      ((5 : ℚ) : ℝ)) ∧
    (mean (sample_times example_pop_svc.backends) : ℝ) +
        3 * Real.sqrt (pop_variance (sample_times example_pop_svc.backends) : ℝ) <
      ((5 : ℚ) : ℝ) ∧
    ((do_rescale_svc example_consts example_pop_svc).backends[10]?).map
      (fun b => b.priority) = some 4 ∧
    example_pop_svc.tot_pri = 55 ∧
    (do_rescale_svc example_consts example_pop_svc).tot_pri = 54 := by
  refine ⟨by decide, by decide, by decide, by decide!, ?_, ?_,
    by decide!, by decide, by decide!⟩
  · intro h
    have h2 := (above_sqrt_iff 5 (mean (sample_times example_pop_svc.backends))
      (sample_variance (sample_times example_pop_svc.backends)) (by decide!)).1 h
    revert h2
    decide!
  · exact (above_sqrt_iff 5 (mean (sample_times example_pop_svc.backends))
      (pop_variance (sample_times example_pop_svc.backends))
      (pop_variance_nonneg _)).2 (by decide!)

/-- Claim C30 fails in the arithmetic of the program.  Among at most ten values
none lies more than three population standard deviations away from their mean
(`mean_pop_variance_bound`), but `do_rescale` computes the mean and the
deviation in binary64.  In `example_ten_svc` ten routable back-ends of priority
5 have the average times 1 (nine of them) and 2: the mean is 1.1, the variance
0.09, and 2 is the mean plus three deviations, not more; in binary64 the mean
plus three deviations comes out as 2 - 3 * 2 ^ (-52), below 2, and the pass
lowers the priority of the last back-end to 4 and `tot_pri` to 49.  In
`example_same_svc` three routable back-ends of priority 5 have the same average
time, the binary64 number nearest to 0.837: the mean computed in binary64 is
the next binary64 number above it, the deviation computed is 0, and the pass
raises the priority of each to 6 and `tot_pri` to 18. -/
theorem do_rescale_few_rounding :
    example_ten_svc.dynscale ≠ 0 ∧
    (sample_times example_ten_svc.backends).length = 10 ∧
    (∀ b ∈ example_ten_svc.backends,
      plain_routable b ∧ example_consts.RESCALE_MIN ≤ b.n_requests ∧ b.priority = 5) ∧
    example_ten_svc.tot_pri = 50 ∧
    (∀ t ∈ sample_times example_ten_svc.backends,
      (t - mean (sample_times example_ten_svc.backends)) ^ 2 ≤
        9 * pop_variance (sample_times example_ten_svc.backends)) ∧
    mean (sample_times example_ten_svc.backends) = 11 / 10 ∧
    pop_variance (sample_times example_ten_svc.backends) = 9 / 100 ∧
    ¬ ((mean (sample_times example_ten_svc.backends) : ℝ) +
        3 * Real.sqrt (pop_variance (sample_times example_ten_svc.backends) : ℝ) <
      ((2 : ℚ) : ℝ)) ∧
    (mean64 (sample_times example_ten_svc.backends)).add
        (sigma3_64 (sample_times example_ten_svc.backends)) =
      double.finite (2 - 3 / 2 ^ 52) ∧
    (do_rescale_svc example_consts example_ten_svc).backends.map (fun b => b.priority) =
      [5, 5, 5, 5, 5, 5, 5, 5, 5, 4] ∧
    (do_rescale_svc example_consts example_ten_svc).tot_pri = 49 ∧
    example_same_svc.dynscale ≠ 0 ∧
    sample_times example_same_svc.backends =
      List.replicate 3 (3769512888109105 / 4503599627370496) ∧
    to_double (837 / 1000) = double.finite (3769512888109105 / 4503599627370496) ∧
    (∀ b ∈ example_same_svc.backends,
      plain_routable b ∧ example_consts.RESCALE_MIN ≤ b.n_requests ∧ b.priority = 5) ∧
    example_same_svc.tot_pri = 15 ∧
    mean (sample_times example_same_svc.backends) = 3769512888109105 / 4503599627370496 ∧
    pop_variance (sample_times example_same_svc.backends) = 0 ∧
    mean64 (sample_times example_same_svc.backends) =
      double.finite (3769512888109105 / 4503599627370496 + 1 / 2 ^ 53) ∧
    sigma3_64 (sample_times example_same_svc.backends) = double.finite 0 ∧
    (do_rescale_svc example_consts example_same_svc).backends.map (fun b => b.priority) =
      [6, 6, 6] ∧
    (do_rescale_svc example_consts example_same_svc).tot_pri = 18 := by
  refine ⟨by decide, by decide, by decide, by decide, ?_, by decide!, by decide!, ?_,
    by decide!, by decide!, by decide!, by decide, by decide!, by decide!, by decide,
    by decide, by decide!, by decide!, by decide!, by decide!, by decide!, by decide!⟩
  · intro t ht
    exact mean_pop_variance_bound _ t ht (by decide)
  · intro h
    have h2 := (above_sqrt_iff 2 (mean (sample_times example_ten_svc.backends))
      (pop_variance (sample_times example_ten_svc.backends)) (pop_variance_nonneg _)).1 h
    revert h2
    decide!

/-- Claim C23, as amended: for a service with three back-ends that are
routable and not redirectors, whose `t_average` values are 0.01, 0.01 and
0.10, one `do_rescale` pass leaves every back-end, the slow one included, and
`tot_pri` as they are, whatever the counts of requests and the priorities: the
mean is 0.04, the variance 0.0018, and 0.10 lies within three standard
deviations of the mean. -/
theorem do_rescale_three (c : CONSTS) (svc : SERVICE) (b1 b2 b3 : BACKEND)
    (hbe : svc.backends = [b1, b2, b3])
    (hp1 : plain_routable b1) (hp2 : plain_routable b2) (hp3 : plain_routable b3)
    (ht1 : b1.t_average = 1 / 100) (ht2 : b2.t_average = 1 / 100)
    (ht3 : b3.t_average = 1 / 10) :
    (do_rescale_svc c svc).backends = svc.backends ∧
    (do_rescale_svc c svc).tot_pri = svc.tot_pri ∧
    mean (sample_times svc.backends) = 4 / 100 ∧
    pop_variance (sample_times svc.backends) = 18 / 10000 ∧
    (b3.t_average : ℝ) <
      (mean (sample_times svc.backends) : ℝ) +
        3 * Real.sqrt (pop_variance (sample_times svc.backends) : ℝ) := by
  have hts : sample_times svc.backends = [1 / 100, 1 / 100, 1 / 10] := by
    simp [sample_times, hbe, hp1, hp2, hp3, ht1, ht2, ht3]
  have hm : mean (sample_times svc.backends) = 4 / 100 := by
    rw [hts]
    norm_num [mean]
  have hv : pop_variance (sample_times svc.backends) = 18 / 10000 := by
    unfold pop_variance
    rw [hm, hts]
    norm_num
  have hsame : do_rescale_svc c svc = svc := by
    by_cases hdyn : svc.dynscale = 0
    · exact do_rescale_svc_skip c svc (Or.inl hdyn)
    · rw [do_rescale_svc_eq c svc hdyn (by rw [hts]; decide), hts]
      have hloop := rescale_loop_unchanged c
        (mean64 [1 / 100, 1 / 100, 1 / 10]) (sigma3_64 [1 / 100, 1 / 100, 1 / 10])
        svc.backends svc.tot_pri (by
          intro b hb _
          rw [hbe] at hb
          simp only [List.mem_cons, List.mem_singleton, List.not_mem_nil, or_false] at hb
          rcases hb with rfl | rfl | rfl
          · rw [ht1]
            exact ⟨by decide!, by decide!⟩
          · rw [ht2]
            exact ⟨by decide!, by decide!⟩
          · rw [ht3]
            exact ⟨by decide!, by decide!⟩)
      rw [hloop]
  refine ⟨by rw [hsame], by rw [hsame], hm, hv, ?_⟩
  have hle : ¬ ((mean (sample_times svc.backends) : ℝ) +
      3 * Real.sqrt (pop_variance (sample_times svc.backends) : ℝ) < (b3.t_average : ℝ)) := by
    intro h
    have h2 := (above_sqrt_iff _ _ _ (pop_variance_nonneg _)).1 h
    rw [hm, hv, ht3] at h2
    norm_num at h2
  have hne : (b3.t_average : ℝ) ≠ (mean (sample_times svc.backends) : ℝ) +
      3 * Real.sqrt (pop_variance (sample_times svc.backends) : ℝ) := by
    intro heq
    have hsq : ((b3.t_average : ℝ) - (mean (sample_times svc.backends) : ℝ)) ^ 2 =
        9 * (pop_variance (sample_times svc.backends) : ℝ) := by
      rw [heq]
      have := Real.sq_sqrt (show (0 : ℝ) ≤ (pop_variance (sample_times svc.backends) : ℝ) by
        exact_mod_cast pop_variance_nonneg _)
      ring_nf
      rw [this]
    rw [hm, hv, ht3] at hsq
    norm_num at hsq
  exact lt_of_le_of_ne (not_lt.1 hle) hne

theorem do_rescale_three_witness :
    (do_rescale_svc example_consts example_three_svc).backends = example_three_svc.backends ∧
    (do_rescale_svc example_consts example_three_svc).tot_pri = example_three_svc.tot_pri :=
  ⟨(do_rescale_three example_consts example_three_svc _ _ _ rfl (by decide) (by decide)
      (by decide) rfl rfl rfl).1,
   (do_rescale_three example_consts example_three_svc _ _ _ rfl (by decide) (by decide)
      (by decide) rfl rfl rfl).2.1⟩

/-- Claim C23 fails as stated: `example_three_svc` has dynamic scaling and
three routable back-ends of priority 5 with 8000 requests each, at least
`RESCALE_MIN`, and the average times 0.01, 0.01 and 0.10; after one pass of
`do_rescale` the priority of the slow back-end is still 5 and `tot_pri` is
still 15. -/
theorem do_rescale_three_counterexample :
    example_three_svc.dynscale ≠ 0 ∧
    (∀ b ∈ example_three_svc.backends,
      plain_routable b ∧ example_consts.RESCALE_MIN ≤ b.n_requests ∧ 100 ≤ b.n_requests ∧
        1 < b.priority) ∧
    example_three_svc.backends.map (fun b => b.t_average) = [1 / 100, 1 / 100, 1 / 10] ∧
    example_three_svc.tot_pri = 15 ∧
    (do_rescale_svc example_consts example_three_svc).backends.map (fun b => b.priority) =
      [5, 5, 5] ∧
    (do_rescale_svc example_consts example_three_svc).tot_pri = 15 := by
  refine ⟨by decide, by decide, by decide!, by decide,
    by decide!, by decide!⟩

/-! ## The pending-free list: proofs -/

theorem is_chain_congr (mem mem2 : Nat → Option PSESS) (p : Option Nat)
    (l : List (Nat × Bool)) (h : ∀ a ∈ l.map (fun x => x.1), mem2 a = mem a)
    (hc : is_chain mem p l) : is_chain mem2 p l := by
  induction l generalizing p with
  | nil => exact hc
  | cons x rest ih =>
    obtain ⟨a, busy⟩ := x
    obtain ⟨hp, nx, hm, hrest⟩ := hc
    refine ⟨hp, nx, ?_, ih nx (fun y hy => h y (List.mem_cons_of_mem _ hy)) hrest⟩
    rw [h a (List.mem_cons_self _ _)]
    exact hm

theorem del_pending_loop_spec (l : List (Nat × Bool)) :
    ∀ (fuel : Nat) (st : PHEAP) (ptr : PLINK) (p : Option Nat),
      is_chain st.mem p l → (l.map (fun x => x.1)).Nodup → l.length ≤ fuel →
      link_ok st (l.map (fun x => x.1)) ptr → read_link st ptr = some p →
      ∃ (st2 : PHEAP) (q : Option Nat), del_pending_loop fuel st ptr p = some st2 ∧
        read_link st2 ptr = some q ∧
        is_chain st2.mem q (l.filter (fun x => x.2)) ∧
        st2.freed = st.freed ++ (l.filter (fun x => !x.2)).map (fun x => x.1) ∧
        (∀ a, a ∉ l.map (fun x => x.1) → ptr ≠ PLINK.next a → st2.mem a = st.mem a) ∧
        (∀ b s, ptr = PLINK.next b → st.mem b = some s →
          st2.mem b = some { s with next := q }) ∧
        (ptr ≠ PLINK.head → st2.head = st.head) ∧
        (∀ x ∈ l, x.2 = false → st2.mem x.1 = none) := by
  induction l with
  | nil =>
    intro fuel st ptr p hc _ _ _ hread
    have hp : p = none := hc
    subst hp
    refine ⟨st, none, ?_, hread, rfl, by simp, fun _ _ _ => rfl, ?_, fun _ => rfl,
      fun x hx => absurd hx (List.not_mem_nil x)⟩
    · cases fuel <;> rfl
    · intro b s hb hs
      rw [hb] at hread
      simp only [read_link, hs, Option.map_some', Option.some.injEq] at hread
      rw [hs]
      cases s
      simp only at hread
      subst hread
      rfl
  | cons x rest ih =>
    obtain ⟨a, busy⟩ := x
    intro fuel st ptr p hc hnodup hfuel hlink hread
    obtain ⟨hp, nx, hm, hrest⟩ := hc
    subst hp
    simp only [List.map_cons, List.nodup_cons] at hnodup
    obtain ⟨ha, hnd⟩ := hnodup
    obtain ⟨f, rfl⟩ : ∃ f, fuel = f + 1 := ⟨fuel - 1, by
      simp only [List.length_cons] at hfuel
      omega⟩
    have hf : rest.length ≤ f := by
      simp only [List.length_cons] at hfuel
      omega
    cases busy with
    | true =>
      have hstep : del_pending_loop (f + 1) st ptr (some a) =
          del_pending_loop f st (PLINK.next a) nx := by
        simp only [del_pending_loop, hm, if_true]
      obtain ⟨st2, q, hrun, hrd, hch, hfr, hframe, hptr, hhead, hnone⟩ :=
        ih f st (PLINK.next a) nx hrest hnd hf ⟨ha, _, hm⟩
          (by simp only [read_link, hm, Option.map_some'])
      have hma : st2.mem a = some { next := q, mut_busy := true } := hptr a _ rfl hm
      have hpa : read_link st2 ptr = some (some a) := by
        cases ptr with
        | head =>
          simp only [read_link] at hread ⊢
          rw [hhead (by simp)]
          exact hread
        | next b =>
          obtain ⟨hb, s, hs⟩ := hlink
          have hba : b ≠ a := fun e => hb (by simp [e])
          have hbr : b ∉ rest.map (fun x => x.1) := fun e => hb (by simp [e])
          have : st2.mem b = st.mem b := hframe b hbr (by
            intro e
            cases e
            exact hba rfl)
          simp only [read_link] at hread ⊢
          rw [this]
          exact hread
      refine ⟨st2, some a, hstep.trans hrun, hpa, ?_, ?_, ?_, ?_, ?_, ?_⟩
      · simp only [List.filter_cons, if_true]
        exact ⟨rfl, q, hma, hch⟩
      · simpa using hfr
      · intro y hy hne
        have hya : y ≠ a := fun e => hy (by simp [e])
        have hyr : y ∉ rest.map (fun x => x.1) := fun e => hy (by simp [e])
        exact hframe y hyr (by
          intro e
          cases e
          exact hya rfl)
      · intro b s hb hs
        subst hb
        obtain ⟨hb, -⟩ := hlink
        have hba : b ≠ a := fun e => hb (by simp [e])
        have hbr : b ∉ rest.map (fun x => x.1) := fun e => hb (by simp [e])
        have h1 : st2.mem b = st.mem b := hframe b hbr (by
          intro e
          cases e
          exact hba rfl)
        rw [h1, hs]
        simp only [read_link, hs, Option.map_some', Option.some.injEq] at hread
        cases s
        simp only at hread
        subst hread
        rfl
      · intro _
        exact hhead (by simp)
      · intro x hx hxb
        rw [List.mem_cons] at hx
        rcases hx with hx | hx
        · subst hx
          cases hxb
        · exact hnone x hx hxb
    | false =>
      have hwl : ∃ st1, write_link (free_session st a) ptr nx = some st1 ∧
          read_link st1 ptr = some nx ∧ st1.freed = st.freed ++ [a] ∧
          (∀ y, ptr ≠ PLINK.next y → st1.mem y = if y = a then none else st.mem y) ∧
          (∀ b s, ptr = PLINK.next b → st.mem b = some s →
            st1.mem b = some { s with next := nx }) ∧
          (ptr ≠ PLINK.head → st1.head = st.head) := by
        cases ptr with
        | head =>
          refine ⟨{ free_session st a with head := nx }, rfl, rfl, rfl, fun y _ => rfl, ?_,
            fun h => absurd rfl h⟩
          intro b s hb
          cases hb
        | next b =>
          obtain ⟨hb, s, hs⟩ := hlink
          have hba : b ≠ a := fun e => hb (by simp [e])
          have hfs : (free_session st a).mem b = some s := by
            simp only [free_session, hba, if_false]
            exact hs
          refine ⟨{ free_session st a with
              mem := fun x => if x = b then some { s with next := nx }
                else (free_session st a).mem x },
            by simp only [write_link, hfs], ?_, rfl, ?_, ?_, fun _ => rfl⟩
          · simp only [read_link, if_true, Option.map_some']
          · intro y hy
            have hyb : y ≠ b := by
              intro e
              apply hy
              rw [e]
            simp only [hyb, if_false, free_session]
          · intro b2 s2 hb2 hs2
            cases hb2
            rw [hs] at hs2
            cases hs2
            simp only [if_true]
      obtain ⟨st1, hw, hrd1, hfr1, hmem1, hptr1, hhead1⟩ := hwl
      have hstep : del_pending_loop (f + 1) st ptr (some a) =
          del_pending_loop f st1 ptr nx := by
        simp only [del_pending_loop, hm, Bool.false_eq_true, if_false, hw]
      have hmem_rest : ∀ y ∈ rest.map (fun x => x.1), st1.mem y = st.mem y := by
        intro y hy
        have hya : y ≠ a := by
          intro e
          rw [e] at hy
          exact ha hy
        have hne : ptr ≠ PLINK.next y := by
          intro e
          rw [e] at hlink
          exact hlink.1 (List.mem_cons_of_mem _ hy)
        rw [hmem1 y hne, if_neg hya]
      have hlink1 : link_ok st1 (rest.map (fun x => x.1)) ptr := by
        cases ptr with
        | head => trivial
        | next b =>
          obtain ⟨hb, s, hs⟩ := hlink
          exact ⟨fun e => hb (List.mem_cons_of_mem _ e), _, hptr1 b s rfl hs⟩
      obtain ⟨st2, q, hrun, hrd, hch, hfr, hframe, hptr, hhead, hnone⟩ :=
        ih f st1 ptr nx (is_chain_congr _ _ _ _ hmem_rest hrest) hnd hf hlink1 hrd1
      refine ⟨st2, q, hstep.trans hrun, hrd, ?_, ?_, ?_, ?_, ?_, ?_⟩
      · simpa using hch
      · rw [hfr, hfr1]
        simp
      · intro y hy hne
        have hya : y ≠ a := fun e => hy (by simp [e])
        have hyr : y ∉ rest.map (fun x => x.1) := fun e => hy (by simp [e])
        rw [hframe y hyr hne, hmem1 y hne, if_neg hya]
      · intro b s hb hs
        have h1 := hptr1 b s hb hs
        have h2 := hptr b _ hb h1
        rw [h2]
      · intro hne
        rw [hhead hne, hhead1 hne]
      · intro x hx hxb
        rw [List.mem_cons] at hx
        rcases hx with hx | hx
        · subst hx
          have hne : ptr ≠ PLINK.next a := by
            intro e
            rw [e] at hlink
            exact hlink.1 (List.mem_cons_self _ _)
          rw [hframe a ha hne, hmem1 a hne, if_pos rfl]
        · exact hnone x hx hxb

theorem is_chain_unique (mem : Nat → Option PSESS) (p : Option Nat)
    (l1 l2 : List (Nat × Bool)) (h1 : is_chain mem p l1) (h2 : is_chain mem p l2) :
    l1 = l2 := by
  induction l1 generalizing p l2 with
  | nil =>
    have hp : p = none := h1
    cases l2 with
    | nil => rfl
    | cons y r2 =>
      obtain ⟨a, busy⟩ := y
      rw [hp] at h2
      cases h2.1
  | cons x r1 ih =>
    obtain ⟨a, busy⟩ := x
    obtain ⟨hp, nx, hm, hr⟩ := h1
    cases l2 with
    | nil =>
      have hp2 : p = none := h2
      rw [hp2] at hp
      cases hp
    | cons y r2 =>
      obtain ⟨a2, busy2⟩ := y
      obtain ⟨hp2, nx2, hm2, hr2⟩ := h2
      rw [hp] at hp2
      cases hp2
      rw [hm] at hm2
      cases hm2
      rw [ih nx r2 hr hr2]

theorem is_chain_suffix (mem : Nat → Option PSESS) (p : Option Nat)
    (l1 l2 : List (Nat × Bool)) (h : is_chain mem p (l1 ++ l2)) :
    ∃ q, is_chain mem q l2 := by
  induction l1 generalizing p with
  | nil => exact ⟨p, h⟩
  | cons x r1 ih =>
    obtain ⟨a, busy⟩ := x
    obtain ⟨-, nx, -, hr⟩ := h
    exact ih nx hr

theorem is_chain_nodup (mem : Nat → Option PSESS) (p : Option Nat) (l : List (Nat × Bool))
    (h : is_chain mem p l) : (l.map (fun x => x.1)).Nodup := by
  induction l generalizing p with
  | nil => exact List.nodup_nil
  | cons x rest ih =>
    obtain ⟨a, busy⟩ := x
    obtain ⟨hp, nx, hm, hr⟩ := h
    simp only [List.map_cons, List.nodup_cons]
    refine ⟨?_, ih nx hr⟩
    intro hmem
    rw [List.mem_map] at hmem
    obtain ⟨⟨a2, b2⟩, hin, ha2⟩ := hmem
    simp only at ha2
    subst ha2
    obtain ⟨pre, suf, hsplit⟩ := List.append_of_mem hin
    rw [hsplit] at hr
    obtain ⟨q, hq⟩ := is_chain_suffix mem nx pre _ hr
    have hq2 := hq
    obtain ⟨hqa, nx2, hm2, hsuf⟩ := hq2
    rw [hm] at hm2
    cases hm2
    have heq := is_chain_unique mem nx _ _ hr hsuf
    have hlen := congrArg List.length heq
    simp at hlen
    omega

theorem del_pending_eq_filter (l : List SESSION) :
    del_pending l = l.filter (fun s => s.mut_busy) := by
  induction l with
  | nil => rfl
  | cons s rest ih =>
    unfold del_pending
    by_cases h : s.mut_busy = true
    · rw [if_pos h, ih, List.filter_cons_of_pos h]
    · rw [if_neg h, ih, List.filter_cons_of_neg h]

/-- Claim C27: when `*list` heads a linked list of sessions `l`, given by
address and by whether their mutex is held, `del_pending(list)` ends without
touching a freed session, within `l.length` iterations, and afterwards `*list`
heads the list of exactly those sessions of `l` whose mutex was held, in their
original order and still allocated; the sessions freed are exactly those whose
mutex could be taken, in order; every session of `l` is still in the list or
has been freed, so none is unlinked without being freed; and no session
outside `l` is touched. -/
theorem del_pending_spec (st : PHEAP) (l : List (Nat × Bool)) (fuel : Nat)
    (hc : is_chain st.mem st.head l) (hfuel : l.length ≤ fuel) :
    ∃ st2, del_pending_heap fuel st = some st2 ∧
      is_chain st2.mem st2.head (l.filter (fun x => x.2)) ∧
      st2.freed = st.freed ++ (l.filter (fun x => !x.2)).map (fun x => x.1) ∧
      (∀ x ∈ l, x.2 = false → st2.mem x.1 = none ∧ x ∉ l.filter (fun x => x.2)) ∧
      (∀ x ∈ l, x ∈ l.filter (fun x => x.2) ∨ x.1 ∈ st2.freed) ∧
      (∀ a, a ∉ l.map (fun x => x.1) → st2.mem a = st.mem a) := by
  obtain ⟨st2, q, hrun, hrd, hch, hfr, hframe, -, -, hnone⟩ :=
    del_pending_loop_spec l fuel st PLINK.head st.head hc (is_chain_nodup _ _ _ hc) hfuel
      trivial rfl
  simp only [read_link, Option.some.injEq] at hrd
  subst hrd
  refine ⟨st2, hrun, hch, hfr, ?_, ?_, ?_⟩
  · intro x hx hxb
    refine ⟨hnone x hx hxb, ?_⟩
    intro hin
    have := (List.mem_filter.1 hin).2
    rw [hxb] at this
    cases this
  · intro x hx
    cases hxb : x.2 with
    | true => exact Or.inl (List.mem_filter.2 ⟨hx, hxb⟩)
    | false =>
      right
      rw [hfr]
      apply List.mem_append_right
      rw [List.mem_map]
      exact ⟨x, List.mem_filter.2 ⟨hx, by simp [hxb]⟩, rfl⟩
  · intro a ha
    exact hframe a ha (by simp)


theorem del_pending_spec_witness :
    ∃ st2, del_pending_heap 3 example_pending_heap = some st2 ∧
      is_chain st2.mem st2.head [(2, true)] ∧ st2.freed = [1, 3] :=
  (del_pending_spec example_pending_heap [(1, false), (2, true), (3, false)] 3
    ⟨rfl, some 2, rfl, ⟨rfl, some 3, rfl, ⟨rfl, none, rfl, rfl⟩⟩⟩ (by decide)).imp
    (fun _ h => ⟨h.1, h.2.1, h.2.2.1⟩)

/-! ## Location rewriting: proofs -/

theorem takeWhile_isdigit_all (s : CString) (h : s.all isdigit = true) :
    s.takeWhile isdigit = s := by
  induction s with
  | nil => rfl
  | cons ch r ih =>
    simp only [List.all_cons, Bool.and_eq_true] at h
    rw [List.takeWhile_cons, if_pos h.1, ih h.2]

theorem digits_foldl_cast (s : CString) (h : s.all isdigit = true) (acc : Nat) :
    s.foldl (fun (acc : Int) d => acc * 10 + (d - 48)) (acc : Int) =
      ((s.foldl (fun (acc : Nat) d => acc * 10 + (d - 48).toNat) acc : Nat) : Int) := by
  induction s generalizing acc with
  | nil => rfl
  | cons ch r ih =>
    simp only [List.all_cons, Bool.and_eq_true] at h
    simp only [List.foldl_cons]
    have hch : 48 ≤ ch := by
      have := h.1
      simp only [isdigit, decide_eq_true_eq] at this
      exact this.1
    have : ((acc : Int) * 10 + (ch - 48)) = ((acc * 10 + (ch - 48).toNat : Nat) : Int) := by
      push_cast
      rw [Int.toNat_of_nonneg (by omega)]
    rw [this]
    exact ih h.2 _

/-- On a non-empty string of digits `atoi` is the number the string denotes. -/
theorem atoi_decimal (p : CString) (n : Nat) (h : decimal p = some n) : atoi p = n := by
  unfold decimal at h
  split at h
  · rename_i hp
    obtain ⟨hne, hall⟩ := hp
    simp only [Option.some.injEq] at h
    cases p with
    | nil => exact absurd rfl hne
    | cons ch r =>
      have hd : isdigit ch = true := by
        simp only [List.all_cons, Bool.and_eq_true] at hall
        exact hall.1
      have hd2 : 48 ≤ ch ∧ ch ≤ 57 := by
        simpa only [isdigit, decide_eq_true_eq] using hd
      have hsp : isspace ch = false := by
        simp only [isspace, decide_eq_false_iff_not]
        omega
      unfold atoi
      rw [List.dropWhile_cons, hsp]
      simp only [Bool.false_eq_true, if_false]
      rw [if_neg (by omega), if_neg (by omega)]
      unfold atoi_digits
      rw [takeWhile_isdigit_all _ hall, ← h]
      exact digits_foldl_cast _ hall 0
  · cases h

/-- The port that the code computes is the port of the URL. -/
theorem location_port_eq (proto : CString) (port : Option CString) (n : Nat)
    (h : url_port proto port = some n) (hn : n < 65536) :
    location_port proto port = n := by
  unfold url_port at h
  unfold location_port
  cases port with
  | some p =>
    simp only at h ⊢
    rw [atoi_decimal p n h]
    unfold htons
    omega
  | none =>
    simp only at h ⊢
    by_cases hs : proto.map tolower = str_https
    · rw [if_pos hs] at h
      have : strcasecmp_eq proto str_https = true := by
        unfold strcasecmp_eq
        rw [hs]
        decide
      rw [if_pos this]
      simp only [Option.some.injEq] at h
      subst h
      decide
    · rw [if_neg hs] at h
      have : ¬ strcasecmp_eq proto str_https = true := by
        unfold strcasecmp_eq
        intro hh
        apply hs
        have := of_decide_eq_true hh
        rw [this]
        decide
      rw [if_neg this]
      split at h
      · simp only [Option.some.injEq] at h
        subst h
        decide
      · cases h

/-- The loop over the listeners is decided by the first listener at the
address and port of the Location. -/
theorem need_rewrite_listeners_find (ls : List LISTENER) (a : SOCKADDR) (proto : CString) :
    need_rewrite_listeners ls a proto =
      match ls.find? (listener_at a) with
      | none => 0
      | some l => if scheme_of_listener proto l then 0 else if l.ctx = true then 3 else 2 := by
  induction ls with
  | nil => rfl
  | cons l rest ih =>
    unfold need_rewrite_listeners
    rw [List.find?_cons]
    by_cases hf : a.family ≠ l.addr.family
    · rw [if_pos hf]
      have : listener_at a l = false := by
        unfold listener_at
        simp only [decide_eq_false_iff_not]
        intro h
        exact hf h.1.symm
      rw [this]
      exact ih
    · rw [if_neg hf]
      have hf2 : l.addr.family = a.family := by
        by_contra hne
        exact hf (fun h => hne h.symm)
      by_cases hap : l.addr.addr = a.addr ∧ l.addr.port = a.port
      · rw [if_pos hap]
        have : listener_at a l = true := by
          unfold listener_at
          simp only [decide_eq_true_eq]
          exact ⟨hf2, hap⟩
        rw [this]
        simp only
        have hs : (strcasecmp_eq proto (listener_scheme l) = true) ↔ scheme_of_listener proto l := by
          unfold strcasecmp_eq scheme_of_listener listener_scheme
          simp only [decide_eq_true_eq]
          cases l.ctx
          · simp only [Bool.false_eq_true, if_false]
            exact Iff.intro (fun h => h.trans (by decide)) (fun h => h.trans (by decide))
          · simp only [if_true]
            exact Iff.intro (fun h => h.trans (by decide)) (fun h => h.trans (by decide))
        by_cases hsc : scheme_of_listener proto l
        · rw [if_pos (hs.mpr hsc), if_pos hsc]
        · rw [if_neg (fun h => hsc (hs.mp h)), if_neg hsc]
      · rw [if_neg hap]
        have : listener_at a l = false := by
          unfold listener_at
          simp only [decide_eq_false_iff_not]
          intro h
          exact hap h.2
        rw [this]
        exact ih

theorem need_rewrite_listeners_range (ls : List LISTENER) (a : SOCKADDR) (proto : CString) :
    need_rewrite_listeners ls a proto = 0 ∨ need_rewrite_listeners ls a proto = 2 ∨
      need_rewrite_listeners ls a proto = 3 := by
  induction ls with
  | nil => exact Or.inl rfl
  | cons l rest ih =>
    unfold need_rewrite_listeners
    split
    · exact ih
    · split
      · split
        · exact Or.inl rfl
        · split
          · exact Or.inr (Or.inr rfl)
          · exact Or.inr (Or.inl rfl)
      · exact ih

/-- The result of `need_rewrite` is one of 0, 1, 2 and 3. -/
theorem need_rewrite_range (LOCATION : regex_t) (getaddrinfo : RESOLVER)
    (listeners : List LISTENER) (rewr_loc : Int) (location : CString) (lstn : LISTENER)
    (be : BACKEND) (svc : SERVICE) (v_host : Option CString) :
    need_rewrite LOCATION getaddrinfo listeners rewr_loc location lstn be svc v_host = 0 ∨
    need_rewrite LOCATION getaddrinfo listeners rewr_loc location lstn be svc v_host = 1 ∨
    need_rewrite LOCATION getaddrinfo listeners rewr_loc location lstn be svc v_host = 2 ∨
    need_rewrite LOCATION getaddrinfo listeners rewr_loc location lstn be svc v_host = 3 := by
  unfold need_rewrite
  split
  · exact Or.inl rfl
  · split
    · exact Or.inl rfl
    · split
      · exact Or.inl rfl
      · simp only
        split
        · split
          · exact Or.inr (Or.inl rfl)
          · exact Or.inl rfl
        · split
          · exact Or.inl rfl
          · split
            · exact Or.inr (Or.inl rfl)
            · split
              · exact Or.inl rfl
              · split
                · split
                  · exact Or.inr (Or.inl rfl)
                  · exact Or.inl rfl
                · split
                  · rcases need_rewrite_listeners_range _ _ _ with h | h | h
                    · exact Or.inl h
                    · exact Or.inr (Or.inr (Or.inl h))
                    · exact Or.inr (Or.inr (Or.inr h))
                  · exact Or.inl rfl

/-- The run of `need_rewrite` up to the comparison with the back-end, for a
Location that parses and resolves to the family of the back-end. -/
theorem need_rewrite_resolved (LOCATION : regex_t) (getaddrinfo : RESOLVER)
    (listeners : List LISTENER) (rewr_loc : Int) (location : CString) (lstn : LISTENER)
    (be : BACKEND) (svc : SERVICE) (v_host : Option CString) (ms : List regmatch_t)
    (a : SOCKADDR) (n : Nat)
    (hmode : rewr_loc ≠ 0)
    (hbe : be.addr.family = AF.AF_INET ∨ be.addr.family = AF.AF_INET6)
    (hms : LOCATION location = some ms)
    (hres : get_host getaddrinfo (split_location location ms).host = some a)
    (hfam : a.family = be.addr.family)
    (hport : url_port (split_location location ms).proto (split_location location ms).port
      = some n)
    (hn : n < 65536) :
    need_rewrite LOCATION getaddrinfo listeners rewr_loc location lstn be svc v_host =
      if be.addr.addr = a.addr ∧ be.addr.port = n then 1
      else if rewr_loc ≠ 1 then 0
      else if svc.global = 0 ∧ a.family = lstn.addr.family then
        if lstn.addr.addr = a.addr ∧
            (lstn.addr.port ≠ n ∨
              strcasecmp_eq (split_location location ms).proto (listener_scheme lstn) = false)
        then 1 else 0
      else if svc.global ≠ 0 then
        need_rewrite_listeners listeners { a with port := n } (split_location location ms).proto
      else 0 := by
  unfold need_rewrite
  rw [if_neg hmode]
  have hb : ¬ (be.addr.family ≠ AF.AF_INET ∧ be.addr.family ≠ AF.AF_INET6) := by
    rcases hbe with h | h
    · exact fun hh => hh.1 h
    · exact fun hh => hh.2 h
  rw [if_neg hb]
  simp only [hms, hres]
  rw [if_neg (fun h => h hfam), location_port_eq _ _ n hport hn]


theorem set_append_cons (X Y : List Int) (y v : Int) :
    (X ++ y :: Y).set X.length v = X ++ v :: Y := by
  induction X with
  | nil => rfl
  | cons x X ih => simp only [List.cons_append, List.length_cons, List.set_cons_succ, ih]

theorem str_at_append (X W Y : List Int) (hW : ∀ ch ∈ W, ch ≠ 0) :
    str_at (X ++ (W ++ 0 :: Y)) X.length = W := by
  unfold str_at
  rw [List.drop_left]
  induction W with
  | nil => simp
  | cons w W ih =>
    have hw : w ≠ 0 := hW w (List.mem_cons_self _ _)
    simp only [List.cons_append, List.takeWhile_cons, hw, ne_eq, not_false_eq_true,
      decide_True, if_true, List.cons.injEq, true_and]
    exact ih (fun ch hch => hW ch (List.mem_cons_of_mem _ hch))

theorem split_at_colon (H : List Int) (h : (58 : Int) ∈ H) :
    H = H.takeWhile (fun ch => ch ≠ 58) ++ 58 :: (H.dropWhile (fun ch => ch ≠ 58)).drop 1 ∧
    H.indexOf 58 = (H.takeWhile (fun ch => ch ≠ 58)).length := by
  induction H with
  | nil => cases h
  | cons x H ih =>
    by_cases hx : x = 58
    · subst hx
      simp
    · have hm : (58 : Int) ∈ H := by
        rcases List.mem_cons.mp h with h1 | h1
        · exact absurd h1.symm hx
        · exact h1
      obtain ⟨h1, h2⟩ := ih hm
      constructor
      · simp only [List.takeWhile_cons, List.dropWhile_cons, hx, ne_eq, not_false_eq_true,
          decide_True, if_true, List.cons_append, List.cons.injEq, true_and]
        exact h1
      · simp only [List.takeWhile_cons, hx, ne_eq, not_false_eq_true, decide_True, if_true,
          List.length_cons]
        rw [List.indexOf_cons_ne _ hx, h2]


/-- What the splitting of the Location yields: when group 1 of the match
delimits `P` and group 2 delimits `H` further on, and neither holds a NUL,
the scheme is `P`, the host is `H` up to its first colon, and the port is
what follows that colon. -/
theorem split_location_spec (A P B H C : List Int) (b : Int) (ms : List regmatch_t)
    (hP : ∀ ch ∈ P, ch ≠ 0) (hH : ∀ ch ∈ H, ch ≠ 0)
    (h1so : (rm ms 1).rm_so = A.length)
    (h1eo : (rm ms 1).rm_eo = A.length + P.length)
    (h2so : (rm ms 2).rm_so = A.length + P.length + 1 + B.length)
    (h2eo : (rm ms 2).rm_eo = A.length + P.length + 1 + B.length + H.length) :
    split_location (A ++ P ++ b :: B ++ H ++ C) ms =
      { proto := P
        host := H.takeWhile (fun ch => ch ≠ 58)
        port := if (58 : Int) ∈ H then some ((H.dropWhile (fun ch => ch ≠ 58)).drop 1)
          else none } := by
  obtain ⟨c, C2, hC⟩ : ∃ c C2, C ++ [0] = c :: C2 := by
    cases C with
    | nil => exact ⟨0, [], rfl⟩
    | cons c C2 => exact ⟨c, C2 ++ [0], List.cons_append _ _ _⟩
  have e1 : (rm ms 1).rm_eo.toNat = (A ++ P).length := by
    rw [h1eo, List.length_append]; omega
  have e2 : (rm ms 2).rm_eo.toNat = (A ++ P ++ b :: B ++ H).length := by
    rw [h2eo]; simp only [List.length_append, List.length_cons]; omega
  have s1 : (rm ms 1).rm_so.toNat = A.length := by
    rw [h1so]; omega
  have s2 : (rm ms 2).rm_so.toNat = (A ++ P ++ 0 :: B).length := by
    rw [h2so]; simp only [List.length_append, List.length_cons]; omega
  have hbuf1 : ((A ++ P ++ b :: B ++ H ++ C ++ [0]).set (rm ms 2).rm_eo.toNat 0).set
      (rm ms 1).rm_eo.toNat 0 = A ++ P ++ 0 :: B ++ H ++ 0 :: C2 := by
    rw [List.append_assoc _ C, hC, e2, set_append_cons, e1]
    have : A ++ P ++ b :: B ++ H ++ 0 :: C2 = (A ++ P) ++ b :: (B ++ H ++ 0 :: C2) := by
      simp only [List.append_assoc, List.cons_append]
    rw [this, set_append_cons]
    simp only [List.append_assoc, List.cons_append]
  have hstr : str_at (A ++ P ++ 0 :: B ++ H ++ 0 :: C2) (A ++ P ++ 0 :: B).length = H := by
    have : A ++ P ++ 0 :: B ++ H ++ 0 :: C2 = (A ++ P ++ 0 :: B) ++ (H ++ 0 :: C2) := by
      simp only [List.append_assoc, List.cons_append]
    rw [this]
    exact str_at_append _ _ _ hH
  unfold split_location
  simp only
  rw [hbuf1, s1, s2]
  unfold strchr_at
  rw [hstr]
  by_cases hc : (58 : Int) ∈ H
  · rw [if_pos hc, if_pos hc]
    obtain ⟨hsplit, hidx⟩ := split_at_colon H hc
    generalize hH1 : H.takeWhile (fun ch => ch ≠ 58) = H1 at hsplit hidx
    generalize hH2 : (H.dropWhile (fun ch => ch ≠ 58)).drop 1 = H2 at hsplit
    have hH1z : ∀ ch ∈ H1, ch ≠ 0 := by
      intro ch hch
      apply hH
      rw [hsplit]
      exact List.mem_append_left _ hch
    have hH2z : ∀ ch ∈ H2, ch ≠ 0 := by
      intro ch hch
      apply hH
      rw [hsplit]
      exact List.mem_append_right _ (List.mem_cons_of_mem _ hch)
    simp only [Option.map_some']
    rw [hidx]
    have hk : (A ++ P ++ 0 :: B).length + H1.length = (A ++ P ++ 0 :: B ++ H1).length := by
      simp only [List.length_append]
    have hbuf2 : (A ++ P ++ 0 :: B ++ H ++ 0 :: C2).set
        ((A ++ P ++ 0 :: B).length + H1.length) 0 =
        A ++ P ++ 0 :: B ++ H1 ++ 0 :: (H2 ++ 0 :: C2) := by
      rw [hk]
      have : A ++ P ++ 0 :: B ++ H ++ 0 :: C2 =
          (A ++ P ++ 0 :: B ++ H1) ++ 58 :: (H2 ++ 0 :: C2) := by
        rw [hsplit]
        simp only [List.append_assoc, List.cons_append]
      rw [this, set_append_cons]
    rw [hbuf2]
    have p1 : str_at (A ++ P ++ 0 :: B ++ H1 ++ 0 :: (H2 ++ 0 :: C2)) A.length = P := by
      have : A ++ P ++ 0 :: B ++ H1 ++ 0 :: (H2 ++ 0 :: C2) =
          A ++ (P ++ 0 :: (B ++ H1 ++ 0 :: (H2 ++ 0 :: C2))) := by
        simp only [List.append_assoc, List.cons_append]
      rw [this]
      exact str_at_append _ _ _ hP
    have p2 : str_at (A ++ P ++ 0 :: B ++ H1 ++ 0 :: (H2 ++ 0 :: C2))
        (A ++ P ++ 0 :: B).length = H1 := by
      have : A ++ P ++ 0 :: B ++ H1 ++ 0 :: (H2 ++ 0 :: C2) =
          (A ++ P ++ 0 :: B) ++ (H1 ++ 0 :: (H2 ++ 0 :: C2)) := by
        simp only [List.append_assoc, List.cons_append]
      rw [this]
      exact str_at_append _ _ _ hH1z
    have p3 : str_at (A ++ P ++ 0 :: B ++ H1 ++ 0 :: (H2 ++ 0 :: C2))
        ((A ++ P ++ 0 :: B).length + H1.length + 1) = H2 := by
      have : A ++ P ++ 0 :: B ++ H1 ++ 0 :: (H2 ++ 0 :: C2) =
          (A ++ P ++ 0 :: B ++ H1 ++ [0]) ++ (H2 ++ 0 :: C2) := by
        simp only [List.append_assoc, List.cons_append, List.nil_append]
      rw [this]
      have hl : (A ++ P ++ 0 :: B).length + H1.length + 1 =
          (A ++ P ++ 0 :: B ++ H1 ++ [0]).length := by
        simp only [List.length_append, List.length_cons, List.length_nil]
      rw [hl]
      exact str_at_append _ _ _ hH2z
    rw [p1, p2, p3]
  · rw [if_neg hc, if_neg hc]
    simp only [Option.map_none']
    have p1 : str_at (A ++ P ++ 0 :: B ++ H ++ 0 :: C2) A.length = P := by
      have : A ++ P ++ 0 :: B ++ H ++ 0 :: C2 = A ++ (P ++ 0 :: (B ++ H ++ 0 :: C2)) := by
        simp only [List.append_assoc, List.cons_append]
      rw [this]
      exact str_at_append _ _ _ hP
    rw [p1, hstr]
    have : H.takeWhile (fun ch => ch ≠ 58) = H := by
      rw [List.takeWhile_eq_self_iff]
      intro ch hch
      simp only [ne_eq, decide_eq_true_eq]
      exact fun h => hc (h ▸ hch)
    rw [this]

/-- C24: `need_rewrite` returns 0 when the rewrite mode is 0, whatever the
other arguments.  In every other mode and for a back-end of family INET or
INET6: when the Location value matches `LOCATION`, its host resolves to the
address family and the address of the back-end, and its port (80 for http
and 443 for https when none is given) is the port of the back-end,
`need_rewrite` returns 1. -/
theorem need_rewrite_backend (LOCATION : regex_t) (getaddrinfo : RESOLVER)
    (listeners : List LISTENER) (rewr_loc : Int) (location : CString) (lstn : LISTENER)
    (be : BACKEND) (svc : SERVICE) (v_host : Option CString) (ms : List regmatch_t)
    (a : SOCKADDR)
    (hmode : rewr_loc ≠ 0)
    (hbe : be.addr.family = AF.AF_INET ∨ be.addr.family = AF.AF_INET6)
    (hport16 : be.addr.port < 65536)
    (hms : LOCATION location = some ms)
    (hres : get_host getaddrinfo (split_location location ms).host = some a)
    (hfam : a.family = be.addr.family)
    (haddr : a.addr = be.addr.addr)
    (hport : url_port (split_location location ms).proto (split_location location ms).port
      = some be.addr.port) :
    (∀ (L : regex_t) (g : RESOLVER) (ls : List LISTENER) (loc : CString) (l : LISTENER)
      (b : BACKEND) (s : SERVICE) (v : Option CString),
      need_rewrite L g ls 0 loc l b s v = 0) ∧
    need_rewrite LOCATION getaddrinfo listeners rewr_loc location lstn be svc v_host = 1 := by
  constructor
  · intro L g ls loc l b s v
    unfold need_rewrite
    rw [if_pos rfl]
  · rw [need_rewrite_resolved LOCATION getaddrinfo listeners rewr_loc location lstn be svc
      v_host ms a be.addr.port hmode hbe hms hres hfam hport hport16]
    rw [if_pos ⟨haddr.symm, rfl⟩]

/-- The scenario of C24: listener at 10.0.0.1:80, back-end at 10.0.0.9:8080,
the Location value "http://10.0.0.9:8080/x"; the result is 1 in mode 1 and
in mode 2. -/
theorem need_rewrite_backend_witness :
    need_rewrite example_LOCATION example_getaddrinfo [example_listener_http] 1
      example_location_be example_listener_http example_rewrite_be {} none = 1 ∧
    need_rewrite example_LOCATION example_getaddrinfo [example_listener_http] 2
      example_location_be example_listener_http example_rewrite_be {} none = 1 :=
  ⟨(need_rewrite_backend example_LOCATION example_getaddrinfo [example_listener_http] 1
      example_location_be example_listener_http example_rewrite_be {} none
      [⟨0, 22⟩, ⟨0, 4⟩, ⟨7, 20⟩, ⟨20, 22⟩] ⟨AF.AF_INET, [10, 0, 0, 9], 0⟩
      (by decide) (by decide) (by decide) (by decide) (by decide) (by decide) (by decide)
      (by decide)).2,
   (need_rewrite_backend example_LOCATION example_getaddrinfo [example_listener_http] 2
      example_location_be example_listener_http example_rewrite_be {} none
      [⟨0, 22⟩, ⟨0, 4⟩, ⟨7, 20⟩, ⟨20, 22⟩] ⟨AF.AF_INET, [10, 0, 0, 9], 0⟩
      (by decide) (by decide) (by decide) (by decide) (by decide) (by decide) (by decide)
      (by decide)).2⟩

/-- C25: with `rewr_loc = 1`, a global service and a Location that resolves
to the address family of the back-end (INET or INET6) but does not point at
the back-end, the result of `need_rewrite` is decided by the first listener
of the list `listeners` that has the family, the address and the port of
the Location: 0 when the scheme of the Location is that listener's (https
when it has a TLS context, http when not), else 3 for a TLS listener and 2
for a plain one; 0 when no listener is at that address.  The result of
`need_rewrite` is always one of 0, 1, 2, 3. -/
theorem need_rewrite_global (LOCATION : regex_t) (getaddrinfo : RESOLVER)
    (listeners : List LISTENER) (location : CString) (lstn : LISTENER)
    (be : BACKEND) (svc : SERVICE) (v_host : Option CString) (ms : List regmatch_t)
    (a : SOCKADDR) (n : Nat)
    (hglobal : svc.global ≠ 0)
    (hbe : be.addr.family = AF.AF_INET ∨ be.addr.family = AF.AF_INET6)
    (hms : LOCATION location = some ms)
    (hres : get_host getaddrinfo (split_location location ms).host = some a)
    (hfam : a.family = be.addr.family)
    (hport : url_port (split_location location ms).proto (split_location location ms).port
      = some n)
    (hn : n < 65536)
    (hnot : ¬ (a.addr = be.addr.addr ∧ n = be.addr.port)) :
    need_rewrite LOCATION getaddrinfo listeners 1 location lstn be svc v_host =
      (match listeners.find? (listener_at { a with port := n }) with
        | none => 0
        | some l =>
          if scheme_of_listener (split_location location ms).proto l then 0
          else if l.ctx = true then 3 else 2) ∧
    (∀ (L : regex_t) (g : RESOLVER) (ls : List LISTENER) (m : Int) (loc : CString)
      (l : LISTENER) (b : BACKEND) (s : SERVICE) (v : Option CString),
      need_rewrite L g ls m loc l b s v = 0 ∨ need_rewrite L g ls m loc l b s v = 1 ∨
      need_rewrite L g ls m loc l b s v = 2 ∨ need_rewrite L g ls m loc l b s v = 3) := by
  constructor
  · rw [need_rewrite_resolved LOCATION getaddrinfo listeners 1 location lstn be svc
      v_host ms a n (by decide) hbe hms hres hfam hport hn]
    rw [if_neg (fun h => hnot ⟨h.1.symm, h.2.symm⟩), if_neg (fun h => h rfl),
      if_neg (fun h => hglobal h.1), if_pos hglobal]
    exact need_rewrite_listeners_find _ _ _
  · intro L g ls m loc l b s v
    exact need_rewrite_range L g ls m loc l b s v

/-- The plain listener at 10.0.0.1:80 and the TLS listener at 10.0.0.1:443,
a back-end at 10.0.0.9:8080 and a global service: for the Location value
"http://10.0.0.1:443/x" the first listener at that address and port is the
TLS one, the scheme differs, and the result is 3. -/
theorem need_rewrite_global_witness :
    need_rewrite example_LOCATION example_getaddrinfo
      [example_listener_http, example_listener_https] 1 example_location_http443
      example_listener_http example_rewrite_be example_global_svc none = 3 :=
  (need_rewrite_global example_LOCATION example_getaddrinfo
    [example_listener_http, example_listener_https] example_location_http443
    example_listener_http example_rewrite_be example_global_svc none
    [⟨0, 21⟩, ⟨0, 4⟩, ⟨7, 19⟩, ⟨19, 21⟩] ⟨AF.AF_INET, [10, 0, 0, 1], 0⟩ 443
    (by decide) (by decide) (by decide) (by decide) (by decide) (by decide) (by decide)
    (by decide)).1.trans (by decide)

/-- C26: with the plain listener at 10.0.0.1:80 and the TLS listener at
10.0.0.1:443, the back-end at 10.0.0.9:8080, a global service and
`rewr_loc = 1`, `need_rewrite` applied to the value "https://10.0.0.1:80/x"
returns 2 (rewrite to http): the listener at the address and port of the
Location is the plain one.  This holds for every resolver that gives
10.0.0.1 as the INET address of the host "10.0.0.1", for every listener the
request came in on and every Host value. -/
theorem need_rewrite_two_listeners (getaddrinfo : RESOLVER) (lstn : LISTENER)
    (svc : SERVICE) (v_host : Option CString) (a : SOCKADDR)
    (hglobal : svc.global ≠ 0)
    (hres : get_host getaddrinfo example_host_1 = some a)
    (hfam : a.family = AF.AF_INET)
    (haddr : a.addr = [10, 0, 0, 1]) :
    need_rewrite example_LOCATION getaddrinfo [example_listener_http, example_listener_https]
      1 example_location_https80 lstn example_rewrite_be svc v_host = 2 := by
  have hms : example_LOCATION example_location_https80 =
      some [⟨0, 21⟩, ⟨0, 5⟩, ⟨8, 19⟩, ⟨19, 21⟩] := by decide
  have hsplit : split_location example_location_https80
      [⟨0, 21⟩, ⟨0, 5⟩, ⟨8, 19⟩, ⟨19, 21⟩] = ⟨str_https, example_host_1, some [56, 48]⟩ := by
    decide
  rw [need_rewrite_resolved example_LOCATION getaddrinfo _ 1 example_location_https80 lstn
    example_rewrite_be svc v_host _ a 80 (by decide) (by decide) hms
    (by rw [hsplit]; exact hres) (by rw [hfam]; decide) (by rw [hsplit]; decide) (by decide)]
  have hne : ¬ (example_rewrite_be.addr.addr = a.addr ∧ example_rewrite_be.addr.port = 80) := by
    rw [haddr]
    decide
  rw [if_neg hne, if_neg (fun h => h rfl), if_neg (fun h => hglobal h.1), if_pos hglobal,
    hsplit]
  have ha : ({ a with port := 80 } : SOCKADDR) = ⟨AF.AF_INET, [10, 0, 0, 1], 80⟩ := by
    rw [← hfam, ← haddr]
  rw [ha]
  decide

/-- The scenario of C26 with the resolver `example_getaddrinfo`, the request
having come in on the plain listener. -/
theorem need_rewrite_two_listeners_witness :
    need_rewrite example_LOCATION example_getaddrinfo
      [example_listener_http, example_listener_https] 1 example_location_https80
      example_listener_http example_rewrite_be example_global_svc none = 2 :=
  need_rewrite_two_listeners example_getaddrinfo example_listener_http example_global_svc
    none ⟨AF.AF_INET, [10, 0, 0, 1], 0⟩ (by decide) (by decide) rfl rfl

/-- Claim C26 fails as stated: with listeners at 10.0.0.1:80 (plain) and
10.0.0.1:443 (TLS), the back-end at 10.0.0.9:8080, a global service and
`rewr_loc = 1`, the value "https://10.0.0.1:80/x" splits into the scheme
https, the host 10.0.0.1 and the port 80; the first listener at 10.0.0.1:80
is the plain one, and `need_rewrite` returns 2, not 3, whichever of the two
listeners the request came in on. -/
theorem need_rewrite_two_listeners_counterexample :
    example_global_svc.global ≠ 0 ∧
    ([example_listener_http, example_listener_https].find?
      (listener_at ⟨AF.AF_INET, [10, 0, 0, 1], 80⟩)).map (fun l => l.ctx) = some false ∧
    need_rewrite example_LOCATION example_getaddrinfo
      [example_listener_http, example_listener_https] 1 example_location_https80
      example_listener_http example_rewrite_be example_global_svc none ≠ 3 ∧
    need_rewrite example_LOCATION example_getaddrinfo
      [example_listener_http, example_listener_https] 1 example_location_https80
      example_listener_https example_rewrite_be example_global_svc none ≠ 3 := by
  refine ⟨by decide, by decide, by decide, by decide⟩

/-! ## The back-end of a session, the emergency back-end included: proofs -/

theorem sessions_owned_map (bes : List BACKEND) (em : Option BACKEND) (tab : List TABNODE)
    (f : TABNODE → TABNODE) (hb : ∀ t, (f t).content.be = t.content.be)
    (h : sessions_owned bes em tab) : sessions_owned bes em (tab.map f) := by
  intro t ht
  rw [List.mem_map] at ht
  obtain ⟨u, hu, rfl⟩ := ht
  rw [hb u]
  exact h u hu

theorem sessions_owned_filter (bes : List BACKEND) (em : Option BACKEND) (tab : List TABNODE)
    (p : TABNODE → Bool) (h : sessions_owned bes em tab) :
    sessions_owned bes em (tab.filter p) :=
  fun t ht => h t (List.mem_filter.1 ht).1

theorem sessions_owned_t_add (bes : List BACKEND) (em : Option BACKEND) (tab : List TABNODE)
    (key : CString) (content : SESSION) (now : Int)
    (hbe : be_of_service bes em content.be) (h : sessions_owned bes em tab) :
    sessions_owned bes em (t_add tab key content now) := by
  intro t ht
  unfold t_add at ht
  rw [List.mem_cons] at ht
  cases ht with
  | inl h0 =>
    subst h0
    exact hbe
  | inr h1 => exact h t (List.mem_filter.1 h1).1

theorem be_of_service_length (bes bes2 : List BACKEND) (em : Option BACKEND)
    (p : Option BE_PTR) (hlen : bes2.length = bes.length) (h : be_of_service bes em p) :
    be_of_service bes2 em p := by
  rcases h with ⟨i, hbe, hi⟩ | h
  · exact Or.inl ⟨i, hbe, by omega⟩
  · exact Or.inr h

theorem sessions_owned_length (bes bes2 : List BACKEND) (em : Option BACKEND)
    (tab : List TABNODE) (hlen : bes2.length = bes.length) (h : sessions_owned bes em tab) :
    sessions_owned bes2 em tab :=
  fun t ht => be_of_service_length bes bes2 em _ hlen (h t ht)

theorem sessions_owned_of_filter (bes bes2 : List BACKEND) (em : Option BACKEND)
    (tab tab2 : List TABNODE) (hlen : bes2.length = bes.length)
    (hq : ∃ q : CString → Bool, tab2 = tab.filter (fun u => q u.key))
    (h : sessions_owned bes em tab) :
    sessions_owned bes2 em tab2 ∧ be_unchanged tab tab2 := by
  obtain ⟨q, rfl⟩ := hq
  exact ⟨sessions_owned_length _ _ _ _ hlen (sessions_owned_filter _ _ _ _ h),
    be_unchanged_filter _ _ q (be_unchanged_refl _)⟩

theorem emergency_ptr_owned (svc : SERVICE) :
    emergency_ptr svc = none ∨
      be_of_service svc.backends svc.emergency (emergency_ptr svc) := by
  unfold emergency_ptr
  cases he : svc.emergency with
  | none => exact Or.inl rfl
  | some b => exact Or.inr (Or.inr ⟨rfl, by simp⟩)

theorem t_lookup_mem (tab : List TABNODE) (key : CString) (node : TABNODE)
    (h : t_lookup tab key = some node) : node ∈ tab := by
  unfold t_lookup at h
  exact List.mem_of_find?_eq_some h

/-- The branch of `get_backend` with a key: the table stays bound to back-ends
of the service, and the back-end returned is null or one of them. -/
theorem keyed_backend_owned (c : CONSTS) (svc : SERVICE) (headers : List (Option CString))
    (key : CString) (rnd : Nat) (now : Int) (ip : Bool)
    (hinv : svc.tot_pri = sum_avail svc.backends)
    (h : sessions_owned svc.backends svc.emergency svc.sessions) :
    sessions_owned svc.backends svc.emergency
      (keyed_backend c svc headers key rnd now ip).svc.sessions ∧
    (keyed_backend c svc headers key rnd now ip).svc.backends = svc.backends ∧
    (keyed_backend c svc headers key rnd now ip).svc.emergency = svc.emergency ∧
    ((keyed_backend c svc headers key rnd now ip).res = none ∨
      be_of_service svc.backends svc.emergency
        (keyed_backend c svc headers key rnd now ip).res) := by
  by_cases httl : svc.sess_ttl < 0
  · rw [keyed_backend_hash c svc headers key rnd now ip httl]
    refine ⟨h, rfl, rfl, ?_⟩
    simp only
    split
    · exact emergency_ptr_owned svc
    · cases hh : hash_backend c.ULONG_BITS svc.backends svc.abs_pri key with
      | none => exact Or.inl rfl
      | some i =>
        obtain ⟨b, hb, -⟩ := hash_backend_result _ _ _ _ i hh
        exact Or.inr (Or.inl ⟨i, rfl, (List.getElem?_eq_some.1 hb).1⟩)
  · have httl0 : 0 ≤ svc.sess_ttl := by omega
    cases hl : t_lookup svc.sessions key with
    | none =>
      rw [keyed_backend_miss c svc headers key rnd now ip httl0 hl]
      split
      · exact ⟨h, rfl, rfl, emergency_ptr_owned svc⟩
      · rename_i hpos
        obtain ⟨i, x, hpick, hx, -⟩ := bekey_pick_alive c svc headers rnd hinv (by omega)
        have hi : i < svc.backends.length := (List.getElem?_eq_some.1 hx).1
        refine ⟨?_, rfl, rfl, Or.inr (Or.inl ⟨i, hpick, hi⟩)⟩
        exact sessions_owned_t_add _ _ _ _ _ _ (Or.inl ⟨i, hpick, hi⟩) h
    | some node =>
      rw [keyed_backend_hit c svc headers key rnd now ip httl0 node hl]
      have htouch : sessions_owned svc.backends svc.emergency
          (t_touch svc.sessions key now) :=
        sessions_owned_map _ _ _ _ (by intro t; split <;> rfl) h
      refine ⟨?_, rfl, rfl, Or.inr (h node (t_lookup_mem _ _ _ hl))⟩
      cases ip
      · exact htouch
      · exact sessions_owned_map _ _ _ _ (by intro t; split <;> rfl) htouch

theorem free_pick_owned (c : CONSTS) (svc : SERVICE) (headers : List (Option CString))
    (rnd : Nat) (hinv : svc.tot_pri = sum_avail svc.backends) :
    ((if svc.tot_pri ≤ 0 then emergency_ptr svc else bekey_pick c svc headers rnd) = none ∨
      be_of_service svc.backends svc.emergency
        (if svc.tot_pri ≤ 0 then emergency_ptr svc else bekey_pick c svc headers rnd)) ∧
    ((if svc.tot_pri ≤ 0 then emergency_ptr svc else rand_pick svc rnd) = none ∨
      be_of_service svc.backends svc.emergency
        (if svc.tot_pri ≤ 0 then emergency_ptr svc else rand_pick svc rnd)) := by
  by_cases hpos : svc.tot_pri ≤ 0
  · rw [if_pos hpos, if_pos hpos]
    exact ⟨emergency_ptr_owned svc, emergency_ptr_owned svc⟩
  · rw [if_neg hpos, if_neg hpos]
    obtain ⟨i, x, hpick, hx, -⟩ := bekey_pick_alive c svc headers rnd hinv (by omega)
    obtain ⟨j, y, hpick2, hy, -⟩ := rand_pick_alive svc rnd hinv (by omega)
    exact ⟨Or.inr (Or.inl ⟨i, hpick, (List.getElem?_eq_some.1 hx).1⟩),
      Or.inr (Or.inl ⟨j, hpick2, (List.getElem?_eq_some.1 hy).1⟩)⟩

theorem get_backend_switch_owned (c : CONSTS) (svc : SERVICE) (from_host request : CString)
    (headers : List (Option CString)) (rnd : Nat) (now : Int)
    (hinv : svc.tot_pri = sum_avail svc.backends)
    (h : sessions_owned svc.backends svc.emergency svc.sessions) :
    sessions_owned svc.backends svc.emergency
      (get_backend_switch c svc from_host request headers rnd now).svc.sessions ∧
    (get_backend_switch c svc from_host request headers rnd now).svc.backends =
      svc.backends ∧
    (get_backend_switch c svc from_host request headers rnd now).svc.emergency =
      svc.emergency ∧
    ((get_backend_switch c svc from_host request headers rnd now).res = none ∨
      be_of_service svc.backends svc.emergency
        (get_backend_switch c svc from_host request headers rnd now).res) := by
  have hfree := free_pick_owned c svc headers rnd hinv
  cases hst : svc.sess_type <;> simp only [get_backend_switch, hst]
  case SESS_NONE => exact ⟨h, trivial, trivial, hfree.1⟩
  case SESS_IP => exact keyed_backend_owned c svc headers _ rnd now true hinv h
  case SESS_URL =>
    split
    · exact keyed_backend_owned c svc headers _ rnd now false hinv h
    · exact ⟨h, rfl, rfl, hfree.2⟩
  case SESS_PARM =>
    split
    · exact keyed_backend_owned c svc headers _ rnd now false hinv h
    · exact ⟨h, rfl, rfl, hfree.2⟩
  all_goals
    split
    · exact keyed_backend_owned c svc headers _ rnd now false hinv h
    · exact ⟨h, rfl, rfl, hfree.1⟩

theorem get_backend_owned (c : CONSTS) (svc : SERVICE) (from_host request : CString)
    (headers : List (Option CString)) (u_name : CString) (rnd : Nat) (now : Int)
    (hinv : svc.tot_pri = sum_avail svc.backends)
    (h : sessions_owned svc.backends svc.emergency svc.sessions) :
    sessions_owned (get_backend c svc from_host request headers u_name rnd now).svc.backends
      (get_backend c svc from_host request headers u_name rnd now).svc.emergency
      (get_backend c svc from_host request headers u_name rnd now).svc.sessions ∧
    ((get_backend c svc from_host request headers u_name rnd now).res = none ∨
      be_of_service (get_backend c svc from_host request headers u_name rnd now).svc.backends
        (get_backend c svc from_host request headers u_name rnd now).svc.emergency
        (get_backend c svc from_host request headers u_name rnd now).res) := by
  have h1 := get_backend_switch_owned c { svc with requests := svc.requests + 1 }
    from_host request headers rnd now hinv h
  have h0 : ({ svc with requests := svc.requests + 1 } : SERVICE).backends = svc.backends := rfl
  have h0e : ({ svc with requests := svc.requests + 1 } : SERVICE).emergency =
      svc.emergency := rfl
  rw [h0, h0e] at h1
  obtain ⟨ha, hb, he, hres⟩ := h1
  rw [(get_backend_hits c svc from_host request headers u_name rnd now).2]
  have hbe : (get_backend c svc from_host request headers u_name rnd now).svc.backends =
      svc.backends := by
    unfold get_backend
    simp only
    split
    · exact hb
    · exact hb
  have hem : (get_backend c svc from_host request headers u_name rnd now).svc.emergency =
      svc.emergency := by
    unfold get_backend
    simp only
    split
    · exact he
    · exact he
  rw [hbe, hem]
  refine ⟨?_, hres⟩
  unfold get_backend
  simp only
  split
  · simp only
    exact sessions_owned_map _ _ _ _ (by intro t; split <;> rfl) ha
  · exact ha

theorem ctrl_add_sess_owned (svc : SERVICE) (backend : Int) (key : CString) (now : Int)
    (h : sessions_owned svc.backends svc.emergency svc.sessions) :
    sessions_owned (ctrl_add_sess svc backend key now).backends
      (ctrl_add_sess svc backend key now).emergency
      (ctrl_add_sess svc backend key now).sessions := by
  unfold ctrl_add_sess
  cases hs : sel_be_loop backend 0 svc.backends with
  | none => exact h
  | some i =>
    exact sessions_owned_t_add _ _ _ _ _ _
      (Or.inl ⟨i, rfl, sel_be_loop_lt backend 0 _ i hs⟩) h

theorem upd_session_table_owned (c : CONSTS) (svc : SERVICE) (from_host request : CString)
    (resp_headers : List (Option CString)) (u_name : CString) (be : Option BE_PTR)
    (sess : Option CString) (now : Int)
    (hbe : be_of_service svc.backends svc.emergency be)
    (h : sessions_owned svc.backends svc.emergency svc.sessions) :
    sessions_owned svc.backends svc.emergency
      (upd_session_table c svc from_host request resp_headers u_name be sess now).svc.sessions ∧
    be_unchanged svc.sessions
      (upd_session_table c svc from_host request resp_headers u_name be sess now).svc.sessions := by
  have hmk : ∀ (k : CString) (t : TABNODE),
      (if t.key = k then
        { t with content := { t.content with delete_pending := t.content.delete_pending + 1 } }
        else t).key = t.key := by
    intro k t
    split <;> rfl
  have hmb : ∀ (k : CString) (t : TABNODE),
      (if t.key = k then
        { t with content := { t.content with delete_pending := t.content.delete_pending + 1 } }
        else t).content.be = t.content.be := by
    intro k t
    split <;> rfl
  unfold upd_session_table
  split
  · rename_i k hk
    split
    · split
      · rename_i key hkey
        simp only [t_remove]
        rw [delete_session_sessions]
        simp only [mark_pending, sess_update]
        exact ⟨sessions_owned_filter _ _ _ _ (sessions_owned_map _ _ _ _ (hmb k) h),
          be_unchanged_map_filter _ _ _ (fun x => decide (x ≠ key)) (hmk k) (hmb k)
            (be_unchanged_refl _)⟩
      · simp only [t_clean_eq, mark_pending, sess_update]
        exact ⟨sessions_owned_map _ _ _ _ (hmb k) h,
          be_unchanged_map _ _ _ (hmk k) (hmb k) (be_unchanged_refl _)⟩
    · simp only [mark_pending, sess_update]
      exact ⟨sessions_owned_map _ _ _ _ (hmb k) h,
        be_unchanged_map _ _ _ (hmk k) (hmb k) (be_unchanged_refl _)⟩
  · split
    · split
      · rename_i x hfind
        have hmiss := t_find_none _ _ _ _ hfind
        simp only
        exact ⟨sessions_owned_t_add _ _ _ _ _ _ hbe h,
          be_unchanged_of_keeps _ _ (keeps_bindings_t_add _ _ _ _ hmiss)⟩
      · rename_i s tab hfind
        have htab := t_find_some _ _ _ _ _ hfind
        simp only
        rw [htab]
        unfold t_touch
        exact ⟨sessions_owned_map _ _ _ _ (by intro t; split <;> rfl) h,
          be_unchanged_map _ _ _ (by intro t; split <;> rfl) (by intro t; split <;> rfl)
            (be_unchanged_refl _)⟩
    · exact ⟨h, be_unchanged_refl _⟩

theorem upd_session_owned (c : CONSTS) (svc : SERVICE) (from_host request : CString)
    (resp_headers : List (Option CString)) (u_name : CString) (be : Option BE_PTR)
    (sess : Option CString) (now : Int)
    (hbe : be_of_service svc.backends svc.emergency be)
    (h : sessions_owned svc.backends svc.emergency svc.sessions) :
    sessions_owned
      (upd_session c svc from_host request resp_headers u_name be sess now).svc.backends
      (upd_session c svc from_host request resp_headers u_name be sess now).svc.emergency
      (upd_session c svc from_host request resp_headers u_name be sess now).svc.sessions ∧
    be_unchanged svc.sessions
      (upd_session c svc from_host request resp_headers u_name be sess now).svc.sessions := by
  have hf := upd_session_fields c svc from_host request resp_headers u_name be sess now
  have hbk : (upd_session c svc from_host request resp_headers u_name be sess now).svc.backends
      = svc.backends := by rw [hf]
  have hem : (upd_session c svc from_host request resp_headers u_name be sess now).svc.emergency
      = svc.emergency := by rw [hf]
  rw [hbk, hem]
  unfold upd_session
  obtain ⟨g, hg, heq⟩ := upd_session_lbinfo_view c svc resp_headers
    (if svc.sess_type = SESS_TYPE.SESS_HEADER ∨ svc.sess_type = SESS_TYPE.SESS_COOKIE then
      upd_session_table c svc from_host request resp_headers u_name be sess now
    else { svc := svc, key := none, sess := sess, end_of_session_forced := 0 })
  rw [heq]
  simp only
  have hgk : ∀ t, (g t).key = t.key := fun t => (table_view_fields t (g t) (hg t)).1
  have hgb : ∀ t, (g t).content.be = t.content.be :=
    fun t => (table_view_fields t (g t) (hg t)).2.2.1
  split
  · obtain ⟨h1, h2⟩ := upd_session_table_owned c svc from_host request resp_headers u_name
      be sess now hbe h
    exact ⟨sessions_owned_map _ _ _ _ hgb h1, be_unchanged_map _ _ _ hgk hgb h2⟩
  · exact ⟨sessions_owned_map _ _ _ _ hgb h,
      be_unchanged_map _ _ _ hgk hgb (be_unchanged_refl _)⟩

theorem kill_be_emergency (svc : SERVICE) (be : Option BE_PTR) (disable_mode : BE_MODE) :
    (kill_be svc be disable_mode).emergency = svc.emergency := by
  unfold kill_be
  simp only
  rw [kill_be_loop_fields]

theorem do_expire_svc_emergency (cur_time : Int) (svc : SERVICE) :
    (do_expire_svc cur_time svc).emergency = svc.emergency := by
  unfold do_expire_svc
  split
  · simp only
    unfold t_expire
    rw [t_expire_fold_fields]
  · rfl

theorem ctrl_del_sess_emergency (svc : SERVICE) (key : CString) :
    (ctrl_del_sess svc key).emergency = svc.emergency := by
  unfold ctrl_del_sess t_remove
  rw [delete_session_fields]

theorem health_emergency (c : CONSTS) (probe : Nat → Bool) (svc : SERVICE) :
    (do_resurect_svc probe svc).emergency = svc.emergency ∧
    (do_rescale_svc c svc).emergency = svc.emergency := by
  constructor
  · unfold do_resurect_svc
    split <;> rfl
  · unfold do_rescale_svc
    split
    · rfl
    · split <;> rfl

theorem example_cookie_em_bound :
    sessions_bound example_cookie_em_svc.backends example_cookie_em_svc.sessions := by
  intro t ht
  simp only [example_cookie_em_svc, example_cookie_svc, List.mem_singleton] at ht
  subst ht
  exact ⟨0, rfl, by decide⟩

theorem example_cookie_em_owned :
    sessions_owned example_cookie_em_svc.backends example_cookie_em_svc.emergency
      example_cookie_em_svc.sessions :=
  fun t ht => Or.inl (example_cookie_em_bound t ht)

/-- Claim C14, as amended: for a service whose `tot_pri` is the sum of the
priorities of its alive, non-disabled back-ends, the property "every session
of the table is bound to a non-null back-end of the service, a member of its
back-end list or its emergency back-end" holds of the empty table and is kept
by every operation on the table: `get_backend`, the control command that adds
a session, `upd_session` when it is given a back-end of the service (the
emergency back-end included), `kill_be`, the expiry sweep, the control command
that deletes a session, and the health and rescaling passes.  The back-end
that `get_backend` returns is null or a back-end of the service, so that the
property is kept when `upd_session` is given the back-end that served the
request.  None of the operations changes the back-end of a session: a key
bound before and after the operation is bound to the same back-end (the
add-session command binds the key it is given to a session it creates and
leaves the other entries alone).  The sessions that `get_backend` and the
add-session command insert are bound to members of the list, and so is the
one that `upd_session` inserts when it is given a member of the list: when
every session is bound to a member of the list before one of them, so it is
afterwards. -/
theorem sessions_owned_invariant (c : CONSTS) (svc : SERVICE)
    (hinv : svc.tot_pri = sum_avail svc.backends)
    (h : sessions_owned svc.backends svc.emergency svc.sessions) :
    sessions_owned svc.backends svc.emergency [] ∧
    (∀ (from_host request : CString) (headers : List (Option CString)) (u_name : CString)
        (rnd : Nat) (now : Int),
      sessions_owned (get_backend c svc from_host request headers u_name rnd now).svc.backends
        (get_backend c svc from_host request headers u_name rnd now).svc.emergency
        (get_backend c svc from_host request headers u_name rnd now).svc.sessions ∧
      be_unchanged svc.sessions
        (get_backend c svc from_host request headers u_name rnd now).svc.sessions ∧
      ((get_backend c svc from_host request headers u_name rnd now).res = none ∨
        be_of_service
          (get_backend c svc from_host request headers u_name rnd now).svc.backends
          (get_backend c svc from_host request headers u_name rnd now).svc.emergency
          (get_backend c svc from_host request headers u_name rnd now).res)) ∧
    (∀ (backend : Int) (key : CString) (now : Int),
      sessions_owned (ctrl_add_sess svc backend key now).backends
        (ctrl_add_sess svc backend key now).emergency
        (ctrl_add_sess svc backend key now).sessions ∧
      ∀ k2 : CString, k2 ≠ key →
        t_lookup (ctrl_add_sess svc backend key now).sessions k2 = t_lookup svc.sessions k2) ∧
    (∀ (from_host request : CString) (resp_headers : List (Option CString))
        (u_name : CString) (be : Option BE_PTR) (sess : Option CString) (now : Int),
      be_of_service svc.backends svc.emergency be →
      sessions_owned
        (upd_session c svc from_host request resp_headers u_name be sess now).svc.backends
        (upd_session c svc from_host request resp_headers u_name be sess now).svc.emergency
        (upd_session c svc from_host request resp_headers u_name be sess now).svc.sessions ∧
      be_unchanged svc.sessions
        (upd_session c svc from_host request resp_headers u_name be sess now).svc.sessions) ∧
    (∀ (be : Option BE_PTR) (disable_mode : BE_MODE),
      sessions_owned (kill_be svc be disable_mode).backends
        (kill_be svc be disable_mode).emergency (kill_be svc be disable_mode).sessions ∧
      be_unchanged svc.sessions (kill_be svc be disable_mode).sessions) ∧
    (∀ cur_time : Int,
      sessions_owned (do_expire_svc cur_time svc).backends
        (do_expire_svc cur_time svc).emergency (do_expire_svc cur_time svc).sessions ∧
      be_unchanged svc.sessions (do_expire_svc cur_time svc).sessions) ∧
    (∀ key : CString,
      sessions_owned (ctrl_del_sess svc key).backends (ctrl_del_sess svc key).emergency
        (ctrl_del_sess svc key).sessions ∧
      be_unchanged svc.sessions (ctrl_del_sess svc key).sessions) ∧
    (∀ probe : Nat → Bool,
      sessions_owned (do_resurect_svc probe svc).backends
        (do_resurect_svc probe svc).emergency (do_resurect_svc probe svc).sessions ∧
      (do_resurect_svc probe svc).sessions = svc.sessions) ∧
    (sessions_owned (do_rescale_svc c svc).backends (do_rescale_svc c svc).emergency
        (do_rescale_svc c svc).sessions ∧
      (do_rescale_svc c svc).sessions = svc.sessions) ∧
    (sessions_bound svc.backends svc.sessions →
      (∀ (from_host request : CString) (headers : List (Option CString)) (u_name : CString)
          (rnd : Nat) (now : Int),
        sessions_bound
          (get_backend c svc from_host request headers u_name rnd now).svc.backends
          (get_backend c svc from_host request headers u_name rnd now).svc.sessions) ∧
      (∀ (backend : Int) (key : CString) (now : Int),
        sessions_bound (ctrl_add_sess svc backend key now).backends
          (ctrl_add_sess svc backend key now).sessions) ∧
      (∀ (from_host request : CString) (resp_headers : List (Option CString))
          (u_name : CString) (sess : Option CString) (now : Int) (i : Nat),
        i < svc.backends.length →
        sessions_bound
          (upd_session c svc from_host request resp_headers u_name (some (BE_PTR.list i)) sess
            now).svc.backends
          (upd_session c svc from_host request resp_headers u_name (some (BE_PTR.list i)) sess
            now).svc.sessions)) := by
  refine ⟨fun t ht => absurd ht (List.not_mem_nil t), ?_, ?_, ?_, ?_, ?_, ?_, ?_, ?_, ?_⟩
  · intro from_host request headers u_name rnd now
    obtain ⟨h1, h2⟩ := get_backend_owned c svc from_host request headers u_name rnd now hinv h
    exact ⟨h1, be_unchanged_of_keeps _ _
      (get_backend_keeps c svc from_host request headers u_name rnd now), h2⟩
  · intro backend key now
    refine ⟨ctrl_add_sess_owned svc backend key now h, ?_⟩
    intro k2 hne
    unfold ctrl_add_sess
    cases hs : sel_be_loop backend 0 svc.backends with
    | none => rfl
    | some i => exact t_lookup_t_add_ne _ _ _ _ _ (fun e => hne e.symm)
  · intro from_host request resp_headers u_name be sess now hbe
    exact upd_session_owned c svc from_host request resp_headers u_name be sess now hbe h
  · intro be disable_mode
    rw [kill_be_emergency]
    apply sessions_owned_of_filter svc.backends _ _ svc.sessions _ _
      (kill_be_sessions_filter svc be disable_mode) h
    have hp := congrArg List.length (kill_be_priorities svc be disable_mode)
    simpa using hp
  · intro cur_time
    rw [do_expire_svc_emergency]
    apply sessions_owned_of_filter svc.backends _ _ svc.sessions _ _
      (do_expire_svc_sessions cur_time svc).1 h
    rw [(do_expire_svc_sessions cur_time svc).2]
  · intro key
    rw [ctrl_del_sess_emergency]
    apply sessions_owned_of_filter svc.backends _ _ svc.sessions _ _
      (ctrl_del_sess_sessions svc key).1 h
    rw [(ctrl_del_sess_sessions svc key).2]
  · intro probe
    obtain ⟨h1, h2, -, -⟩ := health_sessions c probe svc
    refine ⟨?_, h1⟩
    rw [h1, (health_emergency c probe svc).1]
    exact sessions_owned_length _ _ _ _ h2 h
  · obtain ⟨-, -, h3, h4⟩ := health_sessions c (fun _ => false) svc
    refine ⟨?_, h3⟩
    rw [h3, (health_emergency c (fun _ => false) svc).2]
    exact sessions_owned_length _ _ _ _ h4 h
  · intro hb
    refine ⟨?_, ?_, ?_⟩
    · intro from_host request headers u_name rnd now
      exact get_backend_bound c svc from_host request headers u_name rnd now hinv hb
    · intro backend key now
      exact (ctrl_add_sess_bound svc backend key now hb).1
    · intro from_host request resp_headers u_name sess now i hi
      exact (upd_session_bound c svc from_host request resp_headers u_name _ sess now i rfl
        hi hb).1

/-- The service `example_cookie_em_svc` has the session "X" bound to its
back-end; `upd_session`, given the emergency back-end and a response that sets
the cookie to "Y", leaves a table whose sessions are all bound to back-ends of
the service, and "X" is bound as before. -/
theorem sessions_owned_invariant_witness :
    sessions_owned
      (upd_session example_consts example_cookie_em_svc example_client [47]
        [none, some example_setcookie_Y] [] (some BE_PTR.emergency) none 5).svc.backends
      (upd_session example_consts example_cookie_em_svc example_client [47]
        [none, some example_setcookie_Y] [] (some BE_PTR.emergency) none 5).svc.emergency
      (upd_session example_consts example_cookie_em_svc example_client [47]
        [none, some example_setcookie_Y] [] (some BE_PTR.emergency) none 5).svc.sessions ∧
    be_unchanged example_cookie_em_svc.sessions
      (upd_session example_consts example_cookie_em_svc example_client [47]
        [none, some example_setcookie_Y] [] (some BE_PTR.emergency) none 5).svc.sessions :=
  (sessions_owned_invariant example_consts example_cookie_em_svc (by decide)
    example_cookie_em_owned).2.2.2.1 example_client [47] [none, some example_setcookie_Y] []
    (some BE_PTR.emergency) none 5 (Or.inr ⟨rfl, by decide⟩)

/-- Claim C14 fails as stated when the emergency back-end serves the request:
in `example_cookie_em_svc` (cookie sessions, the only back-end disabled,
`tot_pri` 0, an emergency back-end) every session of the table is bound to a
member of the back-end list; `get_backend`, for a request without the cookie,
returns the emergency back-end and leaves the table as it is; `upd_session`,
given that back-end and the response that sets the cookie to "Y", inserts the
session "Y" bound to the emergency back-end, which is not a member of the
back-end list. -/
theorem sessions_owned_invariant_counterexample :
    example_cookie_em_svc.tot_pri = sum_avail example_cookie_em_svc.backends ∧
    sessions_bound example_cookie_em_svc.backends example_cookie_em_svc.sessions ∧
    (get_backend example_consts example_cookie_em_svc example_client [47] [none] [] 0
      10).res = some BE_PTR.emergency ∧
    (get_backend example_consts example_cookie_em_svc example_client [47] [none] [] 0
      10).svc.sessions.map (fun t => (t.key, t.content.be)) =
        [([88], some (BE_PTR.list 0))] ∧
    (upd_session example_consts
      (get_backend example_consts example_cookie_em_svc example_client [47] [none] [] 0
        10).svc
      example_client [47] [none, some example_setcookie_Y] []
      (get_backend example_consts example_cookie_em_svc example_client [47] [none] [] 0
        10).res
      none 20).svc.sessions.map (fun t => (t.key, t.content.be)) =
        [([89], some BE_PTR.emergency), ([88], some (BE_PTR.list 0))] ∧
    ¬ sessions_bound
      (upd_session example_consts
        (get_backend example_consts example_cookie_em_svc example_client [47] [none] [] 0
          10).svc
        example_client [47] [none, some example_setcookie_Y] []
        (get_backend example_consts example_cookie_em_svc example_client [47] [none] [] 0
          10).res
        none 20).svc.backends
      (upd_session example_consts
        (get_backend example_consts example_cookie_em_svc example_client [47] [none] [] 0
          10).svc
        example_client [47] [none, some example_setcookie_Y] []
        (get_backend example_consts example_cookie_em_svc example_client [47] [none] [] 0
          10).res
        none 20).svc.sessions := by
  have hmap : (upd_session example_consts
      (get_backend example_consts example_cookie_em_svc example_client [47] [none] [] 0
        10).svc
      example_client [47] [none, some example_setcookie_Y] []
      (get_backend example_consts example_cookie_em_svc example_client [47] [none] [] 0
        10).res
      none 20).svc.sessions.map (fun t => (t.key, t.content.be)) =
        [([89], some BE_PTR.emergency), ([88], some (BE_PTR.list 0))] := by decide
  refine ⟨by decide, example_cookie_em_bound, by decide, by decide, hmap, ?_⟩
  intro hb
  generalize (upd_session example_consts
      (get_backend example_consts example_cookie_em_svc example_client [47] [none] [] 0
        10).svc
      example_client [47] [none, some example_setcookie_Y] []
      (get_backend example_consts example_cookie_em_svc example_client [47] [none] [] 0
        10).res
      none 20).svc = s at hmap hb
  cases hs : s.sessions with
  | nil =>
    rw [hs] at hmap
    cases hmap
  | cons t rest =>
    rw [hs] at hmap
    simp only [List.map_cons, List.cons.injEq, Prod.mk.injEq] at hmap
    obtain ⟨i, hi, -⟩ := hb t (by rw [hs]; exact List.mem_cons_self _ _)
    rw [hmap.1.2] at hi
    cases hi

end Pound
